import Mathlib

/-!
# Minisweep KBA sweeper: face exchange, sweep orchestration, construction checks

A shallow embedding of `mpi_c/sweeper_kba_c.h`.  Machine `int`s are modelled by `Int`:
the quantities are process coordinates, step numbers, thread counts and offsets of them
by one, far from the limits of `int`.

Functions with side effects are modelled by the list of operations they issue, in
program order (`Op`); a small interpreter (`exec`) gives the operations on face memory
their meaning.
-/

namespace Minisweep

/-! ## Constants and small helpers -/

/-- Number of unknowns per gridcell, `enum{ NU = 4 }` in `dimensions_kernels.h`. -/
def NU : Int := 4

/-- Modelled from the spec: the constant `NOCTANT` of `definitions.h`, which is not among
the sources; the spec fixes `NOCTANT=8`. -/
def NOCTANT : Int := 8

/-- Modelled from the spec: `Dir_up()` of `definitions.h`; the spec fixes `UP=+1`. -/
def Dir_up : Int := 1

/-- Modelled from the spec: `Dir_dn()` of `definitions.h`; the spec fixes `DN=-1`. -/
def Dir_dn : Int := -1

/-- Modelled from the spec: `Dir_inc(dir)` of `definitions.h`, the index increment of a
direction; the spec steps cells by `±1` according to the direction (`UP=+1, DN=-1`). -/
def Dir_inc (dir : Int) : Int := dir

/-! ## Data model -/

/-- The `Step_Info` values of the scheduler: `{is_active, octant, block_z}`. -/
structure Step_Info where
  is_active : Bool
  octant : Int
  block_z : Int
deriving DecidableEq, Repr

/-- The step scheduler (`step_scheduler_kba.h`, not among the sources) as seen by the
sweeper: its two queries `Step_Scheduler_step_info(step, octant_in_block, proc_x, proc_y)`
and `Step_Scheduler_nstep`.  Both are kept abstract. -/
structure Step_Scheduler where
  step_info : Int → Int → Int → Int → Step_Info
  nstep : Int

/-- Problem dimensions, `Dimensions` of `dimensions_kernels.h`
(`sweeper_kba_c.h` spells the three cell counts `nx`, `ny`, `nz`). -/
structure Dimensions where
  ncell_x : Int
  ncell_y : Int
  ncell_z : Int
  ne : Int
  nm : Int
  na : Int
deriving DecidableEq, Repr

/-- The part of `Env` the sweeper reads: this process's coordinates, the message tag,
the rank map `Env_proc(env, proc_x, proc_y)`, `Env_cuda_is_using_device` and the
extents `Env_nproc_x`, `Env_nproc_y` of the process grid. -/
structure Env where
  proc_x_this : Int
  proc_y_this : Int
  tag : Int
  proc : Int → Int → Int
  cuda_is_using_device : Bool
  nproc_x : Int := 1
  nproc_y : Int := 1

/-- The fields of `Quantities` read by `Sweeper_ctor` (`nx_g`, `ny_g`) and by the
boundary initialisers and the semiblock sweep (`ix_base`, `iy_base`). -/
structure Quantities where
  nx_g : Int
  ny_g : Int
  ix_base : Int := 0
  iy_base : Int := 0
deriving DecidableEq, Repr

/-- The command-line options consumed by `Sweeper_ctor`; `none` means the option was
not given, so `Arguments_consume_int_or_default` yields the default. -/
structure Arguments where
  nblock_z : Option Int
  nthread_octant : Option Int
  nsemiblock : Option Int
  nthread_e : Option Int
deriving DecidableEq, Repr

/-- Declarations of headers that are not among the sources (`definitions.h`,
`dimensions.h`, `sweeper_kba.h`, `step_scheduler_kba.h`, build macros).  They are kept
abstract: every result below holds for all of them unless it says otherwise. -/
structure Externals where
  Dir_x : Int → Int
  Dir_y : Int → Int
  Dir_z : Int → Int
  Dimensions_size_state : Dimensions → Int → Int
  Dimensions_size_facexz : Dimensions → Int → Int → Int
  Dimensions_size_faceyz : Dimensions → Int → Int → Int
  Sweeper_is_face_comm_async : Bool
  IS_USING_OPENMP_THREADS : Bool
  IS_USING_OPENMP_VO_ATOMIC : Bool
  Step_Scheduler_ctor : Int → Int → Env → Step_Scheduler

/-- The `Sweeper` struct: the fields set by `Sweeper_ctor` (storage excluded). -/
structure Sweeper where
  nblock_z : Int
  nthread_octant : Int
  noctant_per_block : Int
  nblock_octant : Int
  nsemiblock : Int
  nthread_e : Int
  dims : Dimensions
  dims_b : Dimensions
  dims_g : Dimensions
  step_scheduler : Step_Scheduler

/-! ## Send / receive predicates -/

/-- `Sweeper_must_do_send__`: whether to send a face computed at `step`, used at
`step+1` (sweeper_kba_c.h, lines 164-205). -/
def Sweeper_must_do_send__ (E : Externals) (sweeper : Sweeper)
    (step axis dir_ind octant_in_block : Int) (env : Env) : Bool :=
  let proc_x := env.proc_x_this
  let proc_y := env.proc_y_this
  let axis_x := axis == 0
  let axis_y := axis == 1
  let dir := if dir_ind == 0 then Dir_up else Dir_dn
  let inc_x := if axis_x then Dir_inc dir else 0
  let inc_y := if axis_y then Dir_inc dir else 0
  let step_info_send_source_step :=
    sweeper.step_scheduler.step_info step octant_in_block proc_x proc_y
  let step_info_send_target_step :=
    sweeper.step_scheduler.step_info (step + 1) octant_in_block
      (proc_x + inc_x) (proc_y + inc_y)
  step_info_send_source_step.is_active
    && step_info_send_target_step.is_active
    && step_info_send_source_step.octant == step_info_send_target_step.octant
    && step_info_send_source_step.block_z == step_info_send_target_step.block_z
    && (if axis_x then E.Dir_x step_info_send_target_step.octant
        else E.Dir_y step_info_send_target_step.octant) == dir

/-- `Sweeper_must_do_recv__`: whether to receive a face computed at `step`, used at
`step+1` (sweeper_kba_c.h, lines 210-251). -/
def Sweeper_must_do_recv__ (E : Externals) (sweeper : Sweeper)
    (step axis dir_ind octant_in_block : Int) (env : Env) : Bool :=
  let proc_x := env.proc_x_this
  let proc_y := env.proc_y_this
  let axis_x := axis == 0
  let axis_y := axis == 1
  let dir := if dir_ind == 0 then Dir_up else Dir_dn
  let inc_x := if axis_x then Dir_inc dir else 0
  let inc_y := if axis_y then Dir_inc dir else 0
  let step_info_recv_source_step :=
    sweeper.step_scheduler.step_info step octant_in_block
      (proc_x - inc_x) (proc_y - inc_y)
  let step_info_recv_target_step :=
    sweeper.step_scheduler.step_info (step + 1) octant_in_block proc_x proc_y
  step_info_recv_source_step.is_active
    && step_info_recv_target_step.is_active
    && step_info_recv_source_step.octant == step_info_recv_target_step.octant
    && step_info_recv_source_step.block_z == step_info_recv_target_step.block_z
    && (if axis_x then E.Dir_x step_info_recv_target_step.octant
        else E.Dir_y step_info_recv_target_step.octant) == dir

/-! ## Operations issued by the sweeper -/

/-- `for( i=0; i<n; ++i )` with an `int` bound: the values of `i`, in order. -/
def int_range (n : Int) : List Int := (List.range n.toNat).map Int.ofNat

/-- A face slab or scratch buffer named in a communication call.
`face axis_x step k` is `face_per_octant`: the slab of octant-in-block `k` inside the
array `Sweeper_faceyz_step__( sweeper, step )` when `axis_x`, inside
`Sweeper_facexz_step__( sweeper, step )` otherwise.  `buf axis_x` is the scratch
`buf_yz` when `axis_x`, `buf_xz` otherwise. -/
inductive Loc where
  | face (axis_x : Bool) (step : Int) (octant_in_block : Int)
  | buf (axis_x : Bool)
deriving DecidableEq, Repr

/-- A request slot of the sweeper: `send` tells the `request_send_*` arrays from the
`request_recv_*` arrays, `xz` the `*_xz` array from the `*_yz` array, `k` is the index.
So `request_send_xz[k]` is `⟨true, true, k⟩` and `request_recv_yz[k]` is
`⟨false, false, k⟩`. -/
structure Request where
  send : Bool
  xz : Bool
  k : Int
deriving DecidableEq, Repr

/-- What a host/device mirroring call acts on: an alias of `vi` or `vo` at an element
offset with a length, or the face arrays selected for a step. -/
inductive Mirror where
  | vi_b (offset size : Int)
  | vo_b (offset size : Int)
  | facexy (step : Int)
  | facexz (step : Int)
  | faceyz (step : Int)
deriving DecidableEq, Repr

/-- One call made by the sweeper, with its arguments. -/
inductive Op where
  | copy_vector (dst src : Loc) (n : Int)
  | Env_send_P (src : Loc) (n proc_other tag : Int)
  | Env_recv_P (dst : Loc) (n proc_other tag : Int)
  | Env_asend_P (src : Loc) (n proc_other tag : Int) (request : Request)
  | Env_arecv_P (dst : Loc) (n proc_other tag : Int) (request : Request)
  | Env_wait (request : Request)
  | zero_vo
  | Pointer_update_d (p : Mirror)
  | Pointer_update_h (p : Mirror)
  | Sweeper_sweep_block (step : Int)
  | Env_increment_tag (n : Int)
deriving DecidableEq, Repr

/-- Element count of one octant's xz face slab, `size_facexz_per_octant`
(unsigned division of `size_t`; the operands are non-negative). -/
def size_facexz_per_octant (E : Externals) (sweeper : Sweeper) : Int :=
  Int.tdiv (E.Dimensions_size_facexz sweeper.dims_b NU sweeper.noctant_per_block)
    sweeper.noctant_per_block

/-- Element count of one octant's yz face slab, `size_faceyz_per_octant`. -/
def size_faceyz_per_octant (E : Externals) (sweeper : Sweeper) : Int :=
  Int.tdiv (E.Dimensions_size_faceyz sweeper.dims_b NU sweeper.noctant_per_block)
    sweeper.noctant_per_block

/-! ## Synchronous red/black exchange -/

/-- One pass of the colour loop of `Sweeper_communicate_faces__` (lines 328-379) for
fixed `octant_in_block`, `axis`, `dir_ind`: the calls issued in this colour and the
value of `use_buf` afterwards. -/
def Sweeper_communicate_faces__color (E : Externals) (sweeper : Sweeper) (step : Int)
    (env : Env) (octant_in_block axis dir_ind color : Int) (use_buf : Bool) :
    List Op × Bool :=
  let proc_x := env.proc_x_this
  let proc_y := env.proc_y_this
  let axis_x := axis == 0
  let axis_y := axis == 1
  let proc_axis := if axis_x then proc_x else proc_y
  let size_face_per_octant :=
    if axis_x then size_faceyz_per_octant E sweeper else size_facexz_per_octant E sweeper
  let buf := Loc.buf axis_x
  let face_per_octant := Loc.face axis_x step octant_in_block
  let dir := if dir_ind == 0 then Dir_up else Dir_dn
  let inc_x := if axis_x then Dir_inc dir else 0
  let inc_y := if axis_y then Dir_inc dir else 0
  let do_send := Sweeper_must_do_send__ E sweeper step axis dir_ind octant_in_block env
  let do_recv := Sweeper_must_do_recv__ E sweeper step axis dir_ind octant_in_block env
  if color == 0 then
    if Int.tmod proc_axis 2 == 0 then
      if do_send then
        ([Op.Env_send_P face_per_octant size_face_per_octant
            (env.proc (proc_x + inc_x) (proc_y + inc_y)) (env.tag + octant_in_block)],
         use_buf)
      else ([], use_buf)
    else
      if do_recv then
        ([Op.copy_vector buf face_per_octant size_face_per_octant,
          Op.Env_recv_P face_per_octant size_face_per_octant
            (env.proc (proc_x - inc_x) (proc_y - inc_y)) (env.tag + octant_in_block)],
         true)
      else ([], use_buf)
  else
    if Int.tmod proc_axis 2 == 0 then
      if do_recv then
        ([Op.Env_recv_P face_per_octant size_face_per_octant
            (env.proc (proc_x - inc_x) (proc_y - inc_y)) (env.tag + octant_in_block)],
         use_buf)
      else ([], use_buf)
    else
      if do_send then
        ([Op.Env_send_P (if use_buf then buf else face_per_octant) size_face_per_octant
            (env.proc (proc_x + inc_x) (proc_y + inc_y)) (env.tag + octant_in_block)],
         use_buf)
      else ([], use_buf)

/-- Body of the `dir_ind` loop of `Sweeper_communicate_faces__` (lines 309-380):
`use_buf` starts false, then colour 0 and colour 1 run in turn. -/
def Sweeper_communicate_faces__dir (E : Externals) (sweeper : Sweeper) (step : Int)
    (env : Env) (octant_in_block axis dir_ind : Int) : List Op :=
  let c0 := Sweeper_communicate_faces__color E sweeper step env octant_in_block axis
    dir_ind 0 false
  let c1 := Sweeper_communicate_faces__color E sweeper step env octant_in_block axis
    dir_ind 1 c0.2
  c0.1 ++ c1.1

/-- `Sweeper_communicate_faces__` (lines 256-388), the exchange used when communication
is synchronous: loops over `octant_in_block`, the axes X, Y and the directions up,
down.  The scratch buffers are allocated before and freed after the loops; their
contents are modelled by `Loc.buf`. -/
def Sweeper_communicate_faces__ (E : Externals) (sweeper : Sweeper) (step : Int)
    (env : Env) : List Op :=
  (int_range sweeper.noctant_per_block).flatMap fun octant_in_block =>
    (int_range 2).flatMap fun axis =>
      (int_range 2).flatMap fun dir_ind =>
        Sweeper_communicate_faces__dir E sweeper step env octant_in_block axis dir_ind

/-! ## Asynchronous exchange -/

/-- Body of the `dir_ind` loop of `Sweeper_send_faces_start__` (lines 438-458). -/
def Sweeper_send_faces_start__dir (E : Externals) (sweeper : Sweeper) (step : Int)
    (env : Env) (octant_in_block axis dir_ind : Int) : List Op :=
  let proc_x := env.proc_x_this
  let proc_y := env.proc_y_this
  let axis_x := axis == 0
  let axis_y := axis == 1
  let size_face_per_octant :=
    if axis_x then size_faceyz_per_octant E sweeper else size_facexz_per_octant E sweeper
  let face_per_octant := Loc.face axis_x step octant_in_block
  let dir := if dir_ind == 0 then Dir_up else Dir_dn
  let inc_x := if axis_x then Dir_inc dir else 0
  let inc_y := if axis_y then Dir_inc dir else 0
  let do_send := Sweeper_must_do_send__ E sweeper step axis dir_ind octant_in_block env
  if do_send then
    let proc_other := env.proc (proc_x + inc_x) (proc_y + inc_y)
    let request : Request := ⟨true, axis_x, octant_in_block⟩
    [Op.Env_asend_P face_per_octant size_face_per_octant proc_other
      (env.tag + octant_in_block) request]
  else []

/-- `Sweeper_send_faces_start__` (lines 393-461). -/
def Sweeper_send_faces_start__ (E : Externals) (sweeper : Sweeper) (step : Int)
    (env : Env) : List Op :=
  (int_range sweeper.noctant_per_block).flatMap fun octant_in_block =>
    (int_range 2).flatMap fun axis =>
      (int_range 2).flatMap fun dir_ind =>
        Sweeper_send_faces_start__dir E sweeper step env octant_in_block axis dir_ind

/-- Body of the `dir_ind` loop of `Sweeper_send_faces_end__` (lines 493-508). -/
def Sweeper_send_faces_end__dir (E : Externals) (sweeper : Sweeper) (step : Int)
    (env : Env) (octant_in_block axis dir_ind : Int) : List Op :=
  let axis_x := axis == 0
  let do_send := Sweeper_must_do_send__ E sweeper step axis dir_ind octant_in_block env
  if do_send then
    let request : Request := ⟨true, axis_x, octant_in_block⟩
    [Op.Env_wait request]
  else []

/-- `Sweeper_send_faces_end__` (lines 466-511). -/
def Sweeper_send_faces_end__ (E : Externals) (sweeper : Sweeper) (step : Int)
    (env : Env) : List Op :=
  (int_range sweeper.noctant_per_block).flatMap fun octant_in_block =>
    (int_range 2).flatMap fun axis =>
      (int_range 2).flatMap fun dir_ind =>
        Sweeper_send_faces_end__dir E sweeper step env octant_in_block axis dir_ind

/-- Body of the `dir_ind` loop of `Sweeper_recv_faces_start__` (lines 561-581); the
receive goes into the faces selected for `step+1`. -/
def Sweeper_recv_faces_start__dir (E : Externals) (sweeper : Sweeper) (step : Int)
    (env : Env) (octant_in_block axis dir_ind : Int) : List Op :=
  let proc_x := env.proc_x_this
  let proc_y := env.proc_y_this
  let axis_x := axis == 0
  let axis_y := axis == 1
  let size_face_per_octant :=
    if axis_x then size_faceyz_per_octant E sweeper else size_facexz_per_octant E sweeper
  let face_per_octant := Loc.face axis_x (step + 1) octant_in_block
  let dir := if dir_ind == 0 then Dir_up else Dir_dn
  let inc_x := if axis_x then Dir_inc dir else 0
  let inc_y := if axis_y then Dir_inc dir else 0
  let do_recv := Sweeper_must_do_recv__ E sweeper step axis dir_ind octant_in_block env
  if do_recv then
    let proc_other := env.proc (proc_x - inc_x) (proc_y - inc_y)
    let request : Request := ⟨false, axis_x, octant_in_block⟩
    [Op.Env_arecv_P face_per_octant size_face_per_octant proc_other
      (env.tag + octant_in_block) request]
  else []

/-- `Sweeper_recv_faces_start__` (lines 516-584). -/
def Sweeper_recv_faces_start__ (E : Externals) (sweeper : Sweeper) (step : Int)
    (env : Env) : List Op :=
  (int_range sweeper.noctant_per_block).flatMap fun octant_in_block =>
    (int_range 2).flatMap fun axis =>
      (int_range 2).flatMap fun dir_ind =>
        Sweeper_recv_faces_start__dir E sweeper step env octant_in_block axis dir_ind

/-- Body of the `dir_ind` loop of `Sweeper_recv_faces_end__` (lines 621-635). -/
def Sweeper_recv_faces_end__dir (E : Externals) (sweeper : Sweeper) (step : Int)
    (env : Env) (octant_in_block axis dir_ind : Int) : List Op :=
  let axis_x := axis == 0
  let do_recv := Sweeper_must_do_recv__ E sweeper step axis dir_ind octant_in_block env
  if do_recv then
    let request : Request := ⟨false, axis_x, octant_in_block⟩
    [Op.Env_wait request]
  else []

/-- `Sweeper_recv_faces_end__` (lines 589-638). -/
def Sweeper_recv_faces_end__ (E : Externals) (sweeper : Sweeper) (step : Int)
    (env : Env) : List Op :=
  (int_range sweeper.noctant_per_block).flatMap fun octant_in_block =>
    (int_range 2).flatMap fun axis =>
      (int_range 2).flatMap fun dir_ind =>
        Sweeper_recv_faces_end__dir E sweeper step env octant_in_block axis dir_ind

/-! ## Sweep orchestration -/

/-- Modelled from the spec: `Env_increment_tag(env, n)` of `env.h` (not among the
sources); the spec has the sweep advance `env.tag` by `noctant_per_block`. -/
def Env_increment_tag (env : Env) (n : Int) : Env :=
  { env with tag := env.tag + n }

/-- Element count of the state of one z-block, `size_state_block` (line 1310). -/
def size_state_block (E : Externals) (sweeper : Sweeper) : Int :=
  Int.tdiv (E.Dimensions_size_state sweeper.dims NU) sweeper.nblock_z

/-- Body of the step loop of `Sweeper_sweep` (lines 1321-1427), for one `step`. -/
def Sweeper_sweep_step (E : Externals) (sweeper : Sweeper) (env : Env) (step : Int) :
    List Op :=
  let nblock_z := sweeper.nblock_z
  let nstep := sweeper.step_scheduler.nstep
  let block_to_send : List Int := [step, (nblock_z - 1) - step]
  let block_to_recv : List Int :=
    [(nblock_z - 1) - (nstep - 1 - step), (nstep - 1 - step)]
  let do_block_send : List Bool :=
    [decide (step < Int.tdiv nblock_z 2),
     decide ((nblock_z - 1) - step ≥ Int.tdiv nblock_z 2)]
  let do_block_recv : List Bool :=
    [decide ((nblock_z - 1) - (nstep - 1 - step) ≥ Int.tdiv nblock_z 2),
     decide ((nstep - 1 - step) < Int.tdiv nblock_z 2)]
  (if E.Sweeper_is_face_comm_async then
      Sweeper_recv_faces_end__ E sweeper (step - 1) env
        ++ Sweeper_recv_faces_start__ E sweeper step env
    else [])
  ++ ((block_to_send.zip do_block_send).flatMap fun bd =>
        if bd.2 then
          [Op.Pointer_update_d
             (Mirror.vi_b (bd.1 * size_state_block E sweeper) (size_state_block E sweeper)),
           Op.Pointer_update_d
             (Mirror.vo_b (bd.1 * size_state_block E sweeper) (size_state_block E sweeper))]
        else [])
  ++ [Op.Pointer_update_d (Mirror.facexy step),
      Op.Pointer_update_d (Mirror.facexz step),
      Op.Pointer_update_d (Mirror.faceyz step)]
  ++ [Op.Sweeper_sweep_block step]
  ++ ((block_to_recv.zip do_block_recv).flatMap fun bd =>
        if bd.2 then
          [Op.Pointer_update_h
             (Mirror.vo_b (bd.1 * size_state_block E sweeper) (size_state_block E sweeper))]
        else [])
  ++ [Op.Pointer_update_h (Mirror.facexy step),
      Op.Pointer_update_h (Mirror.facexz step),
      Op.Pointer_update_h (Mirror.faceyz step)]
  ++ (if E.Sweeper_is_face_comm_async then
        Sweeper_send_faces_end__ E sweeper (step - 1) env
          ++ Sweeper_send_faces_start__ E sweeper step env
      else Sweeper_communicate_faces__ E sweeper step env)

/-- `Sweeper_sweep` (lines 1289-1433): the calls it makes, in order, and the
environment it leaves behind. -/
def Sweeper_sweep (E : Externals) (sweeper : Sweeper) (env : Env) : List Op × Env :=
  ([Op.zero_vo]
     ++ (int_range sweeper.step_scheduler.nstep).flatMap (Sweeper_sweep_step E sweeper env)
     ++ [Op.Env_increment_tag sweeper.noctant_per_block],
   Env_increment_tag env sweeper.noctant_per_block)

/-! ## Construction -/

/-- Modelled from the spec: the `Insist` check of `env_assert.h` (not among the
sources).  `Insist( c ? "message" : 0 )` passes when `c` holds; otherwise construction
fails with the message (spec §7: a configuration error fails during sweeper
construction with a specific message). -/
def Insist (condition : Bool) (message : String) : Except String Unit :=
  if condition then Except.ok () else Except.error message

/-- The power-of-two test between 1 and 8 used for `nthread_octant` (lines 56-57) and
for `nsemiblock` (lines 70-71): `n>0 && n<=NOCTANT && ((n&(n-1))==0)`.  In C the
conjunction short-circuits, so `n-1` is computed only for `0 < n <= 8` and cannot
overflow; on `Int` the strict conjunction has the same value. -/
def is_pow2_upto_NOCTANT (n : Int) : Bool :=
  decide (n > 0) && decide (n ≤ NOCTANT) && (Int.land n (n - 1) == 0)

/-- `Sweeper_ctor` (lines 32-133): the checks in program order, then the fields.
Allocation of `v_local` and of the face arrays is not modelled. -/
def Sweeper_ctor (E : Externals) (dims : Dimensions) (quan : Quantities) (env : Env)
    (args : Arguments) : Except String Sweeper := do
  Insist (decide (dims.ncell_x > 0)) ("KBA sweeper currently requires all blocks nonempty")
  Insist (decide (dims.ncell_y > 0)) ("KBA sweeper currently requires all blocks nonempty")
  Insist (decide (dims.ncell_z > 0)) ("KBA sweeper currently requires all blocks nonempty")
  let nblock_z := args.nblock_z.getD 1
  Insist (decide (nblock_z > 0)) ("Invalid z blocking factor supplied")
  Insist (Int.tmod dims.ncell_z nblock_z == 0)
    ("KBA sweeper currently requires all blocks have same z dimension")
  let nthread_octant := args.nthread_octant.getD 1
  Insist (is_pow2_upto_NOCTANT nthread_octant) ("Invalid octant thread count supplied")
  Insist (nthread_octant == 1 || E.IS_USING_OPENMP_THREADS || env.cuda_is_using_device)
    ("Threading not allowed for this case")
  let noctant_per_block := nthread_octant
  let nblock_octant := Int.tdiv NOCTANT noctant_per_block
  let nsemiblock := args.nsemiblock.getD nthread_octant
  Insist (is_pow2_upto_NOCTANT nsemiblock) ("Invalid semiblock count supplied")
  Insist (decide (nsemiblock ≥ nthread_octant) || E.IS_USING_OPENMP_VO_ATOMIC)
    ("Incomplete set of semiblock steps requires atomic vo update")
  let nthread_e := args.nthread_e.getD 1
  Insist (decide (nthread_e > 0)) ("Invalid e thread count supplied.")
  Insist (nthread_e == 1 || E.IS_USING_OPENMP_THREADS || env.cuda_is_using_device)
    ("Threading not allowed for this case")
  let step_scheduler := E.Step_Scheduler_ctor nblock_z nblock_octant env
  let dims_b := { dims with ncell_z := Int.tdiv dims.ncell_z nblock_z }
  let dims_g := { dims with ncell_x := quan.nx_g, ncell_y := quan.ny_g }
  return { nblock_z := nblock_z
           nthread_octant := nthread_octant
           noctant_per_block := noctant_per_block
           nblock_octant := nblock_octant
           nsemiblock := nsemiblock
           nthread_e := nthread_e
           dims := dims
           dims_b := dims_b
           dims_g := dims_g
           step_scheduler := step_scheduler }

/-! ## Semiblock bounds of the block driver -/

/-- `is_x_semiblocked`, `is_y_semiblocked`, `is_z_semiblocked` of
`Sweeper_sweep_block_impl` (lines 1076, 1090, 1104) for axis `a` = 0, 1, 2:
`nsemiblock > (1<<a)`. -/
def is_semiblocked (nsemiblock : Int) (a : Nat) : Bool :=
  decide (nsemiblock > 2 ^ a)

/-- `is_semiblock_x_lo` and its y, z copies (lines 1077, 1091, 1105):
`( ( semiblock & (1<<a) ) == 0 ) == ( dir == Dir_up() )`. -/
def is_semiblock_lo (semiblock : Int) (a : Nat) (dir : Int) : Bool :=
  (Int.land semiblock (2 ^ a) == 0) == (dir == Dir_up)

/-- `has_x_lo` and its y, z copies: `is_semiblock_lo || ! is_semiblocked`. -/
def has_lo (nsemiblock semiblock : Int) (a : Nat) (dir : Int) : Bool :=
  is_semiblock_lo semiblock a dir || !is_semiblocked nsemiblock a

/-- `has_x_hi` and its y, z copies: `( ! is_semiblock_lo ) || ! is_semiblocked`. -/
def has_hi (nsemiblock semiblock : Int) (a : Nat) (dir : Int) : Bool :=
  (!is_semiblock_lo semiblock a dir) || !is_semiblocked nsemiblock a

/-- `ixmin_b` and its y, z copies: `has_lo ? 0 : n/2`, `n` the block extent along the
axis. -/
def imin_b (nsemiblock semiblock : Int) (a : Nat) (dir n : Int) : Int :=
  if has_lo nsemiblock semiblock a dir then 0 else Int.tdiv n 2

/-- `ixmax_b` and its y, z copies: `( ! has_hi ) ? n/2 - 1 : n - 1`. -/
def imax_b (nsemiblock semiblock : Int) (a : Nat) (dir n : Int) : Int :=
  if !has_hi nsemiblock semiblock a dir then Int.tdiv n 2 - 1 else n - 1

/-! ## Loops of the semiblock sweep -/

/-- Loop `for( i=beg; i!=stop; i+=inc ) body`: the test is an inequality, so the loop
is modelled with fuel for its iterations and gives `none` when the fuel runs out. -/
def for_ne {σ : Type} : Nat → Int → Int → Int → (Int → σ → Option σ) → σ → Option σ
  | 0, _, _, _, _, _ => none
  | fuel + 1, i, stop, inc, body, st =>
      if i != stop then (body i st).bind (for_ne fuel (i + inc) stop inc body) else some st

/-- Values of `i` in the loop `for( i=lo; i<hi; ++i )`. -/
def int_range_from (lo hi : Int) : List Int :=
  (List.range (hi - lo).toNat).map (fun k : Nat => lo + (k : Int))

/-- Loop `for( i=lo; i<hi; ++i ) body`. -/
def for_lt {σ : Type} (lo hi : Int) (body : Int → σ → Option σ) (st : σ) : Option σ :=
  (int_range_from lo hi).foldlM (fun st i => body i st) st

/-- Lower end `( dims.ne * thread_e ) / nthread_e` of the energy groups of energy thread
`thread_e`. -/
def ie_min (sweeper : Sweeper) (thread_e : Int) : Int :=
  Int.tdiv (sweeper.dims.ne * thread_e) sweeper.nthread_e

/-- Upper end `( dims.ne * ( thread_e + 1 ) ) / nthread_e`, exclusive. -/
def ie_max (sweeper : Sweeper) (thread_e : Int) : Int :=
  Int.tdiv (sweeper.dims.ne * (thread_e + 1)) sweeper.nthread_e

/-- The loop nest of `Sweeper_sweep_semiblock`: energy groups of the thread, then iz, iy,
ix from `beg` to `end` in the direction of the octant, with the body of the innermost
loop as the parameter `cell ix iy iz ie`.  `Sweeper_thread_e( sweeper )` is the
parameter `thread_e`. -/
def Sweeper_sweep_semiblock_loops {σ : Type} (fuel : Nat) (E : Externals)
    (sweeper : Sweeper) (thread_e : Int) (octant : Int)
    (ixmin ixmax iymin iymax izmin izmax : Int)
    (cell : Int → Int → Int → Int → σ → Option σ) : σ → Option σ :=
  let dir_x := E.Dir_x octant
  let dir_y := E.Dir_y octant
  let dir_z := E.Dir_z octant
  let ixbeg := if dir_x = Dir_up then ixmin else ixmax
  let iybeg := if dir_y = Dir_up then iymin else iymax
  let izbeg := if dir_z = Dir_up then izmin else izmax
  let ixend := if dir_x = Dir_dn then ixmin else ixmax
  let iyend := if dir_y = Dir_dn then iymin else iymax
  let izend := if dir_z = Dir_dn then izmin else izmax
  for_lt (ie_min sweeper thread_e) (ie_max sweeper thread_e) (fun ie =>
    for_ne fuel izbeg (izend + Dir_inc dir_z) (Dir_inc dir_z) (fun iz =>
      for_ne fuel iybeg (iyend + Dir_inc dir_y) (Dir_inc dir_y) (fun iy =>
        for_ne fuel ixbeg (ixend + Dir_inc dir_x) (Dir_inc dir_x) (fun ix =>
          cell ix iy iz ie))))

/-! ## Sweep of a block -/

/-- The calls made by `Sweeper_sweep_block_impl`, with their integer arguments (the
arrays passed along are the same in every call). -/
inductive Block_Op where
  | Sweeper_set_boundary_xy (octant octant_in_block ixmin_b ixmax_b iymin_b iymax_b : Int)
  | Sweeper_set_boundary_xz
      (block_z octant octant_in_block ixmin_b ixmax_b izmin_b izmax_b : Int)
  | Sweeper_set_boundary_yz
      (block_z octant octant_in_block iymin_b iymax_b izmin_b izmax_b : Int)
  | Sweeper_sweep_semiblock (step_info : Step_Info)
      (octant_in_block ixmin ixmax iymin iymax izmin izmax : Int)
  | Sweeper_sync_octant_threads
deriving DecidableEq, Repr

/-- Body of the octant loop of `Sweeper_sweep_block_impl` (lines 1036-1161) for one
semiblock and one octant of the octant block. -/
def Sweeper_sweep_block_impl_octant (E : Externals) (sweeper : Sweeper)
    (proc_x_min proc_x_max proc_y_min proc_y_max : Bool)
    (semiblock octant_in_block : Int) (step_info : Step_Info) : List Block_Op :=
  if step_info.is_active then
    let dir_x := E.Dir_x step_info.octant
    let dir_y := E.Dir_y step_info.octant
    let dir_z := E.Dir_z step_info.octant
    let has_x_lo := has_lo sweeper.nsemiblock semiblock 0 dir_x
    let has_x_hi := has_hi sweeper.nsemiblock semiblock 0 dir_x
    let ixmin_b := imin_b sweeper.nsemiblock semiblock 0 dir_x sweeper.dims_b.ncell_x
    let ixmax_b := imax_b sweeper.nsemiblock semiblock 0 dir_x sweeper.dims_b.ncell_x
    let has_y_lo := has_lo sweeper.nsemiblock semiblock 1 dir_y
    let has_y_hi := has_hi sweeper.nsemiblock semiblock 1 dir_y
    let iymin_b := imin_b sweeper.nsemiblock semiblock 1 dir_y sweeper.dims_b.ncell_y
    let iymax_b := imax_b sweeper.nsemiblock semiblock 1 dir_y sweeper.dims_b.ncell_y
    let has_z_lo := has_lo sweeper.nsemiblock semiblock 2 dir_z
    let has_z_hi := has_hi sweeper.nsemiblock semiblock 2 dir_z
    let izmin_b := imin_b sweeper.nsemiblock semiblock 2 dir_z sweeper.dims_b.ncell_z
    let izmax_b := imax_b sweeper.nsemiblock semiblock 2 dir_z sweeper.dims_b.ncell_z
    (if (dir_z == Dir_up && step_info.block_z == 0 && has_z_lo)
        || (dir_z == Dir_dn && step_info.block_z == sweeper.nblock_z - 1 && has_z_hi) then
      [Block_Op.Sweeper_set_boundary_xy step_info.octant octant_in_block
        ixmin_b ixmax_b iymin_b iymax_b]
    else [])
    ++ (if (dir_y == Dir_up && proc_y_min && has_y_lo)
        || (dir_y == Dir_dn && proc_y_max && has_y_hi) then
      [Block_Op.Sweeper_set_boundary_xz step_info.block_z step_info.octant octant_in_block
        ixmin_b ixmax_b izmin_b izmax_b]
    else [])
    ++ (if (dir_x == Dir_up && proc_x_min && has_x_lo)
        || (dir_x == Dir_dn && proc_x_max && has_x_hi) then
      [Block_Op.Sweeper_set_boundary_yz step_info.block_z step_info.octant octant_in_block
        iymin_b iymax_b izmin_b izmax_b]
    else [])
    ++ [Block_Op.Sweeper_sweep_semiblock step_info octant_in_block
        ixmin_b ixmax_b iymin_b iymax_b izmin_b izmax_b]
  else []

/-- `Sweeper_sweep_block_impl` as run by one thread (lines 948-1170): the calls it makes,
in order.  `Sweeper_thread_octant( sweeper )` is the parameter `thread_octant`, and
`step_info_values.step_info[k]` is `step_info_values k`. -/
def Sweeper_sweep_block_impl (E : Externals) (sweeper : Sweeper) (thread_octant : Int)
    (proc_x_min proc_x_max proc_y_min proc_y_max : Bool)
    (step_info_values : Int → Step_Info) : List Block_Op :=
  (int_range sweeper.nsemiblock).flatMap fun semiblock =>
    let octant_in_block_min :=
      Int.tdiv (sweeper.noctant_per_block * thread_octant) sweeper.nthread_octant
    let octant_in_block_max :=
      Int.tdiv (sweeper.noctant_per_block * (thread_octant + 1)) sweeper.nthread_octant
    ((int_range_from octant_in_block_min octant_in_block_max).flatMap fun octant_in_block =>
      Sweeper_sweep_block_impl_octant E sweeper proc_x_min proc_x_max proc_y_min proc_y_max
        semiblock octant_in_block (step_info_values octant_in_block))
    ++ [Block_Op.Sweeper_sync_octant_threads]

/-- `Sweeper_sweep_block` on the host, as run by the thread with octant thread number
`thread_octant` (lines 1201-1284): the step infos of the octants of the block are taken
from the scheduler, and the four flags say whether the process is first or last along
x and y. -/
def Sweeper_sweep_block (E : Externals) (sweeper : Sweeper) (step : Int) (env : Env)
    (thread_octant : Int) : List Block_Op :=
  let proc_x := env.proc_x_this
  let proc_y := env.proc_y_this
  Sweeper_sweep_block_impl E sweeper thread_octant
    (proc_x == 0) (proc_x == env.nproc_x - 1) (proc_y == 0) (proc_y == env.nproc_y - 1)
    (fun octant_in_block =>
      sweeper.step_scheduler.step_info step octant_in_block proc_x proc_y)

/-! ## Boundary initialiser of the xy face -/

/-- The loop nest of `Sweeper_set_boundary_xy` (lines 668-693): energy groups of the
thread, then iu, iy_b, ix_b, ia, with the assignment in the innermost loop as the
parameter `body ix_b iy_b ie ia iu`. -/
def Sweeper_set_boundary_xy_loops {σ : Type} (sweeper : Sweeper) (thread_e : Int)
    (ixmin_b ixmax_b iymin_b iymax_b : Int)
    (body : Int → Int → Int → Int → Int → σ → σ) (st : σ) : σ :=
  (int_range_from (ie_min sweeper thread_e) (ie_max sweeper thread_e)).foldl (fun st ie =>
    (int_range NU).foldl (fun st iu =>
      (int_range_from iymin_b (iymax_b + 1)).foldl (fun st iy_b =>
        (int_range_from ixmin_b (ixmax_b + 1)).foldl (fun st ix_b =>
          (int_range sweeper.dims_b.na).foldl (fun st ia =>
            body ix_b iy_b ie ia iu st) st) st) st) st) st

/-- `Sweeper_set_boundary_xy` (lines 643-694).  The accessor `ref_facexy` and the
boundary function `Quantities_init_facexy` are not among the sources: the face is a
function of the index arguments `(ix, iy, ie, ia, iu, octant_in_block)` of the accessor,
and `Quantities_init_facexy` is a parameter. -/
def Sweeper_set_boundary_xy {P : Type} (E : Externals)
    (Quantities_init_facexy :
      Quantities → Int → Int → Int → Int → Int → Int → Int → Dimensions → P)
    (sweeper : Sweeper) (quan : Quantities) (thread_e : Int)
    (octant octant_in_block ixmin_b ixmax_b iymin_b iymax_b : Int)
    (facexy : Int × Int × Int × Int × Int × Int → P) :
    Int × Int × Int × Int × Int × Int → P :=
  let ix_base := quan.ix_base
  let iy_base := quan.iy_base
  let dir_z := E.Dir_z octant
  let iz_g := if dir_z = Dir_up then -1 else sweeper.dims_g.ncell_z
  Sweeper_set_boundary_xy_loops sweeper thread_e ixmin_b ixmax_b iymin_b iymax_b
    (fun ix_b iy_b ie ia iu facexy =>
      let iy_g := iy_b + iy_base
      let ix_g := ix_b + ix_base
      Function.update facexy (ix_b, iy_b, ie, ia, iu, octant_in_block)
        (Quantities_init_facexy quan ix_g iy_g iz_g ie ia iu octant sweeper.dims_g))
    facexy

/-! ## The sweep of a cell -/

/-- The arrays the semiblock sweep works on.  The accessors (`ref_state`,
`ref_v_local`, ...) of the KBA sweeper are not among the sources, so an array is a
function of the index arguments of its accessor: `vi` and `vo` of
`(ix, iy, iz, ie, im, iu)`, the scratch `v_local` of `(ia, iu)`.  The three face arrays
are only handed to `Quantities_solve`; `faces` stands for the three of them. -/
structure Sweep_State (P F : Type) where
  vi : Int × Int × Int × Int × Int × Int → P
  vo : Int × Int × Int × Int × Int × Int → P
  v_local : Int × Int → P
  faces : F

/-- First part of the cell body of `Sweeper_sweep_semiblock` (lines 889-903): the
transform from moments to angles, which fills the scratch `v_local`. -/
def Sweeper_sweep_cell_v_local {P F : Type} [Semiring P] (sweeper : Sweeper)
    (a_from_m : Int → Int → Int → P) (octant ix iy iz ie : Int) (st : Sweep_State P F) :
    Int × Int → P :=
  (int_range NU).foldl (fun v_local iu =>
    (int_range sweeper.dims.na).foldl (fun v_local ia =>
      let result := (int_range sweeper.dims.nm).foldl (fun result im =>
        result + a_from_m im ia octant * st.vi (ix, iy, iz, ie, im, iu)) 0
      Function.update v_local (ia, iu) result) v_local) st.v_local

/-- The cell body of `Sweeper_sweep_semiblock` (lines 880-940): transform to angles,
`Quantities_solve` on the scratch and the faces, transform back to moments added to
`vo`.  `Quantities_solve` is not among the sources and is a parameter, which returns
the scratch and the faces as it leaves them. -/
def Sweeper_sweep_cell {P F : Type} [Semiring P]
    (Quantities_solve : Quantities → (Int × Int → P) → F → Int → Int → Int → Int →
      Int → Int → Int → Int → Int → Int → Dimensions → Dimensions → (Int × Int → P) × F)
    (sweeper : Sweeper) (quan : Quantities) (a_from_m m_from_a : Int → Int → Int → P)
    (octant octant_in_block iz_base ix iy iz ie : Int) (st : Sweep_State P F) :
    Sweep_State P F :=
  let v_local := Sweeper_sweep_cell_v_local sweeper a_from_m octant ix iy iz ie st
  let solved := Quantities_solve quan v_local st.faces ix iy iz ie
    (ix + quan.ix_base) (iy + quan.iy_base) (iz + iz_base) octant octant_in_block
    sweeper.noctant_per_block sweeper.dims_b sweeper.dims_g
  let vo := (int_range NU).foldl (fun vo iu =>
    (int_range sweeper.dims.nm).foldl (fun vo im =>
      let result := (int_range sweeper.dims.na).foldl (fun result ia =>
        result + m_from_a im ia octant * solved.1 (ia, iu)) 0
      Function.update vo (ix, iy, iz, ie, im, iu) (vo (ix, iy, iz, ie, im, iu) + result))
      vo) st.vo
  { vi := st.vi, vo := vo, v_local := solved.1, faces := solved.2 }

/-- `Sweeper_sweep_semiblock` (lines 813-943) on the arrays: the loop nest with the cell
body. -/
def Sweeper_sweep_semiblock {P F : Type} [Semiring P] (fuel : Nat) (E : Externals)
    (Quantities_solve : Quantities → (Int × Int → P) → F → Int → Int → Int → Int →
      Int → Int → Int → Int → Int → Int → Dimensions → Dimensions → (Int × Int → P) × F)
    (sweeper : Sweeper) (quan : Quantities) (a_from_m m_from_a : Int → Int → Int → P)
    (thread_e : Int) (step_info : Step_Info)
    (octant_in_block ixmin ixmax iymin iymax izmin izmax : Int) (st : Sweep_State P F) :
    Option (Sweep_State P F) :=
  let octant := step_info.octant
  let block_z := step_info.block_z
  let iz_base := block_z * sweeper.dims_b.ncell_z
  Sweeper_sweep_semiblock_loops fuel E sweeper thread_e octant
    ixmin ixmax iymin iymax izmin izmax
    (fun ix iy iz ie st =>
      some (Sweeper_sweep_cell Quantities_solve sweeper quan a_from_m m_from_a
        octant octant_in_block iz_base ix iy iz ie st)) st

/-! ## Boundary initialisers of the lateral faces -/

/-- The loop nest of `Sweeper_set_boundary_xz` (lines 725-747): energy groups of the
thread, then iu, iz_b, ix_b, ia, with the assignment in the innermost loop as the
parameter `body ix_b iz_b ie ia iu`. -/
def Sweeper_set_boundary_xz_loops {σ : Type} (sweeper : Sweeper) (thread_e : Int)
    (ixmin_b ixmax_b izmin_b izmax_b : Int)
    (body : Int → Int → Int → Int → Int → σ → σ) (st : σ) : σ :=
  (int_range_from (ie_min sweeper thread_e) (ie_max sweeper thread_e)).foldl (fun st ie =>
    (int_range NU).foldl (fun st iu =>
      (int_range_from izmin_b (izmax_b + 1)).foldl (fun st iz_b =>
        (int_range_from ixmin_b (ixmax_b + 1)).foldl (fun st ix_b =>
          (int_range sweeper.dims_b.na).foldl (fun st ia =>
            body ix_b iz_b ie ia iu st) st) st) st) st) st

/-- The loop nest of `Sweeper_set_boundary_yz` (lines 782-804): energy groups of the
thread, then iu, iz_b, iy_b, ia, with the assignment in the innermost loop as the
parameter `body iy_b iz_b ie ia iu`. -/
def Sweeper_set_boundary_yz_loops {σ : Type} (sweeper : Sweeper) (thread_e : Int)
    (iymin_b iymax_b izmin_b izmax_b : Int)
    (body : Int → Int → Int → Int → Int → σ → σ) (st : σ) : σ :=
  (int_range_from (ie_min sweeper thread_e) (ie_max sweeper thread_e)).foldl (fun st ie =>
    (int_range NU).foldl (fun st iu =>
      (int_range_from izmin_b (izmax_b + 1)).foldl (fun st iz_b =>
        (int_range_from iymin_b (iymax_b + 1)).foldl (fun st iy_b =>
          (int_range sweeper.dims_b.na).foldl (fun st ia =>
            body iy_b iz_b ie ia iu st) st) st) st) st) st


/-! ## OpenACC sweeper -/

/-- Number of moments, `enum{ NM = 16 }` in `dimensions_kernels.h`, the value when no
`NM_VALUE` is given. -/
def NM : Int := 16

/-- The numbers held by the `Sweeper` struct of `sweeper_acc.h`; the scratch array, the
scheduler and the faces are left out. -/
structure Acc.Sweeper where
  nblock_z : Int
  nblock_octant : Int
  noctant_per_block : Int
  dims : Dimensions
  dims_b : Dimensions

/-- `Sweeper_create` of `sweeper_acc_c.h` (lines 44-59): the block counts and the
dimensions it stores. -/
def Acc.Sweeper_create (dims : Dimensions) : Acc.Sweeper :=
  let nblock_z : Int := 1
  let noctant_per_block : Int := NOCTANT
  let nblock_octant : Int := Int.tdiv NOCTANT noctant_per_block
  let dims_b_ncell_z : Int := Int.tdiv dims.ncell_z nblock_z
  { nblock_z := nblock_z
    nblock_octant := nblock_octant
    noctant_per_block := noctant_per_block
    dims := dims
    dims_b := { dims with ncell_z := dims_b_ncell_z } }

/-- `Sweeper_noctant_per_block` of `sweeper_acc.h` (lines 70-76), commented "Number of
octants in an octant block": it returns the constant 1. -/
def Acc.Sweeper_noctant_per_block (_sweeper : Acc.Sweeper) : Int := 1

/-- Flat index into `vs_local` written out in `Quantities_solve_inline` (lines 193-199)
and in `Sweeper_sweep_cell_acceldir`. -/
def Acc.vs_local_index (dims : Dimensions) (ia iu ie ix iy octant : Int) : Int :=
  ia + dims.na * (iu + NU * (ie + dims.ne * (ix + dims.ncell_x * (iy + dims.ncell_y *
    (octant + NOCTANT * 0)))))

/-- Flat index into `facexy` written out in `Quantities_solve_inline` (`ref_facexy
inline`). -/
def Acc.facexy_index (dims : Dimensions) (ia iu ie ix iy octant : Int) : Int :=
  ia + dims.na * (iu + NU * (ie + dims.ne * (ix + dims.ncell_x * (iy + dims.ncell_y *
    (octant + NOCTANT * 0)))))

/-- Flat index into `facexz` written out in `Quantities_solve_inline` (`ref_facexz
inline`). -/
def Acc.facexz_index (dims : Dimensions) (ia iu ie ix iz octant : Int) : Int :=
  ia + dims.na * (iu + NU * (ie + dims.ne * (ix + dims.ncell_x * (iz + dims.ncell_z *
    (octant + NOCTANT * 0)))))

/-- Flat index into `faceyz` written out in `Quantities_solve_inline` (`ref_faceyz
inline`). -/
def Acc.faceyz_index (dims : Dimensions) (ia iu ie iy iz octant : Int) : Int :=
  ia + dims.na * (iu + NU * (ie + dims.ne * (iy + dims.ncell_y * (iz + dims.ncell_z *
    (octant + NOCTANT * 0)))))

/-- Flat index into `a_from_m` written out in `Sweeper_sweep_cell_acceldir`
(lines 367-370, `const_ref_a_from_m inline`). -/
def Acc.a_from_m_index (dims : Dimensions) (ia im octant : Int) : Int :=
  ia + dims.na * (im + NM * (octant + NOCTANT * 0))

/-- Flat index into `m_from_a` written out in `Sweeper_sweep_cell_acceldir`
(lines 428-431, `const_ref_m_from_a`). -/
def Acc.m_from_a_index (dims : Dimensions) (im ia octant : Int) : Int :=
  im + NM * (ia + dims.na * (octant + NOCTANT * 0))

/-- `a_from_m_size` of `Sweeper_sweep_block` (line 539), the number of elements of
`a_from_m` named in the data clauses. -/
def Acc.a_from_m_size (dims_b : Dimensions) : Int := dims_b.nm * dims_b.na * NOCTANT

/-- `m_from_a_size` of `Sweeper_sweep_block` (line 540). -/
def Acc.m_from_a_size (dims_b : Dimensions) : Int := dims_b.nm * dims_b.na * NOCTANT

/-- Head of `Sweeper_sweep_cell_acceldir` (lines 326-337): the z index solved from the
wavefront number, and the bounds check on it.  The result is `some iz` when the body runs,
on cell `(ix, iy, iz)`, and `none` when the check fails. -/
def Acc.Sweeper_sweep_cell_acceldir (dims : Dimensions)
    (wavefront ix iy dir_x dir_y dir_z : Int) : Option Int :=
  let ixwav := if dir_x == Dir_up then ix else (dims.ncell_x - 1) - ix
  let iywav := if dir_y == Dir_up then iy else (dims.ncell_y - 1) - iy
  let iz := if dir_z == Dir_up then wavefront - (ixwav + iywav)
    else (dims.ncell_z - 1) - (wavefront - (ixwav + iywav))
  if 0 ≤ iz ∧ iz < dims.ncell_z then some iz else none

/-- The kernel of one wavefront in `Sweeper_sweep_block` (lines 752-767): the loops over
`iy_updown` and `ix_updown`, taken in sequence, with the cells `(ix, iy, iz)` on which the
body of `Sweeper_sweep_cell_acceldir` runs. -/
def Acc.Sweeper_sweep_block_wavefront (dims_b : Dimensions)
    (wavefront dir_x dir_y dir_z : Int) : List (Int × Int × Int) :=
  (int_range dims_b.ncell_y).flatMap fun iy_updown =>
    (int_range dims_b.ncell_x).flatMap fun ix_updown =>
      let iy := if dir_y == Dir_up then iy_updown else dims_b.ncell_y - 1 - iy_updown
      let ix := if dir_x == Dir_up then ix_updown else dims_b.ncell_x - 1 - ix_updown
      match Acc.Sweeper_sweep_cell_acceldir dims_b wavefront ix iy dir_x dir_y dir_z with
      | some iz => [(ix, iy, iz)]
      | none => []

/-- The loops over octants and wavefronts of `Sweeper_sweep_block` (lines 728-771): the
cells processed, as `(octant, wavefront, ix, iy, iz)`, in the order of the loops. -/
def Acc.Sweeper_sweep_block (E : Externals) (sweeper : Acc.Sweeper) :
    List (Int × Int × Int × Int × Int) :=
  let dims_b := sweeper.dims_b
  (int_range NOCTANT).flatMap fun octant =>
    let dir_x := E.Dir_x octant
    let dir_y := E.Dir_y octant
    let dir_z := E.Dir_z octant
    let num_wavefronts := (dims_b.ncell_z + dims_b.ncell_y + dims_b.ncell_x) - 2
    (int_range num_wavefronts).flatMap fun wavefront =>
      (Acc.Sweeper_sweep_block_wavefront dims_b wavefront dir_x dir_y dir_z).map
        fun c => (octant, wavefront, c.1, c.2.1, c.2.2)

/-! ## Vocabulary of the statements -/

/-- The environment of the process at coordinates `(px, py)`: all processes share the
rank map and the message tag, and differ in their own coordinates. -/
def Env_at (env : Env) (px py : Int) : Env :=
  { env with proc_x_this := px, proc_y_this := py }

/-- Index of an axis as the loops count it: X is 0, Y is 1. -/
def axis_index (axis_is_x : Bool) : Int := if axis_is_x then 0 else 1

/-- Index of a direction as the loops count it: up is 0, down is 1. -/
def dir_index (up : Bool) : Int := if up then 0 else 1

/-- The direction value of a direction index: `UP` or `DN`. -/
def dir_value (up : Bool) : Int := if up then Dir_up else Dir_dn

/-- The unit step `Δ` along an axis in direction `dir`. -/
def Delta (axis_is_x : Bool) (dir : Int) : Int × Int :=
  if axis_is_x then (dir, 0) else (0, dir)

/-- Direction of an octant along an axis, `dir(octant, axis)` in the spec. -/
def dir_along (E : Externals) (axis_is_x : Bool) (octant : Int) : Int :=
  if axis_is_x then E.Dir_x octant else E.Dir_y octant

/-- The environment of the neighbour at `p + Δ` along an axis in a direction. -/
def neighbour (env : Env) (axis_is_x up : Bool) : Env :=
  Env_at env (env.proc_x_this + (Delta axis_is_x (dir_value up)).1)
             (env.proc_y_this + (Delta axis_is_x (dir_value up)).2)

/-- The send predicate in the words of the spec (§4.2), for a process at `(px, py)`:
`source = step_info(s, k, my_proc)`, `target = step_info(s+1, k, my_proc + Δ)`. -/
def do_send_spec (E : Externals) (step_info : Int → Int → Int → Int → Step_Info)
    (s k px py : Int) (axis_is_x : Bool) (dir : Int) : Prop :=
  let source := step_info s k px py
  let target := step_info (s + 1) k (px + (Delta axis_is_x dir).1) (py + (Delta axis_is_x dir).2)
  source.is_active = true ∧ target.is_active = true ∧ source.octant = target.octant
    ∧ source.block_z = target.block_z ∧ dir_along E axis_is_x target.octant = dir

/-- Coordinate of this process along the axis, the local `proc_axis`. -/
def proc_axis_of (env : Env) (axis : Int) : Int :=
  if axis == 0 then env.proc_x_this else env.proc_y_this

/-- The local `size_face_per_octant` of the exchange loops. -/
def size_face_per_octant (E : Externals) (sweeper : Sweeper) (axis : Int) : Int :=
  if axis == 0 then size_faceyz_per_octant E sweeper else size_facexz_per_octant E sweeper

/-- Rank a send goes to: `Env_proc( env, proc_x+inc_x, proc_y+inc_y )`. -/
def proc_send_to (env : Env) (axis dir_ind : Int) : Int :=
  env.proc
    (env.proc_x_this
      + (if axis == 0 then Dir_inc (if dir_ind == 0 then Dir_up else Dir_dn) else 0))
    (env.proc_y_this
      + (if axis == 1 then Dir_inc (if dir_ind == 0 then Dir_up else Dir_dn) else 0))

/-- Rank a receive comes from: `Env_proc( env, proc_x-inc_x, proc_y-inc_y )`. -/
def proc_recv_from (env : Env) (axis dir_ind : Int) : Int :=
  env.proc
    (env.proc_x_this
      - (if axis == 0 then Dir_inc (if dir_ind == 0 then Dir_up else Dir_dn) else 0))
    (env.proc_y_this
      - (if axis == 1 then Dir_inc (if dir_ind == 0 then Dir_up else Dir_dn) else 0))

/-- Whether a call is a blocking send. -/
def Op.is_send : Op → Bool
  | Op.Env_send_P _ _ _ _ => true
  | _ => false

/-- Whether a call is a blocking receive. -/
def Op.is_recv : Op → Bool
  | Op.Env_recv_P _ _ _ _ => true
  | _ => false

/-- A message as both ends see it: element count, tag, sending and receiving rank. -/
structure Message where
  n : Int
  tag : Int
  sender : Int
  receiver : Int
deriving DecidableEq, Repr

/-- The messages sent by the calls `ops` of the process with environment `env`. -/
def sent_messages (env : Env) (ops : List Op) : List Message :=
  ops.filterMap fun op =>
    match op with
    | Op.Env_send_P _ n proc_other tag =>
        some ⟨n, tag, env.proc env.proc_x_this env.proc_y_this, proc_other⟩
    | Op.Env_asend_P _ n proc_other tag _ =>
        some ⟨n, tag, env.proc env.proc_x_this env.proc_y_this, proc_other⟩
    | _ => none

/-- The messages for which the calls `ops` of the process with environment `env` post
a receive. -/
def received_messages (env : Env) (ops : List Op) : List Message :=
  ops.filterMap fun op =>
    match op with
    | Op.Env_recv_P _ n proc_other tag =>
        some ⟨n, tag, proc_other, env.proc env.proc_x_this env.proc_y_this⟩
    | Op.Env_arecv_P _ n proc_other tag _ =>
        some ⟨n, tag, proc_other, env.proc env.proc_x_this env.proc_y_this⟩
    | _ => none

/-! ## Meaning of the blocking calls on face memory -/

/-- What a call does to the request slot `r`: `some true` when it starts a request in
`r` (`Env_asend_P`, `Env_arecv_P`), `some false` when it waits on `r` (`Env_wait`),
`none` when it does not touch `r`. -/
def Op.event (r : Request) : Op → Option Bool
  | Op.Env_asend_P _ _ _ _ request => if r = request then some true else none
  | Op.Env_arecv_P _ _ _ _ request => if r = request then some true else none
  | Op.Env_wait request => if r = request then some false else none
  | _ => none

/-- The starts (`true`) and waits (`false`) on slot `r` in a sequence of calls. -/
def slot_events (r : Request) (ops : List Op) : List Bool :=
  ops.filterMap (Op.event r)

/-- A request slot is free (`false`) or busy (`true`).  A start needs the slot free and
makes it busy; a wait needs it busy and frees it; anything else is a misuse (`none`): a
slot started again before its wait, or waited on without a request in it.  The result
is the state the slot is left in. -/
def slot_ok : Bool → List Bool → Option Bool
  | busy, [] => some busy
  | false, true :: rest => slot_ok true rest
  | true, false :: rest => slot_ok false rest
  | false, false :: _ => none
  | true, true :: _ => none

/-- The life of slot `r` along a sequence of calls, from the state `busy`. -/
def slot_run (r : Request) (busy : Bool) (ops : List Op) : Option Bool :=
  slot_ok busy (slot_events r ops)

/-- The requests started by a sequence of calls, in order. -/
def started_requests (ops : List Op) : List Request :=
  ops.filterMap fun op =>
    match op with
    | Op.Env_asend_P _ _ _ _ request => some request
    | Op.Env_arecv_P _ _ _ _ request => some request
    | _ => none

/-- Whether `Sweeper_send_faces_start__( step )` starts a request in slot `r`: `r` is
a send slot with index inside the octant loop, and the send predicate holds for one of
the two directions of its axis. -/
def starts_send (E : Externals) (sweeper : Sweeper) (step : Int) (env : Env)
    (r : Request) : Bool :=
  decide ((0 ≤ r.k ∧ r.k < sweeper.noctant_per_block)
    ∧ (r.send = true
        ∧ (Sweeper_must_do_send__ E sweeper step (if r.xz then 0 else 1) 0 r.k env
            || Sweeper_must_do_send__ E sweeper step (if r.xz then 0 else 1) 1 r.k env)
          = true))

/-- Whether `Sweeper_recv_faces_start__( step )` starts a request in slot `r`. -/
def starts_recv (E : Externals) (sweeper : Sweeper) (step : Int) (env : Env)
    (r : Request) : Bool :=
  decide ((0 ≤ r.k ∧ r.k < sweeper.noctant_per_block)
    ∧ (r.send = false
        ∧ (Sweeper_must_do_recv__ E sweeper step (if r.xz then 0 else 1) 0 r.k env
            || Sweeper_must_do_recv__ E sweeper step (if r.xz then 0 else 1) 1 r.k env)
          = true))

/-! ## Vocabulary for the sweep trace -/

/-- Whether a call is a host/device mirroring call (`Pointer_update_d`,
`Pointer_update_h`). -/
def Op.is_mirror : Op → Bool
  | Op.Pointer_update_d _ => true
  | Op.Pointer_update_h _ => true
  | _ => false

/-- Whether a call is a face-exchange call: a copy into scratch, a send, a receive or a
wait. -/
def Op.is_comm : Op → Bool
  | Op.copy_vector _ _ _ => true
  | Op.Env_send_P _ _ _ _ => true
  | Op.Env_recv_P _ _ _ _ => true
  | Op.Env_asend_P _ _ _ _ _ => true
  | Op.Env_arecv_P _ _ _ _ _ => true
  | Op.Env_wait _ => true
  | _ => false

/-- The step of a block sweep call. -/
def Op.block_step : Op → Option Int
  | Op.Sweeper_sweep_block step => some step
  | _ => none

/-- The message tag of a call that sends or receives a message. -/
def Op.tag? : Op → Option Int
  | Op.Env_send_P _ _ _ tag => some tag
  | Op.Env_recv_P _ _ _ tag => some tag
  | Op.Env_asend_P _ _ _ tag _ => some tag
  | Op.Env_arecv_P _ _ _ tag _ => some tag
  | _ => none

/-- The operation trace of a sweep in the words of the spec (§4.6): zero `vo`; then for
each step in increasing order, with asynchronous communication `recv_end(step-1)`,
`recv_start(step)`, the block sweep, `send_end(step-1)`, `send_start(step)`, and with
synchronous communication the block sweep followed by the red/black exchange; finally
the tag is advanced by `noctant_per_block`. -/
def sweep_trace_spec (E : Externals) (sweeper : Sweeper) (env : Env) : List Op :=
  [Op.zero_vo]
  ++ ((int_range sweeper.step_scheduler.nstep).flatMap fun step =>
        if E.Sweeper_is_face_comm_async then
          Sweeper_recv_faces_end__ E sweeper (step - 1) env
          ++ Sweeper_recv_faces_start__ E sweeper step env
          ++ [Op.Sweeper_sweep_block step]
          ++ Sweeper_send_faces_end__ E sweeper (step - 1) env
          ++ Sweeper_send_faces_start__ E sweeper step env
        else
          [Op.Sweeper_sweep_block step]
          ++ Sweeper_communicate_faces__ E sweeper step env)
  ++ [Op.Env_increment_tag sweeper.noctant_per_block]

/-! ## Vocabulary for the construction checks -/

/-- The checks of `Sweeper_ctor` other than the two on the semiblock count: nonempty
blocks, the z blocking factor, the octant thread count and the energy thread count. -/
def ctor_other_checks (E : Externals) (dims : Dimensions) (env : Env) (args : Arguments) :
    Prop :=
  dims.ncell_x > 0 ∧ dims.ncell_y > 0 ∧ dims.ncell_z > 0
    ∧ args.nblock_z.getD 1 > 0 ∧ Int.tmod dims.ncell_z (args.nblock_z.getD 1) = 0
    ∧ is_pow2_upto_NOCTANT (args.nthread_octant.getD 1) = true
    ∧ (args.nthread_octant.getD 1 = 1 ∨ E.IS_USING_OPENMP_THREADS = true
        ∨ env.cuda_is_using_device = true)
    ∧ args.nthread_e.getD 1 > 0
    ∧ (args.nthread_e.getD 1 = 1 ∨ E.IS_USING_OPENMP_THREADS = true
        ∨ env.cuda_is_using_device = true)

/-! ## State indexing -/

/-- Flat index of the state element `(ix, iy, iz, ie, im, iu)`: the inlined `ref_state`
of `sweeper_acc_c.h` (lines 443-451), with `nu` for `NU`; z is the slowest axis. -/
def ref_state_index (dims : Dimensions) (nu : Int) (ix iy iz ie im iu : Int) : Int :=
  im + dims.nm * (
  iu + nu * (
  ix + dims.ncell_x * (
  iy + dims.ncell_y * (
  ie + dims.ne * (
  iz + dims.ncell_z * (
  0 ))))))

/-- Modelled from the spec: `Dimensions_size_state` of `dimensions.h` (not among the
sources); the spec gives the state the shape `(nx, ny, nz, ne, nm, NU)`. -/
def Dimensions_size_state_spec (dims : Dimensions) (nu : Int) : Int :=
  dims.ncell_x * dims.ncell_y * dims.ncell_z * dims.ne * dims.nm * nu

/-- Index, in the whole state array, of the element that `Sweeper_sweep_semiblock`
reaches as `ref_state( vo_this, dims_b, NU, ix, iy, iz, ie, im, iu )`, where `vo_this`
is `ref_state( vo, dims, NU, 0, 0, iz_base, 0, 0, 0 )` with
`iz_base = block_z * dims_b.nz` (lines 1046-1051, 935). -/
def block_state_index (sweeper : Sweeper) (block_z ix iy iz ie im iu : Int) : Int :=
  ref_state_index sweeper.dims NU 0 0 (block_z * sweeper.dims_b.ncell_z) 0 0 0
    + ref_state_index sweeper.dims_b NU ix iy iz ie im iu

/-! ## Vocabulary for the semiblocks -/

/-- Bit `a` of a semiblock index. -/
def bit_of (semiblock : Int) (a : Nat) : Bool :=
  decide ((semiblock / 2 ^ a) % 2 = 1)

/-- The cell range of a semiblock along axis `a` in the words of the spec (§4.5): the
axis is split iff `nsemiblock > 2^a`; a split axis has its low half `[0, n/2 - 1]` when
`(bit a of s) XOR (dir_a == DN)` is 0 and its high half `[n/2, n - 1]` otherwise; an
axis that is not split has the whole range `[0, n - 1]`. -/
def semiblock_range_spec (nsemiblock semiblock : Int) (a : Nat) (dir n : Int) : Int × Int :=
  if nsemiblock > 2 ^ a then
    if xor (bit_of semiblock a) (decide (dir = Dir_dn)) = false then (0, n / 2 - 1)
    else (n / 2, n - 1)
  else (0, n - 1)

/-- Whether a cell lies in the region of semiblock `semiblock` for an octant with
directions `(dir_x, dir_y, dir_z)` in a block of `nx x ny x nz` cells: inside the bounds
`ixmin_b..ixmax_b`, `iymin_b..iymax_b`, `izmin_b..izmax_b` of the block driver. -/
def in_semiblock (nsemiblock semiblock dir_x dir_y dir_z nx ny nz : Int)
    (cell : Int × Int × Int) : Prop :=
  (imin_b nsemiblock semiblock 0 dir_x nx ≤ cell.1
      ∧ cell.1 ≤ imax_b nsemiblock semiblock 0 dir_x nx)
  ∧ (imin_b nsemiblock semiblock 1 dir_y ny ≤ cell.2.1
      ∧ cell.2.1 ≤ imax_b nsemiblock semiblock 1 dir_y ny)
  ∧ (imin_b nsemiblock semiblock 2 dir_z nz ≤ cell.2.2
      ∧ cell.2.2 ≤ imax_b nsemiblock semiblock 2 dir_z nz)

/-- Whether a cell lies in a block of `nx x ny x nz` cells. -/
def in_block (nx ny nz : Int) (cell : Int × Int × Int) : Prop :=
  (0 ≤ cell.1 ∧ cell.1 < nx) ∧ (0 ≤ cell.2.1 ∧ cell.2.1 < ny)
    ∧ (0 ≤ cell.2.2 ∧ cell.2.2 < nz)

/-- A direction value is one of `UP`, `DN`. -/
def is_dir (dir : Int) : Prop := dir = Dir_up ∨ dir = Dir_dn

/-- Octant-to-thread assignment as documented in the design comment of
`Sweeper_sweep_block_impl`: with two octant threads the -x and +x octants have
different threads, with four also the -y and +y octants, with eight also the -z and +z
octants.  The proposition says what is known of the directions of the octants of two
different octant threads. -/
def octant_threads_differ (nthread_octant dx1 dy1 dz1 dx2 dy2 dz2 : Int) : Prop :=
  (nthread_octant = 2 ∧ dx1 ≠ dx2)
    ∨ (nthread_octant = 4 ∧ (dx1 ≠ dx2 ∨ dy1 ≠ dy2))
    ∨ (nthread_octant = 8 ∧ (dx1 ≠ dx2 ∨ dy1 ≠ dy2 ∨ dz1 ≠ dz2))

/-! ## Events of a block sweep -/

/-- What a block sweep does to the xy face and to the cells, one event per face slot
written by the boundary initialiser and one per cell and energy group swept. -/
inductive Cell_Event where
  | init_xy (ix iy ie ia iu octant_in_block : Int)
  | sweep (ix iy iz ie octant_in_block : Int)
deriving DecidableEq, Repr

/-- Events of one call of a block sweep, in the order of its loops. -/
def Block_Op.events (fuel : Nat) (E : Externals) (sweeper : Sweeper) (thread_e : Int) :
    Block_Op → Option (List Cell_Event)
  | Block_Op.Sweeper_set_boundary_xy _ k ixmin_b ixmax_b iymin_b iymax_b =>
      some (Sweeper_set_boundary_xy_loops sweeper thread_e ixmin_b ixmax_b iymin_b iymax_b
        (fun ix iy ie ia iu acc => acc ++ [Cell_Event.init_xy ix iy ie ia iu k]) [])
  | Block_Op.Sweeper_sweep_semiblock step_info k ixmin ixmax iymin iymax izmin izmax =>
      Sweeper_sweep_semiblock_loops fuel E sweeper thread_e step_info.octant
        ixmin ixmax iymin iymax izmin izmax
        (fun ix iy iz ie acc => some (acc ++ [Cell_Event.sweep ix iy iz ie k])) []
  | _ => some []

/-- Events of a sequence of calls; `none` when a loop runs out of fuel. -/
def block_events (fuel : Nat) (E : Externals) (sweeper : Sweeper) (thread_e : Int) :
    List Block_Op → Option (List Cell_Event)
  | [] => some []
  | op :: ops =>
      (op.events fuel E sweeper thread_e).bind fun a =>
        (block_events fuel E sweeper thread_e ops).map fun b => a ++ b

/-- The calls made for one octant of the octant block over the semiblock loop. -/
def octant_ops (E : Externals) (sweeper : Sweeper)
    (proc_x_min proc_x_max proc_y_min proc_y_max : Bool)
    (octant_in_block : Int) (step_info : Step_Info) : List Block_Op :=
  (int_range sweeper.nsemiblock).flatMap fun semiblock =>
    Sweeper_sweep_block_impl_octant E sweeper proc_x_min proc_x_max proc_y_min proc_y_max
      semiblock octant_in_block step_info

/-- The octant of the octant block a call is made for. -/
def Block_Op.octant_in_block? : Block_Op → Option Int
  | Block_Op.Sweeper_set_boundary_xy _ k _ _ _ _ => some k
  | Block_Op.Sweeper_set_boundary_xz _ _ k _ _ _ _ => some k
  | Block_Op.Sweeper_set_boundary_yz _ _ k _ _ _ _ => some k
  | Block_Op.Sweeper_sweep_semiblock _ k _ _ _ _ _ _ => some k
  | Block_Op.Sweeper_sync_octant_threads => none

/-- Values of a loop index running over `[imin, imax]` in direction `dir`: upwards from
`imin`, or downwards from `imax`. -/
def axis_order (dir imin imax : Int) : List Int :=
  (List.range (imax + 1 - imin).toNat).map fun k : Nat =>
    if dir = Dir_up then imin + (k : Int) else imax - (k : Int)

/-- Index tuples `(ix, iy, ie, ia, iu)` of the loop nest of `Sweeper_set_boundary_xy`,
in the order of the loops. -/
def xy_slots (sweeper : Sweeper) (thread_e ixmin_b ixmax_b iymin_b iymax_b : Int) :
    List (Int × Int × Int × Int × Int) :=
  (int_range_from (ie_min sweeper thread_e) (ie_max sweeper thread_e)).flatMap fun ie =>
    (int_range NU).flatMap fun iu =>
      (int_range_from iymin_b (iymax_b + 1)).flatMap fun iy =>
        (int_range_from ixmin_b (ixmax_b + 1)).flatMap fun ix =>
          (int_range sweeper.dims_b.na).map fun ia => (ix, iy, ie, ia, iu)

/-- The test of `Sweeper_sweep_block_impl` (lines 1120-1122) under which the xy
boundary initialiser is called for semiblock `semiblock`. -/
def sets_boundary_xy (E : Externals) (sweeper : Sweeper) (semiblock : Int)
    (step_info : Step_Info) : Bool :=
  (E.Dir_z step_info.octant == Dir_up && step_info.block_z == 0
      && has_lo sweeper.nsemiblock semiblock 2 (E.Dir_z step_info.octant))
    || (E.Dir_z step_info.octant == Dir_dn && step_info.block_z == sweeper.nblock_z - 1
      && has_hi sweeper.nsemiblock semiblock 2 (E.Dir_z step_info.octant))

/-- Events of one semiblock step of an active octant, in closed form: the slots of the
xy face written by the boundary initialiser, when it is called, followed by the cells
of the semiblock for every energy group of the thread, in the order of the octant. -/
def semiblock_events (E : Externals) (sweeper : Sweeper) (thread_e semiblock k : Int)
    (step_info : Step_Info) : List Cell_Event :=
  let dir_x := E.Dir_x step_info.octant
  let dir_y := E.Dir_y step_info.octant
  let dir_z := E.Dir_z step_info.octant
  let ixmin_b := imin_b sweeper.nsemiblock semiblock 0 dir_x sweeper.dims_b.ncell_x
  let ixmax_b := imax_b sweeper.nsemiblock semiblock 0 dir_x sweeper.dims_b.ncell_x
  let iymin_b := imin_b sweeper.nsemiblock semiblock 1 dir_y sweeper.dims_b.ncell_y
  let iymax_b := imax_b sweeper.nsemiblock semiblock 1 dir_y sweeper.dims_b.ncell_y
  let izmin_b := imin_b sweeper.nsemiblock semiblock 2 dir_z sweeper.dims_b.ncell_z
  let izmax_b := imax_b sweeper.nsemiblock semiblock 2 dir_z sweeper.dims_b.ncell_z
  (if sets_boundary_xy E sweeper semiblock step_info then
    (xy_slots sweeper thread_e ixmin_b ixmax_b iymin_b iymax_b).map fun t =>
      Cell_Event.init_xy t.1 t.2.1 t.2.2.1 t.2.2.2.1 t.2.2.2.2 k
  else [])
  ++ (int_range_from (ie_min sweeper thread_e) (ie_max sweeper thread_e)).flatMap fun ie =>
      (axis_order dir_z izmin_b izmax_b).flatMap fun iz =>
        (axis_order dir_y iymin_b iymax_b).flatMap fun iy =>
          (axis_order dir_x ixmin_b ixmax_b).flatMap fun ix =>
            [Cell_Event.sweep ix iy iz ie k]

/-- Inlet condition of the xy face: the octant enters the domain through the z face of
this block, `(dir_z = UP and block_z = 0)` or `(dir_z = DN and block_z = nblock_z - 1)`. -/
def inlet_xy (E : Externals) (sweeper : Sweeper) (step_info : Step_Info) : Prop :=
  (E.Dir_z step_info.octant = Dir_up ∧ step_info.block_z = 0)
    ∨ (E.Dir_z step_info.octant = Dir_dn ∧ step_info.block_z = sweeper.nblock_z - 1)

/-- Setting of the statements on the sweep of a block for one octant: the octant is
active, its three directions are up or down, the number of semiblocks is 1, 2, 4 or 8
and the block has at least one cell along each axis. -/
def block_sweep_setting (E : Externals) (sweeper : Sweeper) (step_info : Step_Info) : Prop :=
  step_info.is_active = true
    ∧ (is_dir (E.Dir_x step_info.octant) ∧ is_dir (E.Dir_y step_info.octant)
      ∧ is_dir (E.Dir_z step_info.octant))
    ∧ (sweeper.nsemiblock = 1 ∨ sweeper.nsemiblock = 2 ∨ sweeper.nsemiblock = 4
      ∨ sweeper.nsemiblock = 8)
    ∧ (1 ≤ sweeper.dims_b.ncell_x ∧ 1 ≤ sweeper.dims_b.ncell_y ∧ 1 ≤ sweeper.dims_b.ncell_z)

/-- Events of the semiblock loop for one octant, in closed form. -/
def octant_events (E : Externals) (sweeper : Sweeper) (thread_e k : Int)
    (step_info : Step_Info) : List Cell_Event :=
  (int_range sweeper.nsemiblock).flatMap fun semiblock =>
    semiblock_events E sweeper thread_e semiblock k step_info

/-- The cell bounds `((ixmin, ixmax), (iymin, iymax), (izmin, izmax))` of a call of the
semiblock sweep. -/
def Block_Op.sweep_bounds? : Block_Op → Option ((Int × Int) × (Int × Int) × (Int × Int))
  | Block_Op.Sweeper_sweep_semiblock _ _ ixmin ixmax iymin iymax izmin izmax =>
      some ((ixmin, ixmax), (iymin, iymax), (izmin, izmax))
  | _ => none

/-- The two halves of an axis of `n` cells: `[0, n/2 - 1]` and `[n/2, n - 1]`. -/
def half_bounds (hi : Bool) (n : Int) : Int × Int :=
  if hi then (n / 2, n - 1) else (0, n / 2 - 1)

/-- Whether semiblock `semiblock` takes the high half along axis `a` for an octant of
direction `dir` along the axis. -/
def is_hi_half (semiblock : Int) (a : Nat) (dir : Int) : Bool :=
  xor (bit_of semiblock a) (decide (dir = Dir_dn))

/-- The three upstream neighbours of a cell for an octant with directions `dir_x`,
`dir_y`, `dir_z`: `(ix-dir_x, iy, iz)`, `(ix, iy-dir_y, iz)` and `(ix, iy, iz-dir_z)`. -/
def is_upstream (dir_x dir_y dir_z : Int) (nb cell : Int × Int × Int) : Prop :=
  nb = (cell.1 - dir_x, cell.2.1, cell.2.2) ∨ nb = (cell.1, cell.2.1 - dir_y, cell.2.2)
    ∨ nb = (cell.1, cell.2.1, cell.2.2 - dir_z)

/-- The calls `Sweeper_sweep_block_impl` makes for octant `k` of the octant block, in
order. -/
def octant_calls (E : Externals) (sweeper : Sweeper) (thread_octant : Int)
    (proc_x_min proc_x_max proc_y_min proc_y_max : Bool)
    (step_info_values : Int → Step_Info) (k : Int) : List Block_Op :=
  (Sweeper_sweep_block_impl E sweeper thread_octant proc_x_min proc_x_max proc_y_min
    proc_y_max step_info_values).filter fun op => op.octant_in_block? == some k

/-- The octants of the octant block handled by octant thread `thread_octant`: the range
of the octant loop of `Sweeper_sweep_block_impl`. -/
def thread_has_octant (sweeper : Sweeper) (thread_octant k : Int) : Prop :=
  Int.tdiv (sweeper.noctant_per_block * thread_octant) sweeper.nthread_octant ≤ k
    ∧ k < Int.tdiv (sweeper.noctant_per_block * (thread_octant + 1)) sweeper.nthread_octant

/-- Whether the cell range of semiblock `semiblock` along axis `a` contains the inlet
layer of the block for direction `dir`: layer `0` for an upward and layer `n - 1` for a
downward octant. -/
def semiblock_has_inlet_layer (nsemiblock semiblock : Int) (a : Nat) (dir n : Int) : Prop :=
  imin_b nsemiblock semiblock a dir n ≤ (if dir = Dir_up then 0 else n - 1)
    ∧ (if dir = Dir_up then 0 else n - 1) ≤ imax_b nsemiblock semiblock a dir n

/-- The call of the xy boundary initialiser for semiblock `semiblock` and octant `k` of
the octant block, with the x and y bounds of the semiblock. -/
def xy_boundary_call (E : Externals) (sweeper : Sweeper) (semiblock k : Int)
    (step_info : Step_Info) : Block_Op :=
  Block_Op.Sweeper_set_boundary_xy step_info.octant k
    (imin_b sweeper.nsemiblock semiblock 0 (E.Dir_x step_info.octant) sweeper.dims_b.ncell_x)
    (imax_b sweeper.nsemiblock semiblock 0 (E.Dir_x step_info.octant) sweeper.dims_b.ncell_x)
    (imin_b sweeper.nsemiblock semiblock 1 (E.Dir_y step_info.octant) sweeper.dims_b.ncell_y)
    (imax_b sweeper.nsemiblock semiblock 1 (E.Dir_y step_info.octant) sweeper.dims_b.ncell_y)

/-- The statement of the specification on the xy boundary initialiser, word for word:
for semiblock `semiblock` the initialiser is called if and only if the inlet condition
on `(dir_z, block_z)` holds and the semiblock contains the inlet z layer. -/
def xy_boundary_claim (E : Externals) (sweeper : Sweeper)
    (proc_x_min proc_x_max proc_y_min proc_y_max : Bool) (semiblock k : Int)
    (step_info : Step_Info) : Prop :=
  xy_boundary_call E sweeper semiblock k step_info
      ∈ Sweeper_sweep_block_impl_octant E sweeper proc_x_min proc_x_max proc_y_min proc_y_max
          semiblock k step_info
    ↔ inlet_xy E sweeper step_info
      ∧ semiblock_has_inlet_layer sweeper.nsemiblock semiblock 2 (E.Dir_z step_info.octant)
          sweeper.dims_b.ncell_z

/-- Inlet condition of a lateral face for an octant with direction `dir` along the
axis, on a process at coordinate `proc` of `nproc` along the axis:
`(dir = UP and proc = 0) or (dir = DN and proc = nproc - 1)`. -/
def inlet_lateral (dir proc nproc : Int) : Prop :=
  (dir = Dir_up ∧ proc = 0) ∨ (dir = Dir_dn ∧ proc = nproc - 1)

/-- The body of the octant loop as `Sweeper_sweep_block` runs it on the process of
`env`: the four flags are `proc_x==0`, `proc_x==Env_nproc_x( env )-1`, `proc_y==0`,
`proc_y==Env_nproc_y( env )-1`. -/
def block_octant_calls (E : Externals) (sweeper : Sweeper) (env : Env)
    (semiblock k : Int) (step_info : Step_Info) : List Block_Op :=
  Sweeper_sweep_block_impl_octant E sweeper (env.proc_x_this == 0)
    (env.proc_x_this == env.nproc_x - 1) (env.proc_y_this == 0)
    (env.proc_y_this == env.nproc_y - 1) semiblock k step_info

/-- The call of the xz boundary initialiser for semiblock `semiblock` and octant `k` of
the octant block, with the x and z bounds of the semiblock. -/
def xz_boundary_call (E : Externals) (sweeper : Sweeper) (semiblock k : Int)
    (step_info : Step_Info) : Block_Op :=
  Block_Op.Sweeper_set_boundary_xz step_info.block_z step_info.octant k
    (imin_b sweeper.nsemiblock semiblock 0 (E.Dir_x step_info.octant) sweeper.dims_b.ncell_x)
    (imax_b sweeper.nsemiblock semiblock 0 (E.Dir_x step_info.octant) sweeper.dims_b.ncell_x)
    (imin_b sweeper.nsemiblock semiblock 2 (E.Dir_z step_info.octant) sweeper.dims_b.ncell_z)
    (imax_b sweeper.nsemiblock semiblock 2 (E.Dir_z step_info.octant) sweeper.dims_b.ncell_z)

/-- The call of the yz boundary initialiser for semiblock `semiblock` and octant `k` of
the octant block, with the y and z bounds of the semiblock. -/
def yz_boundary_call (E : Externals) (sweeper : Sweeper) (semiblock k : Int)
    (step_info : Step_Info) : Block_Op :=
  Block_Op.Sweeper_set_boundary_yz step_info.block_z step_info.octant k
    (imin_b sweeper.nsemiblock semiblock 1 (E.Dir_y step_info.octant) sweeper.dims_b.ncell_y)
    (imax_b sweeper.nsemiblock semiblock 1 (E.Dir_y step_info.octant) sweeper.dims_b.ncell_y)
    (imin_b sweeper.nsemiblock semiblock 2 (E.Dir_z step_info.octant) sweeper.dims_b.ncell_z)
    (imax_b sweeper.nsemiblock semiblock 2 (E.Dir_z step_info.octant) sweeper.dims_b.ncell_z)

/-- The statement of the specification on the lateral boundary initialisers, word for
word: for semiblock `semiblock` the initialiser of the xz face (of the yz face) is
called if and only if the inlet condition on `dir_y` and the y coordinate of the
process (on `dir_x` and the x coordinate) holds and the semiblock contains the inlet
layer of the block along y (along x). -/
def lateral_boundary_claim (E : Externals) (sweeper : Sweeper) (env : Env)
    (semiblock k : Int) (step_info : Step_Info) : Prop :=
  (xz_boundary_call E sweeper semiblock k step_info
      ∈ block_octant_calls E sweeper env semiblock k step_info
    ↔ inlet_lateral (E.Dir_y step_info.octant) env.proc_y_this env.nproc_y
      ∧ semiblock_has_inlet_layer sweeper.nsemiblock semiblock 1 (E.Dir_y step_info.octant)
          sweeper.dims_b.ncell_y)
  ∧ (yz_boundary_call E sweeper semiblock k step_info
      ∈ block_octant_calls E sweeper env semiblock k step_info
    ↔ inlet_lateral (E.Dir_x step_info.octant) env.proc_x_this env.nproc_x
      ∧ semiblock_has_inlet_layer sweeper.nsemiblock semiblock 0 (E.Dir_x step_info.octant)
          sweeper.dims_b.ncell_x)

/-- Cells and energy groups `(ix, iy, iz, ie)` visited by one call of the semiblock
sweep, in the order of its loops. -/
def semiblock_visits (E : Externals) (sweeper : Sweeper) (thread_e octant : Int)
    (ixmin ixmax iymin iymax izmin izmax : Int) : List (Int × Int × Int × Int) :=
  (int_range_from (ie_min sweeper thread_e) (ie_max sweeper thread_e)).flatMap fun ie =>
    (axis_order (E.Dir_z octant) izmin izmax).flatMap fun iz =>
      (axis_order (E.Dir_y octant) iymin iymax).flatMap fun iy =>
        (axis_order (E.Dir_x octant) ixmin ixmax).map fun ix => (ix, iy, iz, ie)

/-! ## Vocabulary for the process grid -/

/-- Whether `(px, py)` are coordinates of a process of the grid of `env`, of
`Env_nproc_x` by `Env_nproc_y` processes. -/
def in_grid (env : Env) (px py : Int) : Prop :=
  (0 ≤ px ∧ px < env.nproc_x) ∧ (0 ≤ py ∧ py < env.nproc_y)

/-! ## Vocabulary for the OpenACC sweeper -/

/-- Position of index `i` along an axis of `n` cells counted in the direction of the
sweep: `i` upwards, `n - 1 - i` otherwise. -/
def Acc.along (dir n i : Int) : Int := if dir == Dir_up then i else n - 1 - i

/-- Wavefront number of a cell: the sum of its positions along the three axes, each
counted in the direction of the sweep. -/
def Acc.wavefront_of (dims : Dimensions) (ix iy iz dir_x dir_y dir_z : Int) : Int :=
  Acc.along dir_x dims.ncell_x ix + Acc.along dir_y dims.ncell_y iy
    + Acc.along dir_z dims.ncell_z iz

/-! ## Concrete instances used in the examples -/

/-- A concrete choice of the external declarations: bit 0, 1, 2 of the octant set
means direction `DN` along x, y, z; array sizes are the products of the extents. -/
def example_externals (async : Bool) : Externals :=
  { Dir_x := fun octant => if Int.land octant 1 == 0 then Dir_up else Dir_dn
    Dir_y := fun octant => if Int.land octant 2 == 0 then Dir_up else Dir_dn
    Dir_z := fun octant => if Int.land octant 4 == 0 then Dir_up else Dir_dn
    Dimensions_size_state := fun d nu => d.ncell_x * d.ncell_y * d.ncell_z * d.ne * d.nm * nu
    Dimensions_size_facexz := fun d nu n => d.ncell_x * d.ncell_z * d.ne * d.na * nu * n
    Dimensions_size_faceyz := fun d nu n => d.ncell_y * d.ncell_z * d.ne * d.na * nu * n
    Sweeper_is_face_comm_async := async
    IS_USING_OPENMP_THREADS := false
    IS_USING_OPENMP_VO_ATOMIC := false
    Step_Scheduler_ctor := fun _ _ _ => ⟨fun _ _ _ _ => ⟨false, 0, 0⟩, 0⟩ }

/-- Dimensions of a small block: 2 x 2 x 2 cells, one energy group, moment and angle. -/
def example_dims : Dimensions :=
  { ncell_x := 2, ncell_y := 2, ncell_z := 2, ne := 1, nm := 1, na := 1 }

/-- A sweeper with one octant per block over a given scheduler. -/
def example_sweeper (step_scheduler : Step_Scheduler) : Sweeper :=
  { nblock_z := 1, nthread_octant := 1, noctant_per_block := 1, nblock_octant := 8,
    nsemiblock := 1, nthread_e := 1, dims := example_dims, dims_b := example_dims,
    dims_g := { example_dims with ncell_x := 6 }, step_scheduler := step_scheduler }

/-- The environment of the process at `(px, 0)` of a 3 x 1 process grid, tag 100. -/
def example_env (px : Int) : Env :=
  { proc_x_this := px, proc_y_this := 0, tag := 100, proc := fun x y => x + 3 * y,
    cuda_is_using_device := false, nproc_x := 3, nproc_y := 1 }

/-- A scheduler of two steps on a 3 x 1 grid in which every process works on octant 0
(up along x and y) at both steps. -/
def octant0_scheduler : Step_Scheduler :=
  { step_info := fun step _ proc_x proc_y =>
      ⟨decide (0 ≤ step) && decide (step < 2) && decide (0 ≤ proc_x) && decide (proc_x < 3)
         && decide (proc_y = 0),
       0, 0⟩
    nstep := 2 }

/-- Arguments asking for two z-blocks and four semiblocks, thread counts left at their
defaults. -/
def example_args : Arguments :=
  { nblock_z := some 2, nthread_octant := none, nsemiblock := some 4, nthread_e := none }

/-- Global extents of the example problem. -/
def example_quan : Quantities := { nx_g := 6, ny_g := 2 }

/-- The sweeper `Sweeper_ctor` builds from `example_dims` with `--nblock_z 2
--nsemiblock 4`: two z-blocks of one layer each. -/
def example_sweeper_blocked : Sweeper :=
  { nblock_z := 2, nthread_octant := 1, noctant_per_block := 1, nblock_octant := 8,
    nsemiblock := 4, nthread_e := 1, dims := example_dims,
    dims_b := { example_dims with ncell_z := 1 },
    dims_g := { example_dims with ncell_x := 6, ncell_y := 2 },
    step_scheduler := (example_externals false).Step_Scheduler_ctor 2 8 (example_env 0) }

/-- The blocked sweeper with eight semiblocks: its blocks of 2 x 2 x 1 cells are split
along all three axes. -/
def example_sweeper_octets : Sweeper :=
  { example_sweeper_blocked with nsemiblock := 8 }

/-- Arrays over the integers with no faces: `vi` is 1 everywhere, `vo` and the scratch
are 0. -/
def example_state : Sweep_State Int Unit :=
  { vi := fun _ => 1, vo := fun _ => 0, v_local := fun _ => 0, faces := () }

/-- A solve that doubles the scratch and leaves the faces. -/
def example_solve : Quantities → (Int × Int → Int) → Unit → Int → Int → Int → Int →
    Int → Int → Int → Int → Int → Int → Dimensions → Dimensions → (Int × Int → Int) × Unit :=
  fun _ v_local faces _ _ _ _ _ _ _ _ _ _ _ _ => (fun t => 2 * v_local t, faces)

/-- A scheduler of two steps for a single process: the process at `(0, 0)` works on
octant 0 at both steps, and nothing is active elsewhere. -/
def single_scheduler : Step_Scheduler :=
  { step_info := fun step _ proc_x proc_y =>
      ⟨decide (0 ≤ step) && decide (step < 2) && decide (proc_x = 0) && decide (proc_y = 0),
       0, 0⟩
    nstep := 2 }

/-- The environment of the only process of a 1 x 1 process grid, tag 100. -/
def example_env_single : Env :=
  { proc_x_this := 0, proc_y_this := 0, tag := 100, proc := fun x y => x + y,
    cuda_is_using_device := false, nproc_x := 1, nproc_y := 1 }

/-! ## Auxiliary facts -/

theorem tmod_two_eq_zero_iff (p : Int) : Int.tmod p 2 = 0 ↔ p % 2 = 0 := by
  rw [← Int.dvd_iff_tmod_eq_zero, Int.dvd_iff_emod_eq_zero]

theorem tmod_two_succ (p : Int) : (Int.tmod (p + 1) 2 == 0) = !(Int.tmod p 2 == 0) := by
  have a := tmod_two_eq_zero_iff p
  have b := tmod_two_eq_zero_iff (p + 1)
  rw [Bool.eq_iff_iff]
  simp only [beq_iff_eq, Bool.not_eq_true', beq_eq_false_iff_ne, ne_eq]
  rw [a, b]; omega

theorem tmod_two_pred (p : Int) : (Int.tmod (p + -1) 2 == 0) = !(Int.tmod p 2 == 0) := by
  have a := tmod_two_eq_zero_iff p
  have b := tmod_two_eq_zero_iff (p + -1)
  rw [Bool.eq_iff_iff]
  simp only [beq_iff_eq, Bool.not_eq_true', beq_eq_false_iff_ne, ne_eq]
  rw [a, b]; omega

/-- The receive predicate of the neighbour at `p + Δ` is the send predicate at `p`. -/
theorem must_do_recv_neighbour (E : Externals) (sweeper : Sweeper)
    (s k : Int) (axis_is_x up : Bool) (env : Env) :
    Sweeper_must_do_recv__ E sweeper s (axis_index axis_is_x) (dir_index up) k
        (neighbour env axis_is_x up)
      = Sweeper_must_do_send__ E sweeper s (axis_index axis_is_x) (dir_index up) k env := by
  cases axis_is_x <;> cases up <;>
    simp [Sweeper_must_do_send__, Sweeper_must_do_recv__, neighbour, Env_at, Delta,
      dir_value, axis_index, dir_index, Dir_inc, Dir_up, Dir_dn]

/-- Closed form of the calls of one `(octant_in_block, axis, dir_ind)` iteration of the
red/black exchange. -/
theorem communicate_dir_eq (E : Externals) (sweeper : Sweeper) (s : Int) (env : Env)
    (k axis dir_ind : Int) :
    Sweeper_communicate_faces__dir E sweeper s env k axis dir_ind =
      if Int.tmod (proc_axis_of env axis) 2 == 0 then
        (if Sweeper_must_do_send__ E sweeper s axis dir_ind k env then
          [Op.Env_send_P (Loc.face (axis == 0) s k) (size_face_per_octant E sweeper axis)
            (proc_send_to env axis dir_ind) (env.tag + k)] else [])
        ++ (if Sweeper_must_do_recv__ E sweeper s axis dir_ind k env then
          [Op.Env_recv_P (Loc.face (axis == 0) s k) (size_face_per_octant E sweeper axis)
            (proc_recv_from env axis dir_ind) (env.tag + k)] else [])
      else
        (if Sweeper_must_do_recv__ E sweeper s axis dir_ind k env then
          [Op.copy_vector (Loc.buf (axis == 0)) (Loc.face (axis == 0) s k)
             (size_face_per_octant E sweeper axis),
           Op.Env_recv_P (Loc.face (axis == 0) s k) (size_face_per_octant E sweeper axis)
            (proc_recv_from env axis dir_ind) (env.tag + k)] else [])
        ++ (if Sweeper_must_do_send__ E sweeper s axis dir_ind k env then
          [Op.Env_send_P
            (if Sweeper_must_do_recv__ E sweeper s axis dir_ind k env
              then Loc.buf (axis == 0) else Loc.face (axis == 0) s k)
            (size_face_per_octant E sweeper axis)
            (proc_send_to env axis dir_ind) (env.tag + k)] else []) := by
  simp only [Sweeper_communicate_faces__dir, Sweeper_communicate_faces__color,
    proc_axis_of, size_face_per_octant, proc_send_to, proc_recv_from]
  by_cases hs : Sweeper_must_do_send__ E sweeper s axis dir_ind k env = true <;>
    by_cases hr : Sweeper_must_do_recv__ E sweeper s axis dir_ind k env = true <;>
    by_cases hp : Int.tmod (if axis = 0 then env.proc_x_this
        else env.proc_y_this) 2 = 0 <;>
    simp [hs, hr, hp]

/-- The red/black exchange sends one message when the send predicate holds, none
otherwise. -/
theorem sent_messages_communicate_dir (E : Externals) (sweeper : Sweeper) (s : Int)
    (env : Env) (k axis dir_ind : Int) :
    sent_messages env (Sweeper_communicate_faces__dir E sweeper s env k axis dir_ind) =
      if Sweeper_must_do_send__ E sweeper s axis dir_ind k env then
        [⟨size_face_per_octant E sweeper axis, env.tag + k,
          env.proc env.proc_x_this env.proc_y_this, proc_send_to env axis dir_ind⟩]
      else [] := by
  rw [communicate_dir_eq]
  by_cases hs : Sweeper_must_do_send__ E sweeper s axis dir_ind k env = true <;>
    by_cases hr : Sweeper_must_do_recv__ E sweeper s axis dir_ind k env = true <;>
    by_cases hp : Int.tmod (proc_axis_of env axis) 2 = 0 <;>
    simp [hs, hr, hp, sent_messages]

/-- The red/black exchange posts one receive when the receive predicate holds, none
otherwise. -/
theorem received_messages_communicate_dir (E : Externals) (sweeper : Sweeper) (s : Int)
    (env : Env) (k axis dir_ind : Int) :
    received_messages env (Sweeper_communicate_faces__dir E sweeper s env k axis dir_ind) =
      if Sweeper_must_do_recv__ E sweeper s axis dir_ind k env then
        [⟨size_face_per_octant E sweeper axis, env.tag + k,
          proc_recv_from env axis dir_ind, env.proc env.proc_x_this env.proc_y_this⟩]
      else [] := by
  rw [communicate_dir_eq]
  by_cases hs : Sweeper_must_do_send__ E sweeper s axis dir_ind k env = true <;>
    by_cases hr : Sweeper_must_do_recv__ E sweeper s axis dir_ind k env = true <;>
    by_cases hp : Int.tmod (proc_axis_of env axis) 2 = 0 <;>
    simp [hs, hr, hp, received_messages]

/-- The asynchronous send start issues one message when the send predicate holds. -/
theorem sent_messages_send_start_dir (E : Externals) (sweeper : Sweeper) (s : Int)
    (env : Env) (k axis dir_ind : Int) :
    sent_messages env (Sweeper_send_faces_start__dir E sweeper s env k axis dir_ind) =
      if Sweeper_must_do_send__ E sweeper s axis dir_ind k env then
        [⟨size_face_per_octant E sweeper axis, env.tag + k,
          env.proc env.proc_x_this env.proc_y_this, proc_send_to env axis dir_ind⟩]
      else [] := by
  by_cases hs : Sweeper_must_do_send__ E sweeper s axis dir_ind k env = true <;>
    simp [hs, sent_messages, Sweeper_send_faces_start__dir, size_face_per_octant,
      proc_send_to]

/-- The asynchronous receive start posts one receive when the receive predicate
holds. -/
theorem received_messages_recv_start_dir (E : Externals) (sweeper : Sweeper) (s : Int)
    (env : Env) (k axis dir_ind : Int) :
    received_messages env (Sweeper_recv_faces_start__dir E sweeper s env k axis dir_ind) =
      if Sweeper_must_do_recv__ E sweeper s axis dir_ind k env then
        [⟨size_face_per_octant E sweeper axis, env.tag + k,
          proc_recv_from env axis dir_ind, env.proc env.proc_x_this env.proc_y_this⟩]
      else [] := by
  by_cases hr : Sweeper_must_do_recv__ E sweeper s axis dir_ind k env = true <;>
    simp [hr, received_messages, Sweeper_recv_faces_start__dir, size_face_per_octant,
      proc_recv_from]

/-- Seen from the neighbour at `p + Δ`, the message comes from `p` and arrives at
`p + Δ`, under the same tag base. -/
theorem neighbour_endpoints (env : Env) (axis_is_x up : Bool) :
    proc_recv_from (neighbour env axis_is_x up) (axis_index axis_is_x) (dir_index up)
        = env.proc env.proc_x_this env.proc_y_this
    ∧ (neighbour env axis_is_x up).proc (neighbour env axis_is_x up).proc_x_this
          (neighbour env axis_is_x up).proc_y_this
        = proc_send_to env (axis_index axis_is_x) (dir_index up)
    ∧ (neighbour env axis_is_x up).tag = env.tag := by
  cases axis_is_x <;> cases up <;>
    simp [proc_recv_from, proc_send_to, neighbour, Env_at, Delta, dir_value, axis_index,
      dir_index, Dir_inc, Dir_up, Dir_dn]

theorem int_range_two : int_range 2 = [0, 1] := rfl

theorem mem_int_range (n k : Int) : k ∈ int_range n ↔ 0 ≤ k ∧ k < n := by
  unfold int_range
  simp only [List.mem_map, List.mem_range]
  constructor
  · rintro ⟨i, hi, rfl⟩
    show (0 : Int) ≤ (i : Int) ∧ (i : Int) < n
    omega
  · rintro ⟨h0, h1⟩
    refine ⟨k.toNat, ?_, ?_⟩
    · omega
    · simp [Int.toNat_of_nonneg h0]

theorem int_range_nodup (n : Int) : (int_range n).Nodup := by
  unfold int_range
  exact (List.nodup_range _).map (fun a b h => by simpa using h)

theorem slot_events_append (r : Request) (a b : List Op) :
    slot_events r (a ++ b) = slot_events r a ++ slot_events r b := by
  simp [slot_events]

theorem slot_events_flatMap {β : Type} (r : Request) (l : List β) (f : β → List Op) :
    slot_events r (l.flatMap f) = l.flatMap (fun x => slot_events r (f x)) := by
  induction l with
  | nil => rfl
  | cons x xs ih => simp [List.flatMap_cons, slot_events_append, ih]

theorem flatMap_ite_single {β : Type} (ks : List Int) (k0 : Int) (c : Prop) [Decidable c]
    (l : List β) :
    ks.Nodup →
    ks.flatMap (fun k => if k = k0 ∧ c then l else []) = if k0 ∈ ks ∧ c then l else [] := by
  induction ks with
  | nil => intro _; simp
  | cons k ks ih =>
    intro hnd
    have hnd2 := List.nodup_cons.mp hnd
    rw [List.flatMap_cons, ih hnd2.2]
    by_cases hk : k = k0
    · subst hk
      by_cases hc : c <;> simp [hc, hnd2.1]
    · have hk2 : ¬ k0 = k := fun h => hk h.symm
      by_cases hc : c <;> simp [hc, hk, hk2]

/-- The starts or waits on slot `r` in a triple loop over `octant_in_block`, axis and
direction whose body issues one call on the slot `⟨snd, axis == 0, k⟩` when `P` holds,
`P` holding for at most one direction. -/
theorem slot_events_loop (r : Request) (n : Int) (snd e : Bool)
    (P : Int → Int → Int → Bool) (op : Int → Int → Int → Op)
    (hev : ∀ k axis d, Op.event r (op k axis d)
            = if r = ⟨snd, axis == 0, k⟩ then some e else none)
    (hex : ∀ k axis, P k axis 0 = true → P k axis 1 = false) :
    slot_events r
        ((int_range n).flatMap fun k =>
          (int_range 2).flatMap fun axis =>
            (int_range 2).flatMap fun d => if P k axis d then [op k axis d] else [])
      = if (0 ≤ r.k ∧ r.k < n)
            ∧ (r.send = snd
                ∧ (P r.k (if r.xz then 0 else 1) 0 || P r.k (if r.xz then 0 else 1) 1) = true)
        then [e] else [] := by
  have hk : ∀ k, slot_events r
        ((int_range 2).flatMap fun axis =>
            (int_range 2).flatMap fun d => if P k axis d then [op k axis d] else [])
      = if k = r.k ∧ (r.send = snd
                ∧ (P r.k (if r.xz then 0 else 1) 0 || P r.k (if r.xz then 0 else 1) 1) = true)
        then [e] else [] := by
    intro k
    obtain ⟨rs, rx, rk⟩ := r
    have h00 := hev k 0 0
    have h01 := hev k 0 1
    have h10 := hev k 1 0
    have h11 := hev k 1 1
    have x0 := hex k 0
    have x1 := hex k 1
    by_cases hkk : k = rk
    · subst hkk
      cases rx <;> by_cases hs : rs = snd <;>
        cases p00 : P k 0 0 <;> cases p01 : P k 0 1 <;>
        cases p10 : P k 1 0 <;> cases p11 : P k 1 1 <;>
        simp_all [int_range_two, slot_events, List.flatMap]
    · have hkk2 : ¬ rk = k := fun h => hkk h.symm
      cases p00 : P k 0 0 <;> cases p01 : P k 0 1 <;>
        cases p10 : P k 1 0 <;> cases p11 : P k 1 1 <;>
        simp_all [int_range_two, slot_events, List.flatMap]
  rw [slot_events_flatMap]
  simp only [hk]
  have := flatMap_ite_single (β := Bool) (int_range n) r.k
    (r.send = snd
      ∧ (P r.k (if r.xz then 0 else 1) 0 || P r.k (if r.xz then 0 else 1) 1) = true) [e]
    (int_range_nodup n)
  rw [this]
  simp only [mem_int_range]

/-- The send predicate holds for at most one of the two directions. -/
theorem must_do_send_one_direction (E : Externals) (sweeper : Sweeper)
    (s axis k : Int) (env : Env) :
    Sweeper_must_do_send__ E sweeper s axis 0 k env = true →
      Sweeper_must_do_send__ E sweeper s axis 1 k env = false := by
  intro h
  cases h1 : Sweeper_must_do_send__ E sweeper s axis 1 k env
  · rfl
  · exfalso
    simp [Sweeper_must_do_send__, Dir_up, Dir_dn, Dir_inc] at h h1
    obtain ⟨⟨⟨_, ho⟩, _⟩, hd⟩ := h
    obtain ⟨⟨⟨_, ho1⟩, _⟩, hd1⟩ := h1
    rw [← ho] at hd
    rw [← ho1, hd] at hd1
    exact absurd hd1 (by decide)

/-- The receive predicate holds for at most one of the two directions. -/
theorem must_do_recv_one_direction (E : Externals) (sweeper : Sweeper)
    (s axis k : Int) (env : Env) :
    Sweeper_must_do_recv__ E sweeper s axis 0 k env = true →
      Sweeper_must_do_recv__ E sweeper s axis 1 k env = false := by
  intro h
  cases h1 : Sweeper_must_do_recv__ E sweeper s axis 1 k env
  · rfl
  · exfalso
    simp [Sweeper_must_do_recv__, Dir_up, Dir_dn, Dir_inc] at h h1
    obtain ⟨_, hd⟩ := h
    obtain ⟨_, hd1⟩ := h1
    rw [hd] at hd1
    exact absurd hd1 (by decide)

theorem slot_events_send_start (E : Externals) (sweeper : Sweeper) (s : Int) (env : Env)
    (r : Request) :
    slot_events r (Sweeper_send_faces_start__ E sweeper s env)
      = if starts_send E sweeper s env r then [true] else [] := by
  have h := slot_events_loop r sweeper.noctant_per_block true true
    (fun k axis d => Sweeper_must_do_send__ E sweeper s axis d k env)
    (fun k axis d => Op.Env_asend_P (Loc.face (axis == 0) s k)
      (if axis == 0 then size_faceyz_per_octant E sweeper else size_facexz_per_octant E sweeper)
      (env.proc
        (env.proc_x_this
          + (if axis == 0 then Dir_inc (if d == 0 then Dir_up else Dir_dn) else 0))
        (env.proc_y_this
          + (if axis == 1 then Dir_inc (if d == 0 then Dir_up else Dir_dn) else 0)))
      (env.tag + k) ⟨true, axis == 0, k⟩)
    (fun k axis d => rfl)
    (fun k axis => must_do_send_one_direction E sweeper s axis k env)
  simp only [starts_send, decide_eq_true_eq]
  exact h

theorem slot_events_recv_start (E : Externals) (sweeper : Sweeper) (s : Int) (env : Env)
    (r : Request) :
    slot_events r (Sweeper_recv_faces_start__ E sweeper s env)
      = if starts_recv E sweeper s env r then [true] else [] := by
  have h := slot_events_loop r sweeper.noctant_per_block false true
    (fun k axis d => Sweeper_must_do_recv__ E sweeper s axis d k env)
    (fun k axis d => Op.Env_arecv_P (Loc.face (axis == 0) (s + 1) k)
      (if axis == 0 then size_faceyz_per_octant E sweeper else size_facexz_per_octant E sweeper)
      (env.proc
        (env.proc_x_this
          - (if axis == 0 then Dir_inc (if d == 0 then Dir_up else Dir_dn) else 0))
        (env.proc_y_this
          - (if axis == 1 then Dir_inc (if d == 0 then Dir_up else Dir_dn) else 0)))
      (env.tag + k) ⟨false, axis == 0, k⟩)
    (fun k axis d => rfl)
    (fun k axis => must_do_recv_one_direction E sweeper s axis k env)
  simp only [starts_recv, decide_eq_true_eq]
  exact h

theorem filterMap_flatMap_eq {β γ δ : Type} (l : List β) (f : β → List γ)
    (g : γ → Option δ) :
    (l.flatMap f).filterMap g = l.flatMap (fun x => (f x).filterMap g) := by
  induction l with
  | nil => rfl
  | cons x xs ih => simp [List.flatMap_cons, ih]

/-- Every call of the five exchange functions is a face-exchange call of some
`octant_in_block` `k` of the loop, and carries the tag `env.tag + k` if it carries one. -/
theorem exchange_ops (E : Externals) (sweeper : Sweeper) (s : Int) (env : Env) (op : Op)
    (h : op ∈ Sweeper_communicate_faces__ E sweeper s env
          ∨ op ∈ Sweeper_send_faces_start__ E sweeper s env
          ∨ op ∈ Sweeper_send_faces_end__ E sweeper s env
          ∨ op ∈ Sweeper_recv_faces_start__ E sweeper s env
          ∨ op ∈ Sweeper_recv_faces_end__ E sweeper s env) :
    ∃ k, (0 ≤ k ∧ k < sweeper.noctant_per_block) ∧ op.is_comm = true
      ∧ ∀ tag, op.tag? = some tag → tag = env.tag + k := by
  rcases h with h | h | h | h | h
  · simp only [Sweeper_communicate_faces__, List.mem_flatMap, mem_int_range] at h
    obtain ⟨k, hk, axis, _, d, _, hop⟩ := h
    refine ⟨k, hk, ?_⟩
    rw [communicate_dir_eq] at hop
    by_cases hs : Sweeper_must_do_send__ E sweeper s axis d k env = true <;>
      by_cases hr : Sweeper_must_do_recv__ E sweeper s axis d k env = true <;>
      by_cases hp : Int.tmod (proc_axis_of env axis) 2 = 0 <;>
      simp [hs, hr, hp] at hop
    all_goals (rcases hop with rfl | rfl | rfl <;> simp [Op.is_comm, Op.tag?])
  · simp only [Sweeper_send_faces_start__, List.mem_flatMap, mem_int_range] at h
    obtain ⟨k, hk, axis, _, d, _, hop⟩ := h
    refine ⟨k, hk, ?_⟩
    by_cases hs : Sweeper_must_do_send__ E sweeper s axis d k env = true <;>
      simp [Sweeper_send_faces_start__dir, hs] at hop
    subst hop
    simp [Op.is_comm, Op.tag?]
  · simp only [Sweeper_send_faces_end__, List.mem_flatMap, mem_int_range] at h
    obtain ⟨k, hk, axis, _, d, _, hop⟩ := h
    refine ⟨k, hk, ?_⟩
    by_cases hs : Sweeper_must_do_send__ E sweeper s axis d k env = true <;>
      simp [Sweeper_send_faces_end__dir, hs] at hop
    subst hop
    simp [Op.is_comm, Op.tag?]
  · simp only [Sweeper_recv_faces_start__, List.mem_flatMap, mem_int_range] at h
    obtain ⟨k, hk, axis, _, d, _, hop⟩ := h
    refine ⟨k, hk, ?_⟩
    by_cases hs : Sweeper_must_do_recv__ E sweeper s axis d k env = true <;>
      simp [Sweeper_recv_faces_start__dir, hs] at hop
    subst hop
    simp [Op.is_comm, Op.tag?]
  · simp only [Sweeper_recv_faces_end__, List.mem_flatMap, mem_int_range] at h
    obtain ⟨k, hk, axis, _, d, _, hop⟩ := h
    refine ⟨k, hk, ?_⟩
    by_cases hs : Sweeper_must_do_recv__ E sweeper s axis d k env = true <;>
      simp [Sweeper_recv_faces_end__dir, hs] at hop
    subst hop
    simp [Op.is_comm, Op.tag?]

theorem filter_flatMap_eq {β γ : Type} (l : List β) (f : β → List γ) (q : γ → Bool) :
    (l.flatMap f).filter q = l.flatMap (fun x => (f x).filter q) := by
  induction l with
  | nil => rfl
  | cons x xs ih => simp [List.flatMap_cons, ih]

theorem is_comm_not_mirror (op : Op) (h : op.is_comm = true) :
    (!op.is_mirror) = true ∧ op.block_step = none := by
  cases op <;> simp_all [Op.is_comm, Op.is_mirror, Op.block_step]

/-- The calls of one step other than the mirroring calls. -/
theorem sweep_step_filter (E : Externals) (sweeper : Sweeper) (env : Env) (s : Int) :
    (Sweeper_sweep_step E sweeper env s).filter (fun op => !op.is_mirror)
      = (if E.Sweeper_is_face_comm_async then
          Sweeper_recv_faces_end__ E sweeper (s - 1) env
          ++ Sweeper_recv_faces_start__ E sweeper s env
          ++ [Op.Sweeper_sweep_block s]
          ++ Sweeper_send_faces_end__ E sweeper (s - 1) env
          ++ Sweeper_send_faces_start__ E sweeper s env
        else
          [Op.Sweeper_sweep_block s]
          ++ Sweeper_communicate_faces__ E sweeper s env) := by
  have keep : ∀ (t : Int) (l : List Op),
      (∀ op ∈ l, op ∈ Sweeper_communicate_faces__ E sweeper t env
          ∨ op ∈ Sweeper_send_faces_start__ E sweeper t env
          ∨ op ∈ Sweeper_send_faces_end__ E sweeper t env
          ∨ op ∈ Sweeper_recv_faces_start__ E sweeper t env
          ∨ op ∈ Sweeper_recv_faces_end__ E sweeper t env) →
      l.filter (fun op => !op.is_mirror) = l := by
    intro t l hl
    rw [List.filter_eq_self]
    intro op hop
    obtain ⟨_, _, hc, _⟩ := exchange_ops E sweeper t env op (hl op hop)
    exact (is_comm_not_mirror op hc).1
  have drop : ∀ (l : List (Int × Bool)) (f : Int → List Op),
      (∀ b op, op ∈ f b → op.is_mirror = true) →
      (l.flatMap fun bd => if bd.2 then f bd.1 else []).filter (fun op => !op.is_mirror)
        = [] := by
    intro l f hf
    rw [List.filter_eq_nil_iff]
    intro op hop
    simp only [List.mem_flatMap] at hop
    obtain ⟨bd, _, hop⟩ := hop
    by_cases hb : bd.2 = true
    · rw [if_pos hb] at hop; simp [hf _ _ hop]
    · rw [if_neg hb] at hop; simp at hop
  have d1 := drop
    ([s, (sweeper.nblock_z - 1) - s].zip
      [decide (s < Int.tdiv sweeper.nblock_z 2),
       decide ((sweeper.nblock_z - 1) - s ≥ Int.tdiv sweeper.nblock_z 2)])
    (fun b => [Op.Pointer_update_d
          (Mirror.vi_b (b * size_state_block E sweeper) (size_state_block E sweeper)),
        Op.Pointer_update_d
          (Mirror.vo_b (b * size_state_block E sweeper) (size_state_block E sweeper))])
    (by
      intro b op hop
      simp only [List.mem_cons, List.mem_singleton, List.not_mem_nil, or_false] at hop
      rcases hop with rfl | rfl <;> rfl)
  have d2 := drop
    ([(sweeper.nblock_z - 1) - (sweeper.step_scheduler.nstep - 1 - s),
      (sweeper.step_scheduler.nstep - 1 - s)].zip
      [decide ((sweeper.nblock_z - 1) - (sweeper.step_scheduler.nstep - 1 - s)
          ≥ Int.tdiv sweeper.nblock_z 2),
       decide ((sweeper.step_scheduler.nstep - 1 - s) < Int.tdiv sweeper.nblock_z 2)])
    (fun b => [Op.Pointer_update_h
          (Mirror.vo_b (b * size_state_block E sweeper) (size_state_block E sweeper))])
    (by
      intro b op hop
      simp only [List.mem_cons, List.mem_singleton, List.not_mem_nil, or_false] at hop
      rcases hop with rfl
      rfl)
  have k1 := keep (s - 1) (Sweeper_recv_faces_end__ E sweeper (s - 1) env)
    (fun op h => Or.inr (Or.inr (Or.inr (Or.inr h))))
  have k2 := keep s (Sweeper_recv_faces_start__ E sweeper s env)
    (fun op h => Or.inr (Or.inr (Or.inr (Or.inl h))))
  have k3 := keep (s - 1) (Sweeper_send_faces_end__ E sweeper (s - 1) env)
    (fun op h => Or.inr (Or.inr (Or.inl h)))
  have k4 := keep s (Sweeper_send_faces_start__ E sweeper s env)
    (fun op h => Or.inr (Or.inl h))
  have k5 := keep s (Sweeper_communicate_faces__ E sweeper s env)
    (fun op h => Or.inl h)
  have m1 : [Op.Pointer_update_d (Mirror.facexy s), Op.Pointer_update_d (Mirror.facexz s),
      Op.Pointer_update_d (Mirror.faceyz s)].filter (fun op => !op.is_mirror) = [] := rfl
  have m2 : [Op.Pointer_update_h (Mirror.facexy s), Op.Pointer_update_h (Mirror.facexz s),
      Op.Pointer_update_h (Mirror.faceyz s)].filter (fun op => !op.is_mirror) = [] := rfl
  have b1 : [Op.Sweeper_sweep_block s].filter (fun op => !op.is_mirror)
      = [Op.Sweeper_sweep_block s] := rfl
  unfold Sweeper_sweep_step
  simp only [List.filter_append]
  rw [d1, d2, m1, m2, b1]
  cases hasync : E.Sweeper_is_face_comm_async
  · simp only [Bool.false_eq_true, if_false, k5, List.filter_nil, List.nil_append,
      List.append_nil]
  · simp only [if_true, k1, k2, k3, k4, List.filter_append, List.nil_append,
      List.append_nil, List.append_assoc]

theorem block_step_filter_mirror (l : List Op) :
    (l.filter (fun op => !op.is_mirror)).filterMap Op.block_step
      = l.filterMap Op.block_step := by
  induction l with
  | nil => rfl
  | cons op ops ih =>
    rw [List.filter_cons]
    cases hm : op.is_mirror
    · simp only [Bool.not_false, if_true, List.filterMap_cons, ih]
    · have hb : op.block_step = none := by
        cases op <;> simp_all [Op.is_mirror, Op.block_step]
      simp only [Bool.not_true, Bool.false_eq_true, if_false, List.filterMap_cons, ih, hb]

/-- The block sweep of one step's calls is the block sweep of that step. -/
theorem sweep_step_block (E : Externals) (sweeper : Sweeper) (env : Env) (s : Int) :
    (Sweeper_sweep_step E sweeper env s).filterMap Op.block_step = [s] := by
  have none_of : ∀ (t : Int) (l : List Op),
      (∀ op ∈ l, op ∈ Sweeper_communicate_faces__ E sweeper t env
          ∨ op ∈ Sweeper_send_faces_start__ E sweeper t env
          ∨ op ∈ Sweeper_send_faces_end__ E sweeper t env
          ∨ op ∈ Sweeper_recv_faces_start__ E sweeper t env
          ∨ op ∈ Sweeper_recv_faces_end__ E sweeper t env) →
      l.filterMap Op.block_step = [] := by
    intro t l hl
    rw [List.filterMap_eq_nil_iff]
    intro op hop
    obtain ⟨_, _, hc, _⟩ := exchange_ops E sweeper t env op (hl op hop)
    exact (is_comm_not_mirror op hc).2
  have k1 := none_of (s - 1) (Sweeper_recv_faces_end__ E sweeper (s - 1) env)
    (fun op h => Or.inr (Or.inr (Or.inr (Or.inr h))))
  have k2 := none_of s (Sweeper_recv_faces_start__ E sweeper s env)
    (fun op h => Or.inr (Or.inr (Or.inr (Or.inl h))))
  have k3 := none_of (s - 1) (Sweeper_send_faces_end__ E sweeper (s - 1) env)
    (fun op h => Or.inr (Or.inr (Or.inl h)))
  have k4 := none_of s (Sweeper_send_faces_start__ E sweeper s env)
    (fun op h => Or.inr (Or.inl h))
  have k5 := none_of s (Sweeper_communicate_faces__ E sweeper s env)
    (fun op h => Or.inl h)
  have b1 : [Op.Sweeper_sweep_block s].filterMap Op.block_step = [s] := rfl
  rw [← block_step_filter_mirror, sweep_step_filter]
  cases hasync : E.Sweeper_is_face_comm_async
  · simp only [Bool.false_eq_true, if_false, List.filterMap_append, k5, b1, List.append_nil]
  · simp only [if_true, List.filterMap_append, k1, k2, k3, k4, b1, List.nil_append,
      List.append_nil]

theorem flatMap_singleton_self (l : List Int) : (l.flatMap fun x => [x]) = l := by
  induction l with
  | nil => rfl
  | cons x xs ih => simp [List.flatMap_cons, ih]

/-- A call of one step of the sweep carries no tag or is a call of one of the exchange
functions. -/
theorem sweep_step_ops (E : Externals) (sweeper : Sweeper) (env : Env) (s : Int) (op : Op)
    (h : op ∈ Sweeper_sweep_step E sweeper env s) :
    op.tag? = none
    ∨ ∃ t, op ∈ Sweeper_communicate_faces__ E sweeper t env
          ∨ op ∈ Sweeper_send_faces_start__ E sweeper t env
          ∨ op ∈ Sweeper_send_faces_end__ E sweeper t env
          ∨ op ∈ Sweeper_recv_faces_start__ E sweeper t env
          ∨ op ∈ Sweeper_recv_faces_end__ E sweeper t env := by
  have hmid : ∀ (l : List (Int × Bool)) (f : Int → List Op),
      (∀ b o, o ∈ f b → o.tag? = none) →
      op ∈ (l.flatMap fun bd => if bd.2 then f bd.1 else []) → op.tag? = none := by
    intro l f hf hop
    simp only [List.mem_flatMap] at hop
    obtain ⟨bd, _, hop⟩ := hop
    by_cases hb : bd.2 = true
    · rw [if_pos hb] at hop; exact hf _ _ hop
    · rw [if_neg hb] at hop; simp at hop
  unfold Sweeper_sweep_step at h
  simp only [List.mem_append] at h
  rcases h with (((((h | h) | h) | h) | h) | h) | h
  · cases hasync : E.Sweeper_is_face_comm_async
    · simp [hasync] at h
    · simp only [hasync, if_true, List.mem_append] at h
      rcases h with h | h
      · exact Or.inr ⟨s - 1, Or.inr (Or.inr (Or.inr (Or.inr h)))⟩
      · exact Or.inr ⟨s, Or.inr (Or.inr (Or.inr (Or.inl h)))⟩
  · left
    refine hmid _ (fun b => [Op.Pointer_update_d
          (Mirror.vi_b (b * size_state_block E sweeper) (size_state_block E sweeper)),
        Op.Pointer_update_d
          (Mirror.vo_b (b * size_state_block E sweeper) (size_state_block E sweeper))])
      ?_ h
    intro b o ho
    simp only [List.mem_cons, List.mem_singleton, List.not_mem_nil, or_false] at ho
    rcases ho with rfl | rfl <;> rfl
  · left
    simp only [List.mem_cons, List.mem_singleton, List.not_mem_nil, or_false] at h
    rcases h with rfl | rfl | rfl <;> rfl
  · left
    simp only [List.mem_cons, List.mem_singleton, List.not_mem_nil, or_false] at h
    subst h
    rfl
  · left
    refine hmid _ (fun b => [Op.Pointer_update_h
          (Mirror.vo_b (b * size_state_block E sweeper) (size_state_block E sweeper))])
      ?_ h
    intro b o ho
    simp only [List.mem_cons, List.mem_singleton, List.not_mem_nil, or_false] at ho
    subst ho
    rfl
  · left
    simp only [List.mem_cons, List.mem_singleton, List.not_mem_nil, or_false] at h
    rcases h with rfl | rfl | rfl <;> rfl
  · cases hasync : E.Sweeper_is_face_comm_async
    · simp only [hasync, Bool.false_eq_true, if_false] at h
      exact Or.inr ⟨s, Or.inl h⟩
    · simp only [hasync, if_true, List.mem_append] at h
      rcases h with h | h
      · exact Or.inr ⟨s - 1, Or.inr (Or.inr (Or.inl h))⟩
      · exact Or.inr ⟨s, Or.inr (Or.inl h)⟩

/-- Every tag used in a sweep is `env.tag + k` for an `octant_in_block` `k` of the
loop. -/
theorem sweep_op_tag (E : Externals) (sweeper : Sweeper) (env : Env) (op : Op)
    (h : op ∈ (Sweeper_sweep E sweeper env).1) (tag : Int) (ht : op.tag? = some tag) :
    ∃ k, (0 ≤ k ∧ k < sweeper.noctant_per_block) ∧ tag = env.tag + k := by
  simp only [Sweeper_sweep, List.mem_append, List.mem_flatMap, List.mem_singleton] at h
  rcases h with (h | ⟨s, _, h⟩) | h
  · subst h; simp [Op.tag?] at ht
  · rcases sweep_step_ops E sweeper env s op h with h0 | ⟨t, h1⟩
    · rw [h0] at ht; simp at ht
    · obtain ⟨k, hk, _, htag⟩ := exchange_ops E sweeper t env op h1
      exact ⟨k, hk, htag tag ht⟩
  · subst h; simp [Op.tag?] at ht

theorem Insist_bind {α : Type} (c : Bool) (msg : String) (f : Unit → Except String α) :
    (Insist c msg >>= f) = if c then f () else Except.error msg := by
  cases c <;> rfl

theorem ite_error_eq_ok {α : Type} (c : Prop) [Decidable c] (x : Except String α)
    (msg : String) (v : α) :
    (if c then x else Except.error msg) = Except.ok v ↔ c ∧ x = Except.ok v := by
  by_cases h : c <;> simp [h]

/-- The power-of-two test between 1 and 8 holds exactly for 1, 2, 4 and 8. -/
theorem is_pow2_upto_NOCTANT_iff (n : Int) :
    is_pow2_upto_NOCTANT n = true ↔ n = 1 ∨ n = 2 ∨ n = 4 ∨ n = 8 := by
  constructor
  · intro h
    simp only [is_pow2_upto_NOCTANT, NOCTANT, Bool.and_eq_true, decide_eq_true_eq,
      beq_iff_eq] at h
    obtain ⟨⟨h0, h8⟩, hl⟩ := h
    interval_cases n <;> simp_all <;> revert hl <;> decide
  · rintro (rfl | rfl | rfl | rfl) <;> decide

/-- `Sweeper_ctor` succeeds exactly when all its checks pass, and then returns the
fields computed from the arguments. -/
theorem Sweeper_ctor_ok_iff (E : Externals) (dims : Dimensions) (quan : Quantities)
    (env : Env) (args : Arguments) (sw : Sweeper) :
    Sweeper_ctor E dims quan env args = Except.ok sw ↔
      (dims.ncell_x > 0 ∧ dims.ncell_y > 0 ∧ dims.ncell_z > 0
        ∧ args.nblock_z.getD 1 > 0 ∧ Int.tmod dims.ncell_z (args.nblock_z.getD 1) = 0
        ∧ is_pow2_upto_NOCTANT (args.nthread_octant.getD 1) = true
        ∧ (args.nthread_octant.getD 1 = 1 ∨ E.IS_USING_OPENMP_THREADS = true
            ∨ env.cuda_is_using_device = true)
        ∧ is_pow2_upto_NOCTANT (args.nsemiblock.getD (args.nthread_octant.getD 1)) = true
        ∧ (args.nsemiblock.getD (args.nthread_octant.getD 1) ≥ args.nthread_octant.getD 1
            ∨ E.IS_USING_OPENMP_VO_ATOMIC = true)
        ∧ args.nthread_e.getD 1 > 0
        ∧ (args.nthread_e.getD 1 = 1 ∨ E.IS_USING_OPENMP_THREADS = true
            ∨ env.cuda_is_using_device = true))
      ∧ sw = { nblock_z := args.nblock_z.getD 1
               nthread_octant := args.nthread_octant.getD 1
               noctant_per_block := args.nthread_octant.getD 1
               nblock_octant := Int.tdiv NOCTANT (args.nthread_octant.getD 1)
               nsemiblock := args.nsemiblock.getD (args.nthread_octant.getD 1)
               nthread_e := args.nthread_e.getD 1
               dims := dims
               dims_b := { dims with ncell_z := Int.tdiv dims.ncell_z (args.nblock_z.getD 1) }
               dims_g := { dims with ncell_x := quan.nx_g, ncell_y := quan.ny_g }
               step_scheduler := E.Step_Scheduler_ctor (args.nblock_z.getD 1)
                 (Int.tdiv NOCTANT (args.nthread_octant.getD 1)) env } := by
  simp only [Sweeper_ctor, Insist_bind, ite_error_eq_ok, pure, Except.pure,
    decide_eq_true_eq, beq_iff_eq, Bool.or_eq_true, and_assoc, or_assoc]
  constructor
  · rintro ⟨h1, h2, h3, h4, h5, h6, h7, h8, h9, h10, h11, h12⟩
    exact ⟨h1, h2, h3, h4, h5, h6, h7, h8, h9, h10, h11, (Except.ok.inj h12).symm⟩
  · rintro ⟨h1, h2, h3, h4, h5, h6, h7, h8, h9, h10, h11, h12⟩
    exact ⟨h1, h2, h3, h4, h5, h6, h7, h8, h9, h10, h11, by rw [h12]⟩

/-- One digit of a mixed-radix index: with `0 <= a < A` and `0 <= r < R`, the value
`a + A * r` lies in `[0, A * R)`. -/
theorem radix_bound (a A r R : Int) (ha : 0 ≤ a) (haA : a < A) (hr : 0 ≤ r) (hrR : r < R) :
    0 ≤ a + A * r ∧ a + A * r < A * R := by
  have hA : 0 < A := by omega
  constructor
  · have := Int.mul_nonneg (le_of_lt hA) hr
    omega
  · have h1 : A * (r + 1) ≤ A * R := Int.mul_le_mul_of_nonneg_left (by omega) (le_of_lt hA)
    have h2 : A * (r + 1) = A * r + A := by ring
    omega

/-- For a semiblock index in `0..7` and an axis in `0..2`, the mask test of the block
driver reads the bit of the index. -/
theorem land_mask_eq_zero_iff (semiblock : Int) (a : Nat) (h0 : 0 ≤ semiblock)
    (h8 : semiblock < 8) (ha : a < 3) :
    (Int.land semiblock (2 ^ a) == 0) = !bit_of semiblock a := by
  interval_cases a <;> interval_cases semiblock <;> decide

/-- The bounds of the block driver along one axis are the range of the spec. -/
theorem bounds_eq_spec (nsemiblock semiblock : Int) (a : Nat) (dir n : Int)
    (ha : a < 3) (hs : 0 ≤ semiblock ∧ semiblock < 8) (hdir : is_dir dir) (hn : 0 ≤ n) :
    (imin_b nsemiblock semiblock a dir n, imax_b nsemiblock semiblock a dir n)
        = semiblock_range_spec nsemiblock semiblock a dir n := by
  have hdivn : Int.tdiv n 2 = n / 2 := Int.tdiv_eq_ediv hn (by decide)
  have hmask := land_mask_eq_zero_iff semiblock a hs.1 hs.2 ha
  simp only [imin_b, imax_b, has_lo, has_hi, is_semiblock_lo, is_semiblocked,
    semiblock_range_spec, hmask, hdivn]
  by_cases hsplit : nsemiblock > 2 ^ a <;>
    rcases hdir with rfl | rfl <;>
    cases bit_of semiblock a <;>
    simp [hsplit, Dir_up, Dir_dn]

/-- Along a split axis, a coordinate of the block lies in the bounds of semiblock `s`
exactly when bit `a` of `s` is `(dir == DN) XOR (the coordinate is in the high half)`. -/
theorem axis_in_range_iff (nsemiblock semiblock : Int) (a : Nat) (dir n i : Int)
    (ha : a < 3) (hs : 0 ≤ semiblock ∧ semiblock < 8) (hdir : is_dir dir)
    (hi : 0 ≤ i ∧ i < n) (hsplit : nsemiblock > 2 ^ a) :
    (imin_b nsemiblock semiblock a dir n ≤ i ∧ i ≤ imax_b nsemiblock semiblock a dir n)
      ↔ bit_of semiblock a = xor (decide (dir = Dir_dn)) (decide (n / 2 ≤ i)) := by
  have h := bounds_eq_spec nsemiblock semiblock a dir n ha hs hdir (by omega)
  rw [Prod.mk.injEq] at h
  rw [h.1, h.2]
  simp only [semiblock_range_spec, if_pos hsplit]
  rcases hdir with rfl | rfl <;>
    cases bit_of semiblock a <;>
    by_cases hhalf : n / 2 ≤ i <;>
    simp [Dir_up, Dir_dn, hhalf] <;> omega

/-- Along an axis that is not split, the bounds are the whole extent of the block. -/
theorem axis_in_range_unsplit (nsemiblock semiblock : Int) (a : Nat) (dir n i : Int)
    (hsplit : ¬ nsemiblock > 2 ^ a) :
    (imin_b nsemiblock semiblock a dir n ≤ i ∧ i ≤ imax_b nsemiblock semiblock a dir n)
      ↔ (0 ≤ i ∧ i < n) := by
  simp only [imin_b, imax_b, has_lo, has_hi, is_semiblocked, hsplit, decide_False,
    Bool.not_false, Bool.or_true, if_true, Bool.not_true, Bool.false_eq_true, if_false]
  omega

/-- The bounds of a semiblock along an axis stay inside the block. -/
theorem axis_in_range_sub (nsemiblock semiblock : Int) (a : Nat) (dir n i : Int)
    (hn : 0 ≤ n)
    (h : imin_b nsemiblock semiblock a dir n ≤ i
          ∧ i ≤ imax_b nsemiblock semiblock a dir n) :
    0 ≤ i ∧ i < n := by
  have hdivn : Int.tdiv n 2 = n / 2 := Int.tdiv_eq_ediv hn (by decide)
  simp only [imin_b, imax_b, hdivn] at h
  split at h <;> split at h <;> omega

theorem two_pow_gt_iff (m a : Nat) (hm : m ≤ 3) (ha : a < 3) :
    ((2 : Int) ^ m > 2 ^ a) ↔ a < m := by
  interval_cases m <;> interval_cases a <;> decide

/-- Every choice of bits below `m` is the bit pattern of a semiblock index below
`2^m`. -/
theorem exists_semiblock_bits (m : Nat) (hm : m ≤ 3) (w0 w1 w2 : Bool) :
    ∃ s : Int, (0 ≤ s ∧ s < 2 ^ m)
      ∧ (0 < m → bit_of s 0 = w0) ∧ (1 < m → bit_of s 1 = w1) ∧ (2 < m → bit_of s 2 = w2) := by
  interval_cases m
  · exact ⟨0, by decide, fun h => absurd h (by decide), fun h => absurd h (by decide),
      fun h => absurd h (by decide)⟩
  · cases w0
    · exact ⟨0, by decide, by decide, fun h => absurd h (by decide),
        fun h => absurd h (by decide)⟩
    · exact ⟨1, by decide, by decide, fun h => absurd h (by decide),
        fun h => absurd h (by decide)⟩
  · cases w0 <;> cases w1
    · exact ⟨0, by decide, by decide, by decide, fun h => absurd h (by decide)⟩
    · exact ⟨2, by decide, by decide, by decide, fun h => absurd h (by decide)⟩
    · exact ⟨1, by decide, by decide, by decide, fun h => absurd h (by decide)⟩
    · exact ⟨3, by decide, by decide, by decide, fun h => absurd h (by decide)⟩
  · cases w0 <;> cases w1 <;> cases w2
    · exact ⟨0, by decide, by decide, by decide, by decide⟩
    · exact ⟨4, by decide, by decide, by decide, by decide⟩
    · exact ⟨2, by decide, by decide, by decide, by decide⟩
    · exact ⟨6, by decide, by decide, by decide, by decide⟩
    · exact ⟨1, by decide, by decide, by decide, by decide⟩
    · exact ⟨5, by decide, by decide, by decide, by decide⟩
    · exact ⟨3, by decide, by decide, by decide, by decide⟩
    · exact ⟨7, by decide, by decide, by decide, by decide⟩

/-- A semiblock index below `2^m` is determined by its bits below `m`. -/
theorem semiblock_bits_unique (m : Nat) (hm : m ≤ 3) (s1 s2 : Int)
    (h1 : 0 ≤ s1 ∧ s1 < 2 ^ m) (h2 : 0 ≤ s2 ∧ s2 < 2 ^ m)
    (b0 : 0 < m → bit_of s1 0 = bit_of s2 0) (b1 : 1 < m → bit_of s1 1 = bit_of s2 1)
    (b2 : 2 < m → bit_of s1 2 = bit_of s2 2) : s1 = s2 := by
  obtain ⟨h1a, h1b⟩ := h1
  obtain ⟨h2a, h2b⟩ := h2
  interval_cases m
  · simp at h1b h2b; omega
  · interval_cases s1 <;> interval_cases s2 <;> simp_all [bit_of]
  · interval_cases s1 <;> interval_cases s2 <;> simp_all [bit_of]
  · interval_cases s1 <;> interval_cases s2 <;> simp_all [bit_of]

/-- Membership of a block coordinate in the bounds of semiblock `s` along axis `a`, for
`2^m` semiblocks: no condition when the axis is not split, the bit condition when it
is. -/
theorem axis_member (m a : Nat) (hm : m ≤ 3) (ha : a < 3) (s dir n i : Int)
    (hs : 0 ≤ s ∧ s < 2 ^ m) (hdir : is_dir dir) (hi : 0 ≤ i ∧ i < n) :
    (imin_b (2 ^ m) s a dir n ≤ i ∧ i ≤ imax_b (2 ^ m) s a dir n)
      ↔ (a < m → bit_of s a = xor (decide (dir = Dir_dn)) (decide (n / 2 ≤ i))) := by
  have hs8 : s < 8 := by
    have : (2 : Int) ^ m ≤ 8 := by interval_cases m <;> decide
    omega
  by_cases hsplit : a < m
  · rw [axis_in_range_iff (2 ^ m) s a dir n i ha ⟨hs.1, hs8⟩ hdir hi
      ((two_pow_gt_iff m a hm ha).mpr hsplit)]
    simp [hsplit]
  · rw [axis_in_range_unsplit (2 ^ m) s a dir n i
      (fun h => hsplit ((two_pow_gt_iff m a hm ha).mp h))]
    simp [hsplit, hi.1, hi.2]

/-- The allowed semiblock counts are the powers of two `2^m`, `m <= 3`. -/
theorem semiblock_count_pow (nsemiblock : Int)
    (h : nsemiblock = 1 ∨ nsemiblock = 2 ∨ nsemiblock = 4 ∨ nsemiblock = 8) :
    ∃ m : Nat, m ≤ 3 ∧ nsemiblock = 2 ^ m := by
  rcases h with rfl | rfl | rfl | rfl
  · exact ⟨0, by decide, by decide⟩
  · exact ⟨1, by decide, by decide⟩
  · exact ⟨2, by decide, by decide⟩
  · exact ⟨3, by decide, by decide⟩

/-- The regions of the semiblocks lie inside the block. -/
theorem in_semiblock_in_block (nsemiblock s dir_x dir_y dir_z nx ny nz : Int)
    (hnx : 0 ≤ nx) (hny : 0 ≤ ny) (hnz : 0 ≤ nz) (cell : Int × Int × Int)
    (h : in_semiblock nsemiblock s dir_x dir_y dir_z nx ny nz cell) :
    in_block nx ny nz cell :=
  ⟨axis_in_range_sub nsemiblock s 0 dir_x nx cell.1 hnx h.1,
   axis_in_range_sub nsemiblock s 1 dir_y ny cell.2.1 hny h.2.1,
   axis_in_range_sub nsemiblock s 2 dir_z nz cell.2.2 hnz h.2.2⟩

/-- Every cell of the block lies in the region of some semiblock. -/
theorem semiblocks_cover (nsemiblock dir_x dir_y dir_z nx ny nz : Int)
    (hns : nsemiblock = 1 ∨ nsemiblock = 2 ∨ nsemiblock = 4 ∨ nsemiblock = 8)
    (hdx : is_dir dir_x) (hdy : is_dir dir_y) (hdz : is_dir dir_z)
    (cell : Int × Int × Int) (hc : in_block nx ny nz cell) :
    ∃ s, (0 ≤ s ∧ s < nsemiblock)
      ∧ in_semiblock nsemiblock s dir_x dir_y dir_z nx ny nz cell := by
  obtain ⟨m, hm, rfl⟩ := semiblock_count_pow nsemiblock hns
  obtain ⟨s, hs, b0, b1, b2⟩ := exists_semiblock_bits m hm
    (xor (decide (dir_x = Dir_dn)) (decide (nx / 2 ≤ cell.1)))
    (xor (decide (dir_y = Dir_dn)) (decide (ny / 2 ≤ cell.2.1)))
    (xor (decide (dir_z = Dir_dn)) (decide (nz / 2 ≤ cell.2.2)))
  exact ⟨s, hs,
    (axis_member m 0 hm (by decide) s dir_x nx cell.1 hs hdx hc.1).mpr b0,
    (axis_member m 1 hm (by decide) s dir_y ny cell.2.1 hs hdy hc.2.1).mpr b1,
    (axis_member m 2 hm (by decide) s dir_z nz cell.2.2 hs hdz hc.2.2).mpr b2⟩

/-- A cell lies in the region of at most one semiblock. -/
theorem semiblocks_disjoint (nsemiblock dir_x dir_y dir_z nx ny nz : Int)
    (hns : nsemiblock = 1 ∨ nsemiblock = 2 ∨ nsemiblock = 4 ∨ nsemiblock = 8)
    (hdx : is_dir dir_x) (hdy : is_dir dir_y) (hdz : is_dir dir_z)
    (hnx : 0 ≤ nx) (hny : 0 ≤ ny) (hnz : 0 ≤ nz)
    (cell : Int × Int × Int) (s1 s2 : Int)
    (h1 : 0 ≤ s1 ∧ s1 < nsemiblock) (h2 : 0 ≤ s2 ∧ s2 < nsemiblock)
    (c1 : in_semiblock nsemiblock s1 dir_x dir_y dir_z nx ny nz cell)
    (c2 : in_semiblock nsemiblock s2 dir_x dir_y dir_z nx ny nz cell) : s1 = s2 := by
  have hc := in_semiblock_in_block nsemiblock s1 dir_x dir_y dir_z nx ny nz hnx hny hnz cell c1
  obtain ⟨m, hm, rfl⟩ := semiblock_count_pow nsemiblock hns
  refine semiblock_bits_unique m hm s1 s2 h1 h2 ?_ ?_ ?_
  · intro h
    rw [(axis_member m 0 hm (by decide) s1 dir_x nx cell.1 h1 hdx hc.1).mp c1.1 h,
      (axis_member m 0 hm (by decide) s2 dir_x nx cell.1 h2 hdx hc.1).mp c2.1 h]
  · intro h
    rw [(axis_member m 1 hm (by decide) s1 dir_y ny cell.2.1 h1 hdy hc.2.1).mp c1.2.1 h,
      (axis_member m 1 hm (by decide) s2 dir_y ny cell.2.1 h2 hdy hc.2.1).mp c2.2.1 h]
  · intro h
    rw [(axis_member m 2 hm (by decide) s1 dir_z nz cell.2.2 h1 hdz hc.2.2).mp c1.2.2 h,
      (axis_member m 2 hm (by decide) s2 dir_z nz cell.2.2 h2 hdz hc.2.2).mp c2.2.2 h]

/-- Along a split axis the bounds computed for the two directions have no coordinate
in common. -/
theorem axis_dirs_disjoint (m a : Nat) (hm : m ≤ 3) (ha : a < 3) (hsplit : a < m)
    (s d1 d2 n i : Int) (hs : 0 ≤ s ∧ s < 2 ^ m) (hd1 : is_dir d1) (hd2 : is_dir d2)
    (hne : d1 ≠ d2) (hn : 0 ≤ n)
    (h1 : imin_b (2 ^ m) s a d1 n ≤ i ∧ i ≤ imax_b (2 ^ m) s a d1 n)
    (h2 : imin_b (2 ^ m) s a d2 n ≤ i ∧ i ≤ imax_b (2 ^ m) s a d2 n) : False := by
  have hi := axis_in_range_sub (2 ^ m) s a d1 n i hn h1
  have e1 := (axis_member m a hm ha s d1 n i hs hd1 hi).mp h1 hsplit
  have e2 := (axis_member m a hm ha s d2 n i hs hd2 hi).mp h2 hsplit
  rw [e1] at e2
  rcases hd1 with rfl | rfl <;> rcases hd2 with rfl | rfl
  · exact hne rfl
  · revert e2; cases decide (n / 2 ≤ i) <;> simp [Dir_up, Dir_dn]
  · revert e2; cases decide (n / 2 ≤ i) <;> simp [Dir_up, Dir_dn]
  · exact hne rfl

/-- The inequality loop runs over `i, i+inc, ..` when the stop value is `len` increments
away and the fuel exceeds `len`. -/
theorem for_ne_eq {σ : Type} (len : Nat) : ∀ (fuel : Nat) (i stop inc : Int)
    (body : Int → σ → Option σ) (st : σ), inc ≠ 0 → stop = i + inc * (len : Int) → len < fuel →
    for_ne fuel i stop inc body st
      = ((List.range len).map (fun k : Nat => i + inc * (k : Int))).foldlM
          (fun st i => body i st) st := by
  induction len with
  | zero =>
    intro fuel i stop inc body st _ hstop hfuel
    cases fuel with
    | zero => omega
    | succ f => simp [for_ne, hstop]
  | succ n ih =>
    intro fuel i stop inc body st hinc hstop hfuel
    cases fuel with
    | zero => omega
    | succ f =>
      have hne : i ≠ stop := by
        intro h
        have : inc * ((n : Int) + 1) = 0 := by push_cast at hstop; omega
        rcases mul_eq_zero.mp this with h0 | h0
        · exact hinc h0
        · omega
      rw [for_ne, List.range_succ_eq_map]
      simp only [bne_iff_ne, ne_eq, hne, not_false_eq_true, if_true, List.map_cons,
        List.map_map, List.foldlM_cons, Nat.cast_zero, mul_zero, add_zero]
      cases hb : body i st with
      | none => rfl
      | some st1 =>
        simp only [Option.bind_eq_bind, Option.some_bind]
        rw [ih f (i + inc) stop inc body st1 hinc
          (by push_cast at hstop; rw [hstop]; ring) (by omega)]
        congr 2
        funext k
        simp only [Function.comp, Nat.succ_eq_add_one, Nat.cast_add, Nat.cast_one]
        ring

/-- A loop whose body appends to an accumulator appends the bodies in order. -/
theorem foldlM_append {α β : Type} (f : α → List β) :
    ∀ (l : List α) (body : α → List β → Option (List β)) (acc : List β),
    (∀ i ∈ l, ∀ acc, body i acc = some (acc ++ f i)) →
    l.foldlM (fun st i => body i st) acc = some (acc ++ l.flatMap f) := by
  intro l
  induction l with
  | nil => intro body acc _; simp
  | cons a l ih =>
    intro body acc h
    rw [List.foldlM_cons, h a (List.mem_cons_self a l) acc]
    simp only [Option.bind_eq_bind, Option.some_bind]
    rw [ih body (acc ++ f a) (fun i hi => h i (List.mem_cons_of_mem a hi))]
    simp [List.flatMap_cons, List.append_assoc]

/-- A directed loop of the semiblock sweep over `[imin, imax]`, with a body that
appends, appends the bodies in the order of the direction. -/
theorem for_ne_axis {β : Type} (fuel : Nat) (dir imin imax : Int) (f : Int → List β)
    (body : Int → List β → Option (List β)) (acc : List β)
    (hdir : is_dir dir) (hlen : imin ≤ imax + 1) (hfuel : (imax + 1 - imin).toNat < fuel)
    (hbody : ∀ i acc, body i acc = some (acc ++ f i)) :
    for_ne fuel (if dir = Dir_up then imin else imax)
        ((if dir = Dir_dn then imin else imax) + Dir_inc dir) (Dir_inc dir) body acc
      = some (acc ++ (axis_order dir imin imax).flatMap f) := by
  have hl : (((imax + 1 - imin).toNat : Nat) : Int) = imax + 1 - imin :=
    Int.toNat_of_nonneg (by omega)
  rcases hdir with rfl | rfl
  · rw [for_ne_eq (imax + 1 - imin).toNat fuel _ _ _ body acc (by decide)
      (by simp only [Dir_up, Dir_dn, Dir_inc]; rw [hl]; norm_num; try omega) hfuel]
    rw [foldlM_append f _ body acc (fun i _ acc => hbody i acc)]
    simp [axis_order, Dir_up, Dir_inc]
  · rw [for_ne_eq (imax + 1 - imin).toNat fuel _ _ _ body acc (by decide)
      (by simp only [Dir_up, Dir_dn, Dir_inc]; rw [hl]; norm_num; try omega) hfuel]
    rw [foldlM_append f _ body acc (fun i _ acc => hbody i acc)]
    simp [axis_order, Dir_up, Dir_dn, Dir_inc, sub_eq_add_neg]

theorem axis_bounds_len (nsemiblock semiblock : Int) (a : Nat) (dir n : Int) (hn : 0 ≤ n) :
    imin_b nsemiblock semiblock a dir n ≤ imax_b nsemiblock semiblock a dir n + 1
      ∧ imax_b nsemiblock semiblock a dir n + 1 - imin_b nsemiblock semiblock a dir n ≤ n := by
  unfold imin_b imax_b has_lo has_hi
  have h2 : 0 ≤ Int.tdiv n 2 ∧ Int.tdiv n 2 ≤ n := by
    rw [Int.tdiv_eq_ediv hn (by decide)]; omega
  cases is_semiblock_lo semiblock a dir <;> cases is_semiblocked nsemiblock a <;> simp <;> omega

/-- With enough fuel the loop nest of the semiblock sweep, with a body that records one
entry per cell and energy group, records the cells of every energy group of the thread
in the order of the octant: iz outermost, ix innermost. -/
theorem sweep_semiblock_events {β : Type} (fuel : Nat) (E : Externals) (sweeper : Sweeper)
    (thread_e octant ixmin ixmax iymin iymax izmin izmax : Int)
    (ev : Int → Int → Int → Int → β) (acc : List β)
    (hdx : is_dir (E.Dir_x octant)) (hdy : is_dir (E.Dir_y octant))
    (hdz : is_dir (E.Dir_z octant))
    (hx : ixmin ≤ ixmax + 1) (hy : iymin ≤ iymax + 1) (hz : izmin ≤ izmax + 1)
    (fx : (ixmax + 1 - ixmin).toNat < fuel) (fy : (iymax + 1 - iymin).toNat < fuel)
    (fz : (izmax + 1 - izmin).toNat < fuel) :
    Sweeper_sweep_semiblock_loops fuel E sweeper thread_e octant
        ixmin ixmax iymin iymax izmin izmax
        (fun ix iy iz ie acc => some (acc ++ [ev ix iy iz ie])) acc
      = some (acc ++ (int_range_from (ie_min sweeper thread_e) (ie_max sweeper thread_e)).flatMap
          fun ie => (axis_order (E.Dir_z octant) izmin izmax).flatMap
          fun iz => (axis_order (E.Dir_y octant) iymin iymax).flatMap
          fun iy => (axis_order (E.Dir_x octant) ixmin ixmax).flatMap
          fun ix => [ev ix iy iz ie]) := by
  unfold Sweeper_sweep_semiblock_loops for_lt
  simp only []
  apply foldlM_append
  intro ie _ acc
  apply for_ne_axis fuel _ izmin izmax _ _ acc hdz hz fz
  intro iz acc
  apply for_ne_axis fuel _ iymin iymax _ _ acc hdy hy fy
  intro iy acc
  apply for_ne_axis fuel _ ixmin ixmax _ _ acc hdx hx fx
  intro ix acc
  rfl

theorem foldl_flatMap_eq {α β σ : Type} (f : α → List β) (g : σ → β → σ) :
    ∀ (l : List α) (st : σ),
    (l.flatMap f).foldl g st = l.foldl (fun st a => (f a).foldl g st) st := by
  intro l
  induction l with
  | nil => intro st; rfl
  | cons a l ih => intro st; rw [List.flatMap_cons, List.foldl_append, ih]; rfl

theorem nodup_flatMap_of_disjoint {α β : Type} (l : List α) (f : α → List β)
    (hl : l.Nodup) (hf : ∀ a ∈ l, (f a).Nodup)
    (hd : ∀ a ∈ l, ∀ b ∈ l, ∀ x, x ∈ f a → x ∈ f b → a = b) : (l.flatMap f).Nodup := by
  rw [List.nodup_flatMap]
  refine ⟨hf, hl.pairwise_of_forall_ne ?_⟩
  intro a ha b hb hne x hxa hxb
  exact hne (hd a ha b hb x hxa hxb)

/-- An entry of an earlier element comes before an entry of a later element. -/
theorem pair_sublist_flatMap {α β : Type} (f : α → List β) (x y : α) (a b : β) :
    ∀ l : List α, [x, y].Sublist l → a ∈ f x → b ∈ f y → [a, b].Sublist (l.flatMap f) := by
  intro l
  induction l with
  | nil => intro h; cases h
  | cons c l ih =>
    intro h ha hb
    rw [List.flatMap_cons]
    cases h with
    | cons _ h => exact (ih h ha hb).trans (List.sublist_append_right _ _)
    | cons₂ _ h =>
      have h1 : [a].Sublist (f x) := List.singleton_sublist.mpr ha
      have h2 : [b].Sublist (l.flatMap f) :=
        List.singleton_sublist.mpr (List.mem_flatMap.mpr ⟨y, List.singleton_sublist.mp h, hb⟩)
      exact h1.append h2

theorem pair_sublist_map_range {α : Type} (f : Nat → α) (i j : Nat) (hij : i < j) :
    ∀ n : Nat, j < n → [f i, f j].Sublist ((List.range n).map f) := by
  intro n
  induction n with
  | zero => intro h; omega
  | succ n ih =>
    intro h
    rw [List.range_succ, List.map_append]
    by_cases hj : j = n
    · subst hj
      have h1 : [f i].Sublist ((List.range j).map f) :=
        List.singleton_sublist.mpr (List.mem_map.mpr ⟨i, List.mem_range.mpr hij, rfl⟩)
      exact h1.append (List.Sublist.refl _)
    · exact (ih (by omega)).trans (List.sublist_append_left _ _)

theorem mem_int_range_from (lo hi k : Int) : k ∈ int_range_from lo hi ↔ lo ≤ k ∧ k < hi := by
  unfold int_range_from
  simp only [List.mem_map, List.mem_range]
  constructor
  · rintro ⟨i, hi1, rfl⟩
    omega
  · rintro ⟨h1, h2⟩
    exact ⟨(k - lo).toNat, by omega, by omega⟩

theorem int_range_from_nodup (lo hi : Int) : (int_range_from lo hi).Nodup := by
  unfold int_range_from
  exact (List.nodup_range _).map (fun a b h => by have h1 : lo + (a : Int) = lo + (b : Int) := h; omega)

theorem pair_sublist_int_range (n i j : Int) (hi : 0 ≤ i) (hij : i < j) (hj : j < n) :
    [i, j].Sublist (int_range n) := by
  have h := pair_sublist_map_range Int.ofNat i.toNat j.toNat (by omega) n.toNat (by omega)
  have e1 : Int.ofNat i.toNat = i := by simp only [Int.ofNat_eq_coe]; omega
  have e2 : Int.ofNat j.toNat = j := by simp only [Int.ofNat_eq_coe]; omega
  rw [e1, e2] at h
  exact h

theorem mem_axis_order (dir imin imax i : Int) :
    i ∈ axis_order dir imin imax ↔ imin ≤ i ∧ i ≤ imax := by
  unfold axis_order
  simp only [List.mem_map, List.mem_range]
  constructor
  · rintro ⟨k, hk, rfl⟩
    split_ifs <;> omega
  · rintro ⟨h1, h2⟩
    by_cases hd : dir = Dir_up
    · exact ⟨(i - imin).toNat, by omega, by rw [if_pos hd]; omega⟩
    · exact ⟨(imax - i).toNat, by omega, by rw [if_neg hd]; omega⟩

theorem axis_order_nodup (dir imin imax : Int) : (axis_order dir imin imax).Nodup := by
  unfold axis_order
  refine (List.nodup_range _).map (fun a b h => ?_)
  have h1 : (if dir = Dir_up then imin + (a : Int) else imax - (a : Int))
      = (if dir = Dir_up then imin + (b : Int) else imax - (b : Int)) := h
  split_ifs at h1 <;> omega

/-- In the order of direction `dir` the index `i - dir` comes before `i`. -/
theorem axis_order_upstream (dir imin imax i : Int) (hdir : is_dir dir)
    (h1 : imin ≤ i - dir ∧ i - dir ≤ imax) (h2 : imin ≤ i ∧ i ≤ imax) :
    [i - dir, i].Sublist (axis_order dir imin imax) := by
  unfold axis_order
  rcases hdir with rfl | rfl
  · have h := pair_sublist_map_range
      (fun k : Nat => if Dir_up = Dir_up then imin + (k : Int) else imax - (k : Int))
      (i - 1 - imin).toNat (i - imin).toNat (by simp only [Dir_up] at h1; omega)
      (imax + 1 - imin).toNat (by omega)
    simp only [if_true] at h
    have e1 : imin + ((i - 1 - imin).toNat : Int) = i - Dir_up := by
      simp only [Dir_up] at h1 ⊢; omega
    have e2 : imin + ((i - imin).toNat : Int) = i := by omega
    rw [e1, e2] at h
    simpa using h
  · have hne : ¬ (Dir_dn = Dir_up) := by decide
    have h := pair_sublist_map_range
      (fun k : Nat => if Dir_dn = Dir_up then imin + (k : Int) else imax - (k : Int))
      (imax - (i + 1)).toNat (imax - i).toNat (by simp only [Dir_dn] at h1; omega)
      (imax + 1 - imin).toNat (by omega)
    simp only [if_neg hne] at h
    have e1 : imax - ((imax - (i + 1)).toNat : Int) = i - Dir_dn := by
      simp only [Dir_dn] at h1 ⊢; omega
    have e2 : imax - ((imax - i).toNat : Int) = i := by omega
    rw [e1, e2] at h
    simpa [hne] using h

/-- The loop nest of the xy boundary initialiser is a fold over its index tuples. -/
theorem set_boundary_xy_loops_eq {σ : Type} (sweeper : Sweeper)
    (thread_e ixmin_b ixmax_b iymin_b iymax_b : Int)
    (body : Int → Int → Int → Int → Int → σ → σ) (st : σ) :
    Sweeper_set_boundary_xy_loops sweeper thread_e ixmin_b ixmax_b iymin_b iymax_b body st
      = (xy_slots sweeper thread_e ixmin_b ixmax_b iymin_b iymax_b).foldl
          (fun st t => body t.1 t.2.1 t.2.2.1 t.2.2.2.1 t.2.2.2.2 st) st := by
  unfold Sweeper_set_boundary_xy_loops xy_slots
  simp only [foldl_flatMap_eq, List.foldl_map]

theorem foldl_append_singleton {α β : Type} (ev : α → β) :
    ∀ (l : List α) (acc : List β),
    l.foldl (fun acc t => acc ++ [ev t]) acc = acc ++ l.map ev := by
  intro l
  induction l with
  | nil => intro acc; simp
  | cons a l ih => intro acc; rw [List.foldl_cons, ih]; simp

theorem mem_xy_slots (sweeper : Sweeper) (thread_e ixmin_b ixmax_b iymin_b iymax_b : Int)
    (ix iy ie ia iu : Int) :
    (ix, iy, ie, ia, iu) ∈ xy_slots sweeper thread_e ixmin_b ixmax_b iymin_b iymax_b
      ↔ (ixmin_b ≤ ix ∧ ix ≤ ixmax_b) ∧ (iymin_b ≤ iy ∧ iy ≤ iymax_b)
        ∧ (ie_min sweeper thread_e ≤ ie ∧ ie < ie_max sweeper thread_e)
        ∧ (0 ≤ ia ∧ ia < sweeper.dims_b.na) ∧ (0 ≤ iu ∧ iu < NU) := by
  unfold xy_slots
  simp only [List.mem_flatMap, List.mem_map, mem_int_range_from, mem_int_range, Prod.mk.injEq]
  constructor
  · rintro ⟨ie1, he, iu1, hu, iy1, hy, ix1, hx, ia1, ha, rfl, rfl, rfl, rfl, rfl⟩
    exact ⟨⟨hx.1, by omega⟩, ⟨hy.1, by omega⟩, he, ha, hu⟩
  · rintro ⟨hx, hy, he, ha, hu⟩
    exact ⟨ie, he, iu, hu, iy, ⟨hy.1, by omega⟩, ix, ⟨hx.1, by omega⟩, ia, ha,
      rfl, rfl, rfl, rfl, rfl⟩

theorem xy_slots_nodup (sweeper : Sweeper) (thread_e ixmin_b ixmax_b iymin_b iymax_b : Int) :
    (xy_slots sweeper thread_e ixmin_b ixmax_b iymin_b iymax_b).Nodup := by
  unfold xy_slots
  refine nodup_flatMap_of_disjoint _ _ (int_range_from_nodup _ _) (fun ie _ => ?_) ?_
  · refine nodup_flatMap_of_disjoint _ _ (int_range_nodup _) (fun iu _ => ?_) ?_
    · refine nodup_flatMap_of_disjoint _ _ (int_range_from_nodup _ _) (fun iy _ => ?_) ?_
      · refine nodup_flatMap_of_disjoint _ _ (int_range_from_nodup _ _) (fun ix _ => ?_) ?_
        · exact (int_range_nodup _).map (fun a b h => by
            simp only [Prod.mk.injEq] at h; exact h.2.2.2.1)
        · intro a _ b _ x hxa hxb
          simp only [List.mem_map] at hxa hxb
          obtain ⟨_, _, rfl⟩ := hxa
          obtain ⟨_, _, h⟩ := hxb
          simp only [Prod.mk.injEq] at h
          exact h.1.symm
      · intro a _ b _ x hxa hxb
        simp only [List.mem_flatMap, List.mem_map] at hxa hxb
        obtain ⟨_, _, _, _, rfl⟩ := hxa
        obtain ⟨_, _, _, _, h⟩ := hxb
        simp only [Prod.mk.injEq] at h
        exact h.2.1.symm
    · intro a _ b _ x hxa hxb
      simp only [List.mem_flatMap, List.mem_map] at hxa hxb
      obtain ⟨_, _, _, _, _, _, rfl⟩ := hxa
      obtain ⟨_, _, _, _, _, _, h⟩ := hxb
      simp only [Prod.mk.injEq] at h
      exact h.2.2.2.2.symm
  · intro a _ b _ x hxa hxb
    simp only [List.mem_flatMap, List.mem_map] at hxa hxb
    obtain ⟨_, _, _, _, _, _, _, _, rfl⟩ := hxa
    obtain ⟨_, _, _, _, _, _, _, _, h⟩ := hxb
    simp only [Prod.mk.injEq] at h
    exact h.2.2.1.symm

/-- A fold of assignments whose value is a function of the key leaves that value at the
keys assigned and the old value elsewhere. -/
theorem foldl_update_apply {τ κ P : Type} [DecidableEq κ] (key : τ → κ) (V : κ → P) :
    ∀ (l : List τ) (f : κ → P) (x : κ),
    (x ∈ l.map key → (l.foldl (fun f t => Function.update f (key t) (V (key t))) f) x = V x)
    ∧ (x ∉ l.map key → (l.foldl (fun f t => Function.update f (key t) (V (key t))) f) x = f x) := by
  intro l
  induction l with
  | nil => intro f x; simp
  | cons a l ih =>
    intro f x
    rw [List.foldl_cons]
    by_cases hx : x ∈ l.map key
    · refine ⟨fun _ => (ih _ x).1 hx, fun h => ?_⟩
      exact absurd (by rw [List.map_cons]; exact List.mem_cons_of_mem _ hx) h
    · by_cases hxa : x = key a
      · refine ⟨fun _ => ?_, fun h => ?_⟩
        · rw [(ih _ x).2 hx, hxa, Function.update_same]
        · exact absurd (by rw [List.map_cons, hxa]; exact List.mem_cons_self _ _) h
      · refine ⟨fun h => ?_, fun _ => ?_⟩
        · rw [List.map_cons, List.mem_cons] at h
          rcases h with h | h
          · exact absurd h hxa
          · exact absurd h hx
        · rw [(ih _ x).2 hx, Function.update_noteq hxa]

theorem block_events_append (fuel : Nat) (E : Externals) (sweeper : Sweeper) (thread_e : Int) :
    ∀ (l1 l2 : List Block_Op) (a b : List Cell_Event),
    block_events fuel E sweeper thread_e l1 = some a →
    block_events fuel E sweeper thread_e l2 = some b →
    block_events fuel E sweeper thread_e (l1 ++ l2) = some (a ++ b) := by
  intro l1
  induction l1 with
  | nil =>
    intro l2 a b h1 h2
    simp only [block_events, Option.some.injEq] at h1
    subst h1
    simpa using h2
  | cons op l1 ih =>
    intro l2 a b h1 h2
    rw [List.cons_append, block_events]
    rw [block_events] at h1
    cases ho : Block_Op.events fuel E sweeper thread_e op with
    | none => rw [ho] at h1; simp at h1
    | some x =>
      rw [ho] at h1
      cases hl : block_events fuel E sweeper thread_e l1 with
      | none => rw [hl] at h1; simp at h1
      | some y =>
        rw [hl] at h1
        simp only [Option.some_bind, Option.map_some', Option.some.injEq] at h1
        subst h1
        rw [ih l2 y b hl h2]
        simp

theorem block_events_flatMap {α : Type} (fuel : Nat) (E : Externals) (sweeper : Sweeper)
    (thread_e : Int) (g : α → List Block_Op) (h : α → List Cell_Event) :
    ∀ l : List α, (∀ s ∈ l, block_events fuel E sweeper thread_e (g s) = some (h s)) →
    block_events fuel E sweeper thread_e (l.flatMap g) = some (l.flatMap h) := by
  intro l
  induction l with
  | nil => intro _; rfl
  | cons a l ih =>
    intro hs
    rw [List.flatMap_cons, List.flatMap_cons]
    exact block_events_append fuel E sweeper thread_e _ _ _ _
      (hs a (List.mem_cons_self a l)) (ih (fun s hs1 => hs s (List.mem_cons_of_mem a hs1)))

/-- Events of the calls made for one semiblock and one active octant. -/
theorem octant_body_events (fuel : Nat) (E : Externals) (sweeper : Sweeper) (thread_e : Int)
    (proc_x_min proc_x_max proc_y_min proc_y_max : Bool) (semiblock k : Int)
    (step_info : Step_Info) (hact : step_info.is_active = true)
    (hdx : is_dir (E.Dir_x step_info.octant)) (hdy : is_dir (E.Dir_y step_info.octant))
    (hdz : is_dir (E.Dir_z step_info.octant))
    (hnx : 0 ≤ sweeper.dims_b.ncell_x) (hny : 0 ≤ sweeper.dims_b.ncell_y)
    (hnz : 0 ≤ sweeper.dims_b.ncell_z)
    (fx : sweeper.dims_b.ncell_x < fuel) (fy : sweeper.dims_b.ncell_y < fuel)
    (fz : sweeper.dims_b.ncell_z < fuel) :
    block_events fuel E sweeper thread_e
        (Sweeper_sweep_block_impl_octant E sweeper proc_x_min proc_x_max proc_y_min proc_y_max
          semiblock k step_info)
      = some (semiblock_events E sweeper thread_e semiblock k step_info) := by
  have bx := axis_bounds_len sweeper.nsemiblock semiblock 0 (E.Dir_x step_info.octant)
    sweeper.dims_b.ncell_x hnx
  have by1 := axis_bounds_len sweeper.nsemiblock semiblock 1 (E.Dir_y step_info.octant)
    sweeper.dims_b.ncell_y hny
  have bz := axis_bounds_len sweeper.nsemiblock semiblock 2 (E.Dir_z step_info.octant)
    sweeper.dims_b.ncell_z hnz
  unfold Sweeper_sweep_block_impl_octant semiblock_events
  rw [if_pos hact]
  simp only []
  refine block_events_append fuel E sweeper thread_e _ _ _ _ ?_ ?_
  · have e : ∀ l : List Cell_Event, l = l ++ [] ++ [] := by intro l; simp
    rw [e (if sets_boundary_xy E sweeper semiblock step_info = true then _ else _)]
    refine block_events_append fuel E sweeper thread_e _ _ _ _
      (block_events_append fuel E sweeper thread_e _ _ _ _ ?_ ?_) ?_
    · unfold sets_boundary_xy
      split_ifs
      · simp only [block_events, Block_Op.events, set_boundary_xy_loops_eq,
          foldl_append_singleton, Option.some_bind, Option.map_some', List.nil_append,
          List.append_nil]
      · rfl
    · split_ifs <;> rfl
    · split_ifs <;> rfl
  · simp only [block_events, Block_Op.events]
    rw [sweep_semiblock_events fuel E sweeper thread_e step_info.octant _ _ _ _ _ _ _ []
      hdx hdy hdz bx.1 by1.1 bz.1 (by omega) (by omega) (by omega)]
    simp

theorem mem_semiblock_events_sweep (E : Externals) (sweeper : Sweeper)
    (thread_e semiblock k : Int) (step_info : Step_Info) (ix iy iz ie k1 : Int) :
    Cell_Event.sweep ix iy iz ie k1 ∈ semiblock_events E sweeper thread_e semiblock k step_info
      ↔ k1 = k ∧ (ie_min sweeper thread_e ≤ ie ∧ ie < ie_max sweeper thread_e)
        ∧ in_semiblock sweeper.nsemiblock semiblock (E.Dir_x step_info.octant)
            (E.Dir_y step_info.octant) (E.Dir_z step_info.octant) sweeper.dims_b.ncell_x
            sweeper.dims_b.ncell_y sweeper.dims_b.ncell_z (ix, iy, iz) := by
  unfold semiblock_events in_semiblock
  simp only [List.mem_append, List.mem_flatMap, mem_axis_order, mem_int_range_from,
    List.mem_singleton, Cell_Event.sweep.injEq]
  constructor
  · rintro (h | ⟨ie1, he, iz1, hz, iy1, hy, ix1, hx, rfl, rfl, rfl, rfl, rfl⟩)
    · split_ifs at h
      · simp at h
      · simp at h
    · exact ⟨rfl, he, hx, hy, hz⟩
  · rintro ⟨rfl, he, hx, hy, hz⟩
    exact Or.inr ⟨ie, he, iz, hz, iy, hy, ix, hx, rfl, rfl, rfl, rfl, rfl⟩

theorem mem_semiblock_events_init (E : Externals) (sweeper : Sweeper)
    (thread_e semiblock k : Int) (step_info : Step_Info) (ix iy ie ia iu k1 : Int) :
    Cell_Event.init_xy ix iy ie ia iu k1
        ∈ semiblock_events E sweeper thread_e semiblock k step_info
      ↔ sets_boundary_xy E sweeper semiblock step_info = true ∧ k1 = k
        ∧ (ix, iy, ie, ia, iu) ∈ xy_slots sweeper thread_e
            (imin_b sweeper.nsemiblock semiblock 0 (E.Dir_x step_info.octant)
              sweeper.dims_b.ncell_x)
            (imax_b sweeper.nsemiblock semiblock 0 (E.Dir_x step_info.octant)
              sweeper.dims_b.ncell_x)
            (imin_b sweeper.nsemiblock semiblock 1 (E.Dir_y step_info.octant)
              sweeper.dims_b.ncell_y)
            (imax_b sweeper.nsemiblock semiblock 1 (E.Dir_y step_info.octant)
              sweeper.dims_b.ncell_y) := by
  unfold semiblock_events
  simp only [List.mem_append, List.mem_flatMap, List.mem_singleton]
  constructor
  · rintro (h | ⟨_, _, _, _, _, _, _, _, h⟩)
    · split_ifs at h with hc
      · simp only [List.mem_map, Cell_Event.init_xy.injEq, Prod.exists] at h
        obtain ⟨a, b, c, d, e, hm, rfl, rfl, rfl, rfl, rfl, rfl⟩ := h
        exact ⟨hc, rfl, hm⟩
      · simp at h
    · cases h
  · rintro ⟨hc, rfl, hm⟩
    refine Or.inl ?_
    rw [if_pos hc]
    exact List.mem_map.mpr ⟨(ix, iy, ie, ia, iu), hm, rfl⟩

theorem semiblock_events_nodup (E : Externals) (sweeper : Sweeper)
    (thread_e semiblock k : Int) (step_info : Step_Info) :
    (semiblock_events E sweeper thread_e semiblock k step_info).Nodup := by
  unfold semiblock_events
  simp only []
  rw [List.nodup_append]
  refine ⟨?_, ?_, ?_⟩
  · split_ifs
    · refine (xy_slots_nodup _ _ _ _ _ _).map (fun a b h => ?_)
      simp only [Cell_Event.init_xy.injEq] at h
      obtain ⟨h1, h2, h3, h4, h5, _⟩ := h
      exact Prod.ext h1 (Prod.ext h2 (Prod.ext h3 (Prod.ext h4 h5)))
    · exact List.nodup_nil
  · refine nodup_flatMap_of_disjoint _ _ (int_range_from_nodup _ _) (fun ie _ => ?_) ?_
    · refine nodup_flatMap_of_disjoint _ _ (axis_order_nodup _ _ _) (fun iz _ => ?_) ?_
      · refine nodup_flatMap_of_disjoint _ _ (axis_order_nodup _ _ _) (fun iy _ => ?_) ?_
        · refine nodup_flatMap_of_disjoint _ _ (axis_order_nodup _ _ _) (fun ix _ => ?_) ?_
          · exact List.nodup_singleton _
          · intro a _ b _ x hxa hxb
            simp only [List.mem_singleton] at hxa hxb
            rw [hxa] at hxb
            simp only [Cell_Event.sweep.injEq] at hxb
            exact hxb.1
        · intro a _ b _ x hxa hxb
          simp only [List.mem_flatMap, List.mem_singleton] at hxa hxb
          obtain ⟨_, _, rfl⟩ := hxa
          obtain ⟨_, _, h⟩ := hxb
          simp only [Cell_Event.sweep.injEq] at h
          exact h.2.1
      · intro a _ b _ x hxa hxb
        simp only [List.mem_flatMap, List.mem_singleton] at hxa hxb
        obtain ⟨_, _, _, _, rfl⟩ := hxa
        obtain ⟨_, _, _, _, h⟩ := hxb
        simp only [Cell_Event.sweep.injEq] at h
        exact h.2.2.1
    · intro a _ b _ x hxa hxb
      simp only [List.mem_flatMap, List.mem_singleton] at hxa hxb
      obtain ⟨_, _, _, _, _, _, rfl⟩ := hxa
      obtain ⟨_, _, _, _, _, _, h⟩ := hxb
      simp only [Cell_Event.sweep.injEq] at h
      exact h.2.2.2.1
  · intro x hx1 hx2
    split_ifs at hx1
    · simp only [List.mem_map] at hx1
      obtain ⟨_, _, rfl⟩ := hx1
      simp only [List.mem_flatMap, List.mem_singleton] at hx2
      obtain ⟨_, _, _, _, _, _, _, _, h⟩ := hx2
      cases h
    · simp at hx1

theorem sublist_flatMap_of_mem {α β : Type} (f : α → List β) (x : α) :
    ∀ l : List α, x ∈ l → (f x).Sublist (l.flatMap f) := by
  intro l
  induction l with
  | nil => intro h; cases h
  | cons c l ih =>
    intro h
    rw [List.flatMap_cons]
    rcases List.mem_cons.mp h with rfl | h
    · exact List.sublist_append_left _ _
    · exact (ih h).trans (List.sublist_append_right _ _)

/-- In the loop over `0 .. n-1`, an entry of step `s1` comes before an entry of a later
step `s2`, and entries of one step keep their order. -/
theorem pair_sublist_steps {β : Type} (f : Int → List β) (n s1 s2 : Int) (a b : β)
    (h1 : 0 ≤ s1) (h12 : s1 ≤ s2) (h2 : s2 < n) (ha : a ∈ f s1) (hb : b ∈ f s2)
    (hsame : s1 = s2 → [a, b].Sublist (f s2)) :
    [a, b].Sublist ((int_range n).flatMap f) := by
  by_cases he : s1 = s2
  · exact (hsame he).trans
      (sublist_flatMap_of_mem f s2 _ ((mem_int_range n s2).mpr ⟨by omega, h2⟩))
  · exact pair_sublist_flatMap f s1 s2 a b _
      (pair_sublist_int_range n s1 s2 h1 (by omega) h2) ha hb

/-- A semiblock index whose bits are at most those of another one is at most that
one. -/
theorem semiblock_le_of_bits (m : Nat) (hm : m ≤ 3) (s1 s2 : Int)
    (h1 : 0 ≤ s1 ∧ s1 < 2 ^ m) (h2 : 0 ≤ s2 ∧ s2 < 2 ^ m)
    (b0 : 0 < m → bit_of s1 0 = true → bit_of s2 0 = true)
    (b1 : 1 < m → bit_of s1 1 = true → bit_of s2 1 = true)
    (b2 : 2 < m → bit_of s1 2 = true → bit_of s2 2 = true) : s1 ≤ s2 := by
  obtain ⟨h1a, h1b⟩ := h1
  obtain ⟨h2a, h2b⟩ := h2
  interval_cases m
  · simp at h1b h2b; omega
  · interval_cases s1 <;> interval_cases s2 <;> simp_all [bit_of]
  · interval_cases s1 <;> interval_cases s2 <;> simp_all [bit_of]
  · interval_cases s1 <;> interval_cases s2 <;> simp_all [bit_of]

/-- The flag tested before a boundary initialiser of an upward octant: the axis is not
split, or the semiblock is the one visited first along the axis. -/
theorem has_lo_up_iff (m a : Nat) (hm : m ≤ 3) (ha : a < 3) (s : Int)
    (hs : 0 ≤ s ∧ s < 2 ^ m) :
    has_lo (2 ^ m) s a Dir_up = true ↔ (a < m → bit_of s a = false) := by
  have hs8 : s < 8 := by
    have : (2 : Int) ^ m ≤ 8 := by interval_cases m <;> decide
    omega
  unfold has_lo is_semiblock_lo is_semiblocked
  rw [land_mask_eq_zero_iff s a hs.1 hs8 ha]
  have h := two_pow_gt_iff m a hm ha
  by_cases hsplit : a < m
  · have h1 : (2 : Int) ^ m > 2 ^ a := h.mpr hsplit
    cases bit_of s a <;> simp [h1, hsplit, Dir_up]
  · have h1 : ¬ ((2 : Int) ^ m > 2 ^ a) := fun hh => hsplit (h.mp hh)
    cases bit_of s a <;> simp [h1, hsplit, Dir_up]

/-- The flag tested before a boundary initialiser of a downward octant. -/
theorem has_hi_dn_iff (m a : Nat) (hm : m ≤ 3) (ha : a < 3) (s : Int)
    (hs : 0 ≤ s ∧ s < 2 ^ m) :
    has_hi (2 ^ m) s a Dir_dn = true ↔ (a < m → bit_of s a = false) := by
  have hs8 : s < 8 := by
    have : (2 : Int) ^ m ≤ 8 := by interval_cases m <;> decide
    omega
  unfold has_hi is_semiblock_lo is_semiblocked
  rw [land_mask_eq_zero_iff s a hs.1 hs8 ha]
  have h := two_pow_gt_iff m a hm ha
  by_cases hsplit : a < m
  · have h1 : (2 : Int) ^ m > 2 ^ a := h.mpr hsplit
    cases bit_of s a <;> simp [h1, hsplit, Dir_up, Dir_dn]
  · have h1 : ¬ ((2 : Int) ^ m > 2 ^ a) := fun hh => hsplit (h.mp hh)
    cases bit_of s a <;> simp [h1, hsplit, Dir_up, Dir_dn]

theorem sets_boundary_xy_iff (E : Externals) (sweeper : Sweeper) (step_info : Step_Info)
    (m : Nat) (hm : m ≤ 3) (hns : sweeper.nsemiblock = 2 ^ m) (s : Int)
    (hs : 0 ≤ s ∧ s < 2 ^ m) (hdz : is_dir (E.Dir_z step_info.octant)) :
    sets_boundary_xy E sweeper s step_info = true
      ↔ inlet_xy E sweeper step_info ∧ (2 < m → bit_of s 2 = false) := by
  unfold sets_boundary_xy inlet_xy
  rw [hns]
  have hud : ¬ (Dir_up = Dir_dn) := by decide
  have hdu : ¬ (Dir_dn = Dir_up) := by decide
  rcases hdz with h | h
  · rw [h]
    simp only [Bool.or_eq_true, Bool.and_eq_true, beq_iff_eq, hud, false_and, or_false,
      true_and, has_lo_up_iff m 2 hm (by decide) s hs]
  · rw [h]
    simp only [Bool.or_eq_true, Bool.and_eq_true, beq_iff_eq, hdu, false_and, false_or,
      true_and, has_hi_dn_iff m 2 hm (by decide) s hs]

/-- The events of the calls made for one active octant over the semiblock loop. -/
theorem octant_events_eq (fuel : Nat) (E : Externals) (sweeper : Sweeper) (thread_e : Int)
    (proc_x_min proc_x_max proc_y_min proc_y_max : Bool) (k : Int)
    (step_info : Step_Info) (hset : block_sweep_setting E sweeper step_info)
    (fx : sweeper.dims_b.ncell_x < fuel) (fy : sweeper.dims_b.ncell_y < fuel)
    (fz : sweeper.dims_b.ncell_z < fuel) :
    block_events fuel E sweeper thread_e
        (octant_ops E sweeper proc_x_min proc_x_max proc_y_min proc_y_max k step_info)
      = some (octant_events E sweeper thread_e k step_info) := by
  obtain ⟨hact, ⟨hdx, hdy, hdz⟩, _, hnx, hny, hnz⟩ := hset
  unfold octant_ops octant_events
  exact block_events_flatMap fuel E sweeper thread_e _ _ _ (fun s _ =>
    octant_body_events fuel E sweeper thread_e proc_x_min proc_x_max proc_y_min proc_y_max
      s k step_info hact hdx hdy hdz (by omega) (by omega) (by omega) fx fy fz)

theorem mem_octant_events_sweep (E : Externals) (sweeper : Sweeper) (thread_e k : Int)
    (step_info : Step_Info) (hset : block_sweep_setting E sweeper step_info)
    (ix iy iz ie k1 : Int) :
    Cell_Event.sweep ix iy iz ie k1 ∈ octant_events E sweeper thread_e k step_info
      ↔ k1 = k ∧ (ie_min sweeper thread_e ≤ ie ∧ ie < ie_max sweeper thread_e)
        ∧ in_block sweeper.dims_b.ncell_x sweeper.dims_b.ncell_y sweeper.dims_b.ncell_z
            (ix, iy, iz) := by
  obtain ⟨_, ⟨hdx, hdy, hdz⟩, hns, hnx, hny, hnz⟩ := hset
  unfold octant_events
  simp only [List.mem_flatMap, mem_int_range, mem_semiblock_events_sweep]
  constructor
  · rintro ⟨s, _, hk, he, hc⟩
    exact ⟨hk, he, in_semiblock_in_block _ s _ _ _ _ _ _ (by omega) (by omega) (by omega) _ hc⟩
  · rintro ⟨hk, he, hc⟩
    obtain ⟨s, hs, hc1⟩ := semiblocks_cover _ _ _ _ _ _ _ hns hdx hdy hdz (ix, iy, iz) hc
    exact ⟨s, hs, hk, he, hc1⟩

theorem mem_octant_events_init (E : Externals) (sweeper : Sweeper) (thread_e k : Int)
    (step_info : Step_Info) (hset : block_sweep_setting E sweeper step_info)
    (ix iy ie ia iu k1 : Int) :
    Cell_Event.init_xy ix iy ie ia iu k1 ∈ octant_events E sweeper thread_e k step_info
      ↔ inlet_xy E sweeper step_info ∧ k1 = k
        ∧ (0 ≤ ix ∧ ix < sweeper.dims_b.ncell_x) ∧ (0 ≤ iy ∧ iy < sweeper.dims_b.ncell_y)
        ∧ (ie_min sweeper thread_e ≤ ie ∧ ie < ie_max sweeper thread_e)
        ∧ (0 ≤ ia ∧ ia < sweeper.dims_b.na) ∧ (0 ≤ iu ∧ iu < NU) := by
  obtain ⟨_, ⟨hdx, hdy, hdz⟩, hns, hnx, hny, hnz⟩ := hset
  obtain ⟨m, hm, hns⟩ := semiblock_count_pow _ hns
  unfold octant_events
  simp only [List.mem_flatMap, mem_int_range, mem_semiblock_events_init, mem_xy_slots]
  rw [hns]
  constructor
  · rintro ⟨s, hs, hb, hk, hx, hy, he, ha, hu⟩
    exact ⟨((sets_boundary_xy_iff E sweeper step_info m hm hns s hs hdz).mp hb).1, hk,
      axis_in_range_sub _ s 0 _ _ ix (by omega) hx,
      axis_in_range_sub _ s 1 _ _ iy (by omega) hy, he, ha, hu⟩
  · rintro ⟨hin, hk, hx, hy, he, ha, hu⟩
    obtain ⟨s, hs, b0, b1, b2⟩ := exists_semiblock_bits m hm
      (xor (decide (E.Dir_x step_info.octant = Dir_dn))
        (decide (sweeper.dims_b.ncell_x / 2 ≤ ix)))
      (xor (decide (E.Dir_y step_info.octant = Dir_dn))
        (decide (sweeper.dims_b.ncell_y / 2 ≤ iy))) false
    exact ⟨s, hs, (sets_boundary_xy_iff E sweeper step_info m hm hns s hs hdz).mpr ⟨hin, b2⟩,
      hk, (axis_member m 0 hm (by decide) s _ _ ix hs hdx hx).mpr b0,
      (axis_member m 1 hm (by decide) s _ _ iy hs hdy hy).mpr b1, he, ha, hu⟩

/-- No event of the semiblock loop of an octant occurs twice. -/
theorem octant_events_nodup (E : Externals) (sweeper : Sweeper) (thread_e k : Int)
    (step_info : Step_Info) (hset : block_sweep_setting E sweeper step_info) :
    (octant_events E sweeper thread_e k step_info).Nodup := by
  obtain ⟨_, ⟨hdx, hdy, hdz⟩, hns, hnx, hny, hnz⟩ := hset
  unfold octant_events
  refine nodup_flatMap_of_disjoint _ _ (int_range_nodup _)
    (fun s _ => semiblock_events_nodup E sweeper thread_e s k step_info) ?_
  intro s1 hs1 s2 hs2 x hx1 hx2
  rw [mem_int_range] at hs1 hs2
  cases x with
  | sweep ix iy iz ie k1 =>
    rw [mem_semiblock_events_sweep] at hx1 hx2
    exact semiblocks_disjoint _ _ _ _ _ _ _ hns hdx hdy hdz (by omega) (by omega) (by omega)
      (ix, iy, iz) s1 s2 hs1 hs2 hx1.2.2 hx2.2.2
  | init_xy ix iy ie ia iu k1 =>
    rw [mem_semiblock_events_init, mem_xy_slots] at hx1 hx2
    obtain ⟨m, hm, hns⟩ := semiblock_count_pow _ hns
    rw [hns] at hs1 hs2 hx1 hx2
    obtain ⟨hb1, _, hx1, hy1, _⟩ := hx1
    obtain ⟨hb2, _, hx2, hy2, _⟩ := hx2
    have hx := axis_in_range_sub _ s1 0 _ _ ix (by omega) hx1
    have hy := axis_in_range_sub _ s1 1 _ _ iy (by omega) hy1
    have z1 := ((sets_boundary_xy_iff E sweeper step_info m hm hns s1 hs1 hdz).mp hb1).2
    have z2 := ((sets_boundary_xy_iff E sweeper step_info m hm hns s2 hs2 hdz).mp hb2).2
    refine semiblock_bits_unique m hm s1 s2 hs1 hs2 ?_ ?_ ?_
    · intro h
      rw [(axis_member m 0 hm (by decide) s1 _ _ ix hs1 hdx hx).mp hx1 h,
        (axis_member m 0 hm (by decide) s2 _ _ ix hs2 hdx hx).mp hx2 h]
    · intro h
      rw [(axis_member m 1 hm (by decide) s1 _ _ iy hs1 hdy hy).mp hy1 h,
        (axis_member m 1 hm (by decide) s2 _ _ iy hs2 hdy hy).mp hy2 h]
    · intro h
      rw [z1 h, z2 h]

/-- Within one semiblock step the slots of the xy face are written before any cell is
swept. -/
theorem semiblock_events_init_first (E : Externals) (sweeper : Sweeper)
    (thread_e semiblock k : Int) (step_info : Step_Info)
    (ix iy ie ia iu k1 jx jy jz je k2 : Int)
    (h1 : Cell_Event.init_xy ix iy ie ia iu k1
      ∈ semiblock_events E sweeper thread_e semiblock k step_info)
    (h2 : Cell_Event.sweep jx jy jz je k2
      ∈ semiblock_events E sweeper thread_e semiblock k step_info) :
    [Cell_Event.init_xy ix iy ie ia iu k1, Cell_Event.sweep jx jy jz je k2].Sublist
      (semiblock_events E sweeper thread_e semiblock k step_info) := by
  unfold semiblock_events at h1 h2 ⊢
  simp only [List.mem_append] at h1 h2
  have a1 : Cell_Event.init_xy ix iy ie ia iu k1 ∈ _ := h1.resolve_right (by
    simp only [List.mem_flatMap, List.mem_singleton]
    rintro ⟨_, _, _, _, _, _, _, _, h⟩
    cases h)
  have a2 : Cell_Event.sweep jx jy jz je k2 ∈ _ := h2.resolve_left (by
    intro h
    split_ifs at h
    · simp at h
    · simp at h)
  exact (List.singleton_sublist.mpr a1).append (List.singleton_sublist.mpr a2)

/-- Over the semiblock loop of an octant a slot of the xy face is written before every
cell above it is swept. -/
theorem octant_events_init_first (E : Externals) (sweeper : Sweeper) (thread_e k : Int)
    (step_info : Step_Info) (hset : block_sweep_setting E sweeper step_info)
    (ix iy iz ie ia iu : Int)
    (h1 : Cell_Event.init_xy ix iy ie ia iu k ∈ octant_events E sweeper thread_e k step_info)
    (h2 : Cell_Event.sweep ix iy iz ie k ∈ octant_events E sweeper thread_e k step_info) :
    [Cell_Event.init_xy ix iy ie ia iu k, Cell_Event.sweep ix iy iz ie k].Sublist
      (octant_events E sweeper thread_e k step_info) := by
  obtain ⟨_, ⟨hdx, hdy, hdz⟩, hns, hnx, hny, hnz⟩ := hset
  obtain ⟨m, hm, hns⟩ := semiblock_count_pow _ hns
  unfold octant_events at h1 h2 ⊢
  rw [List.mem_flatMap] at h1 h2
  obtain ⟨s1, hs1, e1⟩ := h1
  obtain ⟨s2, hs2, e2⟩ := h2
  rw [mem_int_range] at hs1 hs2
  have m1 := (mem_semiblock_events_init _ _ _ _ _ _ _ _ _ _ _ _).mp e1
  have m2 := (mem_semiblock_events_sweep _ _ _ _ _ _ _ _ _ _ _).mp e2
  rw [mem_xy_slots] at m1
  rw [hns] at hs1 hs2 m1 m2
  obtain ⟨hb1, _, hx1, hy1, _⟩ := m1
  obtain ⟨_, _, hx2, hy2, _⟩ := m2
  have hx := axis_in_range_sub _ s1 0 _ _ ix (by omega) hx1
  have hy := axis_in_range_sub _ s1 1 _ _ iy (by omega) hy1
  have z1 := ((sets_boundary_xy_iff E sweeper step_info m hm hns s1 hs1 hdz).mp hb1).2
  have hle : s1 ≤ s2 := by
    refine semiblock_le_of_bits m hm s1 s2 hs1 hs2 ?_ ?_ ?_
    · intro h
      rw [(axis_member m 0 hm (by decide) s1 _ _ ix hs1 hdx hx).mp hx1 h,
        (axis_member m 0 hm (by decide) s2 _ _ ix hs2 hdx hx).mp hx2 h]
      exact id
    · intro h
      rw [(axis_member m 1 hm (by decide) s1 _ _ iy hs1 hdy hy).mp hy1 h,
        (axis_member m 1 hm (by decide) s2 _ _ iy hs2 hdy hy).mp hy2 h]
      exact id
    · intro h hb
      rw [z1 h] at hb
      cases hb
  rw [hns]
  refine pair_sublist_steps _ _ s1 s2 _ _ hs1.1 hle hs2.2 e1 e2 (fun he => ?_)
  subst he
  exact semiblock_events_init_first E sweeper thread_e s1 k step_info _ _ _ _ _ _ _ _ _ _ _ e1 e2

theorem flatMap_singleton_map {α β : Type} (g : α → β) :
    ∀ l : List α, (l.flatMap fun x => [g x]) = l.map g := by
  intro l
  induction l with
  | nil => rfl
  | cons x xs ih => simp [List.flatMap_cons, ih]

/-- The sub-steps of the semiblock loop of an active octant: one call of the semiblock
sweep per semiblock, with the bounds of that semiblock. -/
theorem octant_substeps (E : Externals) (sweeper : Sweeper)
    (proc_x_min proc_x_max proc_y_min proc_y_max : Bool) (k : Int) (step_info : Step_Info)
    (hact : step_info.is_active = true) :
    (octant_ops E sweeper proc_x_min proc_x_max proc_y_min proc_y_max k
        step_info).filterMap Block_Op.sweep_bounds?
      = (int_range sweeper.nsemiblock).map fun s =>
          ((imin_b sweeper.nsemiblock s 0 (E.Dir_x step_info.octant) sweeper.dims_b.ncell_x,
            imax_b sweeper.nsemiblock s 0 (E.Dir_x step_info.octant) sweeper.dims_b.ncell_x),
           (imin_b sweeper.nsemiblock s 1 (E.Dir_y step_info.octant) sweeper.dims_b.ncell_y,
            imax_b sweeper.nsemiblock s 1 (E.Dir_y step_info.octant) sweeper.dims_b.ncell_y),
           (imin_b sweeper.nsemiblock s 2 (E.Dir_z step_info.octant) sweeper.dims_b.ncell_z,
            imax_b sweeper.nsemiblock s 2 (E.Dir_z step_info.octant)
              sweeper.dims_b.ncell_z)) := by
  unfold octant_ops
  rw [filterMap_flatMap_eq, ← flatMap_singleton_map]
  congr 1
  funext s
  unfold Sweeper_sweep_block_impl_octant
  rw [if_pos hact]
  simp only [List.filterMap_append]
  split_ifs <;> simp [Block_Op.sweep_bounds?]

theorem half_bounds_eq (s : Int) (a : Nat) (dir n : Int) (ha : a < 3)
    (hs : 0 ≤ s ∧ s < 8) (hdir : is_dir dir) (hn : 0 ≤ n) :
    (imin_b 8 s a dir n, imax_b 8 s a dir n) = half_bounds (is_hi_half s a dir) n := by
  rw [bounds_eq_spec 8 s a dir n ha hs hdir hn]
  have h8 : (8 : Int) > 2 ^ a := by interval_cases a <;> decide
  unfold semiblock_range_spec half_bounds is_hi_half
  rw [if_pos h8]
  cases h : xor (bit_of s a) (decide (dir = Dir_dn)) <;> simp

/-- Going one step upstream along an axis does not move from the half visited first to
the half visited second. -/
theorem upstream_bit (dir n i j : Int) (hdir : is_dir dir) (hij : j = i ∨ j = i - dir)
    (h : xor (decide (dir = Dir_dn)) (decide (n / 2 ≤ j)) = true) :
    xor (decide (dir = Dir_dn)) (decide (n / 2 ≤ i)) = true := by
  rcases hij with rfl | rfl
  · exact h
  · rcases hdir with rfl | rfl
    · simp [Dir_up, Dir_dn] at h ⊢
      omega
    · simp [Dir_dn] at h ⊢
      omega

/-- Within one semiblock a cell is swept after its upstream neighbours of that
semiblock. -/
theorem semiblock_events_upstream (E : Externals) (sweeper : Sweeper)
    (thread_e semiblock k : Int) (step_info : Step_Info) (nb cell : Int × Int × Int) (ie : Int)
    (hdx : is_dir (E.Dir_x step_info.octant)) (hdy : is_dir (E.Dir_y step_info.octant))
    (hdz : is_dir (E.Dir_z step_info.octant))
    (he : ie_min sweeper thread_e ≤ ie ∧ ie < ie_max sweeper thread_e)
    (h1 : in_semiblock sweeper.nsemiblock semiblock (E.Dir_x step_info.octant)
      (E.Dir_y step_info.octant) (E.Dir_z step_info.octant) sweeper.dims_b.ncell_x
      sweeper.dims_b.ncell_y sweeper.dims_b.ncell_z nb)
    (h2 : in_semiblock sweeper.nsemiblock semiblock (E.Dir_x step_info.octant)
      (E.Dir_y step_info.octant) (E.Dir_z step_info.octant) sweeper.dims_b.ncell_x
      sweeper.dims_b.ncell_y sweeper.dims_b.ncell_z cell)
    (hup : is_upstream (E.Dir_x step_info.octant) (E.Dir_y step_info.octant)
      (E.Dir_z step_info.octant) nb cell) :
    [Cell_Event.sweep nb.1 nb.2.1 nb.2.2 ie k,
      Cell_Event.sweep cell.1 cell.2.1 cell.2.2 ie k].Sublist
      (semiblock_events E sweeper thread_e semiblock k step_info) := by
  obtain ⟨ix, iy, iz⟩ := cell
  unfold in_semiblock at h1 h2
  unfold semiblock_events
  simp only []
  refine List.Sublist.trans ?_ (List.sublist_append_right _ _)
  refine List.Sublist.trans ?_ (sublist_flatMap_of_mem _ ie _ ((mem_int_range_from _ _ _).mpr he))
  have mz := (mem_axis_order (E.Dir_z step_info.octant) _ _ iz).mpr h2.2.2
  have my := (mem_axis_order (E.Dir_y step_info.octant) _ _ iy).mpr h2.2.1
  have mx := (mem_axis_order (E.Dir_x step_info.octant) _ _ ix).mpr h2.1
  rcases hup with rfl | rfl | rfl
  · refine List.Sublist.trans ?_ (sublist_flatMap_of_mem _ iz _ mz)
    refine List.Sublist.trans ?_ (sublist_flatMap_of_mem _ iy _ my)
    exact pair_sublist_flatMap _ _ _ _ _ _
      (axis_order_upstream _ _ _ ix hdx h1.1 h2.1) (List.mem_singleton_self _)
      (List.mem_singleton_self _)
  · refine List.Sublist.trans ?_ (sublist_flatMap_of_mem _ iz _ mz)
    exact pair_sublist_flatMap _ _ _ _ _ _
      (axis_order_upstream _ _ _ iy hdy h1.2.1 h2.2.1)
      (List.mem_flatMap.mpr ⟨ix, mx, List.mem_singleton_self _⟩)
      (List.mem_flatMap.mpr ⟨ix, mx, List.mem_singleton_self _⟩)
  · exact pair_sublist_flatMap _ _ _ _ _ _
      (axis_order_upstream _ _ _ iz hdz h1.2.2 h2.2.2)
      (List.mem_flatMap.mpr ⟨iy, my, List.mem_flatMap.mpr ⟨ix, mx, List.mem_singleton_self _⟩⟩)
      (List.mem_flatMap.mpr ⟨iy, my, List.mem_flatMap.mpr ⟨ix, mx, List.mem_singleton_self _⟩⟩)

/-- Over the semiblock loop of an octant a cell is swept after each of its upstream
neighbours inside the block. -/
theorem octant_events_upstream (E : Externals) (sweeper : Sweeper) (thread_e k : Int)
    (step_info : Step_Info) (hset : block_sweep_setting E sweeper step_info)
    (nb cell : Int × Int × Int) (ie : Int)
    (he : ie_min sweeper thread_e ≤ ie ∧ ie < ie_max sweeper thread_e)
    (h1 : in_block sweeper.dims_b.ncell_x sweeper.dims_b.ncell_y sweeper.dims_b.ncell_z nb)
    (h2 : in_block sweeper.dims_b.ncell_x sweeper.dims_b.ncell_y sweeper.dims_b.ncell_z cell)
    (hup : is_upstream (E.Dir_x step_info.octant) (E.Dir_y step_info.octant)
      (E.Dir_z step_info.octant) nb cell) :
    [Cell_Event.sweep nb.1 nb.2.1 nb.2.2 ie k,
      Cell_Event.sweep cell.1 cell.2.1 cell.2.2 ie k].Sublist
      (octant_events E sweeper thread_e k step_info) := by
  obtain ⟨_, ⟨hdx, hdy, hdz⟩, hns, hnx, hny, hnz⟩ := hset
  obtain ⟨s1, hs1, c1⟩ := semiblocks_cover _ _ _ _ _ _ _ hns hdx hdy hdz nb h1
  obtain ⟨s2, hs2, c2⟩ := semiblocks_cover _ _ _ _ _ _ _ hns hdx hdy hdz cell h2
  obtain ⟨m, hm, hns⟩ := semiblock_count_pow _ hns
  have e1 := (mem_semiblock_events_sweep E sweeper thread_e s1 k step_info
    nb.1 nb.2.1 nb.2.2 ie k).mpr ⟨rfl, he, c1⟩
  have e2 := (mem_semiblock_events_sweep E sweeper thread_e s2 k step_info
    cell.1 cell.2.1 cell.2.2 ie k).mpr ⟨rfl, he, c2⟩
  have hx : nb.1 = cell.1 ∨ nb.1 = cell.1 - E.Dir_x step_info.octant := by
    rcases hup with h | h | h <;> rw [h] <;> simp
  have hy : nb.2.1 = cell.2.1 ∨ nb.2.1 = cell.2.1 - E.Dir_y step_info.octant := by
    rcases hup with h | h | h <;> rw [h] <;> simp
  have hz : nb.2.2 = cell.2.2 ∨ nb.2.2 = cell.2.2 - E.Dir_z step_info.octant := by
    rcases hup with h | h | h <;> rw [h] <;> simp
  have hle : s1 ≤ s2 := by
    rw [hns] at hs1 hs2 c1 c2
    refine semiblock_le_of_bits m hm s1 s2 hs1 hs2 ?_ ?_ ?_
    · intro h
      rw [(axis_member m 0 hm (by decide) s1 _ _ _ hs1 hdx h1.1).mp c1.1 h,
        (axis_member m 0 hm (by decide) s2 _ _ _ hs2 hdx h2.1).mp c2.1 h]
      exact upstream_bit _ _ _ _ hdx hx
    · intro h
      rw [(axis_member m 1 hm (by decide) s1 _ _ _ hs1 hdy h1.2.1).mp c1.2.1 h,
        (axis_member m 1 hm (by decide) s2 _ _ _ hs2 hdy h2.2.1).mp c2.2.1 h]
      exact upstream_bit _ _ _ _ hdy hy
    · intro h
      rw [(axis_member m 2 hm (by decide) s1 _ _ _ hs1 hdz h1.2.2).mp c1.2.2 h,
        (axis_member m 2 hm (by decide) s2 _ _ _ hs2 hdz h2.2.2).mp c2.2.2 h]
      exact upstream_bit _ _ _ _ hdz hz
  unfold octant_events
  refine pair_sublist_steps _ _ s1 s2 _ _ hs1.1 hle hs2.2 e1 e2 (fun hs => ?_)
  subst hs
  exact semiblock_events_upstream E sweeper thread_e s1 k step_info nb cell ie hdx hdy hdz he
    c1 c2 hup

/-- In a list without repetition two entries occur in one order only. -/
theorem sublist_pair_asymm {α : Type} (a b : α) :
    ∀ l : List α, l.Nodup → [a, b].Sublist l → ¬ [b, a].Sublist l := by
  intro l
  induction l with
  | nil => intro _ h; cases h
  | cons c t ih =>
    intro hn h1 h2
    rw [List.nodup_cons] at hn
    cases h1 with
    | cons _ h1 =>
      cases h2 with
      | cons _ h2 => exact ih hn.2 h1 h2
      | cons₂ _ h2 => exact hn.1 (h1.subset (by simp))
    | cons₂ _ h1 =>
      cases h2 with
      | cons _ h2 => exact hn.1 (h2.subset (by simp))
      | cons₂ _ h2 => exact hn.1 (List.singleton_sublist.mp h1)

theorem mem_ite_singleton {α : Type} (c : Prop) [Decidable c] (x y : α)
    (h : y ∈ (if c then [x] else [])) : c ∧ y = x := by
  split_ifs at h with hc
  · exact ⟨hc, List.mem_singleton.mp h⟩
  · cases h

theorem body_octant_in_block (E : Externals) (sweeper : Sweeper)
    (proc_x_min proc_x_max proc_y_min proc_y_max : Bool) (semiblock k1 : Int)
    (step_info : Step_Info) (op : Block_Op)
    (hop : op ∈ Sweeper_sweep_block_impl_octant E sweeper proc_x_min proc_x_max proc_y_min
      proc_y_max semiblock k1 step_info) : op.octant_in_block? = some k1 := by
  unfold Sweeper_sweep_block_impl_octant at hop
  split_ifs at hop
  · simp only [List.mem_append, List.mem_singleton] at hop
    rcases hop with ((h | h) | h) | h
    · rw [(mem_ite_singleton _ _ _ h).2]; rfl
    · rw [(mem_ite_singleton _ _ _ h).2]; rfl
    · rw [(mem_ite_singleton _ _ _ h).2]; rfl
    · rw [h]; rfl
  · cases hop

theorem body_filter_octant (E : Externals) (sweeper : Sweeper)
    (proc_x_min proc_x_max proc_y_min proc_y_max : Bool) (semiblock k1 k : Int)
    (step_info : Step_Info) :
    (Sweeper_sweep_block_impl_octant E sweeper proc_x_min proc_x_max proc_y_min proc_y_max
        semiblock k1 step_info).filter (fun op => op.octant_in_block? == some k)
      = if k1 = k ∧ True then
          Sweeper_sweep_block_impl_octant E sweeper proc_x_min proc_x_max proc_y_min
            proc_y_max semiblock k step_info
        else [] := by
  by_cases hk : k1 = k
  · subst hk
    rw [if_pos ⟨rfl, trivial⟩, List.filter_eq_self]
    intro op hop
    rw [body_octant_in_block E sweeper _ _ _ _ semiblock k1 step_info op hop]
    simp
  · rw [if_neg (fun h => hk h.1), List.filter_eq_nil_iff]
    intro op hop
    rw [body_octant_in_block E sweeper _ _ _ _ semiblock k1 step_info op hop]
    simp [hk]

/-- The calls of `Sweeper_sweep_block_impl` for one octant of the thread are those of
the semiblock loop for that octant. -/
theorem impl_filter_octant (E : Externals) (sweeper : Sweeper) (thread_octant : Int)
    (proc_x_min proc_x_max proc_y_min proc_y_max : Bool)
    (step_info_values : Int → Step_Info) (k : Int)
    (hk : Int.tdiv (sweeper.noctant_per_block * thread_octant) sweeper.nthread_octant ≤ k
      ∧ k < Int.tdiv (sweeper.noctant_per_block * (thread_octant + 1))
          sweeper.nthread_octant) :
    (Sweeper_sweep_block_impl E sweeper thread_octant proc_x_min proc_x_max proc_y_min
        proc_y_max step_info_values).filter (fun op => op.octant_in_block? == some k)
      = octant_ops E sweeper proc_x_min proc_x_max proc_y_min proc_y_max k
          (step_info_values k) := by
  unfold Sweeper_sweep_block_impl octant_ops
  rw [filter_flatMap_eq]
  congr 1
  funext s
  simp only [List.filter_append]
  rw [filter_flatMap_eq]
  simp only [body_filter_octant]
  have e : ∀ k1 : Int, (if k1 = k ∧ True then
        Sweeper_sweep_block_impl_octant E sweeper proc_x_min proc_x_max proc_y_min
          proc_y_max s k (step_info_values k1)
      else [])
      = (if k1 = k ∧ True then
        Sweeper_sweep_block_impl_octant E sweeper proc_x_min proc_x_max proc_y_min
          proc_y_max s k (step_info_values k)
      else []) := by
    intro k1
    by_cases h : k1 = k
    · rw [h]
    · rw [if_neg (fun hh => h hh.1), if_neg (fun hh => h hh.1)]
  simp only [e]
  rw [flatMap_ite_single _ k True _ (int_range_from_nodup _ _),
    if_pos ⟨(mem_int_range_from _ _ k).mpr hk, trivial⟩]
  simp [Block_Op.octant_in_block?]

/-- The flag tested before a boundary initialiser is called, for either direction: the
axis is not split, or the semiblock is the half visited first along the axis. -/
theorem inlet_flag_iff (m a : Nat) (hm : m ≤ 3) (ha : a < 3) (s dir : Int)
    (hs : 0 ≤ s ∧ s < 2 ^ m) (hdir : is_dir dir) :
    ((dir = Dir_up ∧ has_lo (2 ^ m) s a dir = true)
        ∨ (dir = Dir_dn ∧ has_hi (2 ^ m) s a dir = true))
      ↔ (a < m → bit_of s a = false) := by
  have hud : ¬ (Dir_up = Dir_dn) := by decide
  have hdu : ¬ (Dir_dn = Dir_up) := by decide
  rcases hdir with rfl | rfl
  · simp only [hud, false_and, or_false, true_and, has_lo_up_iff m a hm ha s hs]
  · simp only [hdu, false_and, false_or, true_and, has_hi_dn_iff m a hm ha s hs]

/-- The flag agrees with the geometric reading, the semiblock contains the inlet layer,
unless the octant goes upward along an axis that is split and has one cell only. -/
theorem inlet_flag_iff_layer (m a : Nat) (hm : m ≤ 3) (ha : a < 3) (s dir n : Int)
    (hs : 0 ≤ s ∧ s < 2 ^ m) (hdir : is_dir dir) (hn : 1 ≤ n)
    (hcase : dir = Dir_dn ∨ 2 ≤ n ∨ ¬ a < m) :
    (a < m → bit_of s a = false) ↔ semiblock_has_inlet_layer (2 ^ m) s a dir n := by
  unfold semiblock_has_inlet_layer
  rw [axis_member m a hm ha s dir n _ hs hdir (by split_ifs <;> omega)]
  by_cases hsplit : a < m
  · simp only [hsplit, true_implies]
    rcases hdir with rfl | rfl
    · have h2 : 2 ≤ n := by
        rcases hcase with h | h | h
        · exact absurd h (by decide)
        · exact h
        · exact absurd hsplit h
      have : ¬ (n / 2 ≤ 0) := by omega
      simp [Dir_up, Dir_dn, this]
    · have : n / 2 ≤ n - 1 := by omega
      simp [Dir_up, Dir_dn, this]
  · simp [hsplit]

theorem mem_body_xy (E : Externals) (sweeper : Sweeper)
    (proc_x_min proc_x_max proc_y_min proc_y_max : Bool) (semiblock k : Int)
    (step_info : Step_Info) (hact : step_info.is_active = true) :
    (xy_boundary_call E sweeper semiblock k step_info
        ∈ Sweeper_sweep_block_impl_octant E sweeper proc_x_min proc_x_max proc_y_min
            proc_y_max semiblock k step_info
      ↔ sets_boundary_xy E sweeper semiblock step_info = true)
    ∧ ∀ octant k1 a b c d, Block_Op.Sweeper_set_boundary_xy octant k1 a b c d
        ∈ Sweeper_sweep_block_impl_octant E sweeper proc_x_min proc_x_max proc_y_min
            proc_y_max semiblock k step_info →
        Block_Op.Sweeper_set_boundary_xy octant k1 a b c d
          = xy_boundary_call E sweeper semiblock k step_info := by
  unfold Sweeper_sweep_block_impl_octant xy_boundary_call sets_boundary_xy
  rw [if_pos hact]
  simp only [List.mem_append, List.mem_singleton]
  constructor
  · constructor
    · rintro (((h | h) | h) | h)
      · exact (mem_ite_singleton _ _ _ h).1
      · exact absurd (mem_ite_singleton _ _ _ h).2 (by simp)
      · exact absurd (mem_ite_singleton _ _ _ h).2 (by simp)
      · exact absurd h (by simp)
    · intro h
      exact Or.inl (Or.inl (Or.inl (by rw [if_pos h]; exact List.mem_singleton_self _)))
  · rintro octant k1 a b c d (((h | h) | h) | h)
    · exact (mem_ite_singleton _ _ _ h).2
    · exact absurd (mem_ite_singleton _ _ _ h).2 (by simp)
    · exact absurd (mem_ite_singleton _ _ _ h).2 (by simp)
    · exact absurd h (by simp)

/-- The test before a lateral boundary initialiser: the inlet condition on the direction
and the position of the process, and the axis is not split or the semiblock is the half
visited first along the axis. -/
theorem lateral_cond_iff (m a : Nat) (hm : m ≤ 3) (ha : a < 3) (s dir proc nproc : Int)
    (hs : 0 ≤ s ∧ s < 2 ^ m) (hdir : is_dir dir) :
    ((dir == Dir_up && (proc == 0) && has_lo (2 ^ m) s a dir)
        || (dir == Dir_dn && (proc == nproc - 1) && has_hi (2 ^ m) s a dir)) = true
      ↔ inlet_lateral dir proc nproc ∧ (a < m → bit_of s a = false) := by
  unfold inlet_lateral
  have hud : ¬ (Dir_up = Dir_dn) := by decide
  have hdu : ¬ (Dir_dn = Dir_up) := by decide
  rcases hdir with h | h
  · rw [h]
    simp only [Bool.or_eq_true, Bool.and_eq_true, beq_iff_eq, hud, false_and, or_false,
      true_and, has_lo_up_iff m a hm ha s hs]
  · rw [h]
    simp only [Bool.or_eq_true, Bool.and_eq_true, beq_iff_eq, hdu, false_and, false_or,
      true_and, has_hi_dn_iff m a hm ha s hs]

theorem mem_body_xz (E : Externals) (sweeper : Sweeper) (env : Env) (semiblock k : Int)
    (step_info : Step_Info) (block_z octant k1 a b c d : Int)
    (h : Block_Op.Sweeper_set_boundary_xz block_z octant k1 a b c d
      ∈ block_octant_calls E sweeper env semiblock k step_info) :
    Block_Op.Sweeper_set_boundary_xz block_z octant k1 a b c d
        = xz_boundary_call E sweeper semiblock k step_info
      ∧ ((E.Dir_y step_info.octant == Dir_up && (env.proc_y_this == 0)
            && has_lo sweeper.nsemiblock semiblock 1 (E.Dir_y step_info.octant))
          || (E.Dir_y step_info.octant == Dir_dn && (env.proc_y_this == env.nproc_y - 1)
            && has_hi sweeper.nsemiblock semiblock 1 (E.Dir_y step_info.octant))) = true := by
  unfold block_octant_calls Sweeper_sweep_block_impl_octant at h
  unfold xz_boundary_call
  split_ifs at h
  · simp only [List.mem_append, List.mem_singleton] at h
    rcases h with ((h | h) | h) | h
    · exact absurd (mem_ite_singleton _ _ _ h).2 (by simp)
    · exact ⟨(mem_ite_singleton _ _ _ h).2, (mem_ite_singleton _ _ _ h).1⟩
    · exact absurd (mem_ite_singleton _ _ _ h).2 (by simp)
    · exact absurd h (by simp)
  · cases h

theorem mem_body_yz (E : Externals) (sweeper : Sweeper) (env : Env) (semiblock k : Int)
    (step_info : Step_Info) (block_z octant k1 a b c d : Int)
    (h : Block_Op.Sweeper_set_boundary_yz block_z octant k1 a b c d
      ∈ block_octant_calls E sweeper env semiblock k step_info) :
    Block_Op.Sweeper_set_boundary_yz block_z octant k1 a b c d
        = yz_boundary_call E sweeper semiblock k step_info
      ∧ ((E.Dir_x step_info.octant == Dir_up && (env.proc_x_this == 0)
            && has_lo sweeper.nsemiblock semiblock 0 (E.Dir_x step_info.octant))
          || (E.Dir_x step_info.octant == Dir_dn && (env.proc_x_this == env.nproc_x - 1)
            && has_hi sweeper.nsemiblock semiblock 0 (E.Dir_x step_info.octant))) = true := by
  unfold block_octant_calls Sweeper_sweep_block_impl_octant at h
  unfold yz_boundary_call
  split_ifs at h
  · simp only [List.mem_append, List.mem_singleton] at h
    rcases h with ((h | h) | h) | h
    · exact absurd (mem_ite_singleton _ _ _ h).2 (by simp)
    · exact absurd (mem_ite_singleton _ _ _ h).2 (by simp)
    · exact ⟨(mem_ite_singleton _ _ _ h).2, (mem_ite_singleton _ _ _ h).1⟩
    · exact absurd h (by simp)
  · cases h

theorem mem_body_xz_of_cond (E : Externals) (sweeper : Sweeper) (env : Env)
    (semiblock k : Int) (step_info : Step_Info) (hact : step_info.is_active = true)
    (h : ((E.Dir_y step_info.octant == Dir_up && (env.proc_y_this == 0)
            && has_lo sweeper.nsemiblock semiblock 1 (E.Dir_y step_info.octant))
          || (E.Dir_y step_info.octant == Dir_dn && (env.proc_y_this == env.nproc_y - 1)
            && has_hi sweeper.nsemiblock semiblock 1 (E.Dir_y step_info.octant))) = true) :
    xz_boundary_call E sweeper semiblock k step_info
      ∈ block_octant_calls E sweeper env semiblock k step_info := by
  unfold block_octant_calls Sweeper_sweep_block_impl_octant xz_boundary_call
  rw [if_pos hact]
  simp only [List.mem_append, List.mem_singleton]
  exact Or.inl (Or.inl (Or.inr (by rw [if_pos h]; exact List.mem_singleton_self _)))

theorem mem_body_yz_of_cond (E : Externals) (sweeper : Sweeper) (env : Env)
    (semiblock k : Int) (step_info : Step_Info) (hact : step_info.is_active = true)
    (h : ((E.Dir_x step_info.octant == Dir_up && (env.proc_x_this == 0)
            && has_lo sweeper.nsemiblock semiblock 0 (E.Dir_x step_info.octant))
          || (E.Dir_x step_info.octant == Dir_dn && (env.proc_x_this == env.nproc_x - 1)
            && has_hi sweeper.nsemiblock semiblock 0 (E.Dir_x step_info.octant))) = true) :
    yz_boundary_call E sweeper semiblock k step_info
      ∈ block_octant_calls E sweeper env semiblock k step_info := by
  unfold block_octant_calls Sweeper_sweep_block_impl_octant yz_boundary_call
  rw [if_pos hact]
  simp only [List.mem_append, List.mem_singleton]
  exact Or.inl (Or.inr (by rw [if_pos h]; exact List.mem_singleton_self _))

/-- Every call of `Sweeper_sweep_block` other than the synchronisation belongs to the
body of the octant loop for some semiblock and some octant of the block. -/
theorem mem_sweep_block (E : Externals) (sweeper : Sweeper) (step : Int) (env : Env)
    (thread_octant : Int) (op : Block_Op)
    (h : op ∈ Sweeper_sweep_block E sweeper step env thread_octant)
    (hne : op ≠ Block_Op.Sweeper_sync_octant_threads) :
    ∃ s k, op ∈ block_octant_calls E sweeper env s k
      (sweeper.step_scheduler.step_info step k env.proc_x_this env.proc_y_this) := by
  unfold Sweeper_sweep_block Sweeper_sweep_block_impl at h
  simp only [List.mem_flatMap, List.mem_append, List.mem_singleton] at h
  obtain ⟨s, _, h | h⟩ := h
  · obtain ⟨k, _, h⟩ := h
    exact ⟨s, k, h⟩
  · exact absurd h hne

theorem foldl_add_eq_sum {α P : Type} [Semiring P] (f : α → P) :
    ∀ (l : List α) (a : P), l.foldl (fun r i => r + f i) a = a + (l.map f).sum := by
  intro l
  induction l with
  | nil => intro a; simp
  | cons x xs ih => intro a; rw [List.foldl_cons, ih]; simp [add_assoc]

/-- A fold of increments at keys that do not repeat adds the increment once at every
key and leaves the other entries. -/
theorem foldl_update_add {τ κ P : Type} [DecidableEq κ] [Add P] (key : τ → κ) (W : κ → P) :
    ∀ (l : List τ) (f : κ → P) (x : κ), (l.map key).Nodup →
    (x ∈ l.map key →
      (l.foldl (fun f t => Function.update f (key t) (f (key t) + W (key t))) f) x = f x + W x)
    ∧ (x ∉ l.map key →
      (l.foldl (fun f t => Function.update f (key t) (f (key t) + W (key t))) f) x = f x) := by
  intro l
  induction l with
  | nil => intro f x _; simp
  | cons a l ih =>
    intro f x hn
    rw [List.map_cons, List.nodup_cons] at hn
    rw [List.foldl_cons]
    have ih1 := ih (Function.update f (key a) (f (key a) + W (key a))) x hn.2
    by_cases hx : x ∈ l.map key
    · have hxa : x ≠ key a := fun h => hn.1 (h ▸ hx)
      refine ⟨fun _ => ?_, fun h => ?_⟩
      · rw [ih1.1 hx, Function.update_noteq hxa]
      · exact absurd (by rw [List.map_cons]; exact List.mem_cons_of_mem _ hx) h
    · by_cases hxa : x = key a
      · refine ⟨fun _ => ?_, fun h => ?_⟩
        · rw [ih1.2 hx, hxa, Function.update_same]
        · exact absurd (by rw [List.map_cons, hxa]; exact List.mem_cons_self _ _) h
      · refine ⟨fun h => ?_, fun _ => ?_⟩
        · rw [List.map_cons, List.mem_cons] at h
          rcases h with h | h
          · exact absurd h hxa
          · exact absurd h hx
        · rw [ih1.2 hx, Function.update_noteq hxa]

/-- Index pairs `(a, b)` of two nested loops, `b` outermost. -/
theorem mem_pairs (n1 n2 a b : Int) :
    (a, b) ∈ ((int_range n2).flatMap fun b => (int_range n1).map fun a => (a, b))
      ↔ (0 ≤ a ∧ a < n1) ∧ (0 ≤ b ∧ b < n2) := by
  simp only [List.mem_flatMap, List.mem_map, mem_int_range, Prod.mk.injEq]
  constructor
  · rintro ⟨b1, hb, a1, ha, rfl, rfl⟩
    exact ⟨ha, hb⟩
  · rintro ⟨ha, hb⟩
    exact ⟨b, hb, a, ha, rfl, rfl⟩

theorem pairs_nodup (n1 n2 : Int) :
    ((int_range n2).flatMap fun b => (int_range n1).map fun a => (a, b)).Nodup := by
  refine nodup_flatMap_of_disjoint _ _ (int_range_nodup _) (fun b _ => ?_) ?_
  · exact (int_range_nodup _).map (fun a1 a2 h => by
      simp only [Prod.mk.injEq] at h; exact h.1)
  · intro b1 _ b2 _ x h1 h2
    simp only [List.mem_map] at h1 h2
    obtain ⟨_, _, rfl⟩ := h1
    obtain ⟨_, _, h⟩ := h2
    simp only [Prod.mk.injEq] at h
    exact h.2.symm

/-- The scratch handed to the solve holds, at every angle and unknown, the moments of
the cell transformed to angles. -/
theorem sweep_cell_v_local {P F : Type} [Semiring P] (sweeper : Sweeper)
    (a_from_m : Int → Int → Int → P) (octant ix iy iz ie : Int) (st : Sweep_State P F)
    (ia iu : Int) (ha : 0 ≤ ia ∧ ia < sweeper.dims.na) (hu : 0 ≤ iu ∧ iu < NU) :
    Sweeper_sweep_cell_v_local sweeper a_from_m octant ix iy iz ie st (ia, iu)
      = ((int_range sweeper.dims.nm).map fun im =>
          a_from_m im ia octant * st.vi (ix, iy, iz, ie, im, iu)).sum := by
  have e : Sweeper_sweep_cell_v_local sweeper a_from_m octant ix iy iz ie st
      = ((int_range NU).flatMap fun iu => (int_range sweeper.dims.na).map fun ia =>
          (ia, iu)).foldl (fun f t => Function.update f ((fun t : Int × Int => t) t)
            ((fun t : Int × Int => ((int_range sweeper.dims.nm).map fun im =>
              a_from_m im t.1 octant * st.vi (ix, iy, iz, ie, im, t.2)).sum)
              ((fun t : Int × Int => t) t))) st.v_local := by
    unfold Sweeper_sweep_cell_v_local
    simp only [foldl_flatMap_eq, List.foldl_map, foldl_add_eq_sum, zero_add]
  rw [e]
  have h := (foldl_update_apply (fun t : Int × Int => t)
    (fun t : Int × Int => ((int_range sweeper.dims.nm).map fun im =>
      a_from_m im t.1 octant * st.vi (ix, iy, iz, ie, im, t.2)).sum)
    ((int_range NU).flatMap fun iu => (int_range sweeper.dims.na).map fun ia => (ia, iu))
    st.v_local (ia, iu)).1
  rw [List.map_id'] at h
  exact h ((mem_pairs _ _ ia iu).mpr ⟨ha, hu⟩)

/-- Effect of the cell body on `vo`: the entries of the cell and energy group receive
the scratch left by the solve transformed back to moments, every other entry and `vi`
stay as they are. -/
theorem sweep_cell_vo {P F : Type} [Semiring P]
    (Quantities_solve : Quantities → (Int × Int → P) → F → Int → Int → Int → Int →
      Int → Int → Int → Int → Int → Int → Dimensions → Dimensions → (Int × Int → P) × F)
    (sweeper : Sweeper) (quan : Quantities) (a_from_m m_from_a : Int → Int → Int → P)
    (octant octant_in_block iz_base ix iy iz ie : Int) (st : Sweep_State P F) :
    (∀ im iu, (0 ≤ im ∧ im < sweeper.dims.nm) → (0 ≤ iu ∧ iu < NU) →
      (Sweeper_sweep_cell Quantities_solve sweeper quan a_from_m m_from_a octant
          octant_in_block iz_base ix iy iz ie st).vo (ix, iy, iz, ie, im, iu)
        = st.vo (ix, iy, iz, ie, im, iu)
          + ((int_range sweeper.dims.na).map fun ia => m_from_a im ia octant
              * (Sweeper_sweep_cell Quantities_solve sweeper quan a_from_m m_from_a octant
                  octant_in_block iz_base ix iy iz ie st).v_local (ia, iu)).sum)
    ∧ (∀ jx jy jz je jm ju,
        ¬ ((jx = ix ∧ jy = iy ∧ jz = iz ∧ je = ie)
          ∧ (0 ≤ jm ∧ jm < sweeper.dims.nm) ∧ (0 ≤ ju ∧ ju < NU)) →
      (Sweeper_sweep_cell Quantities_solve sweeper quan a_from_m m_from_a octant
          octant_in_block iz_base ix iy iz ie st).vo (jx, jy, jz, je, jm, ju)
        = st.vo (jx, jy, jz, je, jm, ju))
    ∧ (Sweeper_sweep_cell Quantities_solve sweeper quan a_from_m m_from_a octant
          octant_in_block iz_base ix iy iz ie st).vi = st.vi := by
  have e : (Sweeper_sweep_cell Quantities_solve sweeper quan a_from_m m_from_a octant
      octant_in_block iz_base ix iy iz ie st).vo
      = ((int_range NU).flatMap fun iu => (int_range sweeper.dims.nm).map fun im =>
          (im, iu)).foldl (fun f t => Function.update f
            ((fun t : Int × Int => (ix, iy, iz, ie, t.1, t.2)) t)
            (f ((fun t : Int × Int => (ix, iy, iz, ie, t.1, t.2)) t)
              + (fun x : Int × Int × Int × Int × Int × Int =>
                  ((int_range sweeper.dims.na).map fun ia => m_from_a x.2.2.2.2.1 ia octant
                    * (Sweeper_sweep_cell Quantities_solve sweeper quan a_from_m m_from_a
                        octant octant_in_block iz_base ix iy iz ie st).v_local
                        (ia, x.2.2.2.2.2)).sum)
                ((fun t : Int × Int => (ix, iy, iz, ie, t.1, t.2)) t))) st.vo := by
    unfold Sweeper_sweep_cell
    simp only [foldl_flatMap_eq, List.foldl_map, foldl_add_eq_sum, zero_add]
  have hn : (((int_range NU).flatMap fun iu => (int_range sweeper.dims.nm).map fun im =>
      (im, iu)).map (fun t : Int × Int => (ix, iy, iz, ie, t.1, t.2))).Nodup :=
    (pairs_nodup _ _).map (fun a b h => by
      simp only [Prod.mk.injEq, true_and] at h
      exact Prod.ext h.1 h.2)
  have hmem : ∀ jx jy jz je jm ju, (jx, jy, jz, je, jm, ju)
      ∈ (((int_range NU).flatMap fun iu => (int_range sweeper.dims.nm).map fun im =>
          (im, iu)).map (fun t : Int × Int => (ix, iy, iz, ie, t.1, t.2)))
      ↔ (jx = ix ∧ jy = iy ∧ jz = iz ∧ je = ie)
        ∧ (0 ≤ jm ∧ jm < sweeper.dims.nm) ∧ (0 ≤ ju ∧ ju < NU) := by
    intro jx jy jz je jm ju
    rw [List.mem_map]
    constructor
    · rintro ⟨⟨a, b⟩, hab, h⟩
      simp only [Prod.mk.injEq] at h
      obtain ⟨rfl, rfl, rfl, rfl, rfl, rfl⟩ := h
      exact ⟨⟨rfl, rfl, rfl, rfl⟩, (mem_pairs _ _ _ _).mp hab⟩
    · rintro ⟨⟨rfl, rfl, rfl, rfl⟩, h⟩
      exact ⟨(jm, ju), (mem_pairs _ _ _ _).mpr h, rfl⟩
  refine ⟨fun im iu hm hu => ?_, fun jx jy jz je jm ju hout => ?_, rfl⟩
  · have h := (foldl_update_add (fun t : Int × Int => (ix, iy, iz, ie, t.1, t.2))
      (fun x : Int × Int × Int × Int × Int × Int =>
        ((int_range sweeper.dims.na).map fun ia => m_from_a x.2.2.2.2.1 ia octant
          * (Sweeper_sweep_cell Quantities_solve sweeper quan a_from_m m_from_a
              octant octant_in_block iz_base ix iy iz ie st).v_local (ia, x.2.2.2.2.2)).sum)
      _ st.vo (ix, iy, iz, ie, im, iu) hn).1
      ((hmem ix iy iz ie im iu).mpr ⟨⟨rfl, rfl, rfl, rfl⟩, hm, hu⟩)
    rw [← e] at h
    exact h
  · have h := (foldl_update_add (fun t : Int × Int => (ix, iy, iz, ie, t.1, t.2))
      (fun x : Int × Int × Int × Int × Int × Int =>
        ((int_range sweeper.dims.na).map fun ia => m_from_a x.2.2.2.2.1 ia octant
          * (Sweeper_sweep_cell Quantities_solve sweeper quan a_from_m m_from_a
              octant octant_in_block iz_base ix iy iz ie st).v_local (ia, x.2.2.2.2.2)).sum)
      _ st.vo (jx, jy, jz, je, jm, ju) hn).2
      (fun hm => hout ((hmem jx jy jz je jm ju).mp hm))
    rw [← e] at h
    exact h

theorem foldlM_total {α σ : Type} (g : α → σ → σ) :
    ∀ (l : List α) (body : α → σ → Option σ) (st : σ),
    (∀ i st, body i st = some (g i st)) →
    l.foldlM (fun st i => body i st) st = some (l.foldl (fun st i => g i st) st) := by
  intro l
  induction l with
  | nil => intro body st _; rfl
  | cons a l ih =>
    intro body st h
    rw [List.foldlM_cons, h a st]
    simp only [Option.bind_eq_bind, Option.some_bind]
    rw [ih body (g a st) h]
    rfl

/-- A directed loop of the semiblock sweep over `[imin, imax]` with a body that always
returns is the fold of the body over the indices in the order of the direction. -/
theorem for_ne_axis_total {σ : Type} (fuel : Nat) (dir imin imax : Int) (g : Int → σ → σ)
    (body : Int → σ → Option σ) (st : σ)
    (hdir : is_dir dir) (hlen : imin ≤ imax + 1) (hfuel : (imax + 1 - imin).toNat < fuel)
    (hbody : ∀ i st, body i st = some (g i st)) :
    for_ne fuel (if dir = Dir_up then imin else imax)
        ((if dir = Dir_dn then imin else imax) + Dir_inc dir) (Dir_inc dir) body st
      = some ((axis_order dir imin imax).foldl (fun st i => g i st) st) := by
  have hl : (((imax + 1 - imin).toNat : Nat) : Int) = imax + 1 - imin :=
    Int.toNat_of_nonneg (by omega)
  rcases hdir with rfl | rfl
  · rw [for_ne_eq (imax + 1 - imin).toNat fuel _ _ _ body st (by decide)
      (by simp only [Dir_up, Dir_dn, Dir_inc]; rw [hl]; norm_num; try omega) hfuel]
    rw [foldlM_total g _ body st hbody]
    simp [axis_order, Dir_up, Dir_inc]
  · rw [for_ne_eq (imax + 1 - imin).toNat fuel _ _ _ body st (by decide)
      (by simp only [Dir_up, Dir_dn, Dir_inc]; rw [hl]; norm_num; try omega) hfuel]
    rw [foldlM_total g _ body st hbody]
    simp [axis_order, Dir_up, Dir_dn, Dir_inc, sub_eq_add_neg]

/-- With enough fuel the loop nest of the semiblock sweep, with a body that always
returns, returns the fold of the body over the cells and energy groups visited. -/
theorem sweep_semiblock_loops_total {σ : Type} (fuel : Nat) (E : Externals)
    (sweeper : Sweeper) (thread_e octant ixmin ixmax iymin iymax izmin izmax : Int)
    (cell : Int → Int → Int → Int → σ → σ) (st : σ)
    (hdx : is_dir (E.Dir_x octant)) (hdy : is_dir (E.Dir_y octant))
    (hdz : is_dir (E.Dir_z octant))
    (hx : ixmin ≤ ixmax + 1) (hy : iymin ≤ iymax + 1) (hz : izmin ≤ izmax + 1)
    (fx : (ixmax + 1 - ixmin).toNat < fuel) (fy : (iymax + 1 - iymin).toNat < fuel)
    (fz : (izmax + 1 - izmin).toNat < fuel) :
    Sweeper_sweep_semiblock_loops fuel E sweeper thread_e octant
        ixmin ixmax iymin iymax izmin izmax
        (fun ix iy iz ie st => some (cell ix iy iz ie st)) st
      = some ((semiblock_visits E sweeper thread_e octant ixmin ixmax iymin iymax izmin
          izmax).foldl (fun st c => cell c.1 c.2.1 c.2.2.1 c.2.2.2 st) st) := by
  unfold Sweeper_sweep_semiblock_loops for_lt semiblock_visits
  simp only [foldl_flatMap_eq, List.foldl_map]
  apply foldlM_total (fun ie st => (axis_order (E.Dir_z octant) izmin izmax).foldl
    (fun st iz => (axis_order (E.Dir_y octant) iymin iymax).foldl
      (fun st iy => (axis_order (E.Dir_x octant) ixmin ixmax).foldl
        (fun st ix => cell ix iy iz ie st) st) st) st)
  intro ie st
  apply for_ne_axis_total fuel _ izmin izmax (fun iz st =>
    (axis_order (E.Dir_y octant) iymin iymax).foldl
      (fun st iy => (axis_order (E.Dir_x octant) ixmin ixmax).foldl
        (fun st ix => cell ix iy iz ie st) st) st) _ st hdz hz fz
  intro iz st
  apply for_ne_axis_total fuel _ iymin iymax (fun iy st =>
    (axis_order (E.Dir_x octant) ixmin ixmax).foldl
        (fun st ix => cell ix iy iz ie st) st) _ st hdy hy fy
  intro iy st
  apply for_ne_axis_total fuel _ ixmin ixmax (fun ix st => cell ix iy iz ie st) _ st hdx hx fx
  intro ix st
  rfl

theorem mem_semiblock_visits (E : Externals) (sweeper : Sweeper)
    (thread_e octant ixmin ixmax iymin iymax izmin izmax : Int) (ix iy iz ie : Int) :
    (ix, iy, iz, ie) ∈ semiblock_visits E sweeper thread_e octant ixmin ixmax iymin iymax
        izmin izmax
      ↔ (ixmin ≤ ix ∧ ix ≤ ixmax) ∧ (iymin ≤ iy ∧ iy ≤ iymax) ∧ (izmin ≤ iz ∧ iz ≤ izmax)
        ∧ (ie_min sweeper thread_e ≤ ie ∧ ie < ie_max sweeper thread_e) := by
  unfold semiblock_visits
  simp only [List.mem_flatMap, List.mem_map, mem_axis_order, mem_int_range_from,
    Prod.mk.injEq]
  constructor
  · rintro ⟨ie1, he, iz1, hz, iy1, hy, ix1, hx, rfl, rfl, rfl, rfl⟩
    exact ⟨hx, hy, hz, he⟩
  · rintro ⟨hx, hy, hz, he⟩
    exact ⟨ie, he, iz, hz, iy, hy, ix, hx, rfl, rfl, rfl, rfl⟩

theorem foldl_preserves {α σ : Type} (f : σ → α → σ) (Q : σ → Prop) :
    ∀ (l : List α) (st : σ), (∀ st c, c ∈ l → Q st → Q (f st c)) → Q st → Q (l.foldl f st) := by
  intro l
  induction l with
  | nil => intro st _ h; exact h
  | cons a l ih =>
    intro st h h0
    rw [List.foldl_cons]
    exact ih (f st a) (fun st c hc => h st c (List.mem_cons_of_mem a hc))
      (h st a (List.mem_cons_self a l) h0)

/-- On a 1 x 1 process grid with a scheduler that is inactive outside the grid no face
is due to be sent or received along x or y. -/
theorem single_process_must_do (E : Externals) (sweeper : Sweeper) (env : Env)
    (hgx : env.nproc_x = 1) (hgy : env.nproc_y = 1)
    (hin : in_grid env env.proc_x_this env.proc_y_this)
    (hout : ∀ step k px py, ¬ in_grid env px py →
      (sweeper.step_scheduler.step_info step k px py).is_active = false)
    (step axis dir_ind k : Int) (haxis : axis = 0 ∨ axis = 1) :
    Sweeper_must_do_send__ E sweeper step axis dir_ind k env = false
      ∧ Sweeper_must_do_recv__ E sweeper step axis dir_ind k env = false := by
  unfold in_grid at hin
  have hx : env.proc_x_this = 0 := by omega
  have hy : env.proc_y_this = 0 := by omega
  have hgrid : ∀ px py, ¬ (px = 0 ∧ py = 0) → ¬ in_grid env px py := by
    intro px py h hg
    unfold in_grid at hg
    exact h ⟨by omega, by omega⟩
  have hup : ∀ s, (sweeper.step_scheduler.step_info s k 1 0).is_active = false :=
    fun s => hout s k 1 0 (hgrid 1 0 (by decide))
  have hdn : ∀ s, (sweeper.step_scheduler.step_info s k (-1) 0).is_active = false :=
    fun s => hout s k (-1) 0 (hgrid (-1) 0 (by decide))
  have hup1 : ∀ s, (sweeper.step_scheduler.step_info s k 0 1).is_active = false :=
    fun s => hout s k 0 1 (hgrid 0 1 (by decide))
  have hdn1 : ∀ s, (sweeper.step_scheduler.step_info s k 0 (-1)).is_active = false :=
    fun s => hout s k 0 (-1) (hgrid 0 (-1) (by decide))
  rcases haxis with rfl | rfl <;> by_cases hd : dir_ind = 0 <;>
    simp [Sweeper_must_do_send__, Sweeper_must_do_recv__, hx, hy, hd, Dir_up, Dir_dn, Dir_inc,
      hup, hdn, hup1, hdn1]

/-- When no face is due to be sent or received along x or y, the five exchange functions
make no call. -/
theorem exchange_empty (E : Externals) (sweeper : Sweeper) (env : Env) (t : Int)
    (h : ∀ axis dir_ind k, axis = 0 ∨ axis = 1 →
      Sweeper_must_do_send__ E sweeper t axis dir_ind k env = false
        ∧ Sweeper_must_do_recv__ E sweeper t axis dir_ind k env = false)
    (op : Op) :
    ¬ (op ∈ Sweeper_communicate_faces__ E sweeper t env
          ∨ op ∈ Sweeper_send_faces_start__ E sweeper t env
          ∨ op ∈ Sweeper_send_faces_end__ E sweeper t env
          ∨ op ∈ Sweeper_recv_faces_start__ E sweeper t env
          ∨ op ∈ Sweeper_recv_faces_end__ E sweeper t env) := by
  have h2 : ∀ axis : Int, 0 ≤ axis ∧ axis < 2 → axis = 0 ∨ axis = 1 := by intro a ha; omega
  rintro (hop | hop | hop | hop | hop)
  · simp only [Sweeper_communicate_faces__, List.mem_flatMap, mem_int_range] at hop
    obtain ⟨k, _, axis, ha, d, _, hop⟩ := hop
    rw [communicate_dir_eq] at hop
    simp [(h axis d k (h2 axis ha)).1, (h axis d k (h2 axis ha)).2] at hop
  · simp only [Sweeper_send_faces_start__, List.mem_flatMap, mem_int_range] at hop
    obtain ⟨k, _, axis, ha, d, _, hop⟩ := hop
    simp [Sweeper_send_faces_start__dir, (h axis d k (h2 axis ha)).1] at hop
  · simp only [Sweeper_send_faces_end__, List.mem_flatMap, mem_int_range] at hop
    obtain ⟨k, _, axis, ha, d, _, hop⟩ := hop
    simp [Sweeper_send_faces_end__dir, (h axis d k (h2 axis ha)).1] at hop
  · simp only [Sweeper_recv_faces_start__, List.mem_flatMap, mem_int_range] at hop
    obtain ⟨k, _, axis, ha, d, _, hop⟩ := hop
    simp [Sweeper_recv_faces_start__dir, (h axis d k (h2 axis ha)).2] at hop
  · simp only [Sweeper_recv_faces_end__, List.mem_flatMap, mem_int_range] at hop
    obtain ⟨k, _, axis, ha, d, _, hop⟩ := hop
    simp [Sweeper_recv_faces_end__dir, (h axis d k (h2 axis ha)).2] at hop

/-- The number of requests started in slot `r` is the number of start events on `r`. -/
theorem started_count_eq (r : Request) :
    ∀ ops : List Op, (started_requests ops).count r = (slot_events r ops).count true := by
  intro ops
  induction ops with
  | nil => rfl
  | cons op ops ih =>
    unfold started_requests slot_events at ih ⊢
    rw [List.filterMap_cons, List.filterMap_cons]
    cases op with
    | Env_asend_P src n p t q =>
      by_cases h : r = q
      · subst h; simp [Op.event, ih]
      · have h' : ¬ (q = r) := fun hh => h hh.symm
        simp [Op.event, h, h', ih, List.count_cons]
    | Env_arecv_P src n p t q =>
      by_cases h : r = q
      · subst h; simp [Op.event, ih]
      · have h' : ¬ (q = r) := fun hh => h hh.symm
        simp [Op.event, h, h', ih, List.count_cons]
    | Env_wait q =>
      by_cases h : r = q
      · subst h; simp [Op.event, ih]
      · simp [Op.event, h, ih]
    | _ => simp [Op.event, ih]

/-- The message sent in one colour pass: the pass of colour 0 on a process of even
coordinate, the other pass on a process of odd coordinate, when a send is due. -/
theorem color_sent (E : Externals) (sweeper : Sweeper) (s : Int) (env : Env)
    (k axis dir_ind color : Int) (use_buf : Bool) :
    sent_messages env
        (Sweeper_communicate_faces__color E sweeper s env k axis dir_ind color use_buf).1
      = if ((color == 0) == (Int.tmod (proc_axis_of env axis) 2 == 0))
            && Sweeper_must_do_send__ E sweeper s axis dir_ind k env then
          [⟨size_face_per_octant E sweeper axis, env.tag + k,
            env.proc env.proc_x_this env.proc_y_this, proc_send_to env axis dir_ind⟩]
        else [] := by
  simp only [Sweeper_communicate_faces__color, proc_axis_of, size_face_per_octant,
    proc_send_to]
  by_cases hc : color = 0 <;>
    by_cases hs : Sweeper_must_do_send__ E sweeper s axis dir_ind k env = true <;>
    by_cases hr : Sweeper_must_do_recv__ E sweeper s axis dir_ind k env = true <;>
    by_cases hp : Int.tmod (if axis = 0 then env.proc_x_this
        else env.proc_y_this) 2 = 0 <;>
    simp [hc, hs, hr, hp, sent_messages]

/-- The message received in one colour pass: the pass of colour 0 on a process of odd
coordinate, the other pass on a process of even coordinate, when a receive is due. -/
theorem color_received (E : Externals) (sweeper : Sweeper) (s : Int) (env : Env)
    (k axis dir_ind color : Int) (use_buf : Bool) :
    received_messages env
        (Sweeper_communicate_faces__color E sweeper s env k axis dir_ind color use_buf).1
      = if ((color == 0) != (Int.tmod (proc_axis_of env axis) 2 == 0))
            && Sweeper_must_do_recv__ E sweeper s axis dir_ind k env then
          [⟨size_face_per_octant E sweeper axis, env.tag + k,
            proc_recv_from env axis dir_ind, env.proc env.proc_x_this env.proc_y_this⟩]
        else [] := by
  simp only [Sweeper_communicate_faces__color, proc_axis_of, size_face_per_octant,
    proc_recv_from]
  by_cases hc : color = 0 <;>
    by_cases hs : Sweeper_must_do_send__ E sweeper s axis dir_ind k env = true <;>
    by_cases hr : Sweeper_must_do_recv__ E sweeper s axis dir_ind k env = true <;>
    by_cases hp : Int.tmod (if axis = 0 then env.proc_x_this
        else env.proc_y_this) 2 = 0 <;>
    simp [hc, hs, hr, hp, received_messages]

/-- Neighbouring processes along an axis have coordinates of opposite parity. -/
theorem neighbour_parity (env : Env) (axis_is_x up : Bool) :
    (Int.tmod (proc_axis_of (neighbour env axis_is_x up) (axis_index axis_is_x)) 2 == 0)
      = !(Int.tmod (proc_axis_of env (axis_index axis_is_x)) 2 == 0) := by
  cases axis_is_x <;> cases up <;>
    simp only [proc_axis_of, neighbour, Env_at, Delta, dir_value, axis_index, Dir_up, Dir_dn,
      if_true, if_false, Bool.false_eq_true] <;>
    first
      | exact tmod_two_succ _
      | exact tmod_two_pred _

theorem semiblock_visits_nodup (E : Externals) (sweeper : Sweeper)
    (thread_e octant ixmin ixmax iymin iymax izmin izmax : Int) :
    (semiblock_visits E sweeper thread_e octant ixmin ixmax iymin iymax izmin izmax).Nodup := by
  unfold semiblock_visits
  refine nodup_flatMap_of_disjoint _ _ (int_range_from_nodup _ _) (fun ie _ => ?_) ?_
  · refine nodup_flatMap_of_disjoint _ _ (axis_order_nodup _ _ _) (fun iz _ => ?_) ?_
    · refine nodup_flatMap_of_disjoint _ _ (axis_order_nodup _ _ _) (fun iy _ => ?_) ?_
      · exact (axis_order_nodup _ _ _).map (fun a b h => by
          simp only [Prod.mk.injEq] at h; exact h.1)
      · intro a _ b _ x hxa hxb
        simp only [List.mem_map] at hxa hxb
        obtain ⟨_, _, rfl⟩ := hxa
        obtain ⟨_, _, h⟩ := hxb
        simp only [Prod.mk.injEq] at h
        exact h.2.1.symm
    · intro a _ b _ x hxa hxb
      simp only [List.mem_flatMap, List.mem_map] at hxa hxb
      obtain ⟨_, _, _, _, rfl⟩ := hxa
      obtain ⟨_, _, _, _, h⟩ := hxb
      simp only [Prod.mk.injEq] at h
      exact h.2.2.1.symm
  · intro a _ b _ x hxa hxb
    simp only [List.mem_flatMap, List.mem_map] at hxa hxb
    obtain ⟨_, _, _, _, _, _, rfl⟩ := hxa
    obtain ⟨_, _, _, _, _, _, h⟩ := hxb
    simp only [Prod.mk.injEq] at h
    exact h.2.2.2.symm

/-- The low half of a split axis with one cell is the empty range `[0, -1]`, for either
direction. -/
theorem low_half_of_one (nsemiblock semiblock : Int) (a : Nat) (dir : Int)
    (hsplit : nsemiblock > 2 ^ a) (hlo : is_semiblock_lo semiblock a dir = true) :
    imin_b nsemiblock semiblock a dir 1 = 0 ∧ imax_b nsemiblock semiblock a dir 1 = -1 := by
  unfold imin_b imax_b has_lo has_hi is_semiblocked
  rw [hlo]
  simp [hsplit]
  decide

theorem ie_min_eq_ediv (sweeper : Sweeper) (t : Int) (hne : 0 ≤ sweeper.dims.ne)
    (hnt : 1 ≤ sweeper.nthread_e) (ht : 0 ≤ t) :
    ie_min sweeper t = sweeper.dims.ne * t / sweeper.nthread_e := by
  unfold ie_min
  exact Int.tdiv_eq_ediv (mul_nonneg hne ht) (by omega)

theorem ie_max_eq_min (sweeper : Sweeper) (t : Int) :
    ie_max sweeper t = ie_min sweeper (t + 1) := rfl

/-- The lower ends of the energy ranges grow with the thread number. -/
theorem ie_min_mono (sweeper : Sweeper) (t1 t2 : Int) (hne : 0 ≤ sweeper.dims.ne)
    (hnt : 1 ≤ sweeper.nthread_e) (h1 : 0 ≤ t1) (h12 : t1 ≤ t2) :
    ie_min sweeper t1 ≤ ie_min sweeper t2 := by
  rw [ie_min_eq_ediv sweeper t1 hne hnt h1, ie_min_eq_ediv sweeper t2 hne hnt (by omega)]
  exact Int.ediv_le_ediv (by omega) (mul_le_mul_of_nonneg_left h12 hne)

theorem ie_min_zero (sweeper : Sweeper) : ie_min sweeper 0 = 0 := by
  simp [ie_min]

theorem ie_min_last (sweeper : Sweeper) (hnt : 1 ≤ sweeper.nthread_e) :
    ie_min sweeper sweeper.nthread_e = sweeper.dims.ne := by
  unfold ie_min
  exact Int.mul_tdiv_cancel _ (by omega)

/-- Below the lower end of thread `N` every energy group at or above 0's lower end is
in the range of a thread below `N`. -/
theorem energy_thread_exists (sweeper : Sweeper) (ie : Int) (h0 : ie_min sweeper 0 ≤ ie) :
    ∀ N : Nat, ie < ie_min sweeper (N : Int) →
      ∃ t : Int, (0 ≤ t ∧ t < (N : Int)) ∧ ie_min sweeper t ≤ ie ∧ ie < ie_max sweeper t := by
  intro N
  induction N with
  | zero => intro h; simp at h; omega
  | succ n ih =>
    intro h
    by_cases hn : ie < ie_min sweeper (n : Int)
    · obtain ⟨t, ht, hr⟩ := ih hn
      exact ⟨t, ⟨ht.1, by push_cast; omega⟩, hr⟩
    · refine ⟨(n : Int), ⟨by omega, by push_cast; omega⟩, by omega, ?_⟩
      rw [ie_max_eq_min]
      push_cast at h
      exact h
theorem for_ne_preserves {σ : Type} (Q : σ → Prop) (body : Int → σ → Option σ)
    (hb : ∀ i st st1, body i st = some st1 → Q st → Q st1) :
    ∀ (fuel : Nat) (i stop inc : Int) (st st1 : σ),
      for_ne fuel i stop inc body st = some st1 → Q st → Q st1 := by
  intro fuel
  induction fuel with
  | zero => intro i stop inc st st1 h; simp [for_ne] at h
  | succ f ih =>
    intro i stop inc st st1 h hq
    rw [for_ne] at h
    split_ifs at h
    · cases hbi : body i st with
      | none => rw [hbi] at h; simp at h
      | some st2 =>
        rw [hbi] at h
        exact ih (i + inc) stop inc st2 st1 h (hb i st st2 hbi hq)
    · simp only [Option.some.injEq] at h
      rw [← h]
      exact hq

theorem foldlM_preserves {α σ : Type} (Q : σ → Prop) :
    ∀ (l : List α) (body : α → σ → Option σ) (st st1 : σ),
      (∀ i ∈ l, ∀ st st1, body i st = some st1 → Q st → Q st1) →
      l.foldlM (fun st i => body i st) st = some st1 → Q st → Q st1 := by
  intro l
  induction l with
  | nil =>
    intro body st st1 _ h hq
    simp only [List.foldlM_nil, pure, Option.some.injEq] at h
    rw [← h]
    exact hq
  | cons a l ih =>
    intro body st st1 hb h hq
    rw [List.foldlM_cons] at h
    cases hbi : body a st with
    | none => rw [hbi] at h; simp at h
    | some st2 =>
      rw [hbi] at h
      simp only [Option.bind_eq_bind, Option.some_bind] at h
      exact ih body st2 st1 (fun i hi => hb i (List.mem_cons_of_mem a hi)) h
        (hb a (List.mem_cons_self a l) st st2 hbi hq)

/-- Whatever the fuel, the cells recorded by the loop nest of the semiblock sweep carry
energy groups of the thread only. -/
theorem sweep_loops_energy (fuel : Nat) (E : Externals) (sweeper : Sweeper)
    (thread_e octant ixmin ixmax iymin iymax izmin izmax : Int)
    (cells : List (Int × Int × Int × Int))
    (h : Sweeper_sweep_semiblock_loops fuel E sweeper thread_e octant
        ixmin ixmax iymin iymax izmin izmax
        (fun ix iy iz ie acc => some (acc ++ [(ix, iy, iz, ie)])) [] = some cells) :
    ∀ c ∈ cells, ie_min sweeper thread_e ≤ c.2.2.2 ∧ c.2.2.2 < ie_max sweeper thread_e := by
  unfold Sweeper_sweep_semiblock_loops for_lt at h
  refine foldlM_preserves
    (fun acc : List (Int × Int × Int × Int) =>
      ∀ c ∈ acc, ie_min sweeper thread_e ≤ c.2.2.2 ∧ c.2.2.2 < ie_max sweeper thread_e)
    _ _ [] cells ?_ h (fun c hc => by cases hc)
  intro ie hie st st1 hbody hq
  rw [mem_int_range_from] at hie
  refine for_ne_preserves
    (fun acc : List (Int × Int × Int × Int) =>
      ∀ c ∈ acc, ie_min sweeper thread_e ≤ c.2.2.2 ∧ c.2.2.2 < ie_max sweeper thread_e)
    _ ?_ _ _ _ _ st st1 hbody hq
  intro iz st st1 hbody hq
  refine for_ne_preserves
    (fun acc : List (Int × Int × Int × Int) =>
      ∀ c ∈ acc, ie_min sweeper thread_e ≤ c.2.2.2 ∧ c.2.2.2 < ie_max sweeper thread_e)
    _ ?_ _ _ _ _ st st1 hbody hq
  intro iy st st1 hbody hq
  refine for_ne_preserves
    (fun acc : List (Int × Int × Int × Int) =>
      ∀ c ∈ acc, ie_min sweeper thread_e ≤ c.2.2.2 ∧ c.2.2.2 < ie_max sweeper thread_e)
    _ ?_ _ _ _ _ st st1 hbody hq
  intro ix st st1 hbody hq c hc
  simp only [Option.some.injEq] at hbody
  rw [← hbody, List.mem_append, List.mem_singleton] at hc
  rcases hc with hc | hc
  · exact hq c hc
  · rw [hc]; exact hie

/-- The slots recorded by the loop nests of the three boundary initialisers carry
energy groups of the thread only. -/
theorem boundary_loops_energy (sweeper : Sweeper) (thread_e a0 a1 b0 b1 : Int) :
    (∀ c ∈ Sweeper_set_boundary_xy_loops sweeper thread_e a0 a1 b0 b1
        (fun ix iy ie ia iu acc => acc ++ [(ix, iy, ie, ia, iu)]) [],
      ie_min sweeper thread_e ≤ c.2.2.1 ∧ c.2.2.1 < ie_max sweeper thread_e)
    ∧ (∀ c ∈ Sweeper_set_boundary_xz_loops sweeper thread_e a0 a1 b0 b1
        (fun ix iz ie ia iu acc => acc ++ [(ix, iz, ie, ia, iu)]) [],
      ie_min sweeper thread_e ≤ c.2.2.1 ∧ c.2.2.1 < ie_max sweeper thread_e)
    ∧ (∀ c ∈ Sweeper_set_boundary_yz_loops sweeper thread_e a0 a1 b0 b1
        (fun iy iz ie ia iu acc => acc ++ [(iy, iz, ie, ia, iu)]) [],
      ie_min sweeper thread_e ≤ c.2.2.1 ∧ c.2.2.1 < ie_max sweeper thread_e) := by
  have h : ∀ c ∈ Sweeper_set_boundary_xy_loops sweeper thread_e a0 a1 b0 b1
        (fun ix iy ie ia iu acc => acc ++ [(ix, iy, ie, ia, iu)]) [],
      ie_min sweeper thread_e ≤ c.2.2.1 ∧ c.2.2.1 < ie_max sweeper thread_e := by
    rintro ⟨ix, iy, ie, ia, iu⟩ hc
    rw [set_boundary_xy_loops_eq, foldl_append_singleton] at hc
    simp only [List.nil_append, List.map_id'] at hc
    exact ((mem_xy_slots sweeper thread_e a0 a1 b0 b1 ix iy ie ia iu).mp hc).2.2.1
  exact ⟨h, h, h⟩

/-- One digit of a mixed-radix index is recovered from the index: with `0 <= a, b < A`,
equal values `a + A * r` and `b + A * s` have equal digits and equal rests. -/
theorem radix_inj (A a b r s : Int) (ha : 0 ≤ a ∧ a < A) (hb : 0 ≤ b ∧ b < A)
    (h : a + A * r = b + A * s) : a = b ∧ r = s := by
  have hA : 0 < A := by omega
  have h1 : (a + A * r) % A = a := by
    rw [Int.add_mul_emod_self_left]
    exact Int.emod_eq_of_lt ha.1 ha.2
  have h2 : (b + A * s) % A = b := by
    rw [Int.add_mul_emod_self_left]
    exact Int.emod_eq_of_lt hb.1 hb.2
  have hab : a = b := by rw [← h1, ← h2, h]
  refine ⟨hab, ?_⟩
  have h3 : A * r = A * s := by omega
  exact mul_left_cancel₀ (ne_of_gt hA) h3

/-- Counting along an axis in the direction of the sweep is its own inverse. -/
theorem along_along (dir n i : Int) : Acc.along dir n (Acc.along dir n i) = i := by
  unfold Acc.along
  split_ifs <;> omega

/-- Counting along an axis keeps an index inside the axis. -/
theorem along_range (dir n i : Int) :
    (0 ≤ Acc.along dir n i ∧ Acc.along dir n i < n) ↔ (0 ≤ i ∧ i < n) := by
  unfold Acc.along
  split_ifs <;> omega

/-- The body of `Sweeper_sweep_cell_acceldir` runs on `(ix, iy, iz)` exactly when `iz` is
in bounds and the wavefront is that of the cell. -/
theorem acceldir_eq_some (dims : Dimensions) (wavefront ix iy iz dir_x dir_y dir_z : Int) :
    Acc.Sweeper_sweep_cell_acceldir dims wavefront ix iy dir_x dir_y dir_z = some iz
      ↔ (0 ≤ iz ∧ iz < dims.ncell_z)
        ∧ wavefront = Acc.wavefront_of dims ix iy iz dir_x dir_y dir_z := by
  unfold Acc.Sweeper_sweep_cell_acceldir Acc.wavefront_of Acc.along
  simp only
  split_ifs <;> simp only [Option.some.injEq, reduceCtorEq, false_iff] <;> omega

/-- Cells of one wavefront kernel: those of the block whose wavefront number is the
one of the kernel. -/
theorem mem_sweep_block_wavefront (dims_b : Dimensions)
    (wavefront dir_x dir_y dir_z ix iy iz : Int) :
    (ix, iy, iz) ∈ Acc.Sweeper_sweep_block_wavefront dims_b wavefront dir_x dir_y dir_z
      ↔ in_block dims_b.ncell_x dims_b.ncell_y dims_b.ncell_z (ix, iy, iz)
        ∧ wavefront = Acc.wavefront_of dims_b ix iy iz dir_x dir_y dir_z := by
  unfold Acc.Sweeper_sweep_block_wavefront in_block
  simp only [List.mem_flatMap, mem_int_range]
  constructor
  · rintro ⟨iyu, hy, ixu, hx, h⟩
    have hay := (along_range dir_y dims_b.ncell_y iyu).mpr hy
    have hax := (along_range dir_x dims_b.ncell_x ixu).mpr hx
    unfold Acc.along at hay hax
    cases hc : Acc.Sweeper_sweep_cell_acceldir dims_b wavefront
        (if dir_x == Dir_up then ixu else dims_b.ncell_x - 1 - ixu)
        (if dir_y == Dir_up then iyu else dims_b.ncell_y - 1 - iyu) dir_x dir_y dir_z with
    | none => rw [hc] at h; simp at h
    | some z =>
      rw [hc] at h
      simp only [List.mem_singleton, Prod.mk.injEq] at h
      obtain ⟨h1, h2, h3⟩ := h
      rw [← h1, ← h2, ← h3] at hc
      rw [← h1] at hax
      rw [← h2] at hay
      have := (acceldir_eq_some dims_b wavefront ix iy iz dir_x dir_y dir_z).mp hc
      exact ⟨⟨hax, hay, this.1⟩, this.2⟩
  · rintro ⟨⟨hx, hy, hz⟩, hw⟩
    refine ⟨Acc.along dir_y dims_b.ncell_y iy,
      (along_range dir_y dims_b.ncell_y iy).mpr hy,
      Acc.along dir_x dims_b.ncell_x ix, (along_range dir_x dims_b.ncell_x ix).mpr hx, ?_⟩
    have e1 := along_along dir_x dims_b.ncell_x ix
    have e2 := along_along dir_y dims_b.ncell_y iy
    unfold Acc.along at e1 e2
    unfold Acc.along
    rw [e1, e2, (acceldir_eq_some dims_b wavefront ix iy iz dir_x dir_y dir_z).mpr ⟨hz, hw⟩]
    exact List.mem_singleton_self _

/-- The cells of one wavefront kernel are listed once each. -/
theorem sweep_block_wavefront_nodup (dims_b : Dimensions) (wavefront dir_x dir_y dir_z : Int) :
    (Acc.Sweeper_sweep_block_wavefront dims_b wavefront dir_x dir_y dir_z).Nodup := by
  unfold Acc.Sweeper_sweep_block_wavefront
  have hin : ∀ (iyu ixu : Int) (c : Int × Int × Int),
      c ∈ (match Acc.Sweeper_sweep_cell_acceldir dims_b wavefront
            (if dir_x == Dir_up then ixu else dims_b.ncell_x - 1 - ixu)
            (if dir_y == Dir_up then iyu else dims_b.ncell_y - 1 - iyu) dir_x dir_y dir_z with
          | some iz => [((if dir_x == Dir_up then ixu else dims_b.ncell_x - 1 - ixu),
              (if dir_y == Dir_up then iyu else dims_b.ncell_y - 1 - iyu), iz)]
          | none => []) →
      c.1 = Acc.along dir_x dims_b.ncell_x ixu ∧ c.2.1 = Acc.along dir_y dims_b.ncell_y iyu := by
    intro iyu ixu c hc
    cases ho : Acc.Sweeper_sweep_cell_acceldir dims_b wavefront
        (if dir_x == Dir_up then ixu else dims_b.ncell_x - 1 - ixu)
        (if dir_y == Dir_up then iyu else dims_b.ncell_y - 1 - iyu) dir_x dir_y dir_z with
    | none => rw [ho] at hc; simp at hc
    | some z =>
      rw [ho] at hc
      simp only [List.mem_singleton] at hc
      rw [hc]
      exact ⟨rfl, rfl⟩
  refine nodup_flatMap_of_disjoint _ _ (int_range_nodup _) ?_ ?_
  · intro iyu _
    refine nodup_flatMap_of_disjoint _ _ (int_range_nodup _) ?_ ?_
    · intro ixu _
      dsimp only
      cases Acc.Sweeper_sweep_cell_acceldir dims_b wavefront
        (if dir_x == Dir_up then ixu else dims_b.ncell_x - 1 - ixu)
        (if dir_y == Dir_up then iyu else dims_b.ncell_y - 1 - iyu) dir_x dir_y dir_z with
      | none => exact List.nodup_nil
      | some z => exact List.nodup_singleton _
    · intro a _ b _ c hca hcb
      have h1 := (hin iyu a c hca).1
      have h2 := (hin iyu b c hcb).1
      rw [← along_along dir_x dims_b.ncell_x a, ← along_along dir_x dims_b.ncell_x b,
        ← h1, ← h2]
  · intro a _ b _ c hca hcb
    simp only [List.mem_flatMap] at hca hcb
    obtain ⟨xa, _, hxa⟩ := hca
    obtain ⟨xb, _, hxb⟩ := hcb
    have h1 := (hin a xa c hxa).2
    have h2 := (hin b xb c hxb).2
    rw [← along_along dir_y dims_b.ncell_y a, ← along_along dir_y dims_b.ncell_y b,
      ← h1, ← h2]

/-- Events of the block sweep: the octants `0 .. NOCTANT-1`, the cells of the block, each
on the wavefront of its number. -/
theorem mem_acc_sweep_block (E : Externals) (sweeper : Acc.Sweeper)
    (octant wavefront ix iy iz : Int) :
    (octant, wavefront, ix, iy, iz) ∈ Acc.Sweeper_sweep_block E sweeper
      ↔ (0 ≤ octant ∧ octant < NOCTANT)
        ∧ in_block sweeper.dims_b.ncell_x sweeper.dims_b.ncell_y sweeper.dims_b.ncell_z
            (ix, iy, iz)
        ∧ wavefront = Acc.wavefront_of sweeper.dims_b ix iy iz
            (E.Dir_x octant) (E.Dir_y octant) (E.Dir_z octant) := by
  unfold Acc.Sweeper_sweep_block
  simp only [List.mem_flatMap, List.mem_map, mem_int_range, Prod.mk.injEq, Prod.exists]
  constructor
  · rintro ⟨o, ho, w, _, x, y, z, hc, h1, h2, h3, h4, h5⟩
    subst h1 h2 h3 h4 h5
    exact ⟨ho, (mem_sweep_block_wavefront _ _ _ _ _ _ _ _).mp hc⟩
  · rintro ⟨ho, hb, hw⟩
    refine ⟨octant, ho, wavefront, ?_, ix, iy, iz,
      (mem_sweep_block_wavefront _ _ _ _ _ _ _ _).mpr ⟨hb, hw⟩, rfl, rfl, rfl, rfl, rfl⟩
    have hx := (along_range (E.Dir_x octant) sweeper.dims_b.ncell_x ix).mpr hb.1
    have hy := (along_range (E.Dir_y octant) sweeper.dims_b.ncell_y iy).mpr hb.2.1
    have hz := (along_range (E.Dir_z octant) sweeper.dims_b.ncell_z iz).mpr hb.2.2
    unfold Acc.wavefront_of at hw
    omega

/-- The events of the block sweep are listed once each. -/
theorem acc_sweep_block_nodup (E : Externals) (sweeper : Acc.Sweeper) :
    (Acc.Sweeper_sweep_block E sweeper).Nodup := by
  unfold Acc.Sweeper_sweep_block
  refine nodup_flatMap_of_disjoint _ _ (int_range_nodup _) ?_ ?_
  · intro o _
    refine nodup_flatMap_of_disjoint _ _ (int_range_nodup _) ?_ ?_
    · intro w _
      refine List.Nodup.map ?_ (sweep_block_wavefront_nodup _ _ _ _ _)
      intro c1 c2 h
      simp only [Prod.mk.injEq] at h
      exact Prod.ext h.2.2.1 (Prod.ext h.2.2.2.1 h.2.2.2.2)
    · intro a _ b _ c hca hcb
      simp only [List.mem_map] at hca hcb
      obtain ⟨_, _, h1⟩ := hca
      obtain ⟨_, _, h2⟩ := hcb
      rw [← h2] at h1
      simp only [Prod.mk.injEq] at h1
      exact h1.2.1
  · intro a _ b _ c hca hcb
    simp only [List.mem_flatMap, List.mem_map] at hca hcb
    obtain ⟨_, _, _, _, h1⟩ := hca
    obtain ⟨_, _, _, _, h2⟩ := hcb
    rw [← h2] at h1
    simp only [Prod.mk.injEq] at h1
    exact h1.1

/-- Stepping one cell against the direction of the sweep lowers the position along the
axis by one. -/
theorem along_upstream (dir n i : Int) (hd : is_dir dir) :
    Acc.along dir n (i - dir) = Acc.along dir n i - 1 := by
  rcases hd with h | h
  · rw [h]
    simp [Acc.along, Dir_up]
  · rw [h]
    simp [Acc.along, Dir_up, Dir_dn]
    omega

/-- Within one octant of the block sweep, a cell of an earlier wavefront comes before a
cell of a later one. -/
theorem acc_sweep_block_order (E : Externals) (sweeper : Acc.Sweeper)
    (o w1 w2 : Int) (c1 c2 : Int × Int × Int)
    (ho : 0 ≤ o ∧ o < NOCTANT) (hw1 : 0 ≤ w1) (h12 : w1 < w2)
    (hw2 : w2 < (sweeper.dims_b.ncell_z + sweeper.dims_b.ncell_y
      + sweeper.dims_b.ncell_x) - 2)
    (h1 : c1 ∈ Acc.Sweeper_sweep_block_wavefront sweeper.dims_b w1
      (E.Dir_x o) (E.Dir_y o) (E.Dir_z o))
    (h2 : c2 ∈ Acc.Sweeper_sweep_block_wavefront sweeper.dims_b w2
      (E.Dir_x o) (E.Dir_y o) (E.Dir_z o)) :
    [(o, w1, c1.1, c1.2.1, c1.2.2), (o, w2, c2.1, c2.2.1, c2.2.2)].Sublist
      (Acc.Sweeper_sweep_block E sweeper) := by
  unfold Acc.Sweeper_sweep_block
  refine List.Sublist.trans ?_
    (sublist_flatMap_of_mem _ o (int_range NOCTANT) ((mem_int_range _ _).mpr ho))
  refine pair_sublist_steps _ _ w1 w2 _ _ hw1 (le_of_lt h12) hw2
    (List.mem_map.mpr ⟨c1, h1, rfl⟩) (List.mem_map.mpr ⟨c2, h2, rfl⟩) ?_
  intro h
  omega

/-- The four fastest digits of the face and scratch indices: equal indices with in-range
`ia`, `iu`, `ie` and fourth digit have equal fourth digits and equal rests. -/
theorem acc_index_inj (na ne n4 : Int) (ia iu ie i4 r ja ju je j4 s : Int)
    (hia : 0 ≤ ia ∧ ia < na) (hja : 0 ≤ ja ∧ ja < na)
    (hiu : 0 ≤ iu ∧ iu < NU) (hju : 0 ≤ ju ∧ ju < NU)
    (hie : 0 ≤ ie ∧ ie < ne) (hje : 0 ≤ je ∧ je < ne)
    (hi4 : 0 ≤ i4 ∧ i4 < n4) (hj4 : 0 ≤ j4 ∧ j4 < n4)
    (h : ia + na * (iu + NU * (ie + ne * (i4 + n4 * r)))
      = ja + na * (ju + NU * (je + ne * (j4 + n4 * s)))) :
    i4 = j4 ∧ r = s := by
  have h1 := (radix_inj na ia ja _ _ hia hja h).2
  have h2 := (radix_inj NU iu ju _ _ hiu hju h1).2
  have h3 := (radix_inj ne ie je _ _ hie hje h2).2
  exact radix_inj n4 i4 j4 r s hi4 hj4 h3

/-- Counting along an axis is one to one. -/
theorem along_inj (dir n i j : Int) (h : Acc.along dir n i = Acc.along dir n j) : i = j := by
  rw [← along_along dir n i, ← along_along dir n j, h]

/-! ## Theorems -/

/-- C1: for every step, axis in {x, y}, direction in {UP, DN}, octant-in-block and
process, `Sweeper_must_do_send__` returns true exactly when the send predicate of the
spec holds: source and target are active, have equal octant and equal block_z, and the
direction of the target octant along the axis equals the direction (the scheduler and
the octant decoding being arbitrary functions). -/
theorem must_do_send_iff_spec (E : Externals) (sweeper : Sweeper) (s k : Int)
    (axis_is_x up : Bool) (env : Env) :
    Sweeper_must_do_send__ E sweeper s (axis_index axis_is_x) (dir_index up) k env = true
      ↔ do_send_spec E sweeper.step_scheduler.step_info s k env.proc_x_this
          env.proc_y_this axis_is_x (dir_value up) := by
  cases axis_is_x <;> cases up <;>
    simp [Sweeper_must_do_send__, do_send_spec, Delta, dir_along, dir_value,
      axis_index, dir_index, Dir_inc, Dir_up, Dir_dn, and_assoc]


/-- C2: send and receive decisions of neighbours agree.  For every scheduler, step,
axis, direction and octant-in-block, the send predicate on process `p` equals the
receive predicate on `p + Δ`; the message `p` sends in the red/black exchange (and the
one it starts in the asynchronous exchange) is the message `p + Δ` posts a receive for,
with the same element count, the per-octant face size, and the same tag `env.tag + k`;
and there is at most one such message. -/
theorem send_recv_neighbours_agree (E : Externals) (sweeper : Sweeper) (s k : Int)
    (axis_is_x up : Bool) (env : Env) :
    Sweeper_must_do_send__ E sweeper s (axis_index axis_is_x) (dir_index up) k env
        = Sweeper_must_do_recv__ E sweeper s (axis_index axis_is_x) (dir_index up) k
            (neighbour env axis_is_x up)
    ∧ sent_messages env
          (Sweeper_communicate_faces__dir E sweeper s env k
            (axis_index axis_is_x) (dir_index up))
        = received_messages (neighbour env axis_is_x up)
          (Sweeper_communicate_faces__dir E sweeper s (neighbour env axis_is_x up) k
            (axis_index axis_is_x) (dir_index up))
    ∧ sent_messages env
          (Sweeper_send_faces_start__dir E sweeper s env k
            (axis_index axis_is_x) (dir_index up))
        = received_messages (neighbour env axis_is_x up)
          (Sweeper_recv_faces_start__dir E sweeper s (neighbour env axis_is_x up) k
            (axis_index axis_is_x) (dir_index up))
    ∧ (∀ ops ∈ [Sweeper_communicate_faces__dir E sweeper s env k
                  (axis_index axis_is_x) (dir_index up),
                Sweeper_send_faces_start__dir E sweeper s env k
                  (axis_index axis_is_x) (dir_index up)],
        (sent_messages env ops).length ≤ 1
        ∧ ∀ m ∈ sent_messages env ops,
            m.n = (if axis_is_x then size_faceyz_per_octant E sweeper
                   else size_facexz_per_octant E sweeper)
            ∧ m.tag = env.tag + k) := by
  have hn := must_do_recv_neighbour E sweeper s k axis_is_x up env
  obtain ⟨h1, h2, h3⟩ := neighbour_endpoints env axis_is_x up
  refine ⟨hn.symm, ?_, ?_, ?_⟩
  · rw [sent_messages_communicate_dir, received_messages_communicate_dir, hn, h1, h2, h3]
  · rw [sent_messages_send_start_dir, received_messages_recv_start_dir, hn, h1, h2, h3]
  · intro ops hops
    simp only [List.mem_cons, List.mem_singleton, List.not_mem_nil, or_false] at hops
    have hsz : size_face_per_octant E sweeper (axis_index axis_is_x)
        = (if axis_is_x then size_faceyz_per_octant E sweeper
           else size_facexz_per_octant E sweeper) := by
      cases axis_is_x <;> simp [size_face_per_octant, axis_index]
    rcases hops with rfl | rfl
    · rw [sent_messages_communicate_dir, hsz]
      split <;> simp
    · rw [sent_messages_send_start_dir, hsz]
      split <;> simp

/-- C3: red/black colouring.  For every process, octant-in-block, axis and direction:
in colour 0 a process of even coordinate on the axis issues no receive and one of odd
coordinate no send, in colour 1 the roles are swapped; in each colour at most one
send-or-receive is issued; and over the two colours the process issues exactly one send
if the send predicate holds and none otherwise, exactly one receive if the receive
predicate holds and none otherwise. -/
theorem red_black_colouring (E : Externals) (sweeper : Sweeper) (s : Int) (env : Env)
    (k axis dir_ind : Int) (use_buf : Bool) :
    (Int.tmod (proc_axis_of env axis) 2 = 0 →
        (Sweeper_communicate_faces__color E sweeper s env k axis dir_ind 0 use_buf).1.countP
            Op.is_recv = 0
        ∧ (Sweeper_communicate_faces__color E sweeper s env k axis dir_ind 1 use_buf).1.countP
            Op.is_send = 0)
    ∧ (Int.tmod (proc_axis_of env axis) 2 ≠ 0 →
        (Sweeper_communicate_faces__color E sweeper s env k axis dir_ind 0 use_buf).1.countP
            Op.is_send = 0
        ∧ (Sweeper_communicate_faces__color E sweeper s env k axis dir_ind 1 use_buf).1.countP
            Op.is_recv = 0)
    ∧ (∀ color ∈ [(0 : Int), 1],
        (Sweeper_communicate_faces__color E sweeper s env k axis dir_ind color use_buf).1.countP
            Op.is_send
          + (Sweeper_communicate_faces__color E sweeper s env k axis dir_ind color
              use_buf).1.countP Op.is_recv ≤ 1)
    ∧ (Sweeper_communicate_faces__dir E sweeper s env k axis dir_ind).countP Op.is_send
        = (if Sweeper_must_do_send__ E sweeper s axis dir_ind k env then 1 else 0)
    ∧ (Sweeper_communicate_faces__dir E sweeper s env k axis dir_ind).countP Op.is_recv
        = (if Sweeper_must_do_recv__ E sweeper s axis dir_ind k env then 1 else 0) := by
  refine ⟨?_, ?_, ?_, ?_, ?_⟩
  · intro hp
    simp only [proc_axis_of, beq_iff_eq] at hp
    by_cases hs : Sweeper_must_do_send__ E sweeper s axis dir_ind k env = true <;>
      by_cases hr : Sweeper_must_do_recv__ E sweeper s axis dir_ind k env = true <;>
      simp [Sweeper_communicate_faces__color, hs, hr, hp, Op.is_send, Op.is_recv]
  · intro hp
    simp only [proc_axis_of, beq_iff_eq] at hp
    by_cases hs : Sweeper_must_do_send__ E sweeper s axis dir_ind k env = true <;>
      by_cases hr : Sweeper_must_do_recv__ E sweeper s axis dir_ind k env = true <;>
      simp [Sweeper_communicate_faces__color, hs, hr, hp, Op.is_send, Op.is_recv]
  · intro color hc
    simp only [List.mem_cons, List.mem_singleton, List.not_mem_nil, or_false] at hc
    rcases hc with rfl | rfl <;>
      by_cases hs : Sweeper_must_do_send__ E sweeper s axis dir_ind k env = true <;>
      by_cases hr : Sweeper_must_do_recv__ E sweeper s axis dir_ind k env = true <;>
      by_cases hp : Int.tmod (if axis = 0 then env.proc_x_this
          else env.proc_y_this) 2 = 0 <;>
      simp [Sweeper_communicate_faces__color, hs, hr, hp, Op.is_send, Op.is_recv]
  · rw [communicate_dir_eq]
    by_cases hs : Sweeper_must_do_send__ E sweeper s axis dir_ind k env = true <;>
      by_cases hr : Sweeper_must_do_recv__ E sweeper s axis dir_ind k env = true <;>
      by_cases hp : Int.tmod (proc_axis_of env axis) 2 = 0 <;>
      simp [hs, hr, hp, Op.is_send, Op.is_recv]
  · rw [communicate_dir_eq]
    by_cases hs : Sweeper_must_do_send__ E sweeper s axis dir_ind k env = true <;>
      by_cases hr : Sweeper_must_do_recv__ E sweeper s axis dir_ind k env = true <;>
      by_cases hp : Int.tmod (proc_axis_of env axis) 2 = 0 <;>
      simp [hs, hr, hp, Op.is_send, Op.is_recv]

/-- C6: the operation trace of `Sweeper_sweep`.  Leaving the host/device mirroring calls
aside, the calls are: zero `vo` once; then for step = 0..nstep-1 in increasing order,
with asynchronous communication recv_end(step-1), recv_start(step), the block sweep of
the step, send_end(step-1), send_start(step), and with synchronous communication the
block sweep followed by the red/black exchange of the step; and finally one increment of
the message tag by `noctant_per_block`.  The block sweeps are those of the steps
0..nstep-1, in this order, once each. -/
theorem sweep_trace (E : Externals) (sweeper : Sweeper) (env : Env) :
    (Sweeper_sweep E sweeper env).1.filter (fun op => !op.is_mirror)
        = sweep_trace_spec E sweeper env
    ∧ (Sweeper_sweep E sweeper env).1.filterMap Op.block_step
        = int_range sweeper.step_scheduler.nstep := by
  constructor
  · have z : [Op.zero_vo].filter (fun op => !op.is_mirror) = [Op.zero_vo] := rfl
    have i : [Op.Env_increment_tag sweeper.noctant_per_block].filter
        (fun op => !op.is_mirror) = [Op.Env_increment_tag sweeper.noctant_per_block] := rfl
    simp only [Sweeper_sweep, sweep_trace_spec, List.filter_append, filter_flatMap_eq,
      sweep_step_filter, z, i]
  · have z : [Op.zero_vo].filterMap Op.block_step = [] := rfl
    have i : [Op.Env_increment_tag sweeper.noctant_per_block].filterMap Op.block_step
        = [] := rfl
    simp only [Sweeper_sweep, List.filterMap_append, filterMap_flatMap_eq,
      sweep_step_block, z, i, List.nil_append, List.append_nil, flatMap_singleton_self]

/-- C8: every message of a sweep that starts with tag base `t = env.tag` uses a tag
`t + k` with `0 <= k < noctant_per_block`; the sweep leaves the tag base
`t + noctant_per_block`; hence every tag used by a sweep is smaller than every tag used
by the next sweep of the same sweeper, and the two sets of tags are disjoint. -/
theorem sweep_tags (E : Externals) (sweeper : Sweeper) (env : Env) :
    (∀ op ∈ (Sweeper_sweep E sweeper env).1, ∀ tag, op.tag? = some tag →
        ∃ k, (0 ≤ k ∧ k < sweeper.noctant_per_block) ∧ tag = env.tag + k)
    ∧ (Sweeper_sweep E sweeper env).2.tag = env.tag + sweeper.noctant_per_block
    ∧ (∀ op1 ∈ (Sweeper_sweep E sweeper env).1,
        ∀ op2 ∈ (Sweeper_sweep E sweeper (Sweeper_sweep E sweeper env).2).1,
        ∀ tag1 tag2, op1.tag? = some tag1 → op2.tag? = some tag2 → tag1 < tag2) := by
  refine ⟨fun op hop tag ht => sweep_op_tag E sweeper env op hop tag ht, rfl, ?_⟩
  intro op1 h1 op2 h2 tag1 tag2 ht1 ht2
  obtain ⟨k1, hk1, e1⟩ := sweep_op_tag E sweeper env op1 h1 tag1 ht1
  obtain ⟨k2, hk2, e2⟩ := sweep_op_tag E sweeper _ op2 h2 tag2 ht2
  have e3 : (Sweeper_sweep E sweeper env).2.tag = env.tag + sweeper.noctant_per_block := rfl
  rw [e3] at e2
  omega

/-- C9: for every integer `n` supplied as `--nthread_octant`, the validity check of
`Sweeper_ctor` (`n > 0`, `n <= NOCTANT = 8`, `n & (n-1) == 0`) passes if and only if `n`
is one of 1, 2, 4, 8; for every other `n`, zero and negative values included,
construction fails. -/
theorem nthread_octant_valid_iff (n : Int) :
    (is_pow2_upto_NOCTANT n = true ↔ n = 1 ∨ n = 2 ∨ n = 4 ∨ n = 8)
    ∧ (¬ (n = 1 ∨ n = 2 ∨ n = 4 ∨ n = 8) →
        ∀ (E : Externals) (dims : Dimensions) (quan : Quantities) (env : Env)
          (args : Arguments), args.nthread_octant = some n →
          ∃ msg, Sweeper_ctor E dims quan env args = Except.error msg) := by
  refine ⟨is_pow2_upto_NOCTANT_iff n, ?_⟩
  intro hn E dims quan env args hargs
  cases hc : Sweeper_ctor E dims quan env args with
  | error msg => exact ⟨msg, rfl⟩
  | ok sw =>
    exfalso
    have h := ((Sweeper_ctor_ok_iff E dims quan env args sw).mp hc).1.2.2.2.2.2.1
    rw [hargs] at h
    exact hn ((is_pow2_upto_NOCTANT_iff n).mp h)

/-- C10: when the other checks of `Sweeper_ctor` pass, construction succeeds if and only
if the semiblock count `n` (the value of `--nsemiblock`, or `nthread_octant` when the
option is not given) is one of 1, 2, 4, 8 and (`n >= nthread_octant` or atomic `vo`
update is enabled); the constructed sweeper holds that count; and when `--nsemiblock` is
not given construction succeeds with `nsemiblock = nthread_octant`, atomic updates or
not. -/
theorem nsemiblock_accepted_iff (E : Externals) (dims : Dimensions) (quan : Quantities)
    (env : Env) (args : Arguments) (hother : ctor_other_checks E dims env args) :
    ((∃ sw, Sweeper_ctor E dims quan env args = Except.ok sw) ↔
        ((args.nsemiblock.getD (args.nthread_octant.getD 1) = 1
            ∨ args.nsemiblock.getD (args.nthread_octant.getD 1) = 2
            ∨ args.nsemiblock.getD (args.nthread_octant.getD 1) = 4
            ∨ args.nsemiblock.getD (args.nthread_octant.getD 1) = 8)
          ∧ (args.nsemiblock.getD (args.nthread_octant.getD 1) ≥ args.nthread_octant.getD 1
              ∨ E.IS_USING_OPENMP_VO_ATOMIC = true)))
    ∧ (∀ sw, Sweeper_ctor E dims quan env args = Except.ok sw →
        sw.nsemiblock = args.nsemiblock.getD sw.nthread_octant)
    ∧ (args.nsemiblock = none →
        ∃ sw, Sweeper_ctor E dims quan env args = Except.ok sw
          ∧ sw.nsemiblock = sw.nthread_octant) := by
  obtain ⟨h1, h2, h3, h4, h5, h6, h7, h10, h11⟩ := hother
  refine ⟨?_, ?_, ?_⟩
  · constructor
    · rintro ⟨sw, hsw⟩
      have h := ((Sweeper_ctor_ok_iff E dims quan env args sw).mp hsw).1
      exact ⟨(is_pow2_upto_NOCTANT_iff _).mp h.2.2.2.2.2.2.2.1, h.2.2.2.2.2.2.2.2.1⟩
    · rintro ⟨h8, h9⟩
      exact ⟨_, (Sweeper_ctor_ok_iff E dims quan env args _).mpr
        ⟨⟨h1, h2, h3, h4, h5, h6, h7, (is_pow2_upto_NOCTANT_iff _).mpr h8, h9, h10, h11⟩,
          rfl⟩⟩
  · intro sw hsw
    rw [((Sweeper_ctor_ok_iff E dims quan env args sw).mp hsw).2]
  · intro hnone
    refine ⟨_, (Sweeper_ctor_ok_iff E dims quan env args _).mpr
      ⟨⟨h1, h2, h3, h4, h5, h6, h7, ?_, ?_, h10, h11⟩, rfl⟩, ?_⟩
    · rw [hnone]; exact h6
    · rw [hnone]; exact Or.inl (le_refl _)
    · rw [hnone]; rfl

/-- Witness for C10: a 2 x 2 x 2 block with `--nblock_z 2 --nsemiblock 4`, one octant
thread, no OpenMP, no atomic update: the other checks pass and 4 is an accepted
semiblock count, so construction succeeds. -/
theorem nsemiblock_accepted_iff_witness :
    ∃ sw, Sweeper_ctor (example_externals false) example_dims example_quan (example_env 0)
      example_args = Except.ok sw :=
  (nsemiblock_accepted_iff (example_externals false) example_dims example_quan
      (example_env 0) example_args
      (by unfold ctor_other_checks; decide)).1.mpr
    ⟨by decide, by decide⟩

/-- C11: `Sweeper_ctor` fails unless nx > 0, ny > 0, nz > 0, nblock_z > 0 and
nz % nblock_z == 0; whenever it succeeds, `dims_b` equals `dims` except that
`dims_b.nz = nz / nblock_z`, with `dims_b.nz >= 1` and `nblock_z * dims_b.nz = nz`, so
the z-blocks tile the z range exactly. -/
theorem ctor_block_dims (E : Externals) (dims : Dimensions) (quan : Quantities) (env : Env)
    (args : Arguments) (sw : Sweeper)
    (h : Sweeper_ctor E dims quan env args = Except.ok sw) :
    (dims.ncell_x > 0 ∧ dims.ncell_y > 0 ∧ dims.ncell_z > 0 ∧ sw.nblock_z > 0
        ∧ Int.tmod dims.ncell_z sw.nblock_z = 0)
    ∧ sw.nblock_z = args.nblock_z.getD 1
    ∧ sw.dims = dims
    ∧ sw.dims_b = { dims with ncell_z := Int.tdiv dims.ncell_z sw.nblock_z }
    ∧ sw.dims_b.ncell_z ≥ 1
    ∧ sw.nblock_z * sw.dims_b.ncell_z = dims.ncell_z := by
  obtain ⟨⟨h1, h2, h3, h4, h5, _⟩, hsw⟩ := (Sweeper_ctor_ok_iff E dims quan env args sw).mp h
  subst hsw
  have hmul := Int.mul_tdiv_cancel_of_tmod_eq_zero h5
  refine ⟨⟨h1, h2, h3, h4, h5⟩, rfl, rfl, rfl, ?_, hmul⟩
  show Int.tdiv dims.ncell_z (args.nblock_z.getD 1) ≥ 1
  by_contra hq
  have hq0 : Int.tdiv dims.ncell_z (args.nblock_z.getD 1) ≤ 0 := by omega
  have := Int.mul_nonpos_of_nonneg_of_nonpos (le_of_lt h4) hq0
  omega

/-- Witness for C11: a 2 x 2 x 2 block with `--nblock_z 2` is accepted and gets z-blocks
of one layer, `2 * 1 = 2`. -/
theorem ctor_block_dims_witness :
    ((2 : Int) > 0 ∧ (2 : Int) > 0 ∧ (2 : Int) > 0 ∧ (2 : Int) > 0 ∧ Int.tmod 2 2 = 0)
    ∧ (2 : Int) = example_args.nblock_z.getD 1
    ∧ example_dims = example_dims
    ∧ ({ example_dims with ncell_z := 1 } : Dimensions)
        = { example_dims with ncell_z := Int.tdiv example_dims.ncell_z 2 }
    ∧ (1 : Int) ≥ 1
    ∧ (2 : Int) * 1 = example_dims.ncell_z :=
  ctor_block_dims (example_externals false) example_dims example_quan (example_env 0)
    example_args
    { nblock_z := 2, nthread_octant := 1, noctant_per_block := 1, nblock_octant := 8,
      nsemiblock := 4, nthread_e := 1, dims := example_dims,
      dims_b := { example_dims with ncell_z := 1 },
      dims_g := { example_dims with ncell_x := 6, ncell_y := 2 },
      step_scheduler := (example_externals false).Step_Scheduler_ctor 2 8 (example_env 0) }
    rfl

/-- C20: z is the slowest axis of the flat state index, so for a sweeper whose z-blocks
tile the z range (`dims_b` is `dims` with `nz_b = nz / nblock_z`,
`nblock_z * nz_b = nz`), for every z-block `b` and every in-range element of the block:
the index in the full array with full dimensions at `z = b*nz_b + iz` is
`b * (size_state(dims)/nblock_z)` plus the index with block dimensions; it is the index
reached through the pointer offset to `(0,0,b*nz_b,0,0,0)`; and it lies in the
contiguous range `[b*size_block, (b+1)*size_block)`. -/
theorem block_index (E : Externals) (sweeper : Sweeper)
    (hsize : E.Dimensions_size_state sweeper.dims NU
      = Dimensions_size_state_spec sweeper.dims NU)
    (hb : sweeper.dims_b
      = { sweeper.dims with ncell_z := Int.tdiv sweeper.dims.ncell_z sweeper.nblock_z })
    (hpos : sweeper.nblock_z > 0)
    (hdiv : sweeper.nblock_z * sweeper.dims_b.ncell_z = sweeper.dims.ncell_z)
    (b ix iy iz ie im iu : Int)
    (hx : 0 ≤ ix ∧ ix < sweeper.dims_b.ncell_x) (hy : 0 ≤ iy ∧ iy < sweeper.dims_b.ncell_y)
    (hz : 0 ≤ iz ∧ iz < sweeper.dims_b.ncell_z) (he : 0 ≤ ie ∧ ie < sweeper.dims_b.ne)
    (hm : 0 ≤ im ∧ im < sweeper.dims_b.nm) (hu : 0 ≤ iu ∧ iu < NU) :
    ref_state_index sweeper.dims NU ix iy (b * sweeper.dims_b.ncell_z + iz) ie im iu
        = b * size_state_block E sweeper
          + ref_state_index sweeper.dims_b NU ix iy iz ie im iu
    ∧ block_state_index sweeper b ix iy iz ie im iu
        = ref_state_index sweeper.dims NU ix iy (b * sweeper.dims_b.ncell_z + iz) ie im iu
    ∧ b * size_state_block E sweeper ≤ block_state_index sweeper b ix iy iz ie im iu
    ∧ block_state_index sweeper b ix iy iz ie im iu < (b + 1) * size_state_block E sweeper := by
  have hbx : sweeper.dims_b.ncell_x = sweeper.dims.ncell_x := by rw [hb]
  have hby : sweeper.dims_b.ncell_y = sweeper.dims.ncell_y := by rw [hb]
  have hbe : sweeper.dims_b.ne = sweeper.dims.ne := by rw [hb]
  have hbm : sweeper.dims_b.nm = sweeper.dims.nm := by rw [hb]
  have hblock : size_state_block E sweeper
      = sweeper.dims.nm * (NU * (sweeper.dims.ncell_x * (sweeper.dims.ncell_y
          * (sweeper.dims.ne * sweeper.dims_b.ncell_z)))) := by
    unfold size_state_block
    rw [hsize]
    unfold Dimensions_size_state_spec
    rw [← hdiv]
    have e : sweeper.dims.ncell_x * sweeper.dims.ncell_y
          * (sweeper.nblock_z * sweeper.dims_b.ncell_z) * sweeper.dims.ne * sweeper.dims.nm * NU
        = sweeper.nblock_z * (sweeper.dims.nm * (NU * (sweeper.dims.ncell_x
            * (sweeper.dims.ncell_y * (sweeper.dims.ne * sweeper.dims_b.ncell_z))))) := by
      ring
    rw [e, Int.mul_tdiv_cancel_left _ (by omega)]
  have e1 : ref_state_index sweeper.dims NU ix iy (b * sweeper.dims_b.ncell_z + iz) ie im iu
      = b * size_state_block E sweeper
        + ref_state_index sweeper.dims_b NU ix iy iz ie im iu := by
    rw [hblock]
    simp only [ref_state_index, hbx, hby, hbe, hbm]
    ring
  have e2 : block_state_index sweeper b ix iy iz ie im iu
      = ref_state_index sweeper.dims NU ix iy (b * sweeper.dims_b.ncell_z + iz) ie im iu := by
    simp only [block_state_index, ref_state_index, hbx, hby, hbe, hbm]
    ring
  have r1 := radix_bound ie sweeper.dims_b.ne iz sweeper.dims_b.ncell_z he.1 he.2 hz.1 hz.2
  have r2 := radix_bound iy sweeper.dims_b.ncell_y _ _ hy.1 hy.2 r1.1 r1.2
  have r3 := radix_bound ix sweeper.dims_b.ncell_x _ _ hx.1 hx.2 r2.1 r2.2
  have r4 := radix_bound iu NU _ _ hu.1 hu.2 r3.1 r3.2
  have r5 := radix_bound im sweeper.dims_b.nm _ _ hm.1 hm.2 r4.1 r4.2
  have hidx : ref_state_index sweeper.dims_b NU ix iy iz ie im iu
      = im + sweeper.dims_b.nm * (iu + NU * (ix + sweeper.dims_b.ncell_x
          * (iy + sweeper.dims_b.ncell_y * (ie + sweeper.dims_b.ne * iz)))) := by
    simp only [ref_state_index]
    ring
  have hblock2 : size_state_block E sweeper
      = sweeper.dims_b.nm * (NU * (sweeper.dims_b.ncell_x * (sweeper.dims_b.ncell_y
          * (sweeper.dims_b.ne * sweeper.dims_b.ncell_z)))) := by
    rw [hblock, hbx, hby, hbe, hbm]
  refine ⟨e1, e2, ?_, ?_⟩
  · rw [e2, e1, hidx]
    omega
  · rw [e2, e1, hidx, hblock2]
    have : (b + 1) * (sweeper.dims_b.nm * (NU * (sweeper.dims_b.ncell_x
          * (sweeper.dims_b.ncell_y * (sweeper.dims_b.ne * sweeper.dims_b.ncell_z)))))
        = b * (sweeper.dims_b.nm * (NU * (sweeper.dims_b.ncell_x
          * (sweeper.dims_b.ncell_y * (sweeper.dims_b.ne * sweeper.dims_b.ncell_z)))))
          + sweeper.dims_b.nm * (NU * (sweeper.dims_b.ncell_x
          * (sweeper.dims_b.ncell_y * (sweeper.dims_b.ne * sweeper.dims_b.ncell_z)))) := by
      ring
    rw [this]
    omega

/-- Witness for C20: in the 2 x 2 x 2 state split into two z-blocks of 16 elements, the
element `(ix, iy, iz, ie, im, iu) = (1, 1, 0, 0, 0, 3)` of block 1 has index 31 both
ways, inside `[16, 32)`. -/
theorem block_index_witness :
    ref_state_index example_dims NU 1 1 (1 * 1 + 0) 0 0 3
        = 1 * size_state_block (example_externals false) example_sweeper_blocked
          + ref_state_index { example_dims with ncell_z := 1 } NU 1 1 0 0 0 3
    ∧ block_state_index example_sweeper_blocked 1 1 1 0 0 0 3
        = ref_state_index example_dims NU 1 1 (1 * 1 + 0) 0 0 3
    ∧ 1 * size_state_block (example_externals false) example_sweeper_blocked
        ≤ block_state_index example_sweeper_blocked 1 1 1 0 0 0 3
    ∧ block_state_index example_sweeper_blocked 1 1 1 0 0 0 3
        < (1 + 1) * size_state_block (example_externals false) example_sweeper_blocked :=
  block_index (example_externals false) example_sweeper_blocked rfl rfl (by decide)
    (by decide) 1 1 1 0 0 0 3 (by decide) (by decide) (by decide) (by decide) (by decide)
    (by decide)


/-- C12: in `Sweeper_sweep_block_impl`, for each axis `a` in {x=0, y=1, z=2}, semiblock
index `s` in `0..7` and direction `dir_a` in {UP, DN}: the axis is split iff
`nsemiblock > 2^a`, and the bounds `imin_b..imax_b` are the range of the spec: for a
split axis the low half `[0, n/2 - 1]` exactly when `(bit a of s) XOR (dir_a == DN)` is
0 and the high half `[n/2, n - 1]` otherwise, for an axis that is not split the whole
`[0, n - 1]`. -/
theorem semiblock_bounds_spec (nsemiblock semiblock : Int) (a : Nat) (dir n : Int)
    (ha : a < 3) (hs : 0 ≤ semiblock ∧ semiblock < 8) (hdir : is_dir dir) (hn : 0 ≤ n) :
    (is_semiblocked nsemiblock a = true ↔ nsemiblock > 2 ^ a)
    ∧ (imin_b nsemiblock semiblock a dir n, imax_b nsemiblock semiblock a dir n)
        = semiblock_range_spec nsemiblock semiblock a dir n :=
  ⟨by simp [is_semiblocked], bounds_eq_spec nsemiblock semiblock a dir n ha hs hdir hn⟩

/-- Witness for C12: with 4 semiblocks the x axis is split; for semiblock 1 and
direction DN along x in a block of 5 cells, the bounds are the low half `[0, 1]`. -/
theorem semiblock_bounds_spec_witness :
    (is_semiblocked 4 0 = true ↔ (4 : Int) > 2 ^ 0)
    ∧ (imin_b 4 1 0 Dir_dn 5, imax_b 4 1 0 Dir_dn 5) = semiblock_range_spec 4 1 0 Dir_dn 5 :=
  semiblock_bounds_spec 4 1 0 Dir_dn 5 (by decide) (by decide) (Or.inr rfl) (by decide)

/-- C15: with the octant-to-thread assignment of the design comment (two octant threads:
octants of different threads differ in dir_x; four: in dir_x or dir_y; eight: in dir_x,
dir_y or dir_z) and nsemiblock >= nthread_octant, for every semiblock index the cell
regions computed for the octants of two different octant threads have no cell in
common. -/
theorem thread_regions_disjoint (nthread_octant nsemiblock semiblock : Int)
    (dx1 dy1 dz1 dx2 dy2 dz2 nx ny nz : Int) (cell : Int × Int × Int)
    (hns : nsemiblock = 1 ∨ nsemiblock = 2 ∨ nsemiblock = 4 ∨ nsemiblock = 8)
    (hge : nsemiblock ≥ nthread_octant)
    (hs : 0 ≤ semiblock ∧ semiblock < nsemiblock)
    (hx1 : is_dir dx1) (hy1 : is_dir dy1) (hz1 : is_dir dz1)
    (hx2 : is_dir dx2) (hy2 : is_dir dy2) (hz2 : is_dir dz2)
    (hnx : 0 ≤ nx) (hny : 0 ≤ ny) (hnz : 0 ≤ nz)
    (hthr : octant_threads_differ nthread_octant dx1 dy1 dz1 dx2 dy2 dz2) :
    ¬ (in_semiblock nsemiblock semiblock dx1 dy1 dz1 nx ny nz cell
        ∧ in_semiblock nsemiblock semiblock dx2 dy2 dz2 nx ny nz cell) := by
  rintro ⟨c1, c2⟩
  obtain ⟨m, hm, rfl⟩ := semiblock_count_pow nsemiblock hns
  have hx : 2 ≤ nthread_octant → dx1 ≠ dx2 → False := fun h2 hne =>
    axis_dirs_disjoint m 0 hm (by decide)
      ((two_pow_gt_iff m 0 hm (by decide)).mp (by norm_num; omega))
      semiblock dx1 dx2 nx cell.1 hs hx1 hx2 hne hnx c1.1 c2.1
  have hy : 4 ≤ nthread_octant → dy1 ≠ dy2 → False := fun h2 hne =>
    axis_dirs_disjoint m 1 hm (by decide)
      ((two_pow_gt_iff m 1 hm (by decide)).mp (by norm_num; omega))
      semiblock dy1 dy2 ny cell.2.1 hs hy1 hy2 hne hny c1.2.1 c2.2.1
  have hz : 8 ≤ nthread_octant → dz1 ≠ dz2 → False := fun h2 hne =>
    axis_dirs_disjoint m 2 hm (by decide)
      ((two_pow_gt_iff m 2 hm (by decide)).mp (by norm_num; omega))
      semiblock dz1 dz2 nz cell.2.2 hs hz1 hz2 hne hnz c1.2.2 c2.2.2
  rcases hthr with ⟨h, hne⟩ | ⟨h, hne | hne⟩ | ⟨h, hne | hne | hne⟩
  · exact hx (by omega) hne
  · exact hx (by omega) hne
  · exact hy (by omega) hne
  · exact hx (by omega) hne
  · exact hy (by omega) hne
  · exact hz (by omega) hne

theorem thread_regions_disjoint_witness :
    ¬ (in_semiblock 2 1 Dir_up Dir_up Dir_up 3 1 2 (1, 0, 0)
        ∧ in_semiblock 2 1 Dir_dn Dir_up Dir_up 3 1 2 (1, 0, 0)) :=
  thread_regions_disjoint 2 2 1 Dir_up Dir_up Dir_up Dir_dn Dir_up Dir_up 3 1 2 (1, 0, 0)
    (by decide) (by decide) (by decide) (Or.inl rfl) (Or.inl rfl) (Or.inl rfl)
    (Or.inr rfl) (Or.inl rfl) (Or.inl rfl) (by decide) (by decide) (by decide)
    (Or.inl ⟨rfl, by decide⟩)

/-- C18: `Sweeper_set_boundary_xy` writes exactly the xy-face slots
`(ix, iy, ie, ia, iu, k)` with `ixmin_b <= ix <= ixmax_b`, `iymin_b <= iy <= iymax_b`,
`ie` in the energy share of the calling thread, `0 <= ia < na`, `0 <= iu < NU` and `k`
the given octant of the block.  Each of them receives
`Quantities_init_facexy(ix+ix_base, iy+iy_base, iz_g, ie, ia, iu, octant, dims_g)` with
`iz_g = -1` for an upward and `iz_g = dims_g.nz` for a downward octant, and every other
slot keeps its value. -/
theorem set_boundary_xy_writes {P : Type} (E : Externals)
    (Quantities_init_facexy :
      Quantities → Int → Int → Int → Int → Int → Int → Int → Dimensions → P)
    (sweeper : Sweeper) (quan : Quantities) (thread_e : Int)
    (octant octant_in_block ixmin_b ixmax_b iymin_b iymax_b : Int)
    (facexy : Int × Int × Int × Int × Int × Int → P) (ix iy ie ia iu k : Int) :
    (((ixmin_b ≤ ix ∧ ix ≤ ixmax_b) ∧ (iymin_b ≤ iy ∧ iy ≤ iymax_b)
        ∧ (ie_min sweeper thread_e ≤ ie ∧ ie < ie_max sweeper thread_e)
        ∧ (0 ≤ ia ∧ ia < sweeper.dims_b.na) ∧ (0 ≤ iu ∧ iu < NU)) ∧ k = octant_in_block →
      (E.Dir_z octant = Dir_up →
        Sweeper_set_boundary_xy E Quantities_init_facexy sweeper quan thread_e octant
            octant_in_block ixmin_b ixmax_b iymin_b iymax_b facexy (ix, iy, ie, ia, iu, k)
          = Quantities_init_facexy quan (ix + quan.ix_base) (iy + quan.iy_base) (-1)
              ie ia iu octant sweeper.dims_g)
      ∧ (E.Dir_z octant = Dir_dn →
        Sweeper_set_boundary_xy E Quantities_init_facexy sweeper quan thread_e octant
            octant_in_block ixmin_b ixmax_b iymin_b iymax_b facexy (ix, iy, ie, ia, iu, k)
          = Quantities_init_facexy quan (ix + quan.ix_base) (iy + quan.iy_base)
              sweeper.dims_g.ncell_z ie ia iu octant sweeper.dims_g))
    ∧ (¬ (((ixmin_b ≤ ix ∧ ix ≤ ixmax_b) ∧ (iymin_b ≤ iy ∧ iy ≤ iymax_b)
        ∧ (ie_min sweeper thread_e ≤ ie ∧ ie < ie_max sweeper thread_e)
        ∧ (0 ≤ ia ∧ ia < sweeper.dims_b.na) ∧ (0 ≤ iu ∧ iu < NU)) ∧ k = octant_in_block) →
      Sweeper_set_boundary_xy E Quantities_init_facexy sweeper quan thread_e octant
          octant_in_block ixmin_b ixmax_b iymin_b iymax_b facexy (ix, iy, ie, ia, iu, k)
        = facexy (ix, iy, ie, ia, iu, k)) := by
  have hmem : (ix, iy, ie, ia, iu, k) ∈
      (xy_slots sweeper thread_e ixmin_b ixmax_b iymin_b iymax_b).map
        (fun t => (t.1, t.2.1, t.2.2.1, t.2.2.2.1, t.2.2.2.2, octant_in_block))
      ↔ ((ixmin_b ≤ ix ∧ ix ≤ ixmax_b) ∧ (iymin_b ≤ iy ∧ iy ≤ iymax_b)
        ∧ (ie_min sweeper thread_e ≤ ie ∧ ie < ie_max sweeper thread_e)
        ∧ (0 ≤ ia ∧ ia < sweeper.dims_b.na) ∧ (0 ≤ iu ∧ iu < NU)) ∧ k = octant_in_block := by
    rw [← mem_xy_slots]
    simp only [List.mem_map, Prod.mk.injEq, Prod.exists]
    constructor
    · rintro ⟨a, b, c, d, e, h, rfl, rfl, rfl, rfl, rfl, rfl⟩
      exact ⟨h, rfl⟩
    · rintro ⟨h, rfl⟩
      exact ⟨ix, iy, ie, ia, iu, h, rfl, rfl, rfl, rfl, rfl, rfl⟩
  have key := foldl_update_apply
    (fun t : Int × Int × Int × Int × Int =>
      (t.1, t.2.1, t.2.2.1, t.2.2.2.1, t.2.2.2.2, octant_in_block))
    (fun slot : Int × Int × Int × Int × Int × Int =>
      Quantities_init_facexy quan (slot.1 + quan.ix_base) (slot.2.1 + quan.iy_base)
        (if E.Dir_z octant = Dir_up then -1 else sweeper.dims_g.ncell_z)
        slot.2.2.1 slot.2.2.2.1 slot.2.2.2.2.1 octant sweeper.dims_g)
    (xy_slots sweeper thread_e ixmin_b ixmax_b iymin_b iymax_b) facexy (ix, iy, ie, ia, iu, k)
  have e : Sweeper_set_boundary_xy E Quantities_init_facexy sweeper quan thread_e octant
      octant_in_block ixmin_b ixmax_b iymin_b iymax_b facexy
      = (xy_slots sweeper thread_e ixmin_b ixmax_b iymin_b iymax_b).foldl
          (fun f t => Function.update f
            ((fun t : Int × Int × Int × Int × Int =>
              (t.1, t.2.1, t.2.2.1, t.2.2.2.1, t.2.2.2.2, octant_in_block)) t)
            ((fun slot : Int × Int × Int × Int × Int × Int =>
              Quantities_init_facexy quan (slot.1 + quan.ix_base) (slot.2.1 + quan.iy_base)
                (if E.Dir_z octant = Dir_up then -1 else sweeper.dims_g.ncell_z)
                slot.2.2.1 slot.2.2.2.1 slot.2.2.2.2.1 octant sweeper.dims_g)
              ((fun t : Int × Int × Int × Int × Int =>
                (t.1, t.2.1, t.2.2.1, t.2.2.2.1, t.2.2.2.2, octant_in_block)) t))) facexy := by
    unfold Sweeper_set_boundary_xy
    rw [set_boundary_xy_loops_eq]
  refine ⟨fun h => ?_, fun h => ?_⟩
  · have hv := key.1 (hmem.mpr h)
    rw [← e] at hv
    refine ⟨fun hup => ?_, fun hdn => ?_⟩
    · rw [hv]; simp only [if_pos hup]
    · have hne : ¬ (E.Dir_z octant = Dir_up) := by rw [hdn]; decide
      rw [hv]; simp only [if_neg hne]
  · have hv := key.2 (fun hm => h (hmem.mp hm))
    rw [← e] at hv
    exact hv

/-- C13: for an active octant, nsemiblock in {1,2,4,8} and a block with at least one
cell along each axis, the cell regions of the semiblocks `0 .. nsemiblock-1` cover the
block and are pairwise disjoint; with enough fuel for the cell loops the semiblock loop
completes and sweeps, for every energy group of the thread, every cell of the block
exactly once and nothing else, the same cells as with nsemiblock = 1; and with
nsemiblock = 8 the sub-steps are eight calls of the semiblock sweep, one for each of
the eight combinations of a half along x, a half along y and a half along z. -/
theorem semiblocks_partition (fuel : Nat) (E : Externals) (sweeper : Sweeper)
    (thread_e thread_octant : Int) (proc_x_min proc_x_max proc_y_min proc_y_max : Bool)
    (step_info_values : Int → Step_Info) (k : Int)
    (hk : thread_has_octant sweeper thread_octant k)
    (hset : block_sweep_setting E sweeper (step_info_values k))
    (fx : sweeper.dims_b.ncell_x < fuel) (fy : sweeper.dims_b.ncell_y < fuel)
    (fz : sweeper.dims_b.ncell_z < fuel) :
    (∀ cell,
      in_block sweeper.dims_b.ncell_x sweeper.dims_b.ncell_y sweeper.dims_b.ncell_z cell
        ↔ ∃ s, (0 ≤ s ∧ s < sweeper.nsemiblock)
          ∧ in_semiblock sweeper.nsemiblock s (E.Dir_x (step_info_values k).octant)
              (E.Dir_y (step_info_values k).octant) (E.Dir_z (step_info_values k).octant)
              sweeper.dims_b.ncell_x sweeper.dims_b.ncell_y sweeper.dims_b.ncell_z cell)
    ∧ (∀ cell s1 s2, (0 ≤ s1 ∧ s1 < sweeper.nsemiblock) → (0 ≤ s2 ∧ s2 < sweeper.nsemiblock) →
        in_semiblock sweeper.nsemiblock s1 (E.Dir_x (step_info_values k).octant)
          (E.Dir_y (step_info_values k).octant) (E.Dir_z (step_info_values k).octant)
          sweeper.dims_b.ncell_x sweeper.dims_b.ncell_y sweeper.dims_b.ncell_z cell →
        in_semiblock sweeper.nsemiblock s2 (E.Dir_x (step_info_values k).octant)
          (E.Dir_y (step_info_values k).octant) (E.Dir_z (step_info_values k).octant)
          sweeper.dims_b.ncell_x sweeper.dims_b.ncell_y sweeper.dims_b.ncell_z cell →
        s1 = s2)
    ∧ (∃ evs evs1,
        block_events fuel E sweeper thread_e
            (octant_calls E sweeper thread_octant proc_x_min proc_x_max proc_y_min
              proc_y_max step_info_values k)
          = some evs
        ∧ block_events fuel E { sweeper with nsemiblock := 1 } thread_e
            (octant_calls E { sweeper with nsemiblock := 1 } thread_octant proc_x_min proc_x_max proc_y_min
              proc_y_max step_info_values k)
          = some evs1
        ∧ (∀ ix iy iz ie k1, Cell_Event.sweep ix iy iz ie k1 ∈ evs
            ↔ k1 = k ∧ (ie_min sweeper thread_e ≤ ie ∧ ie < ie_max sweeper thread_e)
              ∧ in_block sweeper.dims_b.ncell_x sweeper.dims_b.ncell_y
                  sweeper.dims_b.ncell_z (ix, iy, iz))
        ∧ (∀ ix iy iz ie, (ie_min sweeper thread_e ≤ ie ∧ ie < ie_max sweeper thread_e) →
            in_block sweeper.dims_b.ncell_x sweeper.dims_b.ncell_y sweeper.dims_b.ncell_z
              (ix, iy, iz) →
            evs.count (Cell_Event.sweep ix iy iz ie k) = 1)
        ∧ (∀ ix iy iz ie k1, Cell_Event.sweep ix iy iz ie k1 ∈ evs
            ↔ Cell_Event.sweep ix iy iz ie k1 ∈ evs1))
    ∧ (sweeper.nsemiblock = 8 →
        (octant_calls E sweeper thread_octant proc_x_min proc_x_max proc_y_min
              proc_y_max step_info_values k).filterMap Block_Op.sweep_bounds?
          = (int_range 8).map (fun s =>
              (half_bounds (is_hi_half s 0 (E.Dir_x (step_info_values k).octant)) sweeper.dims_b.ncell_x,
               half_bounds (is_hi_half s 1 (E.Dir_y (step_info_values k).octant)) sweeper.dims_b.ncell_y,
               half_bounds (is_hi_half s 2 (E.Dir_z (step_info_values k).octant))
                 sweeper.dims_b.ncell_z))
        ∧ ∀ hx hy hz : Bool, ∃ s, (0 ≤ s ∧ s < 8)
            ∧ is_hi_half s 0 (E.Dir_x (step_info_values k).octant) = hx
            ∧ is_hi_half s 1 (E.Dir_y (step_info_values k).octant) = hy
            ∧ is_hi_half s 2 (E.Dir_z (step_info_values k).octant) = hz) := by
  have ec := impl_filter_octant E sweeper thread_octant proc_x_min proc_x_max proc_y_min
    proc_y_max step_info_values k hk
  have ec1 := impl_filter_octant E { sweeper with nsemiblock := 1 } thread_octant proc_x_min
    proc_x_max proc_y_min proc_y_max step_info_values k hk
  unfold octant_calls
  rw [ec, ec1]
  have hset1 : block_sweep_setting E { sweeper with nsemiblock := 1 } (step_info_values k) :=
    ⟨hset.1, hset.2.1, Or.inl rfl, hset.2.2.2⟩
  obtain ⟨hact, ⟨hdx, hdy, hdz⟩, hns, hnx, hny, hnz⟩ := id hset
  refine ⟨fun cell => ⟨fun hc => ?_, fun hc => ?_⟩, ?_, ?_, ?_⟩
  · exact semiblocks_cover _ _ _ _ _ _ _ hns hdx hdy hdz cell hc
  · obtain ⟨s, _, hc⟩ := hc
    exact in_semiblock_in_block _ s _ _ _ _ _ _ (by omega) (by omega) (by omega) cell hc
  · intro cell s1 s2 h1 h2 c1 c2
    exact semiblocks_disjoint _ _ _ _ _ _ _ hns hdx hdy hdz (by omega) (by omega) (by omega)
      cell s1 s2 h1 h2 c1 c2
  · refine ⟨octant_events E sweeper thread_e k (step_info_values k),
      octant_events E { sweeper with nsemiblock := 1 } thread_e k (step_info_values k),
      octant_events_eq fuel E sweeper thread_e _ _ _ _ k (step_info_values k) hset fx fy fz,
      octant_events_eq fuel E { sweeper with nsemiblock := 1 } thread_e _ _ _ _ k (step_info_values k)
        hset1 fx fy fz,
      fun ix iy iz ie k1 => mem_octant_events_sweep E sweeper thread_e k (step_info_values k) hset _ _ _ _ _,
      fun ix iy iz ie he hc => ?_, fun ix iy iz ie k1 => ?_⟩
    · exact List.count_eq_one_of_mem (octant_events_nodup E sweeper thread_e k (step_info_values k) hset)
        ((mem_octant_events_sweep E sweeper thread_e k (step_info_values k) hset _ _ _ _ _).mpr
          ⟨rfl, he, hc⟩)
    · rw [mem_octant_events_sweep E sweeper thread_e k (step_info_values k) hset,
        mem_octant_events_sweep E { sweeper with nsemiblock := 1 } thread_e k (step_info_values k) hset1]
      rfl
  · intro h8
    constructor
    · rw [octant_substeps E sweeper _ _ _ _ k (step_info_values k) hact, h8]
      refine List.map_congr_left (fun s hs => ?_)
      rw [mem_int_range] at hs
      have ex := half_bounds_eq s 0 (E.Dir_x (step_info_values k).octant) sweeper.dims_b.ncell_x
        (by decide) hs hdx (by omega)
      have ey := half_bounds_eq s 1 (E.Dir_y (step_info_values k).octant) sweeper.dims_b.ncell_y
        (by decide) hs hdy (by omega)
      have ez := half_bounds_eq s 2 (E.Dir_z (step_info_values k).octant) sweeper.dims_b.ncell_z
        (by decide) hs hdz (by omega)
      rw [ex, ey, ez]
    · intro hx hy hz
      obtain ⟨s, hs, b0, b1, b2⟩ := exists_semiblock_bits 3 (le_refl 3)
        (xor hx (decide (E.Dir_x (step_info_values k).octant = Dir_dn)))
        (xor hy (decide (E.Dir_y (step_info_values k).octant = Dir_dn)))
        (xor hz (decide (E.Dir_z (step_info_values k).octant = Dir_dn)))
      refine ⟨s, hs, ?_, ?_, ?_⟩
      · unfold is_hi_half
        rw [b0 (by decide)]
        cases hx <;> cases decide (E.Dir_x (step_info_values k).octant = Dir_dn) <;> rfl
      · unfold is_hi_half
        rw [b1 (by decide)]
        cases hy <;> cases decide (E.Dir_y (step_info_values k).octant = Dir_dn) <;> rfl
      · unfold is_hi_half
        rw [b2 (by decide)]
        cases hz <;> cases decide (E.Dir_z (step_info_values k).octant = Dir_dn) <;> rfl

theorem semiblocks_partition_witness :
    ∃ evs, block_events 3 (example_externals false) example_sweeper_octets 0
        (octant_calls (example_externals false) example_sweeper_octets 0 true true true true
          (fun _ => ⟨true, 0, 0⟩) 0) = some evs
      ∧ evs.count (Cell_Event.sweep 1 1 0 0 0) = 1 := by
  obtain ⟨evs, _, h, _, _, hc, _⟩ := (semiblocks_partition 3 (example_externals false)
    example_sweeper_octets 0 0 true true true true (fun _ => ⟨true, 0, 0⟩) 0
    (by unfold thread_has_octant; decide)
    ⟨rfl, ⟨Or.inl rfl, Or.inl rfl, Or.inl rfl⟩, Or.inr (Or.inr (Or.inr rfl)),
      by decide, by decide, by decide⟩ (by decide) (by decide) (by decide)).2.2.1
  exact ⟨evs, h, hc 1 1 0 0 (by decide) (by unfold in_block; decide)⟩

/-- C14: sweep recursion order.  For an active octant and an energy group of the
thread, with enough fuel for the cell loops, the semiblock loop of
`Sweeper_sweep_block_impl` (semiblocks in increasing order, and in each the iz/iy/ix
loops of `Sweeper_sweep_semiblock`) completes, and in its sequence of events every
cell of the block is swept after, and not before, each of its upstream neighbours
`(ix-dir_x, iy, iz)`, `(ix, iy-dir_y, iz)`, `(ix, iy, iz-dir_z)` that lies inside the
block. -/
theorem sweep_recursion_order (fuel : Nat) (E : Externals) (sweeper : Sweeper)
    (thread_e thread_octant : Int) (proc_x_min proc_x_max proc_y_min proc_y_max : Bool)
    (step_info_values : Int → Step_Info) (k : Int)
    (hk : thread_has_octant sweeper thread_octant k)
    (hset : block_sweep_setting E sweeper (step_info_values k))
    (fx : sweeper.dims_b.ncell_x < fuel) (fy : sweeper.dims_b.ncell_y < fuel)
    (fz : sweeper.dims_b.ncell_z < fuel) (nb cell : Int × Int × Int) (ie : Int)
    (he : ie_min sweeper thread_e ≤ ie ∧ ie < ie_max sweeper thread_e)
    (h1 : in_block sweeper.dims_b.ncell_x sweeper.dims_b.ncell_y sweeper.dims_b.ncell_z nb)
    (h2 : in_block sweeper.dims_b.ncell_x sweeper.dims_b.ncell_y sweeper.dims_b.ncell_z cell)
    (hup : is_upstream (E.Dir_x (step_info_values k).octant) (E.Dir_y (step_info_values k).octant)
      (E.Dir_z (step_info_values k).octant) nb cell) :
    ∃ evs, block_events fuel E sweeper thread_e
          (octant_calls E sweeper thread_octant proc_x_min proc_x_max proc_y_min
              proc_y_max step_info_values k)
        = some evs
      ∧ [Cell_Event.sweep nb.1 nb.2.1 nb.2.2 ie k,
          Cell_Event.sweep cell.1 cell.2.1 cell.2.2 ie k].Sublist evs
      ∧ ¬ [Cell_Event.sweep cell.1 cell.2.1 cell.2.2 ie k,
          Cell_Event.sweep nb.1 nb.2.1 nb.2.2 ie k].Sublist evs :=
  ⟨octant_events E sweeper thread_e k (step_info_values k),
    (congrArg (block_events fuel E sweeper thread_e)
      (impl_filter_octant E sweeper thread_octant proc_x_min proc_x_max proc_y_min
        proc_y_max step_info_values k hk)).trans
      (octant_events_eq fuel E sweeper thread_e _ _ _ _ k (step_info_values k) hset fx fy fz),
    octant_events_upstream E sweeper thread_e k (step_info_values k) hset nb cell ie he h1 h2 hup,
    sublist_pair_asymm _ _ _ (octant_events_nodup E sweeper thread_e k (step_info_values k) hset)
      (octant_events_upstream E sweeper thread_e k (step_info_values k) hset nb cell ie he h1 h2 hup)⟩

theorem sweep_recursion_order_witness :
    ∃ evs, block_events 3 (example_externals false) example_sweeper_octets 0
          (octant_calls (example_externals false) example_sweeper_octets 0 true true true true
            (fun _ => ⟨true, 0, 0⟩) 0)
        = some evs
      ∧ [Cell_Event.sweep 0 1 0 0 0, Cell_Event.sweep 1 1 0 0 0].Sublist evs
      ∧ ¬ [Cell_Event.sweep 1 1 0 0 0, Cell_Event.sweep 0 1 0 0 0].Sublist evs :=
  sweep_recursion_order 3 (example_externals false) example_sweeper_octets 0 0
    true true true true (fun _ => ⟨true, 0, 0⟩) 0 (by unfold thread_has_octant; decide)
    ⟨rfl, ⟨Or.inl rfl, Or.inl rfl, Or.inl rfl⟩, Or.inr (Or.inr (Or.inr rfl)),
      by decide, by decide, by decide⟩ (by decide) (by decide) (by decide)
    (0, 1, 0) (1, 1, 0) 0 (by decide) (by unfold in_block; decide) (by unfold in_block; decide)
    (Or.inl rfl)

/-- The xy boundary initialiser where the flags `has_z_lo`, `has_z_hi` mean what their
comment says: for an active octant that goes downward along z, or a block with two or
more z layers, or a z axis that is not split, `Sweeper_set_boundary_xy` is called for
semiblock `s`, with the x and y bounds of the semiblock, if and only if the inlet
condition `(dir_z = UP and block_z = 0) or (dir_z = DN and block_z = nblock_z - 1)` holds
and the semiblock contains the inlet z layer; the only call of it in semiblock `s` is
that one.  When the inlet condition holds every slot of the xy face of the octant is
initialised exactly once over the semiblock loop, before and not after any cell at its
`(ix, iy)` is swept, and when it does not hold no slot is initialised. -/
theorem xy_boundary_design_cases (fuel : Nat) (E : Externals) (sweeper : Sweeper)
    (thread_e thread_octant : Int) (proc_x_min proc_x_max proc_y_min proc_y_max : Bool)
    (step_info_values : Int → Step_Info) (k : Int)
    (hk : thread_has_octant sweeper thread_octant k)
    (hset : block_sweep_setting E sweeper (step_info_values k))
    (fx : sweeper.dims_b.ncell_x < fuel) (fy : sweeper.dims_b.ncell_y < fuel)
    (fz : sweeper.dims_b.ncell_z < fuel) :
    (∀ s, 0 ≤ s ∧ s < sweeper.nsemiblock →
      (∀ octant k1 a b c d, Block_Op.Sweeper_set_boundary_xy octant k1 a b c d
          ∈ Sweeper_sweep_block_impl_octant E sweeper proc_x_min proc_x_max proc_y_min
              proc_y_max s k (step_info_values k) →
          Block_Op.Sweeper_set_boundary_xy octant k1 a b c d
            = xy_boundary_call E sweeper s k (step_info_values k))
      ∧ (E.Dir_z (step_info_values k).octant = Dir_dn ∨ 2 ≤ sweeper.dims_b.ncell_z
          ∨ sweeper.nsemiblock ≤ 4 →
        xy_boundary_claim E sweeper proc_x_min proc_x_max proc_y_min proc_y_max s k
          (step_info_values k)))
    ∧ ∃ evs, block_events fuel E sweeper thread_e
          (octant_calls E sweeper thread_octant proc_x_min proc_x_max proc_y_min
            proc_y_max step_info_values k)
        = some evs
      ∧ (inlet_xy E sweeper (step_info_values k) →
          ∀ ix iy ie ia iu, (0 ≤ ix ∧ ix < sweeper.dims_b.ncell_x) →
            (0 ≤ iy ∧ iy < sweeper.dims_b.ncell_y) →
            (ie_min sweeper thread_e ≤ ie ∧ ie < ie_max sweeper thread_e) →
            (0 ≤ ia ∧ ia < sweeper.dims_b.na) → (0 ≤ iu ∧ iu < NU) →
            evs.count (Cell_Event.init_xy ix iy ie ia iu k) = 1
            ∧ ∀ iz, 0 ≤ iz ∧ iz < sweeper.dims_b.ncell_z →
              [Cell_Event.init_xy ix iy ie ia iu k, Cell_Event.sweep ix iy iz ie k].Sublist evs
              ∧ ¬ [Cell_Event.sweep ix iy iz ie k,
                  Cell_Event.init_xy ix iy ie ia iu k].Sublist evs)
      ∧ (¬ inlet_xy E sweeper (step_info_values k) →
          ∀ ix iy ie ia iu k1, Cell_Event.init_xy ix iy ie ia iu k1 ∉ evs) := by
  have ec := impl_filter_octant E sweeper thread_octant proc_x_min proc_x_max proc_y_min
    proc_y_max step_info_values k hk
  unfold octant_calls
  rw [ec]
  obtain ⟨hact, ⟨hdx, hdy, hdz⟩, hns, hnx, hny, hnz⟩ := id hset
  obtain ⟨m, hm, hns⟩ := semiblock_count_pow _ hns
  have h4 : sweeper.nsemiblock > 4 ↔ 2 < m := by
    rw [hns]
    have h := two_pow_gt_iff m 2 hm (by decide)
    norm_num at h
    exact h
  constructor
  · intro s hs
    have hb := mem_body_xy E sweeper proc_x_min proc_x_max proc_y_min proc_y_max s k
      (step_info_values k) hact
    have hs1 : 0 ≤ s ∧ s < 2 ^ m := by rw [← hns]; exact hs
    have hflag := sets_boundary_xy_iff E sweeper (step_info_values k) m hm hns s hs1 hdz
    refine ⟨hb.2, fun hcase => ?_⟩
    · unfold xy_boundary_claim
      rw [hb.1, hflag, hns]
      rw [inlet_flag_iff_layer m 2 hm (by decide) s _ sweeper.dims_b.ncell_z hs1 hdz hnz
        (by
          rcases hcase with h | h | h
          · exact Or.inl h
          · exact Or.inr (Or.inl h)
          · exact Or.inr (Or.inr (fun h2 => by have := h4.mpr h2; omega)))]
  · have hnd := octant_events_nodup E sweeper thread_e k (step_info_values k) hset
    refine ⟨octant_events E sweeper thread_e k (step_info_values k),
      octant_events_eq fuel E sweeper thread_e _ _ _ _ k (step_info_values k) hset fx fy fz,
      fun hin ix iy ie ia iu hx hy he ha hu => ?_, fun hin ix iy ie ia iu k1 hmem => ?_⟩
    · have hi := (mem_octant_events_init E sweeper thread_e k (step_info_values k) hset
        ix iy ie ia iu k).mpr ⟨hin, rfl, hx, hy, he, ha, hu⟩
      refine ⟨List.count_eq_one_of_mem hnd hi, fun iz hz => ?_⟩
      have hsw := (mem_octant_events_sweep E sweeper thread_e k (step_info_values k) hset
        ix iy iz ie k).mpr ⟨rfl, he, hx, hy, hz⟩
      have hord := octant_events_init_first E sweeper thread_e k (step_info_values k) hset
        ix iy iz ie ia iu hi hsw
      exact ⟨hord, sublist_pair_asymm _ _ _ hnd hord⟩
    · exact hin ((mem_octant_events_init E sweeper thread_e k (step_info_values k) hset
        ix iy ie ia iu k1).mp hmem).1

/-- Octant 0 on the block of 2 x 2 x 1 cells split into eight semiblocks: slot
`(1, 1)` of the xy face is initialised once, before cell `(1, 1, 0)` is swept. -/
theorem xy_boundary_design_cases_example :
    ∃ evs, block_events 3 (example_externals false) example_sweeper_octets 0
          (octant_calls (example_externals false) example_sweeper_octets 0 true true true true
            (fun _ => ⟨true, 0, 0⟩) 0)
        = some evs
      ∧ evs.count (Cell_Event.init_xy 1 1 0 0 0 0) = 1
      ∧ [Cell_Event.init_xy 1 1 0 0 0 0, Cell_Event.sweep 1 1 0 0 0].Sublist evs := by
  obtain ⟨evs, h, hin, _⟩ := (xy_boundary_design_cases 3 (example_externals false)
    example_sweeper_octets 0 0 true true true true (fun _ => ⟨true, 0, 0⟩) 0
    (by unfold thread_has_octant; decide)
    ⟨rfl, ⟨Or.inl rfl, Or.inl rfl, Or.inl rfl⟩, Or.inr (Or.inr (Or.inr rfl)),
      by decide, by decide, by decide⟩ (by decide) (by decide) (by decide)).2
  have h1 := hin (Or.inl ⟨rfl, rfl⟩) 1 1 0 0 0 (by decide) (by decide) (by decide)
    (by decide) (by decide)
  exact ⟨evs, h, h1.1, (h1.2 0 (by decide)).1⟩

/-- The lateral boundary initialisers where the flags `has_y_lo`, `has_y_hi`,
`has_x_lo`, `has_x_hi` mean what their comment says: for an active octant that, along
each of y and x, goes downward or has two or more cells or an axis that is not split,
the initialiser of the xz face (of the yz face) is called for semiblock `s`, on the
process of `env`, if and only if the inlet condition
`(dir = UP and proc = 0) or (dir = DN and proc = P - 1)` holds along y (along x) and the
semiblock contains the inlet layer of the block along that axis.  In
`Sweeper_sweep_block` every call of a lateral initialiser is made for an octant whose
inlet condition holds on this process, so on a process that is interior for the
direction of an octant the face is never written by the initialiser. -/
theorem lateral_boundary_design_cases (E : Externals) (sweeper : Sweeper) (step : Int)
    (env : Env) (thread_octant k : Int) (step_info : Step_Info)
    (hset : block_sweep_setting E sweeper step_info) :
    (∀ s, 0 ≤ s ∧ s < sweeper.nsemiblock →
      E.Dir_y step_info.octant = Dir_dn ∨ 2 ≤ sweeper.dims_b.ncell_y
          ∨ sweeper.nsemiblock ≤ 2 →
        E.Dir_x step_info.octant = Dir_dn ∨ 2 ≤ sweeper.dims_b.ncell_x
          ∨ sweeper.nsemiblock ≤ 1 →
        lateral_boundary_claim E sweeper env s k step_info)
    ∧ (∀ block_z octant k1 a b c d, Block_Op.Sweeper_set_boundary_xz block_z octant k1 a b c d
        ∈ Sweeper_sweep_block E sweeper step env thread_octant →
        inlet_lateral (E.Dir_y octant) env.proc_y_this env.nproc_y)
    ∧ (∀ block_z octant k1 a b c d, Block_Op.Sweeper_set_boundary_yz block_z octant k1 a b c d
        ∈ Sweeper_sweep_block E sweeper step env thread_octant →
        inlet_lateral (E.Dir_x octant) env.proc_x_this env.nproc_x) := by
  obtain ⟨hact, ⟨hdx, hdy, hdz⟩, hns, hnx, hny, hnz⟩ := id hset
  obtain ⟨m, hm, hns⟩ := semiblock_count_pow _ hns
  have h2 : sweeper.nsemiblock > 2 ↔ 1 < m := by
    rw [hns]
    have h := two_pow_gt_iff m 1 hm (by decide)
    norm_num at h
    exact h
  have h1 : sweeper.nsemiblock > 1 ↔ 0 < m := by
    rw [hns]
    have h := two_pow_gt_iff m 0 hm (by decide)
    norm_num at h
    exact h
  refine ⟨fun s hs hcy hcx => ?_, ?_, ?_⟩
  · have hs1 : 0 ≤ s ∧ s < 2 ^ m := by rw [← hns]; exact hs
    have cy := lateral_cond_iff m 1 hm (by decide) s (E.Dir_y step_info.octant)
      env.proc_y_this env.nproc_y hs1 hdy
    have cx := lateral_cond_iff m 0 hm (by decide) s (E.Dir_x step_info.octant)
      env.proc_x_this env.nproc_x hs1 hdx
    rw [← hns] at cy cx
    have my : xz_boundary_call E sweeper s k step_info
        ∈ block_octant_calls E sweeper env s k step_info
        ↔ inlet_lateral (E.Dir_y step_info.octant) env.proc_y_this env.nproc_y
          ∧ (1 < m → bit_of s 1 = false) :=
      ⟨fun h => cy.mp (mem_body_xz E sweeper env s k step_info _ _ _ _ _ _ _ h).2,
        fun h => mem_body_xz_of_cond E sweeper env s k step_info hact (cy.mpr h)⟩
    have mx : yz_boundary_call E sweeper s k step_info
        ∈ block_octant_calls E sweeper env s k step_info
        ↔ inlet_lateral (E.Dir_x step_info.octant) env.proc_x_this env.nproc_x
          ∧ (0 < m → bit_of s 0 = false) :=
      ⟨fun h => cx.mp (mem_body_yz E sweeper env s k step_info _ _ _ _ _ _ _ h).2,
        fun h => mem_body_yz_of_cond E sweeper env s k step_info hact (cx.mpr h)⟩
    unfold lateral_boundary_claim
    rw [my, mx, hns]
    rw [inlet_flag_iff_layer m 1 hm (by decide) s _ sweeper.dims_b.ncell_y hs1 hdy hny
        (by
          rcases hcy with h | h | h
          · exact Or.inl h
          · exact Or.inr (Or.inl h)
          · exact Or.inr (Or.inr (fun hh => by have := h2.mpr hh; omega))),
      inlet_flag_iff_layer m 0 hm (by decide) s _ sweeper.dims_b.ncell_x hs1 hdx hnx
        (by
          rcases hcx with h | h | h
          · exact Or.inl h
          · exact Or.inr (Or.inl h)
          · exact Or.inr (Or.inr (fun hh => by have := h1.mpr hh; omega)))]
    exact ⟨Iff.rfl, Iff.rfl⟩
  · intro block_z octant k1 a b c d h
    obtain ⟨s, k2, hb⟩ := mem_sweep_block E sweeper step env thread_octant _ h (by simp)
    obtain ⟨he, hc⟩ := mem_body_xz E sweeper env s k2 _ _ _ _ _ _ _ _ hb
    unfold xz_boundary_call at he
    simp only [Block_Op.Sweeper_set_boundary_xz.injEq] at he
    rw [he.2.1]
    unfold inlet_lateral
    simp only [Bool.or_eq_true, Bool.and_eq_true, beq_iff_eq] at hc
    rcases hc with ⟨⟨h1, h2⟩, _⟩ | ⟨⟨h1, h2⟩, _⟩
    · exact Or.inl ⟨h1, h2⟩
    · exact Or.inr ⟨h1, h2⟩
  · intro block_z octant k1 a b c d h
    obtain ⟨s, k2, hb⟩ := mem_sweep_block E sweeper step env thread_octant _ h (by simp)
    obtain ⟨he, hc⟩ := mem_body_yz E sweeper env s k2 _ _ _ _ _ _ _ _ hb
    unfold yz_boundary_call at he
    simp only [Block_Op.Sweeper_set_boundary_yz.injEq] at he
    rw [he.2.1]
    unfold inlet_lateral
    simp only [Bool.or_eq_true, Bool.and_eq_true, beq_iff_eq] at hc
    rcases hc with ⟨⟨h1, h2⟩, _⟩ | ⟨⟨h1, h2⟩, _⟩
    · exact Or.inl ⟨h1, h2⟩
    · exact Or.inr ⟨h1, h2⟩

/-- Octant 0 on the block of 2 x 2 x 1 cells split into eight semiblocks, on a grid of
one process: for semiblock 1 both lateral initialisers follow the statement. -/
theorem lateral_boundary_design_cases_example :
    lateral_boundary_claim (example_externals false) example_sweeper_octets (example_env 0)
      1 0 ⟨true, 0, 0⟩ :=
  (lateral_boundary_design_cases (example_externals false) example_sweeper_octets 0
    (example_env 0) 0 0 ⟨true, 0, 0⟩
    ⟨rfl, ⟨Or.inl rfl, Or.inl rfl, Or.inl rfl⟩, Or.inr (Or.inr (Or.inr rfl)),
      by decide, by decide, by decide⟩).1 1 (by decide) (Or.inr (Or.inl (by decide)))
    (Or.inr (Or.inl (by decide)))

/-- C19: with enough fuel for the cell loops `Sweeper_sweep_semiblock` returns, and its
result is the cell body applied in turn at every cell of the semiblock and every energy
group of the thread.  At each of them, whatever the arrays hold: the scratch handed to
`Quantities_solve` is `v_local[ia,iu] = sum over im < nm of a_from_m[im,ia,octant] *
vi[ix,iy,iz,ie,im,iu]` for `ia < na`, `iu < NU`; after the solve
`vo[ix,iy,iz,ie,im,iu]` is increased by `sum over ia < na of m_from_a[im,ia,octant] *
v_local[ia,iu]` for `im < nm`, `iu < NU`; no other entry of `vo` changes and `vi` is not
written.  Over the whole call `vi` is unchanged and so is every entry of `vo` outside
the cell range of the semiblock and the energy groups of the thread.  Arithmetic is
that of a semiring, taken exactly. -/
theorem sweep_semiblock_transforms {P F : Type} [Semiring P] (fuel : Nat) (E : Externals)
    (Quantities_solve : Quantities → (Int × Int → P) → F → Int → Int → Int → Int →
      Int → Int → Int → Int → Int → Int → Dimensions → Dimensions → (Int × Int → P) × F)
    (sweeper : Sweeper) (quan : Quantities) (a_from_m m_from_a : Int → Int → Int → P)
    (thread_e : Int) (step_info : Step_Info)
    (octant_in_block ixmin ixmax iymin iymax izmin izmax : Int) (st : Sweep_State P F)
    (hdx : is_dir (E.Dir_x step_info.octant)) (hdy : is_dir (E.Dir_y step_info.octant))
    (hdz : is_dir (E.Dir_z step_info.octant))
    (hx : ixmin ≤ ixmax + 1) (hy : iymin ≤ iymax + 1) (hz : izmin ≤ izmax + 1)
    (fx : (ixmax + 1 - ixmin).toNat < fuel) (fy : (iymax + 1 - iymin).toNat < fuel)
    (fz : (izmax + 1 - izmin).toNat < fuel) :
    ∃ st1, Sweeper_sweep_semiblock fuel E Quantities_solve sweeper quan a_from_m m_from_a
          thread_e step_info octant_in_block ixmin ixmax iymin iymax izmin izmax st
        = some st1
      ∧ st1 = (semiblock_visits E sweeper thread_e step_info.octant ixmin ixmax iymin iymax
          izmin izmax).foldl (fun s c =>
            Sweeper_sweep_cell Quantities_solve sweeper quan a_from_m m_from_a
              step_info.octant octant_in_block (step_info.block_z * sweeper.dims_b.ncell_z)
              c.1 c.2.1 c.2.2.1 c.2.2.2 s) st
      ∧ (∀ (s : Sweep_State P F) (ix iy iz ie : Int),
          (∀ ia iu, (0 ≤ ia ∧ ia < sweeper.dims.na) → (0 ≤ iu ∧ iu < NU) →
            Sweeper_sweep_cell_v_local sweeper a_from_m step_info.octant ix iy iz ie s (ia, iu)
              = ((int_range sweeper.dims.nm).map fun im =>
                  a_from_m im ia step_info.octant * s.vi (ix, iy, iz, ie, im, iu)).sum)
          ∧ ((Sweeper_sweep_cell Quantities_solve sweeper quan a_from_m m_from_a
                step_info.octant octant_in_block (step_info.block_z * sweeper.dims_b.ncell_z)
                ix iy iz ie s).v_local,
              (Sweeper_sweep_cell Quantities_solve sweeper quan a_from_m m_from_a
                step_info.octant octant_in_block (step_info.block_z * sweeper.dims_b.ncell_z)
                ix iy iz ie s).faces)
            = Quantities_solve quan
                (Sweeper_sweep_cell_v_local sweeper a_from_m step_info.octant ix iy iz ie s)
                s.faces ix iy iz ie (ix + quan.ix_base) (iy + quan.iy_base)
                (iz + step_info.block_z * sweeper.dims_b.ncell_z) step_info.octant
                octant_in_block sweeper.noctant_per_block sweeper.dims_b sweeper.dims_g
          ∧ (∀ im iu, (0 ≤ im ∧ im < sweeper.dims.nm) → (0 ≤ iu ∧ iu < NU) →
            (Sweeper_sweep_cell Quantities_solve sweeper quan a_from_m m_from_a
                step_info.octant octant_in_block (step_info.block_z * sweeper.dims_b.ncell_z)
                ix iy iz ie s).vo (ix, iy, iz, ie, im, iu)
              = s.vo (ix, iy, iz, ie, im, iu)
                + ((int_range sweeper.dims.na).map fun ia => m_from_a im ia step_info.octant
                    * (Sweeper_sweep_cell Quantities_solve sweeper quan a_from_m m_from_a
                        step_info.octant octant_in_block
                        (step_info.block_z * sweeper.dims_b.ncell_z)
                        ix iy iz ie s).v_local (ia, iu)).sum)
          ∧ (∀ jx jy jz je jm ju,
              ¬ ((jx = ix ∧ jy = iy ∧ jz = iz ∧ je = ie)
                ∧ (0 ≤ jm ∧ jm < sweeper.dims.nm) ∧ (0 ≤ ju ∧ ju < NU)) →
            (Sweeper_sweep_cell Quantities_solve sweeper quan a_from_m m_from_a
                step_info.octant octant_in_block (step_info.block_z * sweeper.dims_b.ncell_z)
                ix iy iz ie s).vo (jx, jy, jz, je, jm, ju)
              = s.vo (jx, jy, jz, je, jm, ju))
          ∧ (Sweeper_sweep_cell Quantities_solve sweeper quan a_from_m m_from_a
                step_info.octant octant_in_block (step_info.block_z * sweeper.dims_b.ncell_z)
                ix iy iz ie s).vi = s.vi)
      ∧ st1.vi = st.vi
      ∧ (∀ jx jy jz je jm ju,
          ¬ ((ixmin ≤ jx ∧ jx ≤ ixmax) ∧ (iymin ≤ jy ∧ jy ≤ iymax) ∧ (izmin ≤ jz ∧ jz ≤ izmax)
            ∧ (ie_min sweeper thread_e ≤ je ∧ je < ie_max sweeper thread_e)
            ∧ (0 ≤ jm ∧ jm < sweeper.dims.nm) ∧ (0 ≤ ju ∧ ju < NU)) →
          st1.vo (jx, jy, jz, je, jm, ju) = st.vo (jx, jy, jz, je, jm, ju)) := by
  have hcell := fun (s : Sweep_State P F) (ix iy iz ie : Int) =>
    sweep_cell_vo Quantities_solve sweeper quan a_from_m m_from_a step_info.octant
      octant_in_block (step_info.block_z * sweeper.dims_b.ncell_z) ix iy iz ie s
  have hinv := foldl_preserves (fun (s : Sweep_State P F) (c : Int × Int × Int × Int) =>
      Sweeper_sweep_cell Quantities_solve sweeper quan a_from_m m_from_a
        step_info.octant octant_in_block (step_info.block_z * sweeper.dims_b.ncell_z)
        c.1 c.2.1 c.2.2.1 c.2.2.2 s)
    (fun s => s.vi = st.vi ∧ ∀ jx jy jz je jm ju,
      ¬ ((ixmin ≤ jx ∧ jx ≤ ixmax) ∧ (iymin ≤ jy ∧ jy ≤ iymax) ∧ (izmin ≤ jz ∧ jz ≤ izmax)
        ∧ (ie_min sweeper thread_e ≤ je ∧ je < ie_max sweeper thread_e)
        ∧ (0 ≤ jm ∧ jm < sweeper.dims.nm) ∧ (0 ≤ ju ∧ ju < NU)) →
      s.vo (jx, jy, jz, je, jm, ju) = st.vo (jx, jy, jz, je, jm, ju))
    (semiblock_visits E sweeper thread_e step_info.octant ixmin ixmax iymin iymax izmin izmax)
    st
    (by
      rintro s ⟨ix, iy, iz, ie⟩ hc ⟨hvi, hvo⟩
      rw [mem_semiblock_visits] at hc
      refine ⟨((hcell s ix iy iz ie).2.2).trans hvi, fun jx jy jz je jm ju hout => ?_⟩
      rw [(hcell s ix iy iz ie).2.1 jx jy jz je jm ju (by
        rintro ⟨⟨rfl, rfl, rfl, rfl⟩, hm, hu⟩
        exact hout ⟨hc.1, hc.2.1, hc.2.2.1, hc.2.2.2, hm, hu⟩)]
      exact hvo jx jy jz je jm ju hout)
    ⟨rfl, fun _ _ _ _ _ _ _ => rfl⟩
  refine ⟨_, sweep_semiblock_loops_total fuel E sweeper thread_e step_info.octant
      ixmin ixmax iymin iymax izmin izmax
      (fun ix iy iz ie s => Sweeper_sweep_cell Quantities_solve sweeper quan a_from_m m_from_a
        step_info.octant octant_in_block (step_info.block_z * sweeper.dims_b.ncell_z)
        ix iy iz ie s) st hdx hdy hdz hx hy hz fx fy fz,
    rfl, fun s ix iy iz ie => ⟨fun ia iu ha hu => ?_, rfl, (hcell s ix iy iz ie).1,
      (hcell s ix iy iz ie).2.1, (hcell s ix iy iz ie).2.2⟩, hinv.1, hinv.2⟩
  exact sweep_cell_v_local sweeper a_from_m step_info.octant ix iy iz ie s ia iu ha hu

theorem sweep_semiblock_transforms_witness :
    ∃ st1, Sweeper_sweep_semiblock 3 (example_externals false) example_solve
          example_sweeper_octets example_quan (fun _ _ _ => 1) (fun _ _ _ => 1) 0
          ⟨true, 0, 0⟩ 0 0 1 0 1 0 0 example_state
        = some st1
      ∧ st1.vi = example_state.vi
      ∧ st1.vo (1, 1, 0, 0, 0, 0) = example_state.vo (1, 1, 0, 0, 0, 0) + 2
      ∧ st1.vo (2, 1, 0, 0, 0, 0) = example_state.vo (2, 1, 0, 0, 0, 0) := by
  obtain ⟨st1, h, he, _, hvi, hvo⟩ := sweep_semiblock_transforms 3 (example_externals false)
    example_solve example_sweeper_octets example_quan (fun _ _ _ => 1) (fun _ _ _ => 1) 0
    ⟨true, 0, 0⟩ 0 0 1 0 1 0 0 example_state (Or.inl rfl) (Or.inl rfl) (Or.inl rfl)
    (by decide) (by decide) (by decide) (by decide) (by decide) (by decide)
  refine ⟨st1, h, hvi, ?_, hvo 2 1 0 0 0 0 (by decide)⟩
  rw [he]
  decide

/-- C21: on a 1 x 1 process grid, with a scheduler that reports every process
coordinate outside the grid inactive, `Sweeper_must_do_send__` and
`Sweeper_must_do_recv__` are false for every step, axis (x or y), direction and octant
of the block, and a sweep makes no exchange call: no copy to scratch, no send, no
receive, no wait. -/
theorem single_process_no_exchange (E : Externals) (sweeper : Sweeper) (env : Env)
    (hgx : env.nproc_x = 1) (hgy : env.nproc_y = 1)
    (hin : in_grid env env.proc_x_this env.proc_y_this)
    (hout : ∀ step k px py, ¬ in_grid env px py →
      (sweeper.step_scheduler.step_info step k px py).is_active = false) :
    (∀ step axis dir_ind k, axis = 0 ∨ axis = 1 →
      Sweeper_must_do_send__ E sweeper step axis dir_ind k env = false
        ∧ Sweeper_must_do_recv__ E sweeper step axis dir_ind k env = false)
    ∧ ∀ op ∈ (Sweeper_sweep E sweeper env).1, op.is_comm = false := by
  have hno := fun step axis dir_ind k haxis =>
    single_process_must_do E sweeper env hgx hgy hin hout step axis dir_ind k haxis
  refine ⟨hno, fun op hop => ?_⟩
  cases hc : op.is_comm with
  | false => rfl
  | true =>
    exfalso
    simp only [Sweeper_sweep, List.mem_append, List.mem_flatMap, List.mem_singleton] at hop
    rcases hop with (h | ⟨s, _, h⟩) | h
    · subst h; simp [Op.is_comm] at hc
    · have hm : op ∈ (Sweeper_sweep_step E sweeper env s).filter (fun op => !op.is_mirror) :=
        List.mem_filter.mpr ⟨h, (is_comm_not_mirror op hc).1⟩
      rw [sweep_step_filter] at hm
      have e1 := exchange_empty E sweeper env s (fun a d k ha => hno s a d k ha) op
      have e2 := exchange_empty E sweeper env (s - 1) (fun a d k ha => hno (s - 1) a d k ha) op
      split_ifs at hm
      · simp only [List.mem_append, List.mem_singleton] at hm
        rcases hm with (((hm | hm) | hm) | hm) | hm
        · exact e2 (Or.inr (Or.inr (Or.inr (Or.inr hm))))
        · exact e1 (Or.inr (Or.inr (Or.inr (Or.inl hm))))
        · subst hm; simp [Op.is_comm] at hc
        · exact e2 (Or.inr (Or.inr (Or.inl hm)))
        · exact e1 (Or.inr (Or.inl hm))
      · simp only [List.mem_append, List.mem_singleton] at hm
        rcases hm with hm | hm
        · subst hm; simp [Op.is_comm] at hc
        · exact e1 (Or.inl hm)
    · subst h; simp [Op.is_comm] at hc

theorem single_process_no_exchange_witness :
    (Sweeper_sweep (example_externals true) (example_sweeper single_scheduler)
        example_env_single).1.all (fun op => !op.is_comm) = true := by
  have h := (single_process_no_exchange (example_externals true)
    (example_sweeper single_scheduler) example_env_single rfl rfl
    (by unfold in_grid; decide)
    (by
      intro step k px py hg
      unfold in_grid at hg
      have hx : ¬ (px = 0 ∧ py = 0) := by
        intro h
        apply hg
        rw [h.1, h.2]
        decide
      simp only [example_sweeper, single_scheduler, Bool.and_eq_false_iff,
        decide_eq_false_iff_not]
      by_cases h1 : px = 0
      · exact Or.inr (fun h2 => hx ⟨h1, h2⟩)
      · exact Or.inl (Or.inr h1))).2
  rw [List.all_eq_true]
  intro op hop
  rw [h op hop]
  rfl

/-- C27: for every scheduler, process, step, axis and octant `k` of the block,
`Sweeper_must_do_send__` holds for at most one of the directions UP and DN, and so does
`Sweeper_must_do_recv__`.  Hence in one call of `Sweeper_send_faces_start__`
(of `Sweeper_recv_faces_start__`) every request slot receives at most one started
request, no request is started twice, and a slot that is free at the call is never
started again while its request is outstanding. -/
theorem one_direction_per_slot (E : Externals) (sweeper : Sweeper) (s : Int) (env : Env)
    (axis k : Int) :
    ¬ (Sweeper_must_do_send__ E sweeper s axis 0 k env = true
        ∧ Sweeper_must_do_send__ E sweeper s axis 1 k env = true)
    ∧ ¬ (Sweeper_must_do_recv__ E sweeper s axis 0 k env = true
        ∧ Sweeper_must_do_recv__ E sweeper s axis 1 k env = true)
    ∧ (∀ r, (slot_events r (Sweeper_send_faces_start__ E sweeper s env)).count true ≤ 1
        ∧ (started_requests (Sweeper_send_faces_start__ E sweeper s env)).count r ≤ 1
        ∧ slot_run r false (Sweeper_send_faces_start__ E sweeper s env)
            = some (starts_send E sweeper s env r))
    ∧ (∀ r, (slot_events r (Sweeper_recv_faces_start__ E sweeper s env)).count true ≤ 1
        ∧ (started_requests (Sweeper_recv_faces_start__ E sweeper s env)).count r ≤ 1
        ∧ slot_run r false (Sweeper_recv_faces_start__ E sweeper s env)
            = some (starts_recv E sweeper s env r))
    ∧ (started_requests (Sweeper_send_faces_start__ E sweeper s env)).Nodup
    ∧ (started_requests (Sweeper_recv_faces_start__ E sweeper s env)).Nodup := by
  have hs : ∀ r, (slot_events r (Sweeper_send_faces_start__ E sweeper s env)).count true ≤ 1
      ∧ (started_requests (Sweeper_send_faces_start__ E sweeper s env)).count r ≤ 1
      ∧ slot_run r false (Sweeper_send_faces_start__ E sweeper s env)
          = some (starts_send E sweeper s env r) := by
    intro r
    rw [started_count_eq]
    unfold slot_run
    rw [slot_events_send_start]
    cases starts_send E sweeper s env r <;> simp [slot_ok]
  have hr : ∀ r, (slot_events r (Sweeper_recv_faces_start__ E sweeper s env)).count true ≤ 1
      ∧ (started_requests (Sweeper_recv_faces_start__ E sweeper s env)).count r ≤ 1
      ∧ slot_run r false (Sweeper_recv_faces_start__ E sweeper s env)
          = some (starts_recv E sweeper s env r) := by
    intro r
    rw [started_count_eq]
    unfold slot_run
    rw [slot_events_recv_start]
    cases starts_recv E sweeper s env r <;> simp [slot_ok]
  refine ⟨fun h => ?_, fun h => ?_, hs, hr, ?_, ?_⟩
  · have := must_do_send_one_direction E sweeper s axis k env h.1
    rw [h.2] at this
    cases this
  · have := must_do_recv_one_direction E sweeper s axis k env h.1
    rw [h.2] at this
    cases this
  · exact List.nodup_iff_count_le_one.mpr (fun r => (hs r).2.1)
  · exact List.nodup_iff_count_le_one.mpr (fun r => (hr r).2.1)

/-- C30: in the synchronous red/black exchange, let `p` be a process that must send
along an axis in a direction, at a non-negative coordinate on the axis, and `p + Δ` its
neighbour there.  The colour `c` = (coordinate of `p` on the axis) mod 2 is 0 or 1; in the
pass of colour `c` the process `p` sends its message and `p + Δ` receives that same
message (size, tag, sender and receiver agree), and in the pass of the other colour
`p` sends nothing and `p + Δ` receives nothing, whatever `use_buf` holds. -/
theorem colour_pairing (E : Externals) (sweeper : Sweeper) (s k : Int)
    (axis_is_x up : Bool) (env : Env) (use_buf use_buf1 : Bool)
    (hsend : Sweeper_must_do_send__ E sweeper s (axis_index axis_is_x) (dir_index up) k env
      = true)
    (hp : 0 ≤ proc_axis_of env (axis_index axis_is_x)) :
    (Int.tmod (proc_axis_of env (axis_index axis_is_x)) 2 = 0
      ∨ Int.tmod (proc_axis_of env (axis_index axis_is_x)) 2 = 1)
    ∧ sent_messages env
        (Sweeper_communicate_faces__color E sweeper s env k (axis_index axis_is_x)
          (dir_index up) (Int.tmod (proc_axis_of env (axis_index axis_is_x)) 2) use_buf).1
      = [⟨size_face_per_octant E sweeper (axis_index axis_is_x), env.tag + k,
          env.proc env.proc_x_this env.proc_y_this,
          proc_send_to env (axis_index axis_is_x) (dir_index up)⟩]
    ∧ received_messages (neighbour env axis_is_x up)
        (Sweeper_communicate_faces__color E sweeper s (neighbour env axis_is_x up) k
          (axis_index axis_is_x) (dir_index up)
          (Int.tmod (proc_axis_of env (axis_index axis_is_x)) 2) use_buf1).1
      = [⟨size_face_per_octant E sweeper (axis_index axis_is_x), env.tag + k,
          env.proc env.proc_x_this env.proc_y_this,
          proc_send_to env (axis_index axis_is_x) (dir_index up)⟩]
    ∧ sent_messages env
        (Sweeper_communicate_faces__color E sweeper s env k (axis_index axis_is_x)
          (dir_index up) (1 - Int.tmod (proc_axis_of env (axis_index axis_is_x)) 2)
          use_buf).1 = []
    ∧ received_messages (neighbour env axis_is_x up)
        (Sweeper_communicate_faces__color E sweeper s (neighbour env axis_is_x up) k
          (axis_index axis_is_x) (dir_index up)
          (1 - Int.tmod (proc_axis_of env (axis_index axis_is_x)) 2) use_buf1).1 = [] := by
  have hrecv := must_do_recv_neighbour E sweeper s k axis_is_x up env
  rw [hsend] at hrecv
  have hpar := neighbour_parity env axis_is_x up
  obtain ⟨e1, e2, e3⟩ := neighbour_endpoints env axis_is_x up
  have hc : Int.tmod (proc_axis_of env (axis_index axis_is_x)) 2 = 0
      ∨ Int.tmod (proc_axis_of env (axis_index axis_is_x)) 2 = 1 := by
    rw [Int.tmod_eq_emod hp (by decide)]
    omega
  refine ⟨hc, ?_, ?_, ?_, ?_⟩
  · rw [color_sent, hsend]
    rcases hc with h | h <;> simp [h]
  · rw [color_received, hrecv, hpar, e1, e2, e3]
    rcases hc with h | h <;> simp [h]
  · rw [color_sent, hsend]
    rcases hc with h | h <;> simp [h]
  · rw [color_received, hrecv, hpar]
    rcases hc with h | h <;> simp [h]

theorem colour_pairing_witness :
    sent_messages (example_env 0)
        (Sweeper_communicate_faces__color (example_externals false)
          (example_sweeper octant0_scheduler) 0 (example_env 0) 0 0 0 0 false).1
      = received_messages (example_env 1)
        (Sweeper_communicate_faces__color (example_externals false)
          (example_sweeper octant0_scheduler) 0 (example_env 1) 0 0 0 0 false).1
    ∧ (sent_messages (example_env 0)
        (Sweeper_communicate_faces__color (example_externals false)
          (example_sweeper octant0_scheduler) 0 (example_env 0) 0 0 0 0 false).1).length
      = 1 := by
  have h := colour_pairing (example_externals false) (example_sweeper octant0_scheduler) 0 0
    true true (example_env 0) false false (by decide) (by decide)
  exact ⟨h.2.1.trans h.2.2.1.symm, congrArg List.length h.2.1⟩

/-- C28: for a block with at least one cell along each axis, an octant whose directions
are up or down, and the bounds the block driver computes for a semiblock, the loops of
`Sweeper_sweep_semiblock`, whose exit tests are `iz != izend + inc` (and the same for
iy, ix), return with any fuel above the block extents, and visit for every energy group
of the thread exactly the cells with `ixmin <= ix <= ixmax`, `iymin <= iy <= iymax`,
`izmin <= iz <= izmax`, each once.  When a range is empty they perform no iteration;
this is the case of the low half `[0, -1]` of a split axis with one cell, which occurs
for both directions. -/
theorem semiblock_loops_terminate (fuel : Nat) (E : Externals) (sweeper : Sweeper)
    (thread_e octant semiblock : Int)
    (hdx : is_dir (E.Dir_x octant)) (hdy : is_dir (E.Dir_y octant))
    (hdz : is_dir (E.Dir_z octant))
    (hnx : 1 ≤ sweeper.dims_b.ncell_x) (hny : 1 ≤ sweeper.dims_b.ncell_y)
    (hnz : 1 ≤ sweeper.dims_b.ncell_z)
    (fx : sweeper.dims_b.ncell_x < fuel) (fy : sweeper.dims_b.ncell_y < fuel)
    (fz : sweeper.dims_b.ncell_z < fuel) :
    (∃ cells, Sweeper_sweep_semiblock_loops fuel E sweeper thread_e octant
          (imin_b sweeper.nsemiblock semiblock 0 (E.Dir_x octant) sweeper.dims_b.ncell_x)
          (imax_b sweeper.nsemiblock semiblock 0 (E.Dir_x octant) sweeper.dims_b.ncell_x)
          (imin_b sweeper.nsemiblock semiblock 1 (E.Dir_y octant) sweeper.dims_b.ncell_y)
          (imax_b sweeper.nsemiblock semiblock 1 (E.Dir_y octant) sweeper.dims_b.ncell_y)
          (imin_b sweeper.nsemiblock semiblock 2 (E.Dir_z octant) sweeper.dims_b.ncell_z)
          (imax_b sweeper.nsemiblock semiblock 2 (E.Dir_z octant) sweeper.dims_b.ncell_z)
          (fun ix iy iz ie acc => some (acc ++ [(ix, iy, iz, ie)])) []
        = some cells
      ∧ cells.Nodup
      ∧ (∀ ix iy iz ie, (ix, iy, iz, ie) ∈ cells
          ↔ (imin_b sweeper.nsemiblock semiblock 0 (E.Dir_x octant) sweeper.dims_b.ncell_x ≤ ix
              ∧ ix ≤ imax_b sweeper.nsemiblock semiblock 0 (E.Dir_x octant)
                  sweeper.dims_b.ncell_x)
            ∧ (imin_b sweeper.nsemiblock semiblock 1 (E.Dir_y octant) sweeper.dims_b.ncell_y
                ≤ iy
              ∧ iy ≤ imax_b sweeper.nsemiblock semiblock 1 (E.Dir_y octant)
                  sweeper.dims_b.ncell_y)
            ∧ (imin_b sweeper.nsemiblock semiblock 2 (E.Dir_z octant) sweeper.dims_b.ncell_z
                ≤ iz
              ∧ iz ≤ imax_b sweeper.nsemiblock semiblock 2 (E.Dir_z octant)
                  sweeper.dims_b.ncell_z)
            ∧ (ie_min sweeper thread_e ≤ ie ∧ ie < ie_max sweeper thread_e))
      ∧ (imax_b sweeper.nsemiblock semiblock 0 (E.Dir_x octant) sweeper.dims_b.ncell_x
            < imin_b sweeper.nsemiblock semiblock 0 (E.Dir_x octant) sweeper.dims_b.ncell_x
          ∨ imax_b sweeper.nsemiblock semiblock 1 (E.Dir_y octant) sweeper.dims_b.ncell_y
            < imin_b sweeper.nsemiblock semiblock 1 (E.Dir_y octant) sweeper.dims_b.ncell_y
          ∨ imax_b sweeper.nsemiblock semiblock 2 (E.Dir_z octant) sweeper.dims_b.ncell_z
            < imin_b sweeper.nsemiblock semiblock 2 (E.Dir_z octant) sweeper.dims_b.ncell_z →
          cells = []))
    ∧ (∀ (a : Nat) (dir : Int), sweeper.nsemiblock > 2 ^ a →
        is_semiblock_lo semiblock a dir = true →
        imin_b sweeper.nsemiblock semiblock a dir 1 = 0
          ∧ imax_b sweeper.nsemiblock semiblock a dir 1 = -1)
    ∧ (∀ a : Nat, a < 3 →
        is_semiblock_lo 0 a Dir_up = true ∧ is_semiblock_lo (2 ^ a) a Dir_dn = true) := by
  have bx := axis_bounds_len sweeper.nsemiblock semiblock 0 (E.Dir_x octant)
    sweeper.dims_b.ncell_x (by omega)
  have by1 := axis_bounds_len sweeper.nsemiblock semiblock 1 (E.Dir_y octant)
    sweeper.dims_b.ncell_y (by omega)
  have bz := axis_bounds_len sweeper.nsemiblock semiblock 2 (E.Dir_z octant)
    sweeper.dims_b.ncell_z (by omega)
  have hloops := sweep_semiblock_loops_total fuel E sweeper thread_e octant
    (imin_b sweeper.nsemiblock semiblock 0 (E.Dir_x octant) sweeper.dims_b.ncell_x)
    (imax_b sweeper.nsemiblock semiblock 0 (E.Dir_x octant) sweeper.dims_b.ncell_x)
    (imin_b sweeper.nsemiblock semiblock 1 (E.Dir_y octant) sweeper.dims_b.ncell_y)
    (imax_b sweeper.nsemiblock semiblock 1 (E.Dir_y octant) sweeper.dims_b.ncell_y)
    (imin_b sweeper.nsemiblock semiblock 2 (E.Dir_z octant) sweeper.dims_b.ncell_z)
    (imax_b sweeper.nsemiblock semiblock 2 (E.Dir_z octant) sweeper.dims_b.ncell_z)
    (fun ix iy iz ie (acc : List (Int × Int × Int × Int)) => acc ++ [(ix, iy, iz, ie)]) []
    hdx hdy hdz bx.1 by1.1 bz.1 (by omega) (by omega) (by omega)
  have hfold : ∀ l : List (Int × Int × Int × Int),
      l.foldl (fun acc c => acc ++ [(c.1, c.2.1, c.2.2.1, c.2.2.2)]) [] = l := by
    intro l
    have h := foldl_append_singleton (fun c : Int × Int × Int × Int => c) l []
    simpa using h
  rw [hfold] at hloops
  refine ⟨⟨_, hloops, semiblock_visits_nodup _ _ _ _ _ _ _ _ _ _,
    fun ix iy iz ie => mem_semiblock_visits _ _ _ _ _ _ _ _ _ _ _ _ _ _, fun hempty => ?_⟩,
    fun a dir hsplit hlo => low_half_of_one _ _ a dir hsplit hlo, fun a ha => ?_⟩
  · rw [List.eq_nil_iff_forall_not_mem]
    rintro ⟨ix, iy, iz, ie⟩ hmem
    rw [mem_semiblock_visits] at hmem
    omega
  · interval_cases a <;> decide

theorem semiblock_loops_terminate_witness :
    ∃ cells, Sweeper_sweep_semiblock_loops 3 (example_externals false) example_sweeper_octets
          0 0
          (imin_b 8 0 0 Dir_up 2) (imax_b 8 0 0 Dir_up 2)
          (imin_b 8 0 1 Dir_up 2) (imax_b 8 0 1 Dir_up 2)
          (imin_b 8 0 2 Dir_up 1) (imax_b 8 0 2 Dir_up 1)
          (fun ix iy iz ie acc => some (acc ++ [(ix, iy, iz, ie)])) []
        = some cells
      ∧ cells = [] := by
  obtain ⟨cells, h, _, _, hempty⟩ := (semiblock_loops_terminate 3 (example_externals false)
    example_sweeper_octets 0 0 0 (Or.inl rfl) (Or.inl rfl) (Or.inl rfl)
    (by decide) (by decide) (by decide) (by decide) (by decide) (by decide)).1
  exact ⟨cells, h, hempty (Or.inr (Or.inr (by decide)))⟩

/-- C29: for `ne ≥ 0` energy groups and `nthread_e ≥ 1` energy threads the ranges
`[ie_min t, ie_max t)` of the threads `t = 0 .. nthread_e - 1` start at 0, end at `ne`,
each ends where the next starts, they lie in `[0, ne)`, no energy group is in the ranges of
two threads and every group of `[0, ne)` is in the range of one. The loop nest of the
semiblock sweep of thread `t` records groups of the range of `t` only, whatever the fuel,
and with valid directions and enough fuel it ends having recorded every cell of its
bounds with every group of the range; the loop nests of the xy, xz and yz boundary
initialisers record exactly the slots of their bounds with the groups of the range. -/
theorem energy_ranges_partition (E : Externals) (sweeper : Sweeper)
    (hne : 0 ≤ sweeper.dims.ne) (hnt : 1 ≤ sweeper.nthread_e) :
    (ie_min sweeper 0 = 0
      ∧ ie_max sweeper (sweeper.nthread_e - 1) = sweeper.dims.ne
      ∧ (∀ t : Int, ie_max sweeper t = ie_min sweeper (t + 1))
      ∧ (∀ t : Int, 0 ≤ t → t < sweeper.nthread_e →
          0 ≤ ie_min sweeper t ∧ ie_min sweeper t ≤ ie_max sweeper t
            ∧ ie_max sweeper t ≤ sweeper.dims.ne)
      ∧ (∀ t1 t2 ie : Int, 0 ≤ t1 → t1 < sweeper.nthread_e → 0 ≤ t2 →
          t2 < sweeper.nthread_e →
          ie_min sweeper t1 ≤ ie ∧ ie < ie_max sweeper t1 →
          ie_min sweeper t2 ≤ ie ∧ ie < ie_max sweeper t2 → t1 = t2)
      ∧ (∀ ie : Int, 0 ≤ ie → ie < sweeper.dims.ne →
          ∃ t : Int, (0 ≤ t ∧ t < sweeper.nthread_e)
            ∧ ie_min sweeper t ≤ ie ∧ ie < ie_max sweeper t))
    ∧ (∀ (fuel : Nat) (t octant ixmin ixmax iymin iymax izmin izmax : Int)
        (cells : List (Int × Int × Int × Int)),
        Sweeper_sweep_semiblock_loops fuel E sweeper t octant
            ixmin ixmax iymin iymax izmin izmax
            (fun ix iy iz ie acc => some (acc ++ [(ix, iy, iz, ie)])) [] = some cells →
        ∀ c ∈ cells, ie_min sweeper t ≤ c.2.2.2 ∧ c.2.2.2 < ie_max sweeper t)
    ∧ (∀ (fuel : Nat) (t octant ixmin ixmax iymin iymax izmin izmax : Int),
        is_dir (E.Dir_x octant) → is_dir (E.Dir_y octant) → is_dir (E.Dir_z octant) →
        ixmin ≤ ixmax + 1 → iymin ≤ iymax + 1 → izmin ≤ izmax + 1 →
        (ixmax + 1 - ixmin).toNat < fuel → (iymax + 1 - iymin).toNat < fuel →
        (izmax + 1 - izmin).toNat < fuel →
        ∃ cells, Sweeper_sweep_semiblock_loops fuel E sweeper t octant
            ixmin ixmax iymin iymax izmin izmax
            (fun ix iy iz ie acc => some (acc ++ [(ix, iy, iz, ie)])) [] = some cells
          ∧ ∀ ix iy iz ie : Int, (ix, iy, iz, ie) ∈ cells
            ↔ (ixmin ≤ ix ∧ ix ≤ ixmax) ∧ (iymin ≤ iy ∧ iy ≤ iymax)
              ∧ (izmin ≤ iz ∧ iz ≤ izmax)
              ∧ (ie_min sweeper t ≤ ie ∧ ie < ie_max sweeper t))
    ∧ (∀ t a0 a1 b0 b1 i j ie ia iu : Int,
        ((i, j, ie, ia, iu) ∈ Sweeper_set_boundary_xy_loops sweeper t a0 a1 b0 b1
            (fun ix iy ie ia iu acc => acc ++ [(ix, iy, ie, ia, iu)]) []
          ↔ (a0 ≤ i ∧ i ≤ a1) ∧ (b0 ≤ j ∧ j ≤ b1)
            ∧ (ie_min sweeper t ≤ ie ∧ ie < ie_max sweeper t)
            ∧ (0 ≤ ia ∧ ia < sweeper.dims_b.na) ∧ (0 ≤ iu ∧ iu < NU))
        ∧ ((i, j, ie, ia, iu) ∈ Sweeper_set_boundary_xz_loops sweeper t a0 a1 b0 b1
            (fun ix iz ie ia iu acc => acc ++ [(ix, iz, ie, ia, iu)]) []
          ↔ (a0 ≤ i ∧ i ≤ a1) ∧ (b0 ≤ j ∧ j ≤ b1)
            ∧ (ie_min sweeper t ≤ ie ∧ ie < ie_max sweeper t)
            ∧ (0 ≤ ia ∧ ia < sweeper.dims_b.na) ∧ (0 ≤ iu ∧ iu < NU))
        ∧ ((i, j, ie, ia, iu) ∈ Sweeper_set_boundary_yz_loops sweeper t a0 a1 b0 b1
            (fun iy iz ie ia iu acc => acc ++ [(iy, iz, ie, ia, iu)]) []
          ↔ (a0 ≤ i ∧ i ≤ a1) ∧ (b0 ≤ j ∧ j ≤ b1)
            ∧ (ie_min sweeper t ≤ ie ∧ ie < ie_max sweeper t)
            ∧ (0 ≤ ia ∧ ia < sweeper.dims_b.na) ∧ (0 ≤ iu ∧ iu < NU))) := by
  have hlast : ie_min sweeper sweeper.nthread_e = sweeper.dims.ne := ie_min_last sweeper hnt
  have hdisj : ∀ t1 t2 ie : Int, 0 ≤ t1 → t1 < t2 →
      ie < ie_max sweeper t1 → ie_min sweeper t2 ≤ ie → False := by
    intro t1 t2 ie h1 h12 hlt hle
    have hm := ie_min_mono sweeper (t1 + 1) t2 hne hnt (by omega) (by omega)
    rw [ie_max_eq_min] at hlt
    omega
  refine ⟨⟨ie_min_zero sweeper, ?_, fun t => rfl, ?_, ?_, ?_⟩, ?_, ?_, ?_⟩
  · rw [ie_max_eq_min, sub_add_cancel]
    exact hlast
  · intro t h0 h1
    have ha := ie_min_mono sweeper 0 t hne hnt (le_refl 0) h0
    have hb := ie_min_mono sweeper t (t + 1) hne hnt h0 (by omega)
    have hc := ie_min_mono sweeper (t + 1) sweeper.nthread_e hne hnt (by omega) (by omega)
    rw [ie_min_zero] at ha
    rw [hlast] at hc
    exact ⟨ha, hb, hc⟩
  · intro t1 t2 ie h1 _ h2 _ hr1 hr2
    rcases lt_trichotomy t1 t2 with h | h | h
    · exact absurd (hdisj t1 t2 ie h1 h hr1.2 hr2.1) id
    · exact h
    · exact absurd (hdisj t2 t1 ie h2 h hr2.2 hr1.1) id
  · intro ie h0 h1
    have hN : ((sweeper.nthread_e.toNat : Nat) : Int) = sweeper.nthread_e :=
      Int.toNat_of_nonneg (by omega)
    have := energy_thread_exists sweeper ie (by rw [ie_min_zero]; exact h0)
      sweeper.nthread_e.toNat (by rw [hN, hlast]; exact h1)
    rw [hN] at this
    exact this
  · intro fuel t octant ixmin ixmax iymin iymax izmin izmax cells h
    exact sweep_loops_energy fuel E sweeper t octant ixmin ixmax iymin iymax izmin izmax
      cells h
  · intro fuel t octant ixmin ixmax iymin iymax izmin izmax hdx hdy hdz hx hy hz fx fy fz
    refine ⟨_, sweep_semiblock_loops_total fuel E sweeper t octant ixmin ixmax iymin iymax
      izmin izmax (fun ix iy iz ie acc => acc ++ [(ix, iy, iz, ie)]) [] hdx hdy hdz hx hy hz
      fx fy fz, ?_⟩
    intro ix iy iz ie
    rw [foldl_append_singleton]
    simp only [List.nil_append, List.map_id']
    exact mem_semiblock_visits E sweeper t octant ixmin ixmax iymin iymax izmin izmax
      ix iy iz ie
  · intro t a0 a1 b0 b1 i j ie ia iu
    have h : (i, j, ie, ia, iu) ∈ Sweeper_set_boundary_xy_loops sweeper t a0 a1 b0 b1
            (fun ix iy ie ia iu acc => acc ++ [(ix, iy, ie, ia, iu)]) []
          ↔ (a0 ≤ i ∧ i ≤ a1) ∧ (b0 ≤ j ∧ j ≤ b1)
            ∧ (ie_min sweeper t ≤ ie ∧ ie < ie_max sweeper t)
            ∧ (0 ≤ ia ∧ ia < sweeper.dims_b.na) ∧ (0 ≤ iu ∧ iu < NU) := by
      rw [set_boundary_xy_loops_eq, foldl_append_singleton]
      simp only [List.nil_append, List.map_id']
      exact mem_xy_slots sweeper t a0 a1 b0 b1 i j ie ia iu
    exact ⟨h, h, h⟩

/-- Three energy groups on two energy threads: thread 0 has group 0, thread 1 has
groups 1 and 2. -/
theorem energy_ranges_partition_witness :
    (ie_min { example_sweeper_blocked with
        nthread_e := 2, dims := { example_dims with ne := 3 } } 0 = 0
      ∧ ie_max { example_sweeper_blocked with
        nthread_e := 2, dims := { example_dims with ne := 3 } } (2 - 1) = 3)
    ∧ ie_max { example_sweeper_blocked with
        nthread_e := 2, dims := { example_dims with ne := 3 } } 0 = 1 :=
  ⟨⟨(energy_ranges_partition (example_externals false)
      { example_sweeper_blocked with nthread_e := 2, dims := { example_dims with ne := 3 } }
      (by decide) (by decide)).1.1,
    (energy_ranges_partition (example_externals false)
      { example_sweeper_blocked with nthread_e := 2, dims := { example_dims with ne := 3 } }
      (by decide) (by decide)).1.2.1⟩, by decide⟩

/-- C22: in the OpenACC sweeper, for a block of `nx, ny, nz ≥ 1` cells and any octant:
for every cell `(ix, iy, iz)` of the block there is exactly one wavefront among
`0 .. (nx+ny+nz-2)-1` on which the z index computed by `Sweeper_sweep_cell_acceldir` for
`(ix, iy)` is `iz` and passes the bounds check; over the whole sweep of the block the
processed (octant, cell) pairs are listed without repetition and are exactly the pairs of
an octant `0 .. NOCTANT-1` and a cell of the block; and the kernels of the first
wavefront `0` and of the last wavefront `nx+ny+nz-3` each process a cell. -/
theorem wavefronts_cover_block (E : Externals) (sweeper : Acc.Sweeper) (octant : Int)
    (hx : 1 ≤ sweeper.dims_b.ncell_x) (hy : 1 ≤ sweeper.dims_b.ncell_y)
    (hz : 1 ≤ sweeper.dims_b.ncell_z) :
    (∀ ix iy iz : Int,
        in_block sweeper.dims_b.ncell_x sweeper.dims_b.ncell_y sweeper.dims_b.ncell_z
          (ix, iy, iz) →
        ∃! w : Int, (0 ≤ w ∧ w < (sweeper.dims_b.ncell_z + sweeper.dims_b.ncell_y
              + sweeper.dims_b.ncell_x) - 2)
          ∧ Acc.Sweeper_sweep_cell_acceldir sweeper.dims_b w ix iy
              (E.Dir_x octant) (E.Dir_y octant) (E.Dir_z octant) = some iz)
    ∧ ((Acc.Sweeper_sweep_block E sweeper).map (fun e => (e.1, e.2.2))).Nodup
    ∧ (∀ o ix iy iz : Int,
        (o, ix, iy, iz) ∈ (Acc.Sweeper_sweep_block E sweeper).map (fun e => (e.1, e.2.2))
          ↔ (0 ≤ o ∧ o < NOCTANT)
            ∧ in_block sweeper.dims_b.ncell_x sweeper.dims_b.ncell_y
                sweeper.dims_b.ncell_z (ix, iy, iz))
    ∧ (∃ c, c ∈ Acc.Sweeper_sweep_block_wavefront sweeper.dims_b 0
          (E.Dir_x octant) (E.Dir_y octant) (E.Dir_z octant))
    ∧ (∃ c, c ∈ Acc.Sweeper_sweep_block_wavefront sweeper.dims_b
          ((sweeper.dims_b.ncell_z + sweeper.dims_b.ncell_y + sweeper.dims_b.ncell_x) - 2 - 1)
          (E.Dir_x octant) (E.Dir_y octant) (E.Dir_z octant)) := by
  have hcell : ∀ a b c : Int, (0 ≤ a ∧ a < sweeper.dims_b.ncell_x) →
      (0 ≤ b ∧ b < sweeper.dims_b.ncell_y) → (0 ≤ c ∧ c < sweeper.dims_b.ncell_z) →
      (Acc.along (E.Dir_x octant) sweeper.dims_b.ncell_x a,
        Acc.along (E.Dir_y octant) sweeper.dims_b.ncell_y b,
        Acc.along (E.Dir_z octant) sweeper.dims_b.ncell_z c)
        ∈ Acc.Sweeper_sweep_block_wavefront sweeper.dims_b (a + b + c)
          (E.Dir_x octant) (E.Dir_y octant) (E.Dir_z octant) := by
    intro a b c ha hb hc
    rw [mem_sweep_block_wavefront]
    refine ⟨⟨(along_range _ _ _).mpr ha, (along_range _ _ _).mpr hb,
      (along_range _ _ _).mpr hc⟩, ?_⟩
    unfold Acc.wavefront_of
    rw [along_along, along_along, along_along]
  refine ⟨?_, ?_, ?_, ?_, ?_⟩
  · intro ix iy iz hb
    have hax := (along_range (E.Dir_x octant) sweeper.dims_b.ncell_x ix).mpr hb.1
    have hay := (along_range (E.Dir_y octant) sweeper.dims_b.ncell_y iy).mpr hb.2.1
    have haz := (along_range (E.Dir_z octant) sweeper.dims_b.ncell_z iz).mpr hb.2.2
    refine ⟨Acc.wavefront_of sweeper.dims_b ix iy iz
      (E.Dir_x octant) (E.Dir_y octant) (E.Dir_z octant), ⟨?_, ?_⟩, ?_⟩
    · unfold Acc.wavefront_of
      omega
    · exact (acceldir_eq_some _ _ _ _ _ _ _ _).mpr ⟨hb.2.2, rfl⟩
    · intro w hw
      exact ((acceldir_eq_some _ _ _ _ _ _ _ _).mp hw.2).2
  · refine List.Nodup.map_on ?_ (acc_sweep_block_nodup E sweeper)
    rintro ⟨o1, w1, x1, y1, z1⟩ h1 ⟨o2, w2, x2, y2, z2⟩ h2 h
    simp only [Prod.mk.injEq] at h
    obtain ⟨ho, hx1, hy1, hz1⟩ := h
    have e1 := ((mem_acc_sweep_block E sweeper o1 w1 x1 y1 z1).mp h1).2.2
    have e2 := ((mem_acc_sweep_block E sweeper o2 w2 x2 y2 z2).mp h2).2.2
    subst ho hx1 hy1 hz1
    rw [e1, e2]
  · intro o ix iy iz
    simp only [List.mem_map, Prod.mk.injEq, Prod.exists]
    constructor
    · rintro ⟨o1, w1, x1, y1, z1, h1, ho, hx1, hy1, hz1⟩
      subst ho hx1 hy1 hz1
      have := (mem_acc_sweep_block E sweeper o1 w1 x1 y1 z1).mp h1
      exact ⟨this.1, this.2.1⟩
    · rintro ⟨ho, hb⟩
      exact ⟨o, _, ix, iy, iz, (mem_acc_sweep_block E sweeper o _ ix iy iz).mpr
        ⟨ho, hb, rfl⟩, rfl, rfl, rfl, rfl⟩
  · have := hcell 0 0 0 ⟨le_refl 0, by omega⟩ ⟨le_refl 0, by omega⟩ ⟨le_refl 0, by omega⟩
    exact ⟨_, this⟩
  · have := hcell (sweeper.dims_b.ncell_x - 1) (sweeper.dims_b.ncell_y - 1)
      (sweeper.dims_b.ncell_z - 1) ⟨by omega, by omega⟩ ⟨by omega, by omega⟩
      ⟨by omega, by omega⟩
    have e : sweeper.dims_b.ncell_x - 1 + (sweeper.dims_b.ncell_y - 1)
        + (sweeper.dims_b.ncell_z - 1)
        = (sweeper.dims_b.ncell_z + sweeper.dims_b.ncell_y + sweeper.dims_b.ncell_x) - 2 - 1 := by
      omega
    rw [e] at this
    exact ⟨_, this⟩

/-- The block of 2 x 2 x 2 cells made by `Sweeper_create`: no (octant, cell) pair is
processed twice. -/
theorem wavefronts_cover_block_witness :
    ((Acc.Sweeper_sweep_block (example_externals false)
      (Acc.Sweeper_create example_dims)).map (fun e => (e.1, e.2.2))).Nodup :=
  (wavefronts_cover_block (example_externals false) (Acc.Sweeper_create example_dims) 0
    (by decide) (by decide) (by decide)).2.1

/-- C23: in the OpenACC sweeper, for an octant whose three directions are `UP` or `DN`:
when cell `(ix, iy, iz)` is processed on wavefront `w`, each of its upstream neighbours
`(ix - dir_x, iy, iz)`, `(ix, iy - dir_y, iz)`, `(ix, iy, iz - dir_z)` that is a cell of
the block is processed on wavefront `w - 1`, and its processing comes before that of the
cell in the order of the sweep. -/
theorem upstream_on_previous_wavefront (E : Externals) (sweeper : Acc.Sweeper)
    (octant w ix iy iz : Int)
    (hdx : is_dir (E.Dir_x octant)) (hdy : is_dir (E.Dir_y octant))
    (hdz : is_dir (E.Dir_z octant))
    (h : (octant, w, ix, iy, iz) ∈ Acc.Sweeper_sweep_block E sweeper) :
    (in_block sweeper.dims_b.ncell_x sweeper.dims_b.ncell_y sweeper.dims_b.ncell_z
        (ix - E.Dir_x octant, iy, iz) →
      (octant, w - 1, ix - E.Dir_x octant, iy, iz) ∈ Acc.Sweeper_sweep_block E sweeper
        ∧ [(octant, w - 1, ix - E.Dir_x octant, iy, iz), (octant, w, ix, iy, iz)].Sublist
            (Acc.Sweeper_sweep_block E sweeper))
    ∧ (in_block sweeper.dims_b.ncell_x sweeper.dims_b.ncell_y sweeper.dims_b.ncell_z
        (ix, iy - E.Dir_y octant, iz) →
      (octant, w - 1, ix, iy - E.Dir_y octant, iz) ∈ Acc.Sweeper_sweep_block E sweeper
        ∧ [(octant, w - 1, ix, iy - E.Dir_y octant, iz), (octant, w, ix, iy, iz)].Sublist
            (Acc.Sweeper_sweep_block E sweeper))
    ∧ (in_block sweeper.dims_b.ncell_x sweeper.dims_b.ncell_y sweeper.dims_b.ncell_z
        (ix, iy, iz - E.Dir_z octant) →
      (octant, w - 1, ix, iy, iz - E.Dir_z octant) ∈ Acc.Sweeper_sweep_block E sweeper
        ∧ [(octant, w - 1, ix, iy, iz - E.Dir_z octant), (octant, w, ix, iy, iz)].Sublist
            (Acc.Sweeper_sweep_block E sweeper)) := by
  obtain ⟨ho, hb, hw⟩ := (mem_acc_sweep_block E sweeper octant w ix iy iz).mp h
  have hax := (along_range (E.Dir_x octant) sweeper.dims_b.ncell_x ix).mpr hb.1
  have hay := (along_range (E.Dir_y octant) sweeper.dims_b.ncell_y iy).mpr hb.2.1
  have haz := (along_range (E.Dir_z octant) sweeper.dims_b.ncell_z iz).mpr hb.2.2
  have hwlt : w < (sweeper.dims_b.ncell_z + sweeper.dims_b.ncell_y
      + sweeper.dims_b.ncell_x) - 2 := by
    unfold Acc.wavefront_of at hw
    omega
  have hcur := (mem_sweep_block_wavefront sweeper.dims_b w (E.Dir_x octant) (E.Dir_y octant)
    (E.Dir_z octant) ix iy iz).mpr ⟨hb, hw⟩
  have key : ∀ jx jy jz : Int,
      in_block sweeper.dims_b.ncell_x sweeper.dims_b.ncell_y sweeper.dims_b.ncell_z
        (jx, jy, jz) →
      w - 1 = Acc.wavefront_of sweeper.dims_b jx jy jz
        (E.Dir_x octant) (E.Dir_y octant) (E.Dir_z octant) →
      (octant, w - 1, jx, jy, jz) ∈ Acc.Sweeper_sweep_block E sweeper
        ∧ [(octant, w - 1, jx, jy, jz), (octant, w, ix, iy, iz)].Sublist
            (Acc.Sweeper_sweep_block E sweeper) := by
    intro jx jy jz hjb hjw
    have hjx := (along_range (E.Dir_x octant) sweeper.dims_b.ncell_x jx).mpr hjb.1
    have hjy := (along_range (E.Dir_y octant) sweeper.dims_b.ncell_y jy).mpr hjb.2.1
    have hjz := (along_range (E.Dir_z octant) sweeper.dims_b.ncell_z jz).mpr hjb.2.2
    have hw0 : 0 ≤ w - 1 := by
      rw [hjw]
      unfold Acc.wavefront_of
      omega
    exact ⟨(mem_acc_sweep_block E sweeper octant (w - 1) jx jy jz).mpr ⟨ho, hjb, hjw⟩,
      acc_sweep_block_order E sweeper octant (w - 1) w (jx, jy, jz) (ix, iy, iz) ho hw0
        (by omega) hwlt
        ((mem_sweep_block_wavefront _ _ _ _ _ _ _ _).mpr ⟨hjb, hjw⟩) hcur⟩
  refine ⟨fun hn => key _ _ _ hn ?_, fun hn => key _ _ _ hn ?_, fun hn => key _ _ _ hn ?_⟩
  · rw [hw]
    unfold Acc.wavefront_of
    rw [along_upstream _ _ _ hdx]
    omega
  · rw [hw]
    unfold Acc.wavefront_of
    rw [along_upstream _ _ _ hdy]
    omega
  · rw [hw]
    unfold Acc.wavefront_of
    rw [along_upstream _ _ _ hdz]
    omega

/-- Octant 0 of the block of 2 x 2 x 2 cells made by `Sweeper_create`: cell `(1, 0, 0)`
is processed on wavefront 1, its neighbour `(0, 0, 0)` on wavefront 0, before it. -/
theorem upstream_on_previous_wavefront_witness :
    (0, 1 - 1, 1 - (example_externals false).Dir_x 0, 0, 0)
        ∈ Acc.Sweeper_sweep_block (example_externals false) (Acc.Sweeper_create example_dims)
      ∧ [(0, 1 - 1, 1 - (example_externals false).Dir_x 0, 0, 0), (0, 1, 1, 0, 0)].Sublist
          (Acc.Sweeper_sweep_block (example_externals false)
            (Acc.Sweeper_create example_dims)) :=
  (upstream_on_previous_wavefront (example_externals false) (Acc.Sweeper_create example_dims)
    0 1 1 0 0 (Or.inl (by decide)) (Or.inl (by decide)) (Or.inl (by decide))
    (by decide)).1 (by unfold in_block; decide)

/-- C24: in the OpenACC sweeper, within one octant and one wavefront, two iterations of
the loop over `(ix, iy)` that pass the bounds check, for distinct pairs `(ix, iy)` and
`(jx, jy)`, work on distinct cells, and for all in-range `ie, ia, iu` of the one and
`je, ja, ju` of the other the flat indices they form into `facexy` (from `ix, iy`),
`facexz` (from `ix, iz`), `faceyz` (from `iy, iz`) and `vs_local` (from `ix, iy` and the
octant) differ. -/
theorem wavefront_iterations_disjoint (E : Externals) (sweeper : Acc.Sweeper)
    (octant w ix iy iz jx jy jz ie ia iu je ja ju : Int)
    (hi : (ix, iy, iz) ∈ Acc.Sweeper_sweep_block_wavefront sweeper.dims_b w
      (E.Dir_x octant) (E.Dir_y octant) (E.Dir_z octant))
    (hj : (jx, jy, jz) ∈ Acc.Sweeper_sweep_block_wavefront sweeper.dims_b w
      (E.Dir_x octant) (E.Dir_y octant) (E.Dir_z octant))
    (hne : (ix, iy) ≠ (jx, jy))
    (hie : 0 ≤ ie ∧ ie < sweeper.dims_b.ne) (hje : 0 ≤ je ∧ je < sweeper.dims_b.ne)
    (hia : 0 ≤ ia ∧ ia < sweeper.dims_b.na) (hja : 0 ≤ ja ∧ ja < sweeper.dims_b.na)
    (hiu : 0 ≤ iu ∧ iu < NU) (hju : 0 ≤ ju ∧ ju < NU) :
    (ix, iy, iz) ≠ (jx, jy, jz)
    ∧ Acc.facexy_index sweeper.dims_b ia iu ie ix iy octant
        ≠ Acc.facexy_index sweeper.dims_b ja ju je jx jy octant
    ∧ Acc.facexz_index sweeper.dims_b ia iu ie ix iz octant
        ≠ Acc.facexz_index sweeper.dims_b ja ju je jx jz octant
    ∧ Acc.faceyz_index sweeper.dims_b ia iu ie iy iz octant
        ≠ Acc.faceyz_index sweeper.dims_b ja ju je jy jz octant
    ∧ Acc.vs_local_index sweeper.dims_b ia iu ie ix iy octant
        ≠ Acc.vs_local_index sweeper.dims_b ja ju je jx jy octant := by
  obtain ⟨hbi, hwi⟩ := (mem_sweep_block_wavefront _ _ _ _ _ _ _ _).mp hi
  obtain ⟨hbj, hwj⟩ := (mem_sweep_block_wavefront _ _ _ _ _ _ _ _).mp hj
  have hw : Acc.along (E.Dir_x octant) sweeper.dims_b.ncell_x ix
        + Acc.along (E.Dir_y octant) sweeper.dims_b.ncell_y iy
        + Acc.along (E.Dir_z octant) sweeper.dims_b.ncell_z iz
      = Acc.along (E.Dir_x octant) sweeper.dims_b.ncell_x jx
        + Acc.along (E.Dir_y octant) sweeper.dims_b.ncell_y jy
        + Acc.along (E.Dir_z octant) sweeper.dims_b.ncell_z jz := by
    unfold Acc.wavefront_of at hwi hwj
    rw [← hwi, ← hwj]
  have hxy : ∀ h : Acc.vs_local_index sweeper.dims_b ia iu ie ix iy octant
      = Acc.vs_local_index sweeper.dims_b ja ju je jx jy octant, False := by
    intro h
    obtain ⟨h1, h2⟩ := acc_index_inj _ _ _ _ _ _ _ _ _ _ _ _ _ hia hja hiu hju hie hje
      hbi.1 hbj.1 h
    exact hne (Prod.ext h1 (add_right_cancel h2))
  refine ⟨?_, ?_, ?_, ?_, ?_⟩
  · intro h
    simp only [Prod.mk.injEq] at h
    exact hne (Prod.ext h.1 h.2.1)
  · exact fun h => hxy h
  · intro h
    obtain ⟨h0, h2⟩ := acc_index_inj _ _ _ _ _ _ _ _ _ _ _ _ _ hia hja hiu hju hie hje
      hbi.1 hbj.1 h
    have h1 : ix = jx := h0
    have h3 : iz = jz := add_right_cancel h2
    rw [h1, h3] at hw
    have h4 : iy = jy := along_inj (E.Dir_y octant) sweeper.dims_b.ncell_y iy jy (by omega)
    exact hne (Prod.ext h1 h4)
  · intro h
    obtain ⟨h0, h2⟩ := acc_index_inj _ _ _ _ _ _ _ _ _ _ _ _ _ hia hja hiu hju hie hje
      hbi.2.1 hbj.2.1 h
    have h1 : iy = jy := h0
    have h3 : iz = jz := add_right_cancel h2
    rw [h1, h3] at hw
    have h4 : ix = jx := along_inj (E.Dir_x octant) sweeper.dims_b.ncell_x ix jx (by omega)
    exact hne (Prod.ext h4 h1)
  · exact fun h => hxy h

/-- Wavefront 1 of octant 0 of the block of 2 x 2 x 2 cells made by `Sweeper_create`:
the iterations for `(1, 0)` and `(0, 1)` form distinct `facexz` indices. -/
theorem wavefront_iterations_disjoint_witness :
    Acc.facexz_index (Acc.Sweeper_create example_dims).dims_b 0 0 0 1 0 0
      ≠ Acc.facexz_index (Acc.Sweeper_create example_dims).dims_b 0 0 0 0 0 0 :=
  (wavefront_iterations_disjoint (example_externals false) (Acc.Sweeper_create example_dims)
    0 1 1 0 0 0 1 0 0 0 0 0 0 0 (by decide) (by decide) (by decide)
    (by decide) (by decide) (by decide) (by decide) (by decide) (by decide)).2.2.1

/-- C25 as stated fails: with `nm = 1` moment and `na = 1` angle, `ia = 0`, `im = 0` and
octant 1 are in range, yet the `a_from_m` index and the `m_from_a` index, both 16, are
not below the `nm * na * NOCTANT = 8` elements of the arrays. -/
theorem matrix_index_beyond_size :
    (1 ≤ example_dims.nm ∧ 1 ≤ example_dims.na)
      ∧ ((0 : Int) ≤ 0 ∧ 0 < example_dims.na) ∧ ((0 : Int) ≤ 0 ∧ 0 < example_dims.nm)
      ∧ ((0 : Int) ≤ 1 ∧ 1 < NOCTANT)
      ∧ ¬ (Acc.a_from_m_index example_dims 0 0 1 < Acc.a_from_m_size example_dims)
      ∧ ¬ (Acc.m_from_a_index example_dims 0 0 1 < Acc.m_from_a_size example_dims) := by
  decide

/-- C25, amended: in the OpenACC sweeper, for dimensions whose number of moments `nm` is
the compile-time `NM`, and all in-range `ia < na`, `im < nm`, `octant < NOCTANT`, the flat
indices `ia + na*(im + NM*octant)` into `a_from_m` and `im + NM*(ia + na*octant)` into
`m_from_a` lie in `[0, nm*na*NOCTANT)`, the number of elements named for these arrays,
and distinct in-range triples give distinct indices. -/
theorem matrix_indices_in_range (dims : Dimensions) (hnm : dims.nm = NM) :
    (∀ ia im octant : Int, (0 ≤ ia ∧ ia < dims.na) → (0 ≤ im ∧ im < dims.nm) →
        (0 ≤ octant ∧ octant < NOCTANT) →
        (0 ≤ Acc.a_from_m_index dims ia im octant
          ∧ Acc.a_from_m_index dims ia im octant < Acc.a_from_m_size dims)
        ∧ (0 ≤ Acc.m_from_a_index dims im ia octant
          ∧ Acc.m_from_a_index dims im ia octant < Acc.m_from_a_size dims))
    ∧ (∀ ia im octant ja jm joctant : Int,
        (0 ≤ ia ∧ ia < dims.na) → (0 ≤ im ∧ im < dims.nm) →
        (0 ≤ ja ∧ ja < dims.na) → (0 ≤ jm ∧ jm < dims.nm) →
        (Acc.a_from_m_index dims ia im octant = Acc.a_from_m_index dims ja jm joctant →
          ia = ja ∧ im = jm ∧ octant = joctant)
        ∧ (Acc.m_from_a_index dims im ia octant = Acc.m_from_a_index dims jm ja joctant →
          ia = ja ∧ im = jm ∧ octant = joctant)) := by
  constructor
  · intro ia im octant hia him ho
    rw [hnm] at him
    unfold Acc.a_from_m_index Acc.m_from_a_index Acc.a_from_m_size Acc.m_from_a_size
    rw [hnm, mul_zero, add_zero]
    constructor
    · have h1 := radix_bound im NM octant NOCTANT him.1 him.2 ho.1 ho.2
      have h2 := radix_bound ia dims.na _ _ hia.1 hia.2 h1.1 h1.2
      have e : dims.na * (NM * NOCTANT) = NM * dims.na * NOCTANT := by ring
      rw [e] at h2
      exact h2
    · have h1 := radix_bound ia dims.na octant NOCTANT hia.1 hia.2 ho.1 ho.2
      have h2 := radix_bound im NM _ _ him.1 him.2 h1.1 h1.2
      have e : NM * (dims.na * NOCTANT) = NM * dims.na * NOCTANT := by ring
      rw [e] at h2
      exact h2
  · intro ia im octant ja jm joctant hia him hja hjm
    rw [hnm] at him hjm
    unfold Acc.a_from_m_index Acc.m_from_a_index
    rw [mul_zero, add_zero, add_zero]
    constructor
    · intro h
      obtain ⟨h1, h2⟩ := radix_inj dims.na ia ja _ _ hia hja h
      obtain ⟨h3, h4⟩ := radix_inj NM im jm _ _ him hjm h2
      exact ⟨h1, h3, h4⟩
    · intro h
      obtain ⟨h1, h2⟩ := radix_inj NM im jm _ _ him hjm h
      obtain ⟨h3, h4⟩ := radix_inj dims.na ia ja _ _ hia hja h2
      exact ⟨h3, h1, h4⟩

/-- Sixteen moments and one angle: the last `a_from_m` index, of `ia = 0`, `im = 15` and
octant 7, is below the size. -/
theorem matrix_indices_in_range_witness :
    Acc.a_from_m_index { example_dims with nm := 16 } 0 15 7
      < Acc.a_from_m_size { example_dims with nm := 16 } :=
  ((matrix_indices_in_range { example_dims with nm := 16 } (by decide)).1 0 15 7
    (by decide) (by decide) (by decide)).1.2

/-- C26: what the code does after `Sweeper_create` of the OpenACC sweeper, for any
dimensions: the stored `noctant_per_block` is `NOCTANT = 8` and times the stored
`nblock_octant` it gives `NOCTANT`, but the accessor `Sweeper_noctant_per_block` returns
1, which is not the stored value. -/
theorem accessor_ignores_stored_value (dims : Dimensions) :
    (Acc.Sweeper_create dims).noctant_per_block = 8
      ∧ (Acc.Sweeper_create dims).noctant_per_block * (Acc.Sweeper_create dims).nblock_octant
          = NOCTANT
      ∧ NOCTANT = 8
      ∧ Acc.Sweeper_noctant_per_block (Acc.Sweeper_create dims) = 1
      ∧ Acc.Sweeper_noctant_per_block (Acc.Sweeper_create dims)
          ≠ (Acc.Sweeper_create dims).noctant_per_block := by
  refine ⟨rfl, ?_, rfl, rfl, ?_⟩
  · show (8 : Int) * Int.tdiv 8 8 = 8
    decide
  · show (1 : Int) ≠ 8
    decide

end Minisweep
